import Mathlib

/-!
lamure: the cut-update engine

A shallow embedding of `lamure::lod::semaphore` (semaphore.cpp), of
`lamure::lod::cut_update_pool` (cut_update_pool.cpp) and of the session parser
and the option handling of the viewer (apps/simple_plod/main.cpp, with the
playback of apps/rendering/management.cpp), with the properties of the
specification stated and settled against it.

Machine integers: `size_t` values are natural numbers below `2 ^ 64`;
arithmetic that can wrap is written with an explicit `% size_t_modulus`.
-/

namespace lamure

/-! ## semaphore.cpp -/

/-- The number of values of a `size_t` (64 bit). -/
def size_t_modulus : Nat := 2 ^ 64

/-- The data members of `semaphore`: `signal_count_`, `shutdown_`,
`min_signal_count_`, `max_signal_count_` (the mutex and the condition
variable carry no data). -/
structure semaphore where
  signal_count_ : Nat
  shutdown_ : Bool
  min_signal_count_ : Nat
  max_signal_count_ : Nat
deriving DecidableEq, Repr

namespace semaphore

/-- The constructor `semaphore::semaphore()`. -/
def init : semaphore :=
  { signal_count_ := 0, shutdown_ := false, min_signal_count_ := 1, max_signal_count_ := 1 }

/-- The predicate of the condition-variable wait in `semaphore::wait`:
`signal_count_ >= min_signal_count_ || shutdown_`. -/
def wait_guard (s : semaphore) : Bool :=
  decide (s.signal_count_ ≥ s.min_signal_count_) || s.shutdown_

/-- The body of `semaphore::wait` once the condition-variable predicate holds:
`if (signal_count_ >= min_signal_count_) signal_count_ -= min_signal_count_`. -/
def wait_body (s : semaphore) : semaphore :=
  if s.signal_count_ ≥ s.min_signal_count_ then
    { s with signal_count_ := s.signal_count_ - s.min_signal_count_ }
  else s

/-- `semaphore::wait`: `none` when the caller stays blocked in the condition
variable (the predicate is false in this state), otherwise the state the call
leaves behind. -/
def wait (s : semaphore) : Option semaphore :=
  if s.wait_guard then some s.wait_body else none

/-- `semaphore::signal(signal_count)`; the sum is a `size_t` sum. -/
def signal (s : semaphore) (signal_count : Nat) : semaphore :=
  if (s.signal_count_ + signal_count) % size_t_modulus ≤ s.max_signal_count_ then
    { s with signal_count_ := (s.signal_count_ + signal_count) % size_t_modulus }
  else s

/-- `semaphore::num_signals`. -/
def num_signals (s : semaphore) : Nat := s.signal_count_

/-- `semaphore::shutdown`. -/
def shutdown (s : semaphore) : semaphore := { s with shutdown_ := true }

/-- `set_min_signal_count` (declared in the header; a plain setter). -/
def set_min_signal_count (s : semaphore) (n : Nat) : semaphore :=
  { s with min_signal_count_ := n }

/-- `set_max_signal_count` (declared in the header; a plain setter). -/
def set_max_signal_count (s : semaphore) (n : Nat) : semaphore :=
  { s with max_signal_count_ := n }

/-- The state after `k` successive calls of `signal(1)`. -/
def signal_once_repeated : Nat → semaphore → semaphore
  | 0, s => s
  | k + 1, s => (signal_once_repeated k s).signal 1

/-- The semaphore as the master configures it for a barrier over `n` workers:
`min_signal_count_ = max_signal_count_ = n`, no signal pending, not shut down. -/
def barrier (n : Nat) : semaphore :=
  { signal_count_ := 0, shutdown_ := false, min_signal_count_ := n, max_signal_count_ := n }

end semaphore


/-! ## The action index (`cut_update_index`)

cut_update_index.cpp is not part of the sources at hand; only its callers in
cut_update_pool.cpp are. The index is modelled from §3 and §4.2 of the
specification. -/

/-- Modelled from the spec: the reserved sentinel "invalid" of `node_t` (§3), the
value `invalid_node_t` that cut_update_pool.cpp compares node ids with; node
ids are 32 bit, the sentinel is the largest value. -/
def invalid_node_t : Nat := 2 ^ 32 - 1

/-- The five action kinds, `cut_update_index::queue_t`. -/
inductive queue_t where
  | KEEP
  | MUST_SPLIT
  | MUST_COLLAPSE
  | COLLAPSE_ON_NEED
  | MAYBE_COLLAPSE
deriving DecidableEq, Repr

/-- An action `cut_update_index::action(queue, view_id, model_id, node_id, error)`.
The `float64_t` error is taken as an exact rational. -/
structure action where
  queue_ : queue_t
  view_id_ : Nat
  model_id_ : Nat
  node_id_ : Nat
  error_ : ℚ
deriving DecidableEq

/-- Insertion into a `std::set<node_t>`, kept as the ascending list of its
elements. -/
def set_insert (n : Nat) (s : List Nat) : List Nat :=
  if n ∈ s then s else List.orderedInsert (fun a b => a ≤ b) n s

/-- Insertion into a `std::unordered_set<node_t>`. The set is kept as the list of
its elements in the order of their insertion; the order in which the set is
iterated is another matter (`frame_input.unordered_set_order`). -/
def set_insert_unordered (n : Nat) (s : List Nat) : List Nat :=
  if n ∈ s then s else s ++ [n]

/-- Insertion of several nodes into a `std::set<node_t>`. -/
def set_insert_all (ns : List Nat) (s : List Nat) : List Nat :=
  ns.foldl (fun acc n => set_insert n acc) s

/-- Replace the entry of a table indexed by `(view, model)`. -/
def set_cut (cuts : Nat → Nat → List Nat) (view_id model_id : Nat) (c : List Nat) :
    Nat → Nat → List Nat :=
  fun v m => if v = view_id ∧ m = model_id then c else cuts v m

/-- Replace one of the five queues. -/
def set_queue (qs : queue_t → List action) (q : queue_t) (l : List action) :
    queue_t → List action :=
  fun q' => if q' = q then l else qs q'

/-- Modelled from the spec: the state of the action index (§4.2): the previous
and the current cut of every `(view, model)`, fan-out and node count of every
model, and one action queue per kind. -/
structure cut_update_index where
  num_views_ : Nat
  num_models_ : Nat
  fan_factors_ : Nat → Nat
  num_nodes_ : Nat → Nat
  previous_cut_ : Nat → Nat → List Nat
  current_cut_ : Nat → Nat → List Nat
  action_queues_ : queue_t → List action

namespace cut_update_index

/-- `num_views()`. -/
def num_views (idx : cut_update_index) : Nat := idx.num_views_

/-- `num_models()`. -/
def num_models (idx : cut_update_index) : Nat := idx.num_models_

/-- `fan_factor(model_id)`. -/
def fan_factor (idx : cut_update_index) (model_id : Nat) : Nat := idx.fan_factors_ model_id

/-- `num_nodes(model_id)`. -/
def num_nodes (idx : cut_update_index) (model_id : Nat) : Nat := idx.num_nodes_ model_id

/-- `get_previous_cut(view_id, model_id)`. -/
def get_previous_cut (idx : cut_update_index) (view_id model_id : Nat) : List Nat :=
  idx.previous_cut_ view_id model_id

/-- `get_current_cut(view_id, model_id)`. -/
def get_current_cut (idx : cut_update_index) (view_id model_id : Nat) : List Nat :=
  idx.current_cut_ view_id model_id

/-- `num_actions(queue)`. -/
def num_actions (idx : cut_update_index) (q : queue_t) : Nat := (idx.action_queues_ q).length

/-- Modelled from the spec: the `child_index`-th child of a node, `n*F+1+i`
(§3), or the sentinel when the model has no such node. -/
def get_child_id (idx : cut_update_index) (model_id node_id child_index : Nat) : Nat :=
  if node_id * idx.fan_factor model_id + 1 + child_index < idx.num_nodes model_id then
    node_id * idx.fan_factor model_id + 1 + child_index
  else invalid_node_t

/-- Modelled from the spec: `get_all_children`, the `F` children
`n*F+1 … n*F+F` of a node (§3, §4.2), in ascending order. -/
def get_all_children (idx : cut_update_index) (model_id node_id : Nat) : List Nat :=
  (List.range (idx.fan_factor model_id)).map (idx.get_child_id model_id node_id)

/-- Modelled from the spec: `get_parent_id`, `(n-1)/F` when `n > 0` (§3); the
root has no parent. -/
def get_parent_id (idx : cut_update_index) (model_id node_id : Nat) : Nat :=
  if node_id = 0 then invalid_node_t else (node_id - 1) / idx.fan_factor model_id

/-- Modelled from the spec: `get_all_siblings`, the children of the parent
(§4.2). -/
def get_all_siblings (idx : cut_update_index) (model_id node_id : Nat) : List Nat :=
  idx.get_all_children model_id (idx.get_parent_id model_id node_id)

/-- Insert nodes into `current_cut[view, model]`. -/
def add_to_current_cut (idx : cut_update_index) (view_id model_id : Nat) (ns : List Nat) :
    cut_update_index :=
  { idx with current_cut_ := (set_cut idx.current_cut_ view_id model_id
      (set_insert_all ns (idx.current_cut_ view_id model_id))) }

/-- Modelled from the spec: `approve_action` (§4.2): an approved split puts the
children of the node into the current cut, an approved collapse puts the node
of the action (the parent of the collapsed group), an approved keep puts the
node. -/
def approve_action (idx : cut_update_index) (a : action) : cut_update_index :=
  match a.queue_ with
  | queue_t.MUST_SPLIT =>
      idx.add_to_current_cut a.view_id_ a.model_id_ (idx.get_all_children a.model_id_ a.node_id_)
  | _ => idx.add_to_current_cut a.view_id_ a.model_id_ [a.node_id_]

/-- Modelled from the spec: `reject_action` (§4.2): the previous-cut nodes the
action stood for are reinstated: the node itself for a keep or a split, the
children of the node for a collapse. -/
def reject_action (idx : cut_update_index) (a : action) : cut_update_index :=
  match a.queue_ with
  | queue_t.KEEP => idx.add_to_current_cut a.view_id_ a.model_id_ [a.node_id_]
  | queue_t.MUST_SPLIT => idx.add_to_current_cut a.view_id_ a.model_id_ [a.node_id_]
  | _ =>
      idx.add_to_current_cut a.view_id_ a.model_id_ (idx.get_all_children a.model_id_ a.node_id_)

/-- Modelled from the spec: `push_action(a, from_update)` appends to the queue of
the kind of `a` (§4.2). -/
def push_action (idx : cut_update_index) (a : action) (_from_update : Bool) : cut_update_index :=
  { idx with action_queues_ :=
      (set_queue idx.action_queues_ a.queue_ (idx.action_queues_ a.queue_ ++ [a])) }

/-- `front_action(queue)`. -/
def front_action (idx : cut_update_index) (q : queue_t) : Option action :=
  (idx.action_queues_ q).head?

/-- `back_action(queue)`. -/
def back_action (idx : cut_update_index) (q : queue_t) : Option action :=
  (idx.action_queues_ q).getLast?

/-- `pop_front_action(queue)`. -/
def pop_front_action (idx : cut_update_index) (q : queue_t) : cut_update_index :=
  { idx with action_queues_ := set_queue idx.action_queues_ q (idx.action_queues_ q).tail }

/-- `Popback_action(queue)`. -/
def Popback_action (idx : cut_update_index) (q : queue_t) : cut_update_index :=
  { idx with action_queues_ := set_queue idx.action_queues_ q (idx.action_queues_ q).dropLast }

/-- Modelled from the spec: `swap_cuts()` moves every current cut to the previous
cut and clears the current cut (§4.2). -/
def swap_cuts (idx : cut_update_index) : cut_update_index :=
  { idx with previous_cut_ := idx.current_cut_, current_cut_ := fun _ _ => [] }

/-- Modelled from the spec: `reset_cut(view, model)` empties the current cut of
the pair (§4.2). -/
def reset_cut (idx : cut_update_index) (view_id model_id : Nat) : cut_update_index :=
  { idx with current_cut_ := set_cut idx.current_cut_ view_id model_id [] }

/-- Modelled from the spec: `sort()` (§4.2): the split queue descends by error,
the maybe-collapse queue ascends by error; the spec fixes no direction for the
other queues, which keep their order. -/
def sort (idx : cut_update_index) : cut_update_index :=
  { idx with action_queues_ := fun q =>
      match q with
      | queue_t.MUST_SPLIT =>
          List.insertionSort (fun a b : action => a.error_ ≥ b.error_)
            (idx.action_queues_ queue_t.MUST_SPLIT)
      | queue_t.MAYBE_COLLAPSE =>
          List.insertionSort (fun a b : action => a.error_ ≤ b.error_)
            (idx.action_queues_ queue_t.MAYBE_COLLAPSE)
      | q' => idx.action_queues_ q' }

/-- Modelled from the spec: `update_policy(num_views)` resizes the per-view
tables (§4.2). -/
def update_policy (idx : cut_update_index) (num_views : Nat) : cut_update_index :=
  { idx with num_views_ := num_views }

/-- Every queued action, queue after queue. -/
def all_actions (idx : cut_update_index) : List action :=
  idx.action_queues_ queue_t.KEEP ++ (idx.action_queues_ queue_t.MUST_SPLIT ++
    (idx.action_queues_ queue_t.MUST_COLLAPSE ++ (idx.action_queues_ queue_t.COLLAPSE_ON_NEED ++
      idx.action_queues_ queue_t.MAYBE_COLLAPSE)))

end cut_update_index

/-! ## The caches (`ooc_cache`, `gpu_cache`)

Neither cache is part of the sources at hand. Both are modelled from §3, §4.3
and §4.4 of the specification: a fixed array of slots, each empty or holding
the entry of one `(model, node)`. -/

/-- Modelled from the spec: a cache entry (§3): the node it holds, whether its
payload has arrived (host cache: the disk read has completed; GPU cache: always),
its priority, and the set of `(context, view)` pairs that acquired it; the
refcount is the size of that set (§4.3). -/
structure cache_entry where
  model_id : Nat
  node_id : Nat
  loaded : Bool
  priority : Int
  holders : List (Nat × Nat)
deriving DecidableEq, Repr

namespace cache_entry

/-- The entry is the one of `(model_id, node_id)`. -/
def is_for (e : cache_entry) (model_id node_id : Nat) : Bool :=
  e.model_id == model_id && e.node_id == node_id

/-- Refcount 0 and resident: the entry may be evicted (§3, §4.3). -/
def evictable (e : cache_entry) : Bool := e.loaded && e.holders.isEmpty

/-- Add `(context, view)` to the holders (a set: acquiring twice counts once). -/
def aquire (e : cache_entry) (context_id view_id : Nat) : cache_entry :=
  if (context_id, view_id) ∈ e.holders then e
  else { e with holders := (context_id, view_id) :: e.holders }

/-- Remove `(context, view)` from the holders. -/
def release (e : cache_entry) (context_id view_id : Nat) : cache_entry :=
  { e with holders := e.holders.filter (fun h => h != (context_id, view_id)) }

end cache_entry

/-- Modelled from the spec: operations on the slot array shared by both caches
(§4.3; §4.4 "structurally identical"). -/
abbrev cache_slots := List (Option cache_entry)

namespace cache_slots

/-- A test of the entry of a slot; an empty slot fails it. -/
def slot_test (f : cache_entry → Bool) : Option cache_entry → Bool
  | some e => f e
  | none => false

/-- Some slot holds an entry of the node, resident or pending. -/
def is_node_indexed (s : cache_slots) (model_id node_id : Nat) : Bool :=
  s.any (slot_test (fun e => e.is_for model_id node_id))

/-- `is_node_resident(model, node)`: some slot holds the node and its payload has
arrived. -/
def is_node_resident (s : cache_slots) (model_id node_id : Nat) : Bool :=
  s.any (slot_test (fun e => e.is_for model_id node_id && e.loaded))

/-- `num_free_slots()`: the slots with no resident entry and no pending load. -/
def num_free_slots (s : cache_slots) : Nat := s.countP (fun x => x.isNone)

/-- The node is acquired by `(context, view)`. -/
def is_node_aquired (s : cache_slots) (context_id view_id model_id node_id : Nat) : Bool :=
  s.any (slot_test (fun e =>
    e.is_for model_id node_id && decide ((context_id, view_id) ∈ e.holders)))

/-- The refcount of the node: the number of `(context, view)` pairs holding it. -/
def refcount (s : cache_slots) (model_id node_id : Nat) : Nat :=
  (s.map (fun x => match x with
    | some e => if e.is_for model_id node_id then e.holders.length else 0
    | none => 0)).sum

/-- `aquire_node(context, view, model, node)`. -/
def aquire_node (s : cache_slots) (context_id view_id model_id node_id : Nat) : cache_slots :=
  s.map (Option.map (fun e =>
    if e.is_for model_id node_id then e.aquire context_id view_id else e))

/-- `release_node(context, view, model, node)`. -/
def release_node (s : cache_slots) (context_id view_id model_id node_id : Nat) : cache_slots :=
  s.map (Option.map (fun e =>
    if e.is_for model_id node_id then e.release context_id view_id else e))

/-- `slot_id(model, node)`: the index of the slot of the node. -/
def slot_id (s : cache_slots) (model_id node_id : Nat) : Option Nat :=
  s.findIdx? (slot_test (fun e => e.is_for model_id node_id))

/-- Put an entry into the first free slot, if there is one. -/
def place_free (e : cache_entry) : cache_slots → Option cache_slots
  | [] => none
  | none :: rest => some (some e :: rest)
  | some x :: rest => (place_free e rest).map (fun r => some x :: r)

/-- The least priority among the evictable entries. -/
def least_evictable_priority : cache_slots → Option Int
  | [] => none
  | none :: rest => least_evictable_priority rest
  | some x :: rest =>
      if x.evictable then
        match least_evictable_priority rest with
        | some p => some (min x.priority p)
        | none => some x.priority
      else least_evictable_priority rest

/-- Replace the first evictable entry of the given priority. -/
def place_evict (e : cache_entry) (p : Int) : cache_slots → cache_slots
  | [] => []
  | none :: rest => none :: place_evict e p rest
  | some x :: rest =>
      if x.evictable && x.priority == p then some e :: rest
      else some x :: place_evict e p rest

/-- Modelled from the spec: the slot reservation of `register_node` (§4.3):
a free slot is taken when there is one; when the cache is full a resident
entry with refcount 0 of least rank is evicted (least priority, the lowest
slot among equals); when there is none the registration fails. -/
def place (s : cache_slots) (e : cache_entry) : Option cache_slots :=
  match place_free e s with
  | some s' => some s'
  | none =>
      match least_evictable_priority s with
      | some p => some (place_evict e p s)
      | none => none

end cache_slots

/-- Modelled from the spec: the out-of-core host cache (§4.3). -/
structure ooc_cache where
  slots_ : cache_slots
deriving DecidableEq, Repr

namespace ooc_cache

/-- `is_node_resident(model, node)`. -/
def is_node_resident (c : ooc_cache) (model_id node_id : Nat) : Bool :=
  c.slots_.is_node_resident model_id node_id

/-- `num_free_slots()`. -/
def num_free_slots (c : ooc_cache) : Nat := c.slots_.num_free_slots

/-- Modelled from the spec: `register_node(model, node, priority)` reserves a
slot and enqueues a disk read; the entry is resident only once the read has
completed (§4.3). A node that already has an entry is left alone. -/
def register_node (c : ooc_cache) (model_id node_id : Nat) (priority : Int) : ooc_cache :=
  if c.slots_.is_node_indexed model_id node_id then c
  else
    match c.slots_.place { model_id := model_id, node_id := node_id, loaded := false,
                           priority := priority, holders := [] } with
    | some s => { slots_ := s }
    | none => c

/-- `aquire_node(context, view, model, node)`. -/
def aquire_node (c : ooc_cache) (context_id view_id model_id node_id : Nat) : ooc_cache :=
  { slots_ := c.slots_.aquire_node context_id view_id model_id node_id }

/-- `release_node(context, view, model, node)`. -/
def release_node (c : ooc_cache) (context_id view_id model_id node_id : Nat) : ooc_cache :=
  { slots_ := c.slots_.release_node context_id view_id model_id node_id }

/-- Modelled from the spec: `refresh()` polls the completions and promotes the
pending entries whose read has completed to resident (§4.3); `completed` says
which reads have completed. -/
def refresh (c : ooc_cache) (completed : Nat → Nat → Bool) : ooc_cache :=
  { slots_ := c.slots_.map (Option.map (fun e =>
      { e with loaded := e.loaded || completed e.model_id e.node_id })) }

end ooc_cache

/-- Modelled from the spec: the GPU cache (§4.4): the slot array and the
per-frame transfer state. The per-model transfer sets are kept as the lists of
their elements in registration order (no order of iteration is meant). -/
structure gpu_cache where
  slots_ : cache_slots
  transfer_budget_ : Nat
  transfer_slots_written_ : Nat
  transfer_list_ : Nat → List Nat

namespace gpu_cache

/-- `is_node_resident(model, node)`: the node has a slot (a GPU slot is resident
as soon as it is allocated, §4.4). -/
def is_node_resident (g : gpu_cache) (model_id node_id : Nat) : Bool :=
  g.slots_.is_node_indexed model_id node_id

/-- `num_free_slots()`. -/
def num_free_slots (g : gpu_cache) : Nat := g.slots_.num_free_slots

/-- `transfer_budget()`. -/
def transfer_budget (g : gpu_cache) : Nat := g.transfer_budget_

/-- `transfer_slots_written()`. -/
def transfer_slots_written (g : gpu_cache) : Nat := g.transfer_slots_written_

/-- `transfer_list()`. -/
def transfer_list (g : gpu_cache) : Nat → List Nat := g.transfer_list_

/-- `slot_id(model, node)`; the sentinel when the node has no slot. -/
def slot_id (g : gpu_cache) (model_id node_id : Nat) : Nat :=
  (g.slots_.slot_id model_id node_id).getD invalid_node_t

/-- `reset_transfer_list()`. -/
def reset_transfer_list (g : gpu_cache) : gpu_cache :=
  { g with transfer_list_ := fun _ => [] }

/-- `set_transfer_budget(n)`. -/
def set_transfer_budget (g : gpu_cache) (n : Nat) : gpu_cache :=
  { g with transfer_budget_ := n }

/-- `set_transfer_slots_written(n)`. -/
def set_transfer_slots_written (g : gpu_cache) (n : Nat) : gpu_cache :=
  { g with transfer_slots_written_ := n }

/-- Modelled from the spec: `register_node(model, node)` allocates a GPU slot,
appends the node to the transfer list of its model and decrements the transfer
budget; the slot counts as resident at once (§4.4). The result says whether a
slot was allocated; a node that already has a slot is left alone. -/
def register_node (g : gpu_cache) (model_id node_id : Nat) : gpu_cache × Bool :=
  if g.slots_.is_node_indexed model_id node_id then (g, false)
  else
    match g.slots_.place { model_id := model_id, node_id := node_id, loaded := true,
                           priority := 0, holders := [] } with
    | some s =>
        ({ g with
            slots_ := s,
            transfer_budget_ := g.transfer_budget_ - 1,
            transfer_list_ := fun m =>
              if m = model_id then set_insert_unordered node_id (g.transfer_list_ m)
              else g.transfer_list_ m }, true)
    | none => (g, false)

/-- `aquire_node(context, view, model, node)`. -/
def aquire_node (g : gpu_cache) (context_id view_id model_id node_id : Nat) : gpu_cache :=
  { g with slots_ := g.slots_.aquire_node context_id view_id model_id node_id }

/-- `release_node(context, view, model, node)`. -/
def release_node (g : gpu_cache) (context_id view_id model_id node_id : Nat) : gpu_cache :=
  { g with slots_ := g.slots_.release_node context_id view_id model_id node_id }

end gpu_cache

/-! ## `float64_t` arithmetic

The thresholds and the node errors are `float64_t` values (IEEE 754 binary64).
A finite value is taken as the rational number it denotes; a sum or a
difference of two values is the exact result rounded to the nearest value,
ties to even. The comparisons of two values are exact. -/

/-- The number of binary digits of `n`, by repeated halving; the first argument
bounds the number of halvings. -/
def bit_length_steps : Nat → Nat → Nat
  | 0, _ => 0
  | fuel + 1, n => if n = 0 then 0 else bit_length_steps fuel (n / 2) + 1

/-- The number of binary digits of a natural number (0 for 0). -/
def bit_length (n : Nat) : Nat := bit_length_steps n n

/-- The binary exponent `e` of the positive rational `n / d`:
`2 ^ e ≤ n / d < 2 ^ (e + 1)`. -/
def binade (n d : Nat) : Int :=
  let e0 : Int := (bit_length n : Int) - (bit_length d : Int)
  if d * 2 ^ e0.toNat ≤ n * 2 ^ (-e0).toNat then e0 else e0 - 1

/-- The quotient `n / d` rounded to the nearest natural number, a tie to the even
one. -/
def round_half_even (n d : Nat) : Nat :=
  if 2 * (n % d) < d then n / d
  else if 2 * (n % d) > d then n / d + 1
  else if (n / d) % 2 = 0 then n / d else n / d + 1

/-- The `float64_t` value nearest to a rational number, ties to even: a
significand of 53 binary digits, times a power of two that is `2 ^ -1074` at
least (the spacing of the subnormal numbers). Results beyond the largest finite
value are not cut off: no sum or difference of a finite threshold and `0.1`
reaches them. -/
def float64_round (q : ℚ) : ℚ :=
  if q.num = 0 then 0
  else
    let n := q.num.natAbs
    let d := q.den
    let k : Int := max (binade n d) (-1022) - 52
    let m := round_half_even (n * 2 ^ (-k).toNat) (d * 2 ^ k.toNat)
    mkRat (Int.sign q.num * (m * 2 ^ k.toNat : Nat)) (2 ^ (-k).toNat)

/-- The literal `0.1` of cut_update_pool.cpp: the `double` nearest to one tenth,
`3602879701896397 / 2 ^ 55`. -/
def float64_tenth : ℚ := float64_round (1 / 10)

/-! ## The coordinator (`cut_update_pool`, cut_update_pool.cpp)

The pool is embedded in its default configuration: split-again mode,
experimental cancellation, prefetching and repeat mode are compiled out
(`prefetch_routine` refers to a `model_id` that is not in scope and does not
compile when enabled). The worker threads and the two semaphores only sequence
the phases of a frame; the embedding runs the phases in that sequence, the
analysis tasks in the order in which they are launched. -/

/-- The macros of the configuration header that cut_update_pool.cpp reads. -/
structure config where
  LAMURE_MIN_THRESHOLD : ℚ
  LAMURE_MAX_THRESHOLD : ℚ
  LAMURE_CUT_UPDATE_ENABLE_MODEL_TIMEOUT : Bool
  LAMURE_CUT_UPDATE_MAX_MODEL_TIMEOUT : Nat
  LAMURE_CUT_UPDATE_MUST_COLLAPSE_OUTSIDE_FRUSTUM : Bool

/-- `cut_database_record::temporary_buffer`. -/
inductive temporary_buffer where
  | BUFFER_A
  | BUFFER_B
deriving DecidableEq, Repr

/-- What the pool obtains from its collaborators in one frame: what it receives
from the cut database in `prepare`, what `calculate_node_error` and
`is_node_in_frustum` compute from the cameras, the transforms and the model
database (floating-point geometry, taken as given), which disk reads have
completed when the host cache is refreshed, and the slot size and the node
payloads of the model database.

`unordered_set_order` is the order in which a range-based `for` visits the
elements of a `std::unordered_set<node_t>` that received the given insertions:
the language leaves it to the hash table, so it is taken as given; it visits
every element once (it is a permutation of the insertions).

The last four fields are what the master sees of a shut-down of the pool (the
destructor sets `shutdown_` and shuts the semaphores down from another thread):
what `is_shutdown()` returns to it after each of its two waits, and, when a
shut-down has released it from a wait, how many of the analysis tasks have run
by then and whether the update task has. -/
structure frame_input where
  num_cameras : Nat
  thresholds : Nat → ℚ
  rendered : List Nat
  node_error : Nat → Nat → Nat → ℚ
  node_in_frustum : Nat → Nat → Nat → Bool
  loads_completed_prepare : Nat → Nat → Bool
  loads_completed_update : Nat → Nat → Bool
  slot_size : Nat
  node_data : Nat → Nat → List Nat
  unordered_set_order : List Nat → List Nat
  is_shutdown_after_analysis : Bool
  analysis_tasks_run : Nat
  is_shutdown_after_update : Bool
  update_task_run : Bool

/-- The part of the cut database record that `cut_master` writes. -/
structure cut_database_record where
  cuts : Nat → Nat → List (Nat × Nat)
  updated_set : List (Nat × Nat)
  is_front_modified : Bool
  is_swap_required : Bool
  buffer : temporary_buffer

/-- The data members of `cut_update_pool` (with the host-cache singleton). A
staging region is the map from byte offsets to bytes; `current_gpu_storage_`
names the region the pointer designates, `none` for `nullptr`. The transfer
list holds `slot_update_desc(staging index, gpu slot)`, the render list
`node_slot_aggregate(node, slot)` per view and model. -/
structure cut_update_pool where
  context_id_ : Nat
  index_ : cut_update_index
  gpu_cache_ : gpu_cache
  ooc_cache_ : ooc_cache
  upload_budget_in_nodes_ : Nat
  render_budget_in_nodes_ : Nat
  model_thresholds_ : Nat → ℚ
  cut_update_counter_ : Nat
  model_freshness_ : Nat → Nat
  current_gpu_buffer_ : temporary_buffer
  current_gpu_storage_ : Option temporary_buffer
  gpu_storage_ : temporary_buffer → Nat → Nat
  transfer_list_ : List (Nat × Nat)
  render_list_ : List (List (List (Nat × Nat)))
  master_dispatched_ : Bool

/-- The locals of `cut_update` that are declared before its loop and live across
the iterations. -/
structure update_flags where
  check_residency : Bool
  all_children_in_ooc_cache : Bool
  all_children_in_gpu_cache : Bool
deriving DecidableEq, Repr

namespace cut_update_pool

/-- `min_error_threshold` of `cut_analysis`: `model_thresholds_[model_id] - 0.1`,
a `float64_t` difference. -/
def min_error_threshold (p : cut_update_pool) (model_id : Nat) : ℚ :=
  float64_round (p.model_thresholds_ model_id - float64_tenth)

/-- `max_error_threshold` of `cut_analysis`: `model_thresholds_[model_id] + 0.1`,
a `float64_t` sum. -/
def max_error_threshold (p : cut_update_pool) (model_id : Nat) : ℚ :=
  float64_round (p.model_thresholds_ model_id + float64_tenth)

/-- `is_all_nodes_in_cut(model_id, node_ids, cut)`. -/
def is_all_nodes_in_cut (p : cut_update_pool) (model_id : Nat) (node_ids : List Nat)
    (cut : List Nat) : Bool :=
  node_ids.all (fun node_id =>
    !(decide (node_id ≥ p.index_.num_nodes model_id)) && !(node_id == invalid_node_t)
      && decide (node_id ∈ cut))

/-- The inner loop of `cut_analysis` over the children of a split candidate:
`split` stays true when no child is invalid and no child error is below the
minimum threshold. -/
def children_allow_split (inp : frame_input) (p : cut_update_pool) (view_id model_id node_id : Nat)
    (min_error_threshold : ℚ) : Bool :=
  (p.index_.get_all_children model_id node_id).all (fun child_id =>
    !(child_id == invalid_node_t)
      && !(decide (inp.node_error view_id model_id child_id < min_error_threshold)))

/-- The branch `!all_siblings_in_cut` of `cut_analysis`: the action pushed for one
node. -/
def analyse_node (inp : frame_input) (p : cut_update_pool) (view_id model_id node_id : Nat)
    (parent_error min_error_threshold max_error_threshold : ℚ) (freshness_timeout : Bool) :
    action :=
  let node_error := inp.node_error view_id model_id node_id
  let node_in_frustum := inp.node_in_frustum view_id model_id node_id
  if node_in_frustum && decide (node_error > max_error_threshold) then
    let split := children_allow_split inp p view_id model_id node_id min_error_threshold
    if !split || freshness_timeout then
      { queue_ := queue_t.KEEP, view_id_ := view_id, model_id_ := model_id,
        node_id_ := node_id, error_ := parent_error }
    else
      { queue_ := queue_t.MUST_SPLIT, view_id_ := view_id, model_id_ := model_id,
        node_id_ := node_id, error_ := node_error }
  else
    { queue_ := queue_t.KEEP, view_id_ := view_id, model_id_ := model_id,
      node_id_ := node_id, error_ := parent_error }

/-- Whether the sibling loop of `cut_analysis` pushes a split for the sibling
(`keep_sibling` gets `false`). -/
def sibling_splits (inp : frame_input) (p : cut_update_pool) (view_id model_id : Nat)
    (min_error_threshold max_error_threshold : ℚ) (sibling_id : Nat) : Bool :=
  decide (inp.node_error view_id model_id sibling_id > max_error_threshold)
    && inp.node_in_frustum view_id model_id sibling_id
    && children_allow_split inp p view_id model_id sibling_id min_error_threshold

/-- The branch `all_siblings_in_cut` of `cut_analysis`: the actions pushed for a
complete group of siblings, in the order of the pushes. -/
def analyse_group (cfg : config) (inp : frame_input) (p : cut_update_pool)
    (view_id model_id parent_id : Nat) (siblings : List Nat)
    (parent_error min_error_threshold max_error_threshold : ℚ)
    (no_sibling_in_frustum freshness_timeout : Bool) : List action :=
  if no_sibling_in_frustum then
    if cfg.LAMURE_CUT_UPDATE_MUST_COLLAPSE_OUTSIDE_FRUSTUM then
      [{ queue_ := queue_t.MUST_COLLAPSE, view_id_ := view_id, model_id_ := model_id,
         node_id_ := parent_id, error_ := parent_error }]
    else
      [{ queue_ := queue_t.COLLAPSE_ON_NEED, view_id_ := view_id, model_id_ := model_id,
         node_id_ := parent_id, error_ := parent_error }]
  else if freshness_timeout then
    [{ queue_ := queue_t.COLLAPSE_ON_NEED, view_id_ := view_id, model_id_ := model_id,
       node_id_ := parent_id, error_ := parent_error }]
  else
    let splits := siblings.filter
      (sibling_splits inp p view_id model_id min_error_threshold max_error_threshold)
    let keep_all_siblings := splits.isEmpty
    let all_sibling_errors_below_min_error_threshold := siblings.all (fun sibling_id =>
      !(decide (inp.node_error view_id model_id sibling_id ≥ min_error_threshold)))
    splits.map (fun sibling_id =>
        ({ queue_ := queue_t.MUST_SPLIT, view_id_ := view_id, model_id_ := model_id,
           node_id_ := sibling_id, error_ := inp.node_error view_id model_id sibling_id } : action))
      ++
      (if keep_all_siblings && all_sibling_errors_below_min_error_threshold then
        [{ queue_ := queue_t.MUST_COLLAPSE, view_id_ := view_id, model_id_ := model_id,
           node_id_ := parent_id, error_ := parent_error }]
      else if keep_all_siblings then
        [{ queue_ := queue_t.MAYBE_COLLAPSE, view_id_ := view_id, model_id_ := model_id,
           node_id_ := parent_id, error_ := parent_error }]
      else
        ((siblings.take (p.index_.fan_factor model_id)).filter (fun sibling_id =>
            !(sibling_splits inp p view_id model_id min_error_threshold max_error_threshold
                sibling_id))).map
          (fun sibling_id =>
            ({ queue_ := queue_t.KEEP, view_id_ := view_id, model_id_ := model_id,
               node_id_ := sibling_id, error_ := parent_error } : action)))

/-- The loop of `cut_analysis` over `old_cut`, as the list of the actions it
pushes. The first argument counts the elements that `std::advance(cut_it,
fan_factor-1)` still has to step over; the last is the rest of the set from
the iterator on. -/
def cut_analysis_actions (cfg : config) (inp : frame_input) (p : cut_update_pool)
    (view_id model_id : Nat) (old_cut : List Nat) (freshness_timeout : Bool) :
    Nat → List Nat → List action
  | _, [] => []
  | skip + 1, _ :: rest =>
      cut_analysis_actions cfg inp p view_id model_id old_cut freshness_timeout skip rest
  | 0, node_id :: rest =>
      let min_error_threshold := p.min_error_threshold model_id
      let max_error_threshold := p.max_error_threshold model_id
      let has_parent := decide (node_id > 0) && decide (node_id < p.index_.num_nodes model_id)
      let parent_id := if has_parent then p.index_.get_parent_id model_id node_id else 0
      let parent_error := if has_parent then inp.node_error view_id model_id parent_id else 0
      let siblings := if has_parent then p.index_.get_all_siblings model_id node_id else []
      let all_siblings_in_cut := has_parent && p.is_all_nodes_in_cut model_id siblings old_cut
      let no_sibling_in_frustum :=
        if has_parent then !(inp.node_in_frustum view_id model_id parent_id) else true
      if !all_siblings_in_cut then
        analyse_node inp p view_id model_id node_id parent_error min_error_threshold
            max_error_threshold freshness_timeout
          :: cut_analysis_actions cfg inp p view_id model_id old_cut freshness_timeout 0 rest
      else
        analyse_group cfg inp p view_id model_id parent_id siblings parent_error
            min_error_threshold max_error_threshold no_sibling_in_frustum freshness_timeout
          ++ cut_analysis_actions cfg inp p view_id model_id old_cut freshness_timeout
              (p.index_.fan_factor model_id - 1) rest

/-- `freshness_timeout` of `cut_analysis`: `cut_update_counter_ - freshness >
LAMURE_CUT_UPDATE_MAX_MODEL_TIMEOUT` (a `size_t` difference) when the model
timeout is compiled in, `false` otherwise. -/
def freshness_timeout (cfg : config) (p : cut_update_pool) (model_id : Nat) : Bool :=
  cfg.LAMURE_CUT_UPDATE_ENABLE_MODEL_TIMEOUT &&
    decide ((p.cut_update_counter_ + size_t_modulus - p.model_freshness_ model_id % size_t_modulus)
        % size_t_modulus > cfg.LAMURE_CUT_UPDATE_MAX_MODEL_TIMEOUT)

/-- `cut_analysis(view_id, model_id)`. -/
def cut_analysis (cfg : config) (inp : frame_input) (p : cut_update_pool)
    (view_id model_id : Nat) : cut_update_pool :=
  let old_cut := p.index_.get_previous_cut view_id model_id
  let actions := cut_analysis_actions cfg inp p view_id model_id old_cut
    (freshness_timeout cfg p model_id) 0 old_cut
  { p with index_ :=
      actions.foldl (fun idx a => idx.push_action a false) (p.index_.reset_cut view_id model_id) }

/-- `index_->approve_action(a)` on the pool. -/
def approve (p : cut_update_pool) (a : action) : cut_update_pool :=
  { p with index_ := p.index_.approve_action a }

/-- `index_->reject_action(a)` on the pool. -/
def reject (p : cut_update_pool) (a : action) : cut_update_pool :=
  { p with index_ := p.index_.reject_action a }

/-- `index_->pop_front_action(q)` on the pool. -/
def pop_front (p : cut_update_pool) (q : queue_t) : cut_update_pool :=
  { p with index_ := p.index_.pop_front_action q }

/-- `index_->Popback_action(q)` on the pool. -/
def pop_back (p : cut_update_pool) (q : queue_t) : cut_update_pool :=
  { p with index_ := p.index_.Popback_action q }

/-- The loops `for (child_id : child_ids) { gpu_cache_->aquire_node(..);
ooc_cache->aquire_node(..); }` of `cut_update` and `split_node`. -/
def aquire_children (p : cut_update_pool) (view_id model_id : Nat) :
    List Nat → cut_update_pool
  | [] => p
  | child_id :: rest =>
      aquire_children
        { p with
            gpu_cache_ := p.gpu_cache_.aquire_node p.context_id_ view_id model_id child_id,
            ooc_cache_ := p.ooc_cache_.aquire_node p.context_id_ view_id model_id child_id }
        view_id model_id rest

/-- The first loop of `split_node`: the children that are not host-resident are
registered for loading when they fit; the flag is `all_children_available`. -/
def split_node_load (model_id : Nat) (priority : Int) (all_children_fit_in_ooc_cache : Bool) :
    List Nat → ooc_cache × Bool → ooc_cache × Bool
  | [], st => st
  | child_id :: rest, (ooc, all_children_available) =>
      if !(ooc.is_node_resident model_id child_id) then
        split_node_load model_id priority all_children_fit_in_ooc_cache rest
          (if all_children_fit_in_ooc_cache && decide (ooc.num_free_slots > 0) then
              ooc.register_node model_id child_id priority
            else ooc,
           false)
      else
        split_node_load model_id priority all_children_fit_in_ooc_cache rest
          (ooc, all_children_available)

/-- The second loop of `split_node`: the children that are not GPU-resident are
registered for transfer when they fit and budget and slots are left. -/
def split_node_transfer (model_id : Nat) (all_children_fit_in_gpu_cache : Bool) :
    List Nat → gpu_cache × Bool → gpu_cache × Bool
  | [], st => st
  | child_id :: rest, (gpu, all_children_available) =>
      if !(gpu.is_node_resident model_id child_id) then
        if all_children_fit_in_gpu_cache then
          if decide (gpu.transfer_budget > 0) && decide (gpu.num_free_slots > 0) then
            split_node_transfer model_id all_children_fit_in_gpu_cache rest
              ((gpu.register_node model_id child_id).1, all_children_available)
          else
            split_node_transfer model_id all_children_fit_in_gpu_cache rest (gpu, false)
        else
          split_node_transfer model_id all_children_fit_in_gpu_cache rest (gpu, false)
      else
        split_node_transfer model_id all_children_fit_in_gpu_cache rest
          (gpu, all_children_available)

/-- The cast `(int32_t)action.error_`: truncation towards zero. -/
def error_priority (error : ℚ) : Int := Int.tdiv error.num error.den

/-- The two loops "try to obtain children" of `split_node`: the caches they leave
and `all_children_available`. -/
def split_node_obtain (p : cut_update_pool) (a : action) : ooc_cache × gpu_cache × Bool :=
  let child_ids := p.index_.get_all_children a.model_id_ a.node_id_
  let fan_factor := p.index_.fan_factor a.model_id_
  let all_children_fit_in_ooc_cache := decide (p.ooc_cache_.num_free_slots ≥ fan_factor)
  let all_children_fit_in_gpu_cache :=
    decide (p.gpu_cache_.transfer_budget ≥ fan_factor)
      && decide (p.gpu_cache_.num_free_slots ≥ fan_factor)
  let loaded := split_node_load a.model_id_ (error_priority a.error_)
    all_children_fit_in_ooc_cache child_ids (p.ooc_cache_, true)
  if loaded.2 then
    let transferred := split_node_transfer a.model_id_ all_children_fit_in_gpu_cache child_ids
      (p.gpu_cache_, true)
    (loaded.1, transferred.1, transferred.2)
  else (loaded.1, p.gpu_cache_, false)

/-- `split_node(action)`. -/
def split_node (p : cut_update_pool) (a : action) : cut_update_pool :=
  let child_ids := p.index_.get_all_children a.model_id_ a.node_id_
  if child_ids.head? == some invalid_node_t || a.node_id_ == invalid_node_t then
    reject p a
  else
    let obtained := split_node_obtain p a
    let p1 := { p with ooc_cache_ := obtained.1, gpu_cache_ := obtained.2.1 }
    if obtained.2.2 then
      approve (aquire_children p1 a.view_id_ a.model_id_ child_ids) a
    else
      reject p1 a

/-- The loop of `collapse_node` that releases the children in both caches. -/
def release_children (p : cut_update_pool) (view_id model_id : Nat) :
    List Nat → cut_update_pool
  | [] => p
  | child_id :: rest =>
      release_children
        { p with
            gpu_cache_ := p.gpu_cache_.release_node p.context_id_ view_id model_id child_id,
            ooc_cache_ := p.ooc_cache_.release_node p.context_id_ view_id model_id child_id }
        view_id model_id rest

/-- `collapse_node(action)`. -/
def collapse_node (p : cut_update_pool) (a : action) : cut_update_pool :=
  if decide (a.node_id_ < 1) || a.node_id_ == invalid_node_t then
    reject p a
  else
    approve (release_children p a.view_id_ a.model_id_
      (p.index_.get_all_children a.model_id_ a.node_id_)) a

/-- The residency loop of `cut_update` over the children of the front split,
with its two `break`s; the pair is `(all_children_in_ooc_cache,
all_children_in_gpu_cache)`. -/
def residency_scan (ooc : ooc_cache) (gpu : gpu_cache) (model_id : Nat) :
    List Nat → Bool × Bool → Bool × Bool
  | [], fl => fl
  | child_id :: rest, (in_ooc, in_gpu) =>
      let in_ooc1 := in_ooc && ooc.is_node_resident model_id child_id
      if !(ooc.is_node_resident model_id child_id) && !in_gpu then (in_ooc1, in_gpu)
      else
        let in_gpu1 := in_gpu && gpu.is_node_resident model_id child_id
        if !(gpu.is_node_resident model_id child_id) && !in_ooc1 then (in_ooc1, in_gpu1)
        else residency_scan ooc gpu model_id rest (in_ooc1, in_gpu1)

/-- The tail of an iteration of the main loop of `cut_update`: "no success,
reject must split action". -/
def reject_front_split (p : cut_update_pool) (msa : action) : cut_update_pool :=
  reject (p.pop_front queue_t.MUST_SPLIT) msa

/-- The main loop of `cut_update`, `while (num_actions(MUST_SPLIT) > 0)`. The
first argument bounds the number of iterations; `none` when it is used up. -/
def cut_update_loop : Nat → cut_update_pool → update_flags → Option cut_update_pool
  | 0, _, _ => none
  | fuel + 1, p, fl =>
    match p.index_.front_action queue_t.MUST_SPLIT with
    | none => some p
    | some must_split_action =>
      let fan_factor := p.index_.fan_factor must_split_action.model_id_
      let child_ids :=
        p.index_.get_all_children must_split_action.model_id_ must_split_action.node_id_
      let scanned :=
        if fl.check_residency then
          residency_scan p.ooc_cache_ p.gpu_cache_ must_split_action.model_id_ child_ids
            (fl.all_children_in_ooc_cache, fl.all_children_in_gpu_cache)
        else (fl.all_children_in_ooc_cache, fl.all_children_in_gpu_cache)
      if fl.check_residency && scanned.1 && scanned.2 then
        cut_update_loop fuel
          (approve
            (aquire_children (p.pop_front queue_t.MUST_SPLIT) must_split_action.view_id_
              must_split_action.model_id_ child_ids)
            must_split_action)
          { check_residency := true, all_children_in_ooc_cache := scanned.1,
            all_children_in_gpu_cache := scanned.2 }
      else
        let all_children_fit_in_ooc_cache := decide (p.ooc_cache_.num_free_slots ≥ fan_factor)
        let all_children_fit_in_gpu_cache := decide (p.gpu_cache_.num_free_slots ≥ fan_factor)
        if (all_children_fit_in_ooc_cache && all_children_fit_in_gpu_cache)
            || (scanned.1 && all_children_fit_in_gpu_cache) then
          cut_update_loop fuel
            (split_node (p.pop_front queue_t.MUST_SPLIT) must_split_action)
            { check_residency := true, all_children_in_ooc_cache := scanned.1,
              all_children_in_gpu_cache := scanned.2 }
        else
          match p.index_.front_action queue_t.MUST_COLLAPSE with
          | some collapse_action =>
            cut_update_loop fuel
              (collapse_node (p.pop_front queue_t.MUST_COLLAPSE) collapse_action)
              { check_residency := false, all_children_in_ooc_cache := scanned.1,
                all_children_in_gpu_cache := scanned.2 }
          | none =>
            match p.index_.front_action queue_t.COLLAPSE_ON_NEED with
            | some collapse_on_need_action =>
              cut_update_loop fuel
                (collapse_node (p.pop_front queue_t.COLLAPSE_ON_NEED)
                  collapse_on_need_action)
                { check_residency := false, all_children_in_ooc_cache := scanned.1,
                  all_children_in_gpu_cache := scanned.2 }
            | none =>
              match p.index_.back_action queue_t.MAYBE_COLLAPSE with
              | some collapse_action =>
                if must_split_action.error_ > collapse_action.error_ then
                  cut_update_loop fuel
                    (collapse_node (p.pop_back queue_t.MAYBE_COLLAPSE) collapse_action)
                    { check_residency := false, all_children_in_ooc_cache := scanned.1,
                      all_children_in_gpu_cache := scanned.2 }
                else
                  cut_update_loop fuel (reject_front_split p must_split_action)
                    { check_residency := true, all_children_in_ooc_cache := scanned.1,
                      all_children_in_gpu_cache := scanned.2 }
              | none =>
                cut_update_loop fuel (reject_front_split p must_split_action)
                  { check_residency := true, all_children_in_ooc_cache := scanned.1,
                    all_children_in_gpu_cache := scanned.2 }

/-- A loop `while (num_actions(q) > 0) { a = front_action(q); pop_front_action(q);
handle(a); }` of `cut_update`, run over the content of the queue. -/
def drain_queue (q : queue_t) (handle : cut_update_pool → action → cut_update_pool) :
    List action → cut_update_pool → cut_update_pool
  | [], p => p
  | a :: rest, p =>
      drain_queue q handle rest (handle (p.pop_front q) a)

/-- The four loops of `cut_update` after its main loop: approve the remaining
must-collapse actions, reject the remaining collapse-on-need and maybe-collapse
actions, approve all keep actions. -/
def cut_update_drain (p : cut_update_pool) : cut_update_pool :=
  let p1 := drain_queue queue_t.MUST_COLLAPSE collapse_node
    (p.index_.action_queues_ queue_t.MUST_COLLAPSE) p
  let p2 := drain_queue queue_t.COLLAPSE_ON_NEED reject
    (p1.index_.action_queues_ queue_t.COLLAPSE_ON_NEED) p1
  let p3 := drain_queue queue_t.MAYBE_COLLAPSE reject
    (p2.index_.action_queues_ queue_t.MAYBE_COLLAPSE) p2
  drain_queue queue_t.KEEP approve (p3.index_.action_queues_ queue_t.KEEP) p3

/-- `compile_render_list()`; the views are `0 … num_views-1`. -/
def compile_render_list (p : cut_update_pool) : cut_update_pool :=
  { p with render_list_ :=
      (List.range p.index_.num_views).map (fun view_id =>
        (List.range p.index_.num_models).map (fun model_id =>
          (p.index_.get_current_cut view_id model_id).map (fun node_id =>
            (node_id, p.gpu_cache_.slot_id model_id node_id)))) }

/-- The `memcpy` of `compile_transfer_list`: `size` bytes of `data` go to the
offsets from `offset` on. -/
def memcpy (region : Nat → Nat) (offset : Nat) (data : List Nat) (size : Nat) : Nat → Nat :=
  fun i => if offset ≤ i ∧ i < offset + size then data.getD (i - offset) 0 else region i

/-- The body of the loops of `compile_transfer_list` for the nodes of one model;
the state is the staging memory, `transfer_list_` and `slot_count`. -/
def compile_transfer_nodes (inp : frame_input) (p : cut_update_pool) (model_id : Nat) :
    List Nat → (temporary_buffer → Nat → Nat) × List (Nat × Nat) × Nat →
      (temporary_buffer → Nat → Nat) × List (Nat × Nat) × Nat
  | [], st => st
  | node_id :: rest, (storage, transfer_list, slot_count) =>
      let slot_id := p.gpu_cache_.slot_id model_id node_id
      let storage1 : temporary_buffer → Nat → Nat :=
        match p.current_gpu_storage_ with
        | some b => fun b' =>
            if b' = b then
              memcpy (storage b) (slot_count * inp.slot_size) (inp.node_data model_id node_id)
                inp.slot_size
            else storage b'
        | none => storage
      compile_transfer_nodes inp p model_id rest
        (storage1, transfer_list ++ [(slot_count, slot_id)], slot_count + 1)

/-- The nodes of `transfer_list[model_id]`, a `std::unordered_set<node_t>`, in the
order in which the range-based `for` of `compile_transfer_list` visits them. -/
def transfer_nodes (inp : frame_input) (p : cut_update_pool) (model_id : Nat) : List Nat :=
  inp.unordered_set_order (p.gpu_cache_.transfer_list model_id)

/-- `compile_transfer_list()`. -/
def compile_transfer_list (inp : frame_input) (p : cut_update_pool) : cut_update_pool :=
  let st := (List.range p.index_.num_models).foldl
    (fun st model_id =>
      compile_transfer_nodes inp p model_id (p.transfer_nodes inp model_id) st)
    (p.gpu_storage_, p.transfer_list_, p.gpu_cache_.transfer_slots_written)
  { p with
      gpu_storage_ := st.1,
      transfer_list_ := st.2.1,
      gpu_cache_ := (p.gpu_cache_.reset_transfer_list).set_transfer_slots_written st.2.2 }

/-- The number of iterations the main loop of `cut_update` is given: one per
queued action and one to find the split queue empty. -/
def cut_update_fuel (p : cut_update_pool) : Nat := p.index_.all_actions.length + 1

/-- `cut_update()`; `none` when the main loop does not finish within
`cut_update_fuel` iterations. -/
def cut_update (inp : frame_input) (p : cut_update_pool) : Option cut_update_pool :=
  let p0 := { p with ooc_cache_ := p.ooc_cache_.refresh inp.loads_completed_update }
  match cut_update_loop (cut_update_fuel p0) p0
      { check_residency := true, all_children_in_ooc_cache := true,
        all_children_in_gpu_cache := true } with
  | none => none
  | some p1 => some (compile_transfer_list inp (compile_render_list (cut_update_drain p1)))

/-- The pairs `(view, model)` in the order in which `cut_master` launches the
analysis tasks. -/
def analysis_jobs (p : cut_update_pool) : List (Nat × Nat) :=
  (List.range p.index_.num_views).flatMap (fun view_id =>
    (List.range p.index_.num_models).map (fun model_id => (view_id, model_id)))

/-- The analysis tasks run one after the other. -/
def run_analysis (cfg : config) (inp : frame_input) (p : cut_update_pool) :
    List (Nat × Nat) → cut_update_pool
  | [] => p
  | job :: rest => run_analysis cfg inp (cut_analysis cfg inp p job.1 job.2) rest

/-- The clamp of one threshold in `prepare`. -/
def clamp_threshold (cfg : config) (threshold : ℚ) : ℚ :=
  let t1 := if threshold < cfg.LAMURE_MIN_THRESHOLD then cfg.LAMURE_MIN_THRESHOLD else threshold
  if t1 > cfg.LAMURE_MAX_THRESHOLD then cfg.LAMURE_MAX_THRESHOLD else t1

/-- The first part of `prepare`: receive, reset the transfer state, clamp the
thresholds, advance the freshness counter. -/
def prepare_receive (cfg : config) (inp : frame_input) (p : cut_update_pool) : cut_update_pool :=
  let counter :=
    if cfg.LAMURE_CUT_UPDATE_ENABLE_MODEL_TIMEOUT then (p.cut_update_counter_ + 1) % size_t_modulus
    else p.cut_update_counter_
  { p with
      transfer_list_ := [],
      render_list_ := [],
      gpu_cache_ := ((p.gpu_cache_.reset_transfer_list).set_transfer_budget
        p.upload_budget_in_nodes_).set_transfer_slots_written 0,
      index_ := p.index_.update_policy inp.num_cameras,
      model_thresholds_ := fun model_id => clamp_threshold cfg (inp.thresholds model_id),
      cut_update_counter_ := counter,
      model_freshness_ := fun model_id =>
        if cfg.LAMURE_CUT_UPDATE_ENABLE_MODEL_TIMEOUT && decide (model_id ∈ inp.rendered) then counter
        else p.model_freshness_ model_id }

/-- The first loop of `prepare`: no `(model, view)` has an empty current cut. -/
def no_cut_empty (p : cut_update_pool) : Bool :=
  (List.range p.index_.num_models).all (fun model_id =>
    (List.range p.index_.num_views).all (fun view_id =>
      !(p.index_.get_current_cut view_id model_id).isEmpty))

/-- The loop of `prepare` that registers the missing roots in the host cache;
the flag is `all_roots_resident`. -/
def register_roots : List Nat → ooc_cache × Bool → ooc_cache × Bool
  | [], st => st
  | model_id :: rest, (ooc, all_roots_resident) =>
      if !(ooc.is_node_resident model_id 0) then
        register_roots rest (ooc.register_node model_id 0 100, false)
      else register_roots rest (ooc, all_roots_resident)

/-- The inner loop of `prepare` over the views of one model: the root is
acquired in both caches and kept for every view whose current cut is empty. -/
def aquire_root_views (model_id : Nat) : List Nat → cut_update_pool → cut_update_pool
  | [], p => p
  | view_id :: rest, p =>
      if (p.index_.get_current_cut view_id model_id).isEmpty then
        aquire_root_views model_id rest
          { p with
              ooc_cache_ := p.ooc_cache_.aquire_node p.context_id_ view_id model_id 0,
              gpu_cache_ := p.gpu_cache_.aquire_node p.context_id_ view_id model_id 0,
              index_ := p.index_.push_action
                { queue_ := queue_t.KEEP, view_id_ := view_id, model_id_ := model_id,
                  node_id_ := 0, error_ := 10000 } false }
      else aquire_root_views model_id rest p

/-- The outer loop of `prepare` over the models once all roots are host-resident:
the root is registered in the GPU cache when it is not resident there. -/
def aquire_roots : List Nat → cut_update_pool → cut_update_pool
  | [], p => p
  | model_id :: rest, p =>
      let p1 :=
        if !(p.gpu_cache_.is_node_resident model_id 0) then
          { p with gpu_cache_ := (p.gpu_cache_.register_node model_id 0).1 }
        else p
      aquire_roots rest (aquire_root_views model_id (List.range p1.index_.num_views) p1)

/-- `prepare()`. -/
def prepare (cfg : config) (inp : frame_input) (p : cut_update_pool) : cut_update_pool × Bool :=
  let p1 := prepare_receive cfg inp p
  if no_cut_empty p1 then (p1, true)
  else
    let refreshed := p1.ooc_cache_.refresh inp.loads_completed_prepare
    let registered := register_roots (List.range p1.index_.num_models) (refreshed, true)
    let p2 := { p1 with ooc_cache_ := registered.1 }
    if !registered.2 then (p2, false)
    else (aquire_roots (List.range p2.index_.num_models) p2, true)

/-- The swap of the temporary buffer in `cut_master`. -/
def swap_buffer (p : cut_update_pool) : cut_update_pool :=
  match p.current_gpu_buffer_ with
  | temporary_buffer.BUFFER_A =>
      { p with current_gpu_buffer_ := temporary_buffer.BUFFER_B,
               current_gpu_storage_ := some temporary_buffer.BUFFER_B }
  | temporary_buffer.BUFFER_B =>
      { p with current_gpu_buffer_ := temporary_buffer.BUFFER_A,
               current_gpu_storage_ := some temporary_buffer.BUFFER_A }

/-- The block "apply changes" of `cut_master`: the cuts, the transfer list and the
flags go to the record. -/
def apply_changes (p : cut_update_pool) (r : cut_database_record) : cut_database_record :=
  { cuts := fun view_id model_id =>
      if model_id < p.index_.num_models ∧ view_id < p.index_.num_views then
        (p.render_list_.getD view_id []).getD model_id []
      else r.cuts view_id model_id,
    updated_set := p.transfer_list_,
    is_front_modified := decide (p.gpu_cache_.transfer_budget < p.upload_budget_in_nodes_),
    is_swap_required := true,
    buffer := p.current_gpu_buffer_ }

/-- The middle of `cut_master`, from the launch of the analysis tasks to the
return of the update task: the analysis of every job, `sort()`, `cut_update()`.
`none` when the update loop does not finish. -/
def analysis_and_update (cfg : config) (inp : frame_input) (p : cut_update_pool)
    (jobs : List (Nat × Nat)) : Option cut_update_pool :=
  let p1 := run_analysis cfg inp p jobs
  cut_update inp { p1 with index_ := p1.index_.sort }

/-- `cut_master()`: one frame. `none` when the update loop does not finish.

After each of its two waits the master returns at once when `is_shutdown()`
holds: nothing is committed to the record and `master_dispatched_` stays set.
The pool it leaves is then the one after the tasks that have run: the first
`analysis_tasks_run` analysis tasks at the first return; all analysis tasks,
`sort()` and, when it has run, the update task at the second. -/
def cut_master (cfg : config) (inp : frame_input) (p : cut_update_pool)
    (r : cut_database_record) : Option (cut_update_pool × cut_database_record) :=
  let prepared := prepare cfg inp p
  if !prepared.2 then some ({ prepared.1 with master_dispatched_ := false }, r)
  else
    let p1 := swap_buffer prepared.1
    let p2 := { p1 with index_ := p1.index_.swap_cuts }
    if inp.is_shutdown_after_analysis then
      some (run_analysis cfg inp p2 ((analysis_jobs p2).take inp.analysis_tasks_run), r)
    else if inp.is_shutdown_after_update then
      if inp.update_task_run then
        match analysis_and_update cfg inp p2 (analysis_jobs p2) with
        | none => none
        | some p5 => some (p5, r)
      else
        let p3 := run_analysis cfg inp p2 (analysis_jobs p2)
        some ({ p3 with index_ := p3.index_.sort }, r)
    else
      match analysis_and_update cfg inp p2 (analysis_jobs p2) with
      | none => none
      | some p5 => some ({ p5 with master_dispatched_ := false }, apply_changes p5 r)

end cut_update_pool

/-! ## The viewer `simple_plod`: the camera session file and the upload option

`apps/simple_plod/main.cpp` and the playback of `apps/rendering/management.cpp`.
A line of the session file is the list of its whitespace-separated tokens, a
token being the number it reads as, or `none` when it is not a number. A matrix
is the list of its 16 elements. -/

/-- The `std::istringstream` over one line: the tokens left to read and the fail
state of the stream. -/
structure istringstream where
  tokens : List (Option ℚ)
  failed : Bool

namespace istringstream

/-- The formatted read `stream >> value` of a number, given the old content of
`value`: a stream that has failed or is at its end reads nothing, fails and
leaves the value; a token that is not a number stores 0 and fails the stream. -/
def extract (s : istringstream) (value : ℚ) : istringstream × ℚ :=
  if s.failed then (s, value)
  else
    match s.tokens with
    | [] => ({ s with failed := true }, value)
    | some x :: rest => ({ tokens := rest, failed := false }, x)
    | none :: rest => ({ tokens := none :: rest, failed := true }, 0)

end istringstream

/-- The loop `for (idx = 0; idx < 16; ++idx) stream >> curr_view_matrix[idx]` of
`parse_camera_session_file`, from index `matrix_element_idx` on with `count`
iterations to go. -/
def read_matrix_elements :
    Nat → Nat → istringstream → List ℚ → List ℚ
  | 0, _, _, curr_view_matrix => curr_view_matrix
  | count + 1, matrix_element_idx, stream, curr_view_matrix =>
      let r := stream.extract (curr_view_matrix.getD matrix_element_idx 0)
      read_matrix_elements count (matrix_element_idx + 1) r.1
        (curr_view_matrix.set matrix_element_idx r.2)

/-- The body of the `getline` loop of `parse_camera_session_file`: the matrix read
from one line; `fresh` is the content of a default-constructed matrix. -/
def read_view_matrix (fresh : List ℚ) (view_matrix_as_string : List (Option ℚ)) : List ℚ :=
  read_matrix_elements 16 0 { tokens := view_matrix_as_string, failed := false } fresh

/-- `parse_camera_session_file(path)` over the lines of the file: one `push_back`
per line, then `std::reverse`. -/
def parse_camera_session_file (fresh : List ℚ) (lines : List (List (Option ℚ))) :
    List (List ℚ) :=
  (lines.foldl (fun read_view_matrices view_matrix_as_string =>
      read_view_matrices ++ [read_view_matrix fresh view_matrix_as_string]) []).reverse

/-- One step of the playback of `management::MainLoop`: the view matrix set from
`recorded_view_vector_.back()` and the vector after `pop_back()`; `none` when the
vector is empty and the main loop is left. -/
def playback_step (recorded_view_vector_ : List (List ℚ)) :
    Option (List ℚ × List (List ℚ)) :=
  match recorded_view_vector_.getLast? with
  | none => none
  | some view_matrix => some (view_matrix, recorded_view_vector_.dropLast)

/-- The view matrices the playback sets one after the other, until the vector is
empty or `steps` steps are done. -/
def playback : Nat → List (List ℚ) → List (List ℚ)
  | 0, _ => []
  | steps + 1, recorded_view_vector_ =>
      match playback_step recorded_view_vector_ with
      | none => []
      | some (view_matrix, rest) => view_matrix :: playback steps rest

/-- The conversion `int(x)` of an `unsigned int`: the value modulo `2 ^ 32` read
as a two's complement `int`. -/
def int_of_unsigned (x : Nat) : Int :=
  if x % 2 ^ 32 < 2 ^ 31 then ((x % 2 ^ 32 : Nat) : Int)
  else ((x % 2 ^ 32 : Nat) : Int) - 2 ^ 32

/-- The conversion of an `int` to `unsigned int` on assignment. -/
def unsigned_of_int (i : Int) : Nat := (i % 2 ^ 32).toNat

/-- The statement `max_upload_budget = std::max(int(max_upload_budget), 64);` of
`main`: the value handed to `set_max_upload_budget_in_mb`. -/
def main_max_upload_budget (max_upload_budget : Nat) : Nat :=
  unsigned_of_int (max (int_of_unsigned max_upload_budget) 64)

/-! ## Notions used to state the properties -/

namespace cut_update_index

/-- The nodes `approve_action` commits to the current cut for an action. -/
def approved_nodes (idx : cut_update_index) (a : action) : List Nat :=
  match a.queue_ with
  | queue_t.MUST_SPLIT => idx.get_all_children a.model_id_ a.node_id_
  | _ => [a.node_id_]

/-- The nodes `reject_action` reinstates in the current cut for an action. -/
def rejected_nodes (idx : cut_update_index) (a : action) : List Nat :=
  match a.queue_ with
  | queue_t.KEEP => [a.node_id_]
  | queue_t.MUST_SPLIT => [a.node_id_]
  | _ => idx.get_all_children a.model_id_ a.node_id_

end cut_update_index

/-- The nodes `collapse_node` commits for an action: it rejects an action on the
root or on an invalid node and approves every other. -/
def cut_update_index.collapsed_nodes (idx : cut_update_index) (a : action) : List Nat :=
  if decide (a.node_id_ < 1) || a.node_id_ == invalid_node_t then idx.rejected_nodes a
  else idx.approved_nodes a

/-! ## The scenarios of §8 of the specification

One model with the nodes 0 … 6 and fan-out 2, one view, one context, eight host
slots, four GPU slots, an upload budget of four nodes, threshold 0.5. -/

/-- The configuration of the scenarios. -/
def scenario_config : config :=
  { LAMURE_MIN_THRESHOLD := 0,
    LAMURE_MAX_THRESHOLD := 10,
    LAMURE_CUT_UPDATE_ENABLE_MODEL_TIMEOUT := true,
    LAMURE_CUT_UPDATE_MAX_MODEL_TIMEOUT := 1000,
    LAMURE_CUT_UPDATE_MUST_COLLAPSE_OUTSIDE_FRUSTUM := true }

/-- A resident cache entry of model 0 without holders. -/
def scenario_entry (node_id : Nat) : Option cache_entry :=
  some { model_id := 0, node_id := node_id, loaded := true, priority := 0, holders := [] }

/-- A resident cache entry of model 0 acquired by view 0 of context 0. -/
def scenario_entry_aquired (node_id : Nat) : Option cache_entry :=
  some { model_id := 0, node_id := node_id, loaded := true, priority := 0, holders := [(0, 0)] }

/-- The index of the scenarios: the given previous cut of `(0, 0)`, empty
current cuts, the given queues. -/
def scenario_index (previous_cut : List Nat) (queues : queue_t → List action) :
    cut_update_index :=
  { num_views_ := 1,
    num_models_ := 1,
    fan_factors_ := fun _ => 2,
    num_nodes_ := fun _ => 7,
    previous_cut_ := fun v m => if v = 0 ∧ m = 0 then previous_cut else [],
    current_cut_ := fun _ _ => [],
    action_queues_ := queues }

/-- The pool of the scenarios with the given index, cache slots and transfer
budget. -/
def scenario_pool (idx : cut_update_index) (ooc_slots gpu_slots : cache_slots)
    (transfer_budget : Nat) : cut_update_pool :=
  { context_id_ := 0,
    index_ := idx,
    gpu_cache_ := { slots_ := gpu_slots, transfer_budget_ := transfer_budget,
                    transfer_slots_written_ := 0, transfer_list_ := fun _ => [] },
    ooc_cache_ := { slots_ := ooc_slots },
    upload_budget_in_nodes_ := 4,
    render_budget_in_nodes_ := 4,
    model_thresholds_ := fun _ => 0.5,
    cut_update_counter_ := 1,
    model_freshness_ := fun _ => 1,
    current_gpu_buffer_ := temporary_buffer.BUFFER_B,
    current_gpu_storage_ := some temporary_buffer.BUFFER_B,
    gpu_storage_ := fun _ _ => 0,
    transfer_list_ := [],
    render_list_ := [],
    master_dispatched_ := true }

/-- The collaborators of the scenarios: the given node errors, every node in the
frustum, no disk read completing during the frame, no shut-down. A transfer set
is visited from the node inserted last to the node inserted first, as the
hash table of libstdc++ does with the few nodes of the scenarios. -/
def scenario_input (node_error : Nat → ℚ) : frame_input :=
  { num_cameras := 1,
    thresholds := fun _ => 0.5,
    rendered := [0],
    node_error := fun _ _ n => node_error n,
    node_in_frustum := fun _ _ _ => true,
    loads_completed_prepare := fun _ _ => false,
    loads_completed_update := fun _ _ => false,
    slot_size := 4096,
    node_data := fun _ _ => [],
    unordered_set_order := List.reverse,
    is_shutdown_after_analysis := false,
    analysis_tasks_run := 0,
    is_shutdown_after_update := false,
    update_task_run := false }

/-- Previous cut `{1, 2}`, all three nodes resident and acquired in both caches,
and one must-collapse on the root queued. -/
def collapse_to_root_pool : cut_update_pool :=
  scenario_pool
    (scenario_index [1, 2] (fun q => match q with
      | queue_t.MUST_COLLAPSE =>
          [{ queue_ := queue_t.MUST_COLLAPSE, view_id_ := 0, model_id_ := 0, node_id_ := 0,
             error_ := 0 }]
      | _ => []))
    [scenario_entry_aquired 0, scenario_entry_aquired 1, scenario_entry_aquired 2,
     none, none, none, none, none]
    [scenario_entry_aquired 0, scenario_entry_aquired 1, scenario_entry_aquired 2, none]
    4

/-- Previous cut `{3, 4, 2}` with one action of each drained kind queued: a
must-collapse on node 1, a collapse-on-need on node 2 and a keep of node 2. -/
def drain_pool : cut_update_pool :=
  scenario_pool
    (scenario_index [2, 3, 4] (fun q => match q with
      | queue_t.MUST_COLLAPSE =>
          [{ queue_ := queue_t.MUST_COLLAPSE, view_id_ := 0, model_id_ := 0, node_id_ := 1,
             error_ := 0 }]
      | queue_t.KEEP =>
          [{ queue_ := queue_t.KEEP, view_id_ := 0, model_id_ := 0, node_id_ := 2,
             error_ := 0 }]
      | _ => []))
    [scenario_entry_aquired 0, scenario_entry_aquired 1, scenario_entry_aquired 2,
     scenario_entry_aquired 3, scenario_entry_aquired 4, none, none, none]
    [scenario_entry_aquired 1, scenario_entry_aquired 2, scenario_entry_aquired 3,
     scenario_entry_aquired 4]
    4

/-- A must-split of view 0 and model 0. -/
def scenario_split (node_id : Nat) (error : ℚ) : action :=
  { queue_ := queue_t.MUST_SPLIT, view_id_ := 0, model_id_ := 0, node_id_ := node_id,
    error_ := error }

/-- Previous cut `{1, 2}`. Host cache: all seven nodes resident, one slot free.
GPU cache: five slots, all taken, holding 0, 1, 2, 5 and 6; the children 3 and 4
of node 1 are not on the GPU, the children 5 and 6 of node 2 are resident in
both caches. The given must-splits are queued. -/
def stale_flags_pool (splits : List action) : cut_update_pool :=
  scenario_pool
    (scenario_index [1, 2] (fun q => match q with
      | queue_t.MUST_SPLIT => splits
      | _ => []))
    [scenario_entry_aquired 0, scenario_entry_aquired 1, scenario_entry_aquired 2,
     scenario_entry 3, scenario_entry 4, scenario_entry 5, scenario_entry 6, none]
    [scenario_entry_aquired 0, scenario_entry_aquired 1, scenario_entry_aquired 2,
     scenario_entry 5, scenario_entry 6]
    4

/-- A fresh start with two models whose roots are host-resident and not yet on
the GPU, one view, no cut yet, four free GPU slots and an upload budget of one
node. -/
def two_roots_pool : cut_update_pool :=
  { context_id_ := 0,
    index_ :=
      { num_views_ := 1, num_models_ := 2, fan_factors_ := fun _ => 2, num_nodes_ := fun _ => 7,
        previous_cut_ := fun _ _ => [], current_cut_ := fun _ _ => [],
        action_queues_ := fun _ => [] },
    gpu_cache_ := { slots_ := [none, none, none, none], transfer_budget_ := 0,
                    transfer_slots_written_ := 0, transfer_list_ := fun _ => [] },
    ooc_cache_ := { slots_ :=
      [some { model_id := 0, node_id := 0, loaded := true, priority := 100, holders := [] },
       some { model_id := 1, node_id := 0, loaded := true, priority := 100, holders := [] },
       none, none, none, none, none, none] },
    upload_budget_in_nodes_ := 1,
    render_budget_in_nodes_ := 4,
    model_thresholds_ := fun _ => 0.5,
    cut_update_counter_ := 0,
    model_freshness_ := fun _ => 0,
    current_gpu_buffer_ := temporary_buffer.BUFFER_A,
    current_gpu_storage_ := none,
    gpu_storage_ := fun _ _ => 0,
    transfer_list_ := [],
    render_list_ := [],
    master_dispatched_ := true }

/-- A record before the first commit. -/
def empty_record : cut_database_record :=
  { cuts := fun _ _ => [], updated_set := [], is_front_modified := false,
    is_swap_required := false, buffer := temporary_buffer.BUFFER_A }

/-! ## The hierarchy -/

/-- The parent of a node in a tree of fan-out `F`: `(n-1)/F` (§3). -/
def tree_parent (F n : Nat) : Nat := (n - 1) / F

/-- The node `a` is `x` or an ancestor of `x`: it is reached from `x` by going to
the parent some number of times. -/
def is_ancestor_or_self (F a x : Nat) : Prop := ∃ k : Nat, (tree_parent F)^[k] x = a

/-- The node `a` is a proper ancestor of `x` (and `x` a proper descendant of
`a`). -/
def is_proper_ancestor (F a x : Nat) : Prop := a ≠ x ∧ is_ancestor_or_self F a x

/-- A cut is ancestor-consistent: it contains no node together with one of its
proper descendants (§3). -/
def ancestor_consistent (F : Nat) (cut : List Nat) : Prop :=
  ∀ a ∈ cut, ∀ x ∈ cut, ¬ is_proper_ancestor F a x

/-- Neither node is the other or an ancestor of the other. -/
def incomparable (F a b : Nat) : Prop :=
  ¬ is_ancestor_or_self F a b ∧ ¬ is_ancestor_or_self F b a

/-! ## The transitions of `cut_update` -/

/-- One action leaving its queue and being resolved, the ways in which
`cut_update` does it: the front split approved because its children are
resident in both caches; the front split handed to `split_node`, the GPU cache
having a free slot for every child; the front or
the back action of a collapse queue handed to `collapse_node`; the front action
of a queue rejected; the front action of the keep queue approved. -/
inductive update_step : cut_update_pool → cut_update_pool → Prop where
  | resident (p : cut_update_pool) (a : action)
      (h : p.index_.front_action queue_t.MUST_SPLIT = some a)
      (hres : ∀ c ∈ p.index_.get_all_children a.model_id_ a.node_id_,
        p.ooc_cache_.is_node_resident a.model_id_ c = true ∧
        p.gpu_cache_.is_node_resident a.model_id_ c = true) :
      update_step p
        (cut_update_pool.approve
          (cut_update_pool.aquire_children (p.pop_front queue_t.MUST_SPLIT) a.view_id_ a.model_id_
            (p.index_.get_all_children a.model_id_ a.node_id_)) a)
  | split (p : cut_update_pool) (a : action)
      (h : p.index_.front_action queue_t.MUST_SPLIT = some a)
      (hfit : p.index_.fan_factor a.model_id_ ≤ p.gpu_cache_.num_free_slots) :
      update_step p (cut_update_pool.split_node (p.pop_front queue_t.MUST_SPLIT) a)
  | collapse_front (p : cut_update_pool) (q : queue_t) (a : action)
      (hq : q ≠ queue_t.KEEP ∧ q ≠ queue_t.MUST_SPLIT)
      (h : p.index_.front_action q = some a) :
      update_step p (cut_update_pool.collapse_node (p.pop_front q) a)
  | collapse_back (p : cut_update_pool) (q : queue_t) (a : action)
      (hq : q ≠ queue_t.KEEP ∧ q ≠ queue_t.MUST_SPLIT)
      (h : p.index_.back_action q = some a) :
      update_step p (cut_update_pool.collapse_node (p.pop_back q) a)
  | reject_front (p : cut_update_pool) (q : queue_t) (a : action)
      (h : p.index_.front_action q = some a) :
      update_step p (cut_update_pool.reject (p.pop_front q) a)
  | approve_front (p : cut_update_pool) (q : queue_t) (a : action)
      (hq : q = queue_t.KEEP)
      (h : p.index_.front_action q = some a) :
      update_step p (cut_update_pool.approve (p.pop_front q) a)

/-- The index after one action has left queue `q`, which keeps `rest`. -/
def cut_update_index.with_queue (idx : cut_update_index) (q : queue_t) (rest : List action) :
    cut_update_index :=
  { idx with action_queues_ := set_queue idx.action_queues_ q rest }

/-- One queued action resolved, seen on the index: an action `a` leaves its queue
and the nodes of its approval or of its rejection join the current cut of its
view and model. -/
def index_step (idx idx' : cut_update_index) : Prop :=
  ∃ q a rest, List.Perm (idx.action_queues_ q) (a :: rest) ∧
    (idx' = (idx.with_queue q rest).add_to_current_cut a.view_id_ a.model_id_
        (idx.approved_nodes a) ∨
     idx' = (idx.with_queue q rest).add_to_current_cut a.view_id_ a.model_id_
        (idx.rejected_nodes a))

/-- The pool after `ooc_cache->refresh()` at the start of `cut_update`. -/
def cut_update_pool.refreshed (inp : frame_input) (p : cut_update_pool) : cut_update_pool :=
  { p with ooc_cache_ := p.ooc_cache_.refresh inp.loads_completed_update }

/-! ## The invariant of the cut of one view and model during `cut_update` -/

/-- The action acts on the children of its node (a split or a collapse) only when
all `F` children exist. -/
def action_wf (idx : cut_update_index) (a : action) : Prop :=
  a.queue_ ≠ queue_t.KEEP →
    ∀ i, i < idx.fan_factor a.model_id_ →
      a.node_id_ * idx.fan_factor a.model_id_ + 1 + i < idx.num_nodes a.model_id_

/-- The action belongs to the view and the model. -/
def action_of (v m : Nat) (a : action) : Prop := a.view_id_ = v ∧ a.model_id_ = m

/-- What holds of the current cut of `(v, m)` and of the queued actions of
`(v, m)` all through `cut_update`: the cut is ancestor-consistent; the nodes of
two queued actions are incomparable; every node of the cut lies below a node
that is incomparable with the node of every queued action; every queued split
or collapse has all children; the cut is non-empty or an action is queued. -/
structure cut_invariant (v m : Nat) (idx : cut_update_index) : Prop where
  antichain : ∀ x ∈ idx.get_current_cut v m, ∀ y ∈ idx.get_current_cut v m,
    is_ancestor_or_self (idx.fan_factor m) x y → x = y
  pending : idx.all_actions.Pairwise (fun a b => action_of v m a → action_of v m b →
    incomparable (idx.fan_factor m) a.node_id_ b.node_id_)
  separated : ∀ x ∈ idx.get_current_cut v m, ∀ a ∈ idx.all_actions, action_of v m a →
    ∃ t, is_ancestor_or_self (idx.fan_factor m) t x ∧
      incomparable (idx.fan_factor m) t a.node_id_
  wf : ∀ a ∈ idx.all_actions, action_of v m a → action_wf idx a
  inhabited : idx.get_current_cut v m ≠ [] ∨ ∃ a ∈ idx.all_actions, action_of v m a

/-- The previous-cut nodes an action on node `t` stands for: the node itself (a
keep or a split) or its `F` children (a collapse). -/
def footprint_of (F t : Nat) (fp : List Nat) : Prop :=
  fp = [t] ∨ fp = (List.range F).map (fun i => t * F + 1 + i)

/-- The action belongs to the view and the model, as a test. -/
def action_of_test (v m : Nat) (a : action) : Bool :=
  decide (a.view_id_ = v) && decide (a.model_id_ = m)

/-- Previous cut `{1, 2}`, no action queued, the three nodes resident and acquired
in both caches. -/
def siblings_pool : cut_update_pool :=
  scenario_pool (scenario_index [1, 2] (fun _ => []))
    [scenario_entry_aquired 0, scenario_entry_aquired 1, scenario_entry_aquired 2,
     none, none, none, none, none]
    [scenario_entry_aquired 0, scenario_entry_aquired 1, scenario_entry_aquired 2, none]
    4

/-! ## Notions used to state what the caches keep -/

/-- The slots `s'` hold every entry of `s`. -/
def cache_slots.extends_slots (s s' : cache_slots) : Prop := ∀ x, some x ∈ s → some x ∈ s'

/-- The slots `s'` keep what `s` holds: every node with an entry keeps one, every
resident node stays resident, and every acquisition stays, those of `(c, v)` on
the nodes `released` of model `m` apart. -/
def cache_slots.keeps (s s' : cache_slots) (c v m : Nat) (released : List Nat) : Prop :=
  (∀ m' n', s.is_node_indexed m' n' = true → s'.is_node_indexed m' n' = true) ∧
  (∀ m' n', s.is_node_resident m' n' = true → s'.is_node_resident m' n' = true) ∧
  (∀ c' v' m' n', s.is_node_aquired c' v' m' n' = true →
    ¬ (c' = c ∧ v' = v ∧ m' = m ∧ n' ∈ released) → s'.is_node_aquired c' v' m' n' = true)

/-- The node is resident in the host cache and in the GPU cache and acquired in
both by the context of the pool for the view (invariant 2 of §7, for one
node). -/
def cut_update_pool.node_held (p : cut_update_pool) (v m x : Nat) : Prop :=
  p.ooc_cache_.is_node_resident m x = true ∧ p.gpu_cache_.is_node_resident m x = true ∧
  p.ooc_cache_.slots_.is_node_aquired p.context_id_ v m x = true ∧
  p.gpu_cache_.slots_.is_node_aquired p.context_id_ v m x = true

instance (p : cut_update_pool) (v m x : Nat) : Decidable (p.node_held v m x) := by
  unfold cut_update_pool.node_held
  infer_instance

/-- The caches of `p'` keep what the caches of `p` hold, the acquisitions of view
`v` on the nodes `released` of model `m` apart. -/
def cut_update_pool.keeps_caches (p p' : cut_update_pool) (v m : Nat) (released : List Nat) :
    Prop :=
  p'.context_id_ = p.context_id_ ∧
  cache_slots.keeps p.ooc_cache_.slots_ p'.ooc_cache_.slots_ p.context_id_ v m released ∧
  cache_slots.keeps p.gpu_cache_.slots_ p'.gpu_cache_.slots_ p.context_id_ v m released

/-- What holds of the caches for one view and model all through `cut_update`: the
cut invariant; every queued action sits in the queue of its kind; and every node
of the current cut, every node a queued action stands for, and every ancestor
of such a node is resident in both caches and acquired. -/
structure held_invariant (v m : Nat) (p : cut_update_pool) : Prop where
  cut : cut_invariant v m p.index_
  tree : 1 ≤ p.index_.fan_factor m
  kinds : ∀ q, ∀ a ∈ p.index_.action_queues_ q, action_of v m a → a.queue_ = q
  held : ∀ x y, is_ancestor_or_self (p.index_.fan_factor m) x y →
    (y ∈ p.index_.get_current_cut v m ∨
      ∃ a ∈ p.index_.all_actions, action_of v m a ∧ y ∈ p.index_.rejected_nodes a) →
    p.node_held v m x

/-- One queued action resolved, seen on the index and on the caches: an action `a`
leaves its queue `q` and is rejected, the caches kept; or it is a keep that is
approved, the caches kept; or it is a split that is approved, the caches kept
and every child resident in both and acquired; or it is a collapse that is
approved, the caches kept but for the acquisitions of the children. -/
def pool_step (p p' : cut_update_pool) : Prop :=
  ∃ q a rest, List.Perm (p.index_.action_queues_ q) (a :: rest) ∧
    ((p'.index_ = (p.index_.with_queue q rest).add_to_current_cut a.view_id_ a.model_id_
          (p.index_.rejected_nodes a) ∧
        p.keeps_caches p' a.view_id_ a.model_id_ []) ∨
     (q = queue_t.KEEP ∧
        p'.index_ = (p.index_.with_queue q rest).add_to_current_cut a.view_id_ a.model_id_
          (p.index_.approved_nodes a) ∧
        p.keeps_caches p' a.view_id_ a.model_id_ []) ∨
     (q = queue_t.MUST_SPLIT ∧
        p'.index_ = (p.index_.with_queue q rest).add_to_current_cut a.view_id_ a.model_id_
          (p.index_.approved_nodes a) ∧
        p.keeps_caches p' a.view_id_ a.model_id_ [] ∧
        ∀ c ∈ p.index_.get_all_children a.model_id_ a.node_id_,
          p'.node_held a.view_id_ a.model_id_ c) ∨
     (q ≠ queue_t.KEEP ∧ q ≠ queue_t.MUST_SPLIT ∧
        p'.index_ = (p.index_.with_queue q rest).add_to_current_cut a.view_id_ a.model_id_
          (p.index_.approved_nodes a) ∧
        p.keeps_caches p' a.view_id_ a.model_id_
          (p.index_.get_all_children a.model_id_ a.node_id_)))

/-! ## Two more starts of a frame -/

/-- Previous cut `{2, 3, 4}`, no action queued, the nodes 0 … 4 resident and
acquired in both caches (five GPU slots). -/
def leaves_pool : cut_update_pool :=
  scenario_pool (scenario_index [2, 3, 4] (fun _ => []))
    [scenario_entry_aquired 0, scenario_entry_aquired 1, scenario_entry_aquired 2,
     scenario_entry_aquired 3, scenario_entry_aquired 4, none, none, none]
    [scenario_entry_aquired 0, scenario_entry_aquired 1, scenario_entry_aquired 2,
     scenario_entry_aquired 3, scenario_entry_aquired 4]
    4

/-- Previous cut `{2, 3, 4}`, no action queued, the nodes 0, 2, 3 and 4 resident and
acquired in both caches; node 1, the parent of 3 and 4, has no entry in either
cache. -/
def orphan_pool : cut_update_pool :=
  scenario_pool (scenario_index [2, 3, 4] (fun _ => []))
    [scenario_entry_aquired 0, scenario_entry_aquired 2, scenario_entry_aquired 3,
     scenario_entry_aquired 4, none, none, none, none]
    [scenario_entry_aquired 0, scenario_entry_aquired 2, scenario_entry_aquired 3,
     scenario_entry_aquired 4]
    4

/-! ## The root-only cut of one view and one model (§8, Scenario A) -/

/-- The analysis of the root of model 0 for view 0 asks for a split: the root is in
the frustum, its error exceeds `max_error_threshold`, every child exists and has
an error of `min_error_threshold` at least, and the model has no freshness
timeout. -/
def root_split_emitted (cfg : config) (inp : frame_input) (p : cut_update_pool) : Prop :=
  inp.node_in_frustum 0 0 0 = true ∧
  inp.node_error 0 0 0 > p.max_error_threshold 0 ∧
  cut_update_pool.children_allow_split inp p 0 0 0 (p.min_error_threshold 0) = true ∧
  cut_update_pool.freshness_timeout cfg p 0 = false

instance (cfg : config) (inp : frame_input) (p : cut_update_pool) :
    Decidable (root_split_emitted cfg inp p) := by
  unfold root_split_emitted
  infer_instance

/-- Every child of the root of model 0 is resident in the host cache once
`cut_update` has refreshed it. -/
def root_children_on_host (inp : frame_input) (p : cut_update_pool) : Prop :=
  ∀ c ∈ p.index_.get_all_children 0 0,
    (p.ooc_cache_.refresh inp.loads_completed_update).is_node_resident 0 c = true

instance (inp : frame_input) (p : cut_update_pool) : Decidable (root_children_on_host inp p) := by
  unfold root_children_on_host
  infer_instance

/-- Every child of the root of model 0 has a GPU slot. -/
def root_children_on_gpu (p : cut_update_pool) : Prop :=
  ∀ c ∈ p.index_.get_all_children 0 0, p.gpu_cache_.is_node_resident 0 c = true

instance (p : cut_update_pool) : Decidable (root_children_on_gpu p) := by
  unfold root_children_on_gpu
  infer_instance

/-- No child of the root of model 0 has a GPU slot. -/
def root_children_off_gpu (p : cut_update_pool) : Prop :=
  ∀ c ∈ p.index_.get_all_children 0 0, p.gpu_cache_.is_node_resident 0 c = false

instance (p : cut_update_pool) : Decidable (root_children_off_gpu p) := by
  unfold root_children_off_gpu
  infer_instance

/-- The GPU cache has free slots and transfer budget for all children of a node of
model 0. -/
def gpu_has_room (p : cut_update_pool) : Prop :=
  p.index_.fan_factor 0 ≤ p.gpu_cache_.num_free_slots ∧
  p.index_.fan_factor 0 ≤ p.gpu_cache_.transfer_budget

instance (p : cut_update_pool) : Decidable (gpu_has_room p) := by
  unfold gpu_has_room
  infer_instance

/-- The start of Scenario A: previous cut `{0}`, no action queued, the given cache
slots, a transfer budget of four nodes. -/
def root_pool (ooc_slots gpu_slots : cache_slots) : cut_update_pool :=
  scenario_pool (scenario_index [0] (fun _ => [])) ooc_slots gpu_slots 4

/-- The node errors of Scenario A: 2.0 for the root, 0.6 for every other node. -/
def scenario_a_error (n : Nat) : ℚ := if n = 0 then 2 else 0.6

/-! ## Notions used to state that nothing is registered -/

/-- The slots `s'` hold entries for the same nodes as `s`, with the same residency,
and as many free slots: between `s` and `s'` no node was registered and none
was evicted. -/
def cache_slots.same_entries (s s' : cache_slots) : Prop :=
  (∀ m n, s'.is_node_indexed m n = s.is_node_indexed m n) ∧
  (∀ m n, s'.is_node_resident m n = s.is_node_resident m n) ∧
  s'.num_free_slots = s.num_free_slots

/-- Between `p` and `p'` no node was registered in the host cache or in the GPU
cache: both caches hold entries for the same nodes, and the transfer budget and
the transfer list of the GPU cache are untouched. -/
def cut_update_pool.nothing_registered (p p' : cut_update_pool) : Prop :=
  cache_slots.same_entries p.ooc_cache_.slots_ p'.ooc_cache_.slots_ ∧
  cache_slots.same_entries p.gpu_cache_.slots_ p'.gpu_cache_.slots_ ∧
  p'.gpu_cache_.transfer_budget_ = p.gpu_cache_.transfer_budget_ ∧
  p'.gpu_cache_.transfer_list_ = p.gpu_cache_.transfer_list_ ∧
  p'.gpu_cache_.transfer_slots_written_ = p.gpu_cache_.transfer_slots_written_ ∧
  p'.transfer_list_ = p.transfer_list_

/-- Between `p` and `p'` no node was registered in the GPU cache and no node became
or ceased to be host-resident: the GPU cache holds entries for the same nodes,
its transfer budget and transfer list and the transfer list of the pool are
untouched, and the same nodes are resident in the host cache. -/
def cut_update_pool.nothing_transferred (p p' : cut_update_pool) : Prop :=
  cache_slots.same_entries p.gpu_cache_.slots_ p'.gpu_cache_.slots_ ∧
  p'.gpu_cache_.transfer_budget_ = p.gpu_cache_.transfer_budget_ ∧
  p'.gpu_cache_.transfer_list_ = p.gpu_cache_.transfer_list_ ∧
  p'.gpu_cache_.transfer_slots_written_ = p.gpu_cache_.transfer_slots_written_ ∧
  p'.transfer_list_ = p.transfer_list_ ∧
  ∀ m n, p'.ooc_cache_.is_node_resident m n = p.ooc_cache_.is_node_resident m n

/-- The split of the root queued with no transfer budget: the root is resident and
acquired in both caches, its children 1 and 2 are in neither, seven host slots
and three GPU slots are free. -/
def no_budget_pool : cut_update_pool :=
  scenario_pool
    (scenario_index [0] (fun q => match q with
      | queue_t.MUST_SPLIT => [scenario_split 0 2]
      | _ => []))
    [scenario_entry_aquired 0, none, none, none, none, none, none, none]
    [scenario_entry_aquired 0, none, none, none]
    0

/-- Some queued action of the view and model is on the node. -/
def cut_update_index.pending_node (idx : cut_update_index) (v m x : Nat) : Prop :=
  ∃ a ∈ idx.all_actions, a.view_id_ = v ∧ a.model_id_ = m ∧ a.node_id_ = x

/-- Only splits and keeps are queued, each in the queue of its kind, and every
queued split finds fewer free GPU slots than its node has children and has a
child that is not in the GPU cache. -/
def cut_update_pool.splits_blocked (p : cut_update_pool) : Prop :=
  p.index_.action_queues_ queue_t.MUST_COLLAPSE = [] ∧
  p.index_.action_queues_ queue_t.COLLAPSE_ON_NEED = [] ∧
  p.index_.action_queues_ queue_t.MAYBE_COLLAPSE = [] ∧
  (∀ a ∈ p.index_.action_queues_ queue_t.KEEP, a.queue_ = queue_t.KEEP) ∧
  ∀ a ∈ p.index_.action_queues_ queue_t.MUST_SPLIT, a.queue_ = queue_t.MUST_SPLIT ∧
    p.gpu_cache_.num_free_slots < p.index_.fan_factor a.model_id_ ∧
    ∃ c ∈ p.index_.get_all_children a.model_id_ a.node_id_,
      p.gpu_cache_.is_node_resident a.model_id_ c = false

/-- The node errors of scenario C: 1 for the root, 2 for node 1, 3 for node 2, 0.6
for the nodes below. -/
def scenario_c_error (node_id : Nat) : ℚ :=
  if node_id = 0 then 1 else if node_id = 1 then 2 else if node_id = 2 then 3 else 0.6

/-- Scenario C: previous cut `{1, 2}`; the nodes 0, 1 and 2 resident and acquired in
both caches; the nodes 3 … 6 resident in the host cache and not in the GPU
cache; one free GPU slot and a transfer budget of one node. -/
def scenario_c_pool : cut_update_pool :=
  scenario_pool (scenario_index [1, 2] (fun _ => []))
    [scenario_entry_aquired 0, scenario_entry_aquired 1, scenario_entry_aquired 2,
     scenario_entry 3, scenario_entry 4, scenario_entry 5, scenario_entry 6, none]
    [scenario_entry_aquired 0, scenario_entry_aquired 1, scenario_entry_aquired 2, none]
    1

instance (p : cut_update_pool) : Decidable p.splits_blocked := by
  unfold cut_update_pool.splits_blocked
  infer_instance

/-- Scenario C after the analysis of `(0, 0)` and `sort()`. -/
def scenario_c_analysed : cut_update_pool :=
  { cut_update_pool.run_analysis scenario_config (scenario_input scenario_c_error)
      scenario_c_pool [(0, 0)] with
    index_ := (cut_update_pool.run_analysis scenario_config (scenario_input scenario_c_error)
      scenario_c_pool [(0, 0)]).index_.sort }

/-! ## Notions used to state what the analysis emits -/

/-- The actions `cut_analysis(view, model)` pushes, in the order of the pushes. -/
def cut_update_pool.analysis_actions (cfg : config) (inp : frame_input) (p : cut_update_pool)
    (view_id model_id : Nat) : List action :=
  cut_update_pool.cut_analysis_actions cfg inp p view_id model_id
    (p.index_.get_previous_cut view_id model_id)
    (cut_update_pool.freshness_timeout cfg p model_id) 0
    (p.index_.get_previous_cut view_id model_id)

/-- The actions among `acts` that stand for the node `x` of the previous cut: a
keep or a split of `x`, or the collapse of the sibling group of `x` into its
parent (the nodes that the rejection of the action puts back). -/
def cut_update_index.actions_for (idx : cut_update_index) (acts : List action) (x : Nat) :
    List action :=
  acts.filter (fun a => decide (x ∈ idx.rejected_nodes a))

/-- The test `all_siblings_in_cut` of `cut_analysis` for the node `x` of the cut
`old`: the node has a parent and all its siblings are in the cut. -/
def cut_update_pool.group_complete (p : cut_update_pool) (model_id : Nat) (old : List Nat)
    (x : Nat) : Prop :=
  0 < x ∧ x < p.index_.num_nodes model_id ∧
    p.is_all_nodes_in_cut model_id (p.index_.get_all_siblings model_id x) old = true

instance (p : cut_update_pool) (m : Nat) (old : List Nat) (x : Nat) :
    Decidable (p.group_complete m old x) := by
  unfold cut_update_pool.group_complete
  infer_instance

/-- `parent_error` of `cut_analysis` for the node `x`: the error of the parent, 0
for a node without parent. -/
def cut_update_pool.parent_error (inp : frame_input) (p : cut_update_pool)
    (view_id model_id x : Nat) : ℚ :=
  if 0 < x ∧ x < p.index_.num_nodes model_id then
    inp.node_error view_id model_id (p.index_.get_parent_id model_id x)
  else 0

/-- An action of the view and model on the parent of the node `x`, with the error
of the parent. -/
def cut_update_pool.parent_action (inp : frame_input) (p : cut_update_pool)
    (q : queue_t) (view_id model_id x : Nat) : action :=
  { queue_ := q, view_id_ := view_id, model_id_ := model_id,
    node_id_ := p.index_.get_parent_id model_id x,
    error_ := inp.node_error view_id model_id (p.index_.get_parent_id model_id x) }

/-- The collaborators of the scenarios with the bounding box of the root outside
the frustum and every other node inside. -/
def root_outside_input (node_error : Nat → ℚ) : frame_input :=
  { scenario_input node_error with node_in_frustum := fun _ _ n => decide (n ≠ 0) }

/-- Node errors with one child of the root below the minimum threshold: 2 for the
root, 0.3 for node 1, 0.6 for every other node. -/
def one_low_child_error (n : Nat) : ℚ := if n = 0 then 2 else if n = 1 then 0.3 else 0.6

/-- The root-only cut of the scenarios with a threshold of 1 for every model. -/
def unit_threshold_pool : cut_update_pool :=
  { root_pool [] [] with model_thresholds_ := fun _ => 1 }

/-- The node errors with the `double` nearest to 1.1 for the root,
`2476979795053773 / 2 ^ 51`, and 2 for every other node. -/
def boundary_error (n : Nat) : ℚ := if n = 0 then mkRat 2476979795053773 (2 ^ 51) else 2

/-- Scenario B: previous cut `{1, 2}`, the three nodes resident and acquired in both
caches, and the model last rendered 2000 update frames ago. -/
def timeout_pool : cut_update_pool :=
  { siblings_pool with cut_update_counter_ := 2001 }

/-- The collaborators of the scenarios with every bounding box outside the
frustum. -/
def nothing_visible_input (node_error : Nat → ℚ) : frame_input :=
  { scenario_input node_error with node_in_frustum := fun _ _ _ => false }

/-! ## Notions used to state the root bootstrap -/

/-- Scenario E, the fresh start: one model, one view, no cut yet, nothing queued,
eight free host slots and four free GPU slots. -/
def fresh_pool : cut_update_pool :=
  scenario_pool (scenario_index [] (fun _ => []))
    [none, none, none, none, none, none, none, none]
    [none, none, none, none]
    4

/-- The collaborators of the scenarios in a frame by which every pending disk read
has completed. -/
def loads_done_input (node_error : Nat → ℚ) : frame_input :=
  { scenario_input node_error with loads_completed_prepare := fun _ _ => true }

/-- The pool after the first frame of the fresh start. -/
def fresh_pool_next : cut_update_pool :=
  ((cut_update_pool.cut_master scenario_config (scenario_input scenario_a_error) fresh_pool
    empty_record).map Prod.fst).getD fresh_pool

/-- The collaborators of a frame by which every pending disk read has completed
and in which the master finds the pool shut down after its first wait, one
analysis task having run. -/
def shut_down_input : frame_input :=
  { loads_done_input scenario_a_error with
    is_shutdown_after_analysis := true, analysis_tasks_run := 1 }

/-- The pool after the first frame of the fresh start, dispatched again
(`dispatch_cut_update` sets `master_dispatched_`). -/
def fresh_pool_dispatched : cut_update_pool :=
  { fresh_pool_next with master_dispatched_ := true }

/-- A record as the commit of a frame with the tag B leaves it: one descriptor in
the transfer list, the front modified. -/
def committed_record : cut_database_record :=
  { cuts := fun _ _ => [], updated_set := [(0, 7)], is_front_modified := true,
    is_swap_required := true, buffer := temporary_buffer.BUFFER_B }

/-- Pool `p'` has the buffer tag, the selected staging region, the two staging
memories and the thresholds of pool `p`. -/
def cut_update_pool.same_staging (p p' : cut_update_pool) : Prop :=
  p'.current_gpu_buffer_ = p.current_gpu_buffer_ ∧
  p'.current_gpu_storage_ = p.current_gpu_storage_ ∧
  p'.gpu_storage_ = p.gpu_storage_ ∧
  p'.model_thresholds_ = p.model_thresholds_

/-- The `(model, node)` entries of the transfer list of the GPU cache in the order
in which the loops of `compile_transfer_list` visit them. -/
def cut_update_pool.transfer_entries (inp : frame_input) (p : cut_update_pool)
    (models : List Nat) : List (Nat × Nat) :=
  models.flatMap (fun model_id =>
    (p.transfer_nodes inp model_id).map (fun node_id => (model_id, node_id)))

/-- The other buffer tag. -/
def temporary_buffer.toggled : temporary_buffer → temporary_buffer
  | temporary_buffer.BUFFER_A => temporary_buffer.BUFFER_B
  | temporary_buffer.BUFFER_B => temporary_buffer.BUFFER_A

/-- The collaborators of the scenarios with a threshold of 20 for every model. -/
def high_threshold_input : frame_input :=
  { scenario_input scenario_a_error with thresholds := fun _ => 20 }

/-- The pool of the scenarios at the end of an update that registered the nodes 1
and 2 in the GPU cache: both are in its transfer list, one staging slot has been
written before. -/
def transfer_pool : cut_update_pool :=
  { scenario_pool (scenario_index [0] (fun _ => []))
      [scenario_entry 0, scenario_entry 1, scenario_entry 2, none]
      [scenario_entry 0, scenario_entry 1, scenario_entry 2, none] 2 with
    gpu_cache_ :=
      { slots_ := [scenario_entry 0, scenario_entry 1, scenario_entry 2, none],
        transfer_budget_ := 2,
        transfer_slots_written_ := 1,
        transfer_list_ := fun model_id => if model_id = 0 then [1, 2] else [] } }

/-- The collaborators of the scenarios with slots of two bytes; the payload of
node `n` is `n + 10`, `n + 20`. -/
def payload_input : frame_input :=
  { scenario_input scenario_a_error with
    slot_size := 2,
    node_data := fun _ node_id => [node_id + 10, node_id + 20] }

/-- A session file of two lines: the numbers 1 to 16, then the numbers 101 to
116. -/
def session_lines : List (List (Option ℚ)) :=
  [[some 1, some 2, some 3, some 4, some 5, some 6, some 7, some 8,
    some 9, some 10, some 11, some 12, some 13, some 14, some 15, some 16],
   [some 101, some 102, some 103, some 104, some 105, some 106, some 107, some 108,
    some 109, some 110, some 111, some 112, some 113, some 114, some 115, some 116]]

/-- The content of a matrix before anything is read into it, here all zero. -/
def zero_matrix : List ℚ := List.replicate 16 0

/-! ## The conditions of one iteration of the main loop of `cut_update` -/

/-- The flags `(all_children_in_ooc_cache, all_children_in_gpu_cache)` after the
residency block of an iteration for the front split `s`: scanned over the
children of `s` when `check_residency` is set, left as they are otherwise. -/
def cut_update_pool.scanned_flags (p : cut_update_pool) (fl : update_flags) (s : action) :
    Bool × Bool :=
  if fl.check_residency then
    cut_update_pool.residency_scan p.ooc_cache_ p.gpu_cache_ s.model_id_
      (p.index_.get_all_children s.model_id_ s.node_id_)
      (fl.all_children_in_ooc_cache, fl.all_children_in_gpu_cache)
  else (fl.all_children_in_ooc_cache, fl.all_children_in_gpu_cache)

/-- The iteration approves the front split `s` as resident. -/
def cut_update_pool.approved_as_resident (p : cut_update_pool) (fl : update_flags)
    (s : action) : Bool :=
  fl.check_residency && (p.scanned_flags fl s).1 && (p.scanned_flags fl s).2

/-- The test of the iteration before `split_node`: the children of the front split
`s` fit. -/
def cut_update_pool.split_fits (p : cut_update_pool) (fl : update_flags) (s : action) : Bool :=
  (decide (p.ooc_cache_.num_free_slots ≥ p.index_.fan_factor s.model_id_)
      && decide (p.gpu_cache_.num_free_slots ≥ p.index_.fan_factor s.model_id_))
    || ((p.scanned_flags fl s).1
      && decide (p.gpu_cache_.num_free_slots ≥ p.index_.fan_factor s.model_id_))

/-- The actions of the queue ascend by error. -/
def ascending_by_error (queue : List action) : Prop :=
  queue.Pairwise (fun a b => a.error_ ≤ b.error_)

/-- The number of queued split and collapse-type actions: must-split,
must-collapse, collapse-on-need and maybe-collapse. -/
def cut_update_index.num_update_actions (idx : cut_update_index) : Nat :=
  (idx.action_queues_ queue_t.MUST_SPLIT).length
    + (idx.action_queues_ queue_t.MUST_COLLAPSE).length
    + (idx.action_queues_ queue_t.COLLAPSE_ON_NEED).length
    + (idx.action_queues_ queue_t.MAYBE_COLLAPSE).length

/-- Between `p` and `P` exactly one action `a` left the queues, from the front or
from the back of the queue `q`, which is not the keep queue; no queue gained an
action. -/
def cut_update_pool.one_action_removed (p P : cut_update_pool) (q : queue_t) (a : action) :
    Prop :=
  q ≠ queue_t.KEEP ∧
  (p.index_.action_queues_ q = a :: P.index_.action_queues_ q ∨
    p.index_.action_queues_ q = P.index_.action_queues_ q ++ [a]) ∧
  ∀ q', q' ≠ q → P.index_.action_queues_ q' = p.index_.action_queues_ q'

/-- The split of node 2 with error 3 of the scenario `full_gpu_pool`. -/
def full_gpu_split : action :=
  { queue_ := queue_t.MUST_SPLIT, view_id_ := 0, model_id_ := 0, node_id_ := 2, error_ := 3 }

/-- The maybe-collapse of the siblings 3 and 4 into node 1, with error 1. -/
def full_gpu_collapse : action :=
  { queue_ := queue_t.MAYBE_COLLAPSE, view_id_ := 0, model_id_ := 0, node_id_ := 1, error_ := 1 }

/-- Previous cut `{2, 3, 4}`, its nodes and their ancestors resident and acquired
in both caches, the GPU cache full; the split of node 2 and the maybe-collapse
of the siblings 3 and 4 are queued. -/
def full_gpu_pool : cut_update_pool :=
  scenario_pool
    (scenario_index [2, 3, 4] (fun q => match q with
      | queue_t.MUST_SPLIT => [full_gpu_split]
      | queue_t.MAYBE_COLLAPSE => [full_gpu_collapse]
      | _ => []))
    [scenario_entry_aquired 0, scenario_entry_aquired 1, scenario_entry_aquired 2,
     scenario_entry_aquired 3, scenario_entry_aquired 4, none, none, none]
    [scenario_entry_aquired 0, scenario_entry_aquired 1, scenario_entry_aquired 2,
     scenario_entry_aquired 3, scenario_entry_aquired 4]
    4

/-- The flags of the main loop of `cut_update` at its start. -/
def initial_flags : update_flags :=
  { check_residency := true, all_children_in_ooc_cache := true,
    all_children_in_gpu_cache := true }

/-! ## The iterator of the analysis loop -/

/-- The loop of `cut_analysis` over `old_cut` followed for its iterator alone:
whether every `std::advance(cut_it, fan_factor-1)` after a complete group steps
over siblings of the node of the group only and does not run past the end of
the cut. The first argument counts the elements still to step over, the second
is the group stepped over, the last is the rest of the set from the iterator
on. -/
def cut_update_pool.skips_in_group (p : cut_update_pool) (model_id : Nat) (old_cut : List Nat) :
    Nat → List Nat → List Nat → Bool
  | 0, _, [] => true
  | _ + 1, _, [] => false
  | skip + 1, siblings, node_id :: rest =>
      decide (node_id ∈ siblings) && cut_update_pool.skips_in_group p model_id old_cut skip siblings rest
  | 0, _, node_id :: rest =>
      let has_parent := decide (node_id > 0) && decide (node_id < p.index_.num_nodes model_id)
      let siblings := if has_parent then p.index_.get_all_siblings model_id node_id else []
      let all_siblings_in_cut := has_parent && p.is_all_nodes_in_cut model_id siblings old_cut
      if !all_siblings_in_cut then cut_update_pool.skips_in_group p model_id old_cut 0 [] rest
      else
        cut_update_pool.skips_in_group p model_id old_cut (p.index_.fan_factor model_id - 1)
          siblings rest

/-- The part `l` of the cut `old` contains every sibling group that is complete in
`old` and of which it contains a node. -/
def cut_update_pool.groups_within (p : cut_update_pool) (m : Nat) (old l : List Nat) : Prop :=
  ∀ x ∈ l, 0 < x → x < p.index_.num_nodes m →
    p.is_all_nodes_in_cut m
      (p.index_.get_all_children m (tree_parent (p.index_.fan_factor m) x)) old = true →
    ∀ i, i < p.index_.fan_factor m →
      tree_parent (p.index_.fan_factor m) x * p.index_.fan_factor m + 1 + i ∈ l

/-! ## Notions used to state what a split acquires -/

/-- The slots `s'` count the holders as `s` does: every node is acquired by the
same `(context, view)` pairs and has the same refcount. -/
def cache_slots.same_holders (s s' : cache_slots) : Prop :=
  (∀ c v m n, s'.is_node_aquired c v m n = s.is_node_aquired c v m n) ∧
  ∀ m n, s'.refcount m n = s.refcount m n

/-- The entry after the acquisition loop over the nodes `cs` of model `m` for
`(c, v)`. -/
def cache_entry.aquire_all (e : cache_entry) (c v m : Nat) (cs : List Nat) : cache_entry :=
  if e.model_id = m ∧ e.node_id ∈ cs then e.aquire c v else e

/-- The entry after the release loop over the nodes `cs` of model `m` for
`(c, v)`. -/
def cache_entry.release_all (e : cache_entry) (c v m : Nat) (cs : List Nat) : cache_entry :=
  if e.model_id = m ∧ e.node_id ∈ cs then e.release c v else e

/-- Previous cut `{0}`, the root resident and acquired in both caches, its children
1 and 2 resident in the host cache and not on the GPU, two free GPU slots. -/
def children_on_host_pool : cut_update_pool :=
  root_pool
    [scenario_entry_aquired 0, scenario_entry 1, scenario_entry 2, none, none, none, none, none]
    [scenario_entry_aquired 0, none, none]

/-- Previous cut `{1, 2}`; the nodes 0 to 4 resident in both caches and acquired by
view 0, the children 3 and 4 of node 1 included. -/
def held_children_pool : cut_update_pool :=
  scenario_pool (scenario_index [1, 2] (fun _ => []))
    [scenario_entry_aquired 0, scenario_entry_aquired 1, scenario_entry_aquired 2,
     scenario_entry_aquired 3, scenario_entry_aquired 4, none, none, none]
    [scenario_entry_aquired 0, scenario_entry_aquired 1, scenario_entry_aquired 2,
     scenario_entry_aquired 3, scenario_entry_aquired 4, none]
    4

/-- Previous cut `{1, 2}`; the nodes 0, 1 and 2 resident in both caches and acquired
by view 0, the children 3 and 4 of node 1 resident in the host cache and held by
nobody; the GPU cache has two free slots. -/
def free_children_pool : cut_update_pool :=
  scenario_pool (scenario_index [1, 2] (fun _ => []))
    [scenario_entry_aquired 0, scenario_entry_aquired 1, scenario_entry_aquired 2,
     scenario_entry 3, scenario_entry 4, none, none, none]
    [scenario_entry_aquired 0, scenario_entry_aquired 1, scenario_entry_aquired 2,
     none, none]
    4

/-- A must-collapse of the view and model of the scenarios into the node. -/
def scenario_collapse (node_id : Nat) : action :=
  { queue_ := queue_t.MUST_COLLAPSE, view_id_ := 0, model_id_ := 0, node_id_ := node_id,
    error_ := 0 }

/-! ## A previous cut that is the children of the root, out of sight -/

/-- The kind of the collapse that `cut_analysis` emits for a complete sibling group
of which no node asks for a split: with the parent outside the frustum,
must-collapse when must-collapse-outside-frustum is enabled and
collapse-on-need when it is not; with the parent inside, collapse-on-need
under a freshness timeout, else must-collapse when every sibling error is
below the minimum threshold and maybe-collapse when one is not. -/
def cut_update_pool.group_collapse_kind (cfg : config) (inp : frame_input)
    (p : cut_update_pool) (v m parent : Nat) (siblings : List Nat) : queue_t :=
  if inp.node_in_frustum v m parent = false then
    if cfg.LAMURE_CUT_UPDATE_MUST_COLLAPSE_OUTSIDE_FRUSTUM = true then queue_t.MUST_COLLAPSE
    else queue_t.COLLAPSE_ON_NEED
  else if cut_update_pool.freshness_timeout cfg p m = true then queue_t.COLLAPSE_ON_NEED
  else if ∀ s ∈ siblings, inp.node_error v m s < p.min_error_threshold m then
    queue_t.MUST_COLLAPSE
  else queue_t.MAYBE_COLLAPSE

/-- Every queued action of the view and model is a collapse into the root and sits
in the queue of its kind. -/
def only_root_collapses (v m : Nat) (idx : cut_update_index) : Prop :=
  ∀ q, ∀ a ∈ idx.action_queues_ q, action_of v m a →
    a.queue_ = q ∧ a.node_id_ = 0 ∧ q ≠ queue_t.KEEP ∧ q ≠ queue_t.MUST_SPLIT

/-- What holds of a view and model whose previous cut is the children of the root
and for which the analysis asks for their collapse, all through `cut_update`:
every queued action of the pair is a collapse into the root; all children of the
root exist; the current cut of the pair is empty or the children of the root,
and it is the children of the root unless an action of the pair is still
queued. -/
structure root_group_invariant (v m : Nat) (idx : cut_update_index) : Prop where
  collapses : only_root_collapses v m idx
  valid : ∀ i, i < idx.fan_factor m → 0 * idx.fan_factor m + 1 + i < idx.num_nodes m
  cut : idx.get_current_cut v m = [] ∨ idx.get_current_cut v m = idx.get_all_children m 0
  pending : idx.get_current_cut v m = idx.get_all_children m 0 ∨
    ∃ a ∈ idx.all_actions, action_of v m a

/-- The collaborators of the scenarios with the bounding box of the root inside the
frustum and every other node outside. -/
def children_hidden_input (node_error : Nat → ℚ) : frame_input :=
  { scenario_input node_error with node_in_frustum := fun _ _ n => decide (n = 0) }

/-! ## Properties of the semaphore -/

/-- Helper: `k` signals of one on a barrier of `n` count up to `k` while `k ≤ n`. -/
theorem semaphore.signal_once_repeated_barrier_le (n : Nat) (hn : n < size_t_modulus) :
    ∀ k, k ≤ n → semaphore.signal_once_repeated k (semaphore.barrier n)
      = { semaphore.barrier n with signal_count_ := k } := by
  intro k
  induction k with
  | zero => intro _; rfl
  | succ k ih =>
    intro hk
    have hk' : k ≤ n := Nat.le_of_succ_le hk
    have hlt : k + 1 < size_t_modulus := lt_of_le_of_lt hk hn
    simp only [semaphore.signal_once_repeated, ih hk', semaphore.signal]
    rw [Nat.mod_eq_of_lt hlt]
    simp [semaphore.barrier, hk]

/-- Helper: beyond `n` signals the barrier count stays at `n`, as long as
`n + 1` does not wrap. -/
theorem semaphore.signal_once_repeated_barrier_ge (n : Nat) (hn : n + 1 < size_t_modulus) :
    ∀ k, n ≤ k → semaphore.signal_once_repeated k (semaphore.barrier n)
      = { semaphore.barrier n with signal_count_ := n } := by
  intro k hk
  induction k with
  | zero =>
    have : n = 0 := Nat.le_zero.mp hk
    subst this; rfl
  | succ k ih =>
    rcases Nat.lt_or_ge k n with hlt | hge
    · have : k + 1 = n := by omega
      rw [this]
      exact semaphore.signal_once_repeated_barrier_le n (by omega) n le_rfl
    · simp only [semaphore.signal_once_repeated, ih hge, semaphore.signal]
      rw [Nat.mod_eq_of_lt hn]
      simp [semaphore.barrier]

/-- C4: for a semaphore that is not shut down, `wait()` completes exactly when
`signal_count_ >= min_signal_count_`, and the state it leaves has the count
decreased by exactly `min_signal_count_` and all other members unchanged. -/
theorem C4_wait_completes_iff_and_decrements (s : semaphore) (h : s.shutdown_ = false) :
    ((s.wait).isSome = true ↔ s.signal_count_ ≥ s.min_signal_count_) ∧
    ∀ s', s.wait = some s' →
      s'.signal_count_ + s.min_signal_count_ = s.signal_count_ ∧
      s'.min_signal_count_ = s.min_signal_count_ ∧
      s'.max_signal_count_ = s.max_signal_count_ ∧
      s'.shutdown_ = s.shutdown_ := by
  constructor
  · simp [semaphore.wait, semaphore.wait_guard, h]
  · intro s' hs'
    by_cases hge : s.signal_count_ ≥ s.min_signal_count_
    · simp [semaphore.wait, semaphore.wait_guard, semaphore.wait_body, h, hge] at hs'
      subst hs'
      exact ⟨Nat.sub_add_cancel hge, rfl, rfl, h.symm⟩
    · simp [semaphore.wait, semaphore.wait_guard, h, hge] at hs'

/-- Witness of C4: a work semaphore with three pending signals and
`min_signal_count_ = 2`. -/
theorem C4_wait_completes_iff_and_decrements_witness :
    (({ signal_count_ := 3, shutdown_ := false, min_signal_count_ := 2,
        max_signal_count_ := 5 } : semaphore).wait).isSome = true ∧
    ({ signal_count_ := 3, shutdown_ := false, min_signal_count_ := 2,
        max_signal_count_ := 5 } : semaphore).wait
      = some { signal_count_ := 1, shutdown_ := false, min_signal_count_ := 2,
               max_signal_count_ := 5 } :=
  ⟨((C4_wait_completes_iff_and_decrements
      { signal_count_ := 3, shutdown_ := false, min_signal_count_ := 2,
        max_signal_count_ := 5 } rfl).1).2 (by decide), by decide⟩

/-- C5, as stated, fails: with count 0 and `max_signal_count_ = 2`, `signal(3)`
leaves the count at 0, not at `min (0 + 3) 2 = 2`. -/
theorem C5_signal_does_not_saturate :
    (0 : Nat) ≤ 2 ∧
    (semaphore.signal
        { signal_count_ := 0, shutdown_ := false, min_signal_count_ := 1,
          max_signal_count_ := 2 } 3).signal_count_ = 0 ∧
    (semaphore.signal
        { signal_count_ := 0, shutdown_ := false, min_signal_count_ := 1,
          max_signal_count_ := 2 } 3).signal_count_ ≠ min (0 + 3) 2 := by
  decide

/-- C5 (amended): for a count `c ≤ max_signal_count_`, `signal(n)` adds `n` to
the count when `c + n ≤ max_signal_count_`; when `c + n` exceeds
`max_signal_count_` (and does not wrap) the count is left unchanged, the signal
is dropped; in every case the count stays at most `max_signal_count_`. -/
theorem C5_signal_adds_or_drops (s : semaphore) (n : Nat)
    (hc : s.signal_count_ ≤ s.max_signal_count_)
    (hmax : s.max_signal_count_ < size_t_modulus) :
    (s.signal_count_ + n ≤ s.max_signal_count_ →
      (s.signal n).signal_count_ = s.signal_count_ + n) ∧
    (s.max_signal_count_ < s.signal_count_ + n → s.signal_count_ + n < size_t_modulus →
      (s.signal n).signal_count_ = s.signal_count_) ∧
    (s.signal n).signal_count_ ≤ s.max_signal_count_ ∧
    (s.signal n).max_signal_count_ = s.max_signal_count_ := by
  refine ⟨?_, ?_, ?_, ?_⟩
  · intro hle
    have hlt : s.signal_count_ + n < size_t_modulus := lt_of_le_of_lt hle hmax
    simp [semaphore.signal, Nat.mod_eq_of_lt hlt, hle]
  · intro hgt hlt
    simp [semaphore.signal, Nat.mod_eq_of_lt hlt, Nat.not_le.mpr hgt]
  · unfold semaphore.signal
    split
    · assumption
    · exact hc
  · unfold semaphore.signal
    split <;> rfl

/-- Witness of C5 (amended). -/
theorem C5_signal_adds_or_drops_witness :
    (({ signal_count_ := 1, shutdown_ := false, min_signal_count_ := 1,
        max_signal_count_ := 4 } : semaphore).signal 2).signal_count_ = 1 + 2 :=
  (C5_signal_adds_or_drops
    { signal_count_ := 1, shutdown_ := false, min_signal_count_ := 1, max_signal_count_ := 4 }
    2 (by decide) (by decide)).1 (by decide)

/-- C6, as stated, fails: after `shutdown()` a `wait()` on a semaphore with
count 1 and `min_signal_count_ = 1` returns and leaves the count at 0. -/
theorem C6_wait_after_shutdown_decrements :
    ((({ signal_count_ := 1, shutdown_ := false, min_signal_count_ := 1,
         max_signal_count_ := 1 } : semaphore).shutdown).wait).map semaphore.signal_count_
      = some 0 := by
  decide

/-- C6 (amended): after `shutdown()` every `wait()` returns without blocking;
it leaves the count unchanged when `signal_count_ < min_signal_count_` and
decreased by `min_signal_count_` when `signal_count_ >= min_signal_count_`. -/
theorem C6_wait_after_shutdown (s : semaphore) :
    ∃ s', (s.shutdown).wait = some s' ∧
      s'.shutdown_ = true ∧
      s'.min_signal_count_ = s.min_signal_count_ ∧
      s'.max_signal_count_ = s.max_signal_count_ ∧
      (s.signal_count_ < s.min_signal_count_ → s'.signal_count_ = s.signal_count_) ∧
      (s.signal_count_ ≥ s.min_signal_count_ →
        s'.signal_count_ = s.signal_count_ - s.min_signal_count_) := by
  refine ⟨(s.shutdown).wait_body, ?_, ?_, ?_, ?_, ?_, ?_⟩
  · simp [semaphore.wait, semaphore.wait_guard, semaphore.shutdown]
  all_goals
    simp only [semaphore.wait_body, semaphore.shutdown]
    split <;> first | rfl | (intro h; simp at *; omega) | (intro h; rfl)

/-- C7, as stated, fails at the largest `size_t`: for `N = 2 ^ 64 - 1` the
count wraps to 0 on the `(N + 1)`-th `signal(1)`, so after `k = 2 ^ 64 ≥ N`
signals the guard of `wait()` does not hold. -/
theorem C7_barrier_wraps_at_size_max :
    (2 ^ 64 - 1 : Nat) ≤ (2 ^ 64 - 1) + 1 ∧
    (semaphore.signal_once_repeated ((2 ^ 64 - 1) + 1) (semaphore.barrier (2 ^ 64 - 1))).wait_guard
      = false := by
  refine ⟨Nat.le_succ _, ?_⟩
  have key : ∀ n, n + 1 = size_t_modulus → 1 ≤ n →
      (semaphore.signal_once_repeated (n + 1) (semaphore.barrier n)).wait_guard = false := by
    intro n hn h1
    have h := semaphore.signal_once_repeated_barrier_le n (by omega) n le_rfl
    have hm : (n + 1) % size_t_modulus = 0 := by rw [hn]; exact Nat.mod_self _
    rw [semaphore.signal_once_repeated, h]
    simp only [semaphore.signal, semaphore.barrier, semaphore.wait_guard, hm]
    simp
    omega
  exact key (2 ^ 64 - 1) (by norm_num [size_t_modulus]) (by norm_num)

/-- C7 (amended): barrier use with `min_signal_count_ = max_signal_count_ = N`,
`N < 2 ^ 64 - 1` (every `N ≥ 1` below the largest `size_t`), count 0 and no shutdown: after `k` calls of `signal(1)`
the guard of `wait()` holds iff `k ≥ N`, and after exactly `N` calls of
`signal(1)` one `wait()` completes and leaves the count at 0. -/
theorem C7_barrier (N : Nat) (hN : N + 1 < size_t_modulus) :
    (∀ k, (semaphore.signal_once_repeated k (semaphore.barrier N)).wait_guard = true ↔ k ≥ N) ∧
    ∃ s', (semaphore.signal_once_repeated N (semaphore.barrier N)).wait = some s' ∧
      s'.signal_count_ = 0 := by
  constructor
  · intro k
    rcases Nat.lt_or_ge k N with hlt | hge
    · rw [semaphore.signal_once_repeated_barrier_le N (by omega) k (le_of_lt hlt)]
      simp [semaphore.wait_guard, semaphore.barrier, hlt]
    · rw [semaphore.signal_once_repeated_barrier_ge N hN k hge]
      simp [semaphore.wait_guard, semaphore.barrier, hge]
  · rw [semaphore.signal_once_repeated_barrier_le N (by omega) N le_rfl]
    refine ⟨{ semaphore.barrier N with signal_count_ := 0 }, ?_, rfl⟩
    simp [semaphore.wait, semaphore.wait_guard, semaphore.wait_body, semaphore.barrier]

/-- Witness of C7 (amended): a barrier over three workers. -/
theorem C7_barrier_witness :
    (semaphore.signal_once_repeated 3 (semaphore.barrier 3)).wait_guard = true ∧
    (semaphore.signal_once_repeated 2 (semaphore.barrier 3)).wait_guard = false :=
  ⟨((C7_barrier 3 (by norm_num [size_t_modulus])).1 3).2 (le_refl 3),
   by decide⟩


/-! ## Lemmas on sets, the index and the pool -/

theorem mem_set_insert (x n : Nat) (s : List Nat) : x ∈ set_insert n s ↔ x = n ∨ x ∈ s := by
  unfold set_insert
  split
  · constructor
    · intro h; exact Or.inr h
    · rintro (h | h)
      · subst h; assumption
      · exact h
  · simp [List.mem_orderedInsert]

theorem mem_set_insert_all (x : Nat) (ns s : List Nat) :
    x ∈ set_insert_all ns s ↔ x ∈ ns ∨ x ∈ s := by
  unfold set_insert_all
  induction ns generalizing s with
  | nil => simp
  | cons n ns ih =>
    simp only [List.foldl_cons, ih, mem_set_insert, List.mem_cons]
    tauto

theorem set_queue_other (qs : queue_t → List action) (q q' : queue_t) (l : List action)
    (h : q' ≠ q) : set_queue qs q l q' = qs q' := by
  simp [set_queue, h]

namespace cut_update_index

theorem approve_action_eq (idx : cut_update_index) (a : action) :
    idx.approve_action a = idx.add_to_current_cut a.view_id_ a.model_id_ (idx.approved_nodes a) := by
  unfold approve_action approved_nodes
  cases a.queue_ <;> rfl

theorem reject_action_eq (idx : cut_update_index) (a : action) :
    idx.reject_action a = idx.add_to_current_cut a.view_id_ a.model_id_ (idx.rejected_nodes a) := by
  unfold reject_action rejected_nodes
  cases a.queue_ <;> rfl

theorem mem_add_to_current_cut (idx : cut_update_index) (v m : Nat) (ns : List Nat)
    (v' m' x : Nat) :
    x ∈ (idx.add_to_current_cut v m ns).get_current_cut v' m' ↔
      (x ∈ idx.get_current_cut v' m' ∨ (v' = v ∧ m' = m ∧ x ∈ ns)) := by
  unfold add_to_current_cut get_current_cut set_cut
  by_cases h : v' = v ∧ m' = m
  · obtain ⟨rfl, rfl⟩ := h
    simp [mem_set_insert_all]
    tauto
  · simp only [h, if_false]
    constructor
    · intro hx; exact Or.inl hx
    · rintro (hx | ⟨h1, h2, _⟩)
      · exact hx
      · exact absurd ⟨h1, h2⟩ h

end cut_update_index

namespace cut_update_index

@[simp] theorem add_to_current_cut_queues (idx : cut_update_index) (v m : Nat) (ns : List Nat) :
    (idx.add_to_current_cut v m ns).action_queues_ = idx.action_queues_ := rfl

@[simp] theorem add_to_current_cut_fan (idx : cut_update_index) (v m : Nat) (ns : List Nat) :
    (idx.add_to_current_cut v m ns).fan_factors_ = idx.fan_factors_ := rfl

@[simp] theorem add_to_current_cut_nodes (idx : cut_update_index) (v m : Nat) (ns : List Nat) :
    (idx.add_to_current_cut v m ns).num_nodes_ = idx.num_nodes_ := rfl

@[simp] theorem add_to_current_cut_previous (idx : cut_update_index) (v m : Nat) (ns : List Nat) :
    (idx.add_to_current_cut v m ns).previous_cut_ = idx.previous_cut_ := rfl

@[simp] theorem pop_front_action_cut (idx : cut_update_index) (q : queue_t) :
    (idx.pop_front_action q).current_cut_ = idx.current_cut_ := rfl

@[simp] theorem pop_front_action_fan (idx : cut_update_index) (q : queue_t) :
    (idx.pop_front_action q).fan_factors_ = idx.fan_factors_ := rfl

@[simp] theorem pop_front_action_nodes (idx : cut_update_index) (q : queue_t) :
    (idx.pop_front_action q).num_nodes_ = idx.num_nodes_ := rfl

@[simp] theorem pop_front_action_queues (idx : cut_update_index) (q : queue_t) :
    (idx.pop_front_action q).action_queues_
      = set_queue idx.action_queues_ q (idx.action_queues_ q).tail := rfl

@[simp] theorem Popback_action_cut (idx : cut_update_index) (q : queue_t) :
    (idx.Popback_action q).current_cut_ = idx.current_cut_ := rfl

@[simp] theorem Popback_action_fan (idx : cut_update_index) (q : queue_t) :
    (idx.Popback_action q).fan_factors_ = idx.fan_factors_ := rfl

@[simp] theorem Popback_action_nodes (idx : cut_update_index) (q : queue_t) :
    (idx.Popback_action q).num_nodes_ = idx.num_nodes_ := rfl

@[simp] theorem Popback_action_queues (idx : cut_update_index) (q : queue_t) :
    (idx.Popback_action q).action_queues_
      = set_queue idx.action_queues_ q (idx.action_queues_ q).dropLast := rfl

/-- The children of a node depend on the fan-out and the node count only. -/
theorem get_all_children_congr (idx idx' : cut_update_index)
    (hf : idx'.fan_factors_ = idx.fan_factors_) (hn : idx'.num_nodes_ = idx.num_nodes_)
    (m n : Nat) : idx'.get_all_children m n = idx.get_all_children m n := by
  unfold get_all_children get_child_id fan_factor num_nodes
  rw [hf, hn]

theorem approved_nodes_congr (idx idx' : cut_update_index)
    (hf : idx'.fan_factors_ = idx.fan_factors_) (hn : idx'.num_nodes_ = idx.num_nodes_)
    (a : action) : idx'.approved_nodes a = idx.approved_nodes a := by
  unfold approved_nodes
  rw [get_all_children_congr idx idx' hf hn]

theorem rejected_nodes_congr (idx idx' : cut_update_index)
    (hf : idx'.fan_factors_ = idx.fan_factors_) (hn : idx'.num_nodes_ = idx.num_nodes_)
    (a : action) : idx'.rejected_nodes a = idx.rejected_nodes a := by
  unfold rejected_nodes
  rw [get_all_children_congr idx idx' hf hn]

theorem collapsed_nodes_congr (idx idx' : cut_update_index)
    (hf : idx'.fan_factors_ = idx.fan_factors_) (hn : idx'.num_nodes_ = idx.num_nodes_)
    (a : action) : idx'.collapsed_nodes a = idx.collapsed_nodes a := by
  unfold collapsed_nodes
  rw [approved_nodes_congr idx idx' hf hn, rejected_nodes_congr idx idx' hf hn]

end cut_update_index

namespace cut_update_pool

@[simp] theorem aquire_children_index (p : cut_update_pool) (v m : Nat) (cs : List Nat) :
    (aquire_children p v m cs).index_ = p.index_ := by
  induction cs generalizing p with
  | nil => rfl
  | cons c cs ih => simp [aquire_children, ih]

@[simp] theorem release_children_index (p : cut_update_pool) (v m : Nat) (cs : List Nat) :
    (release_children p v m cs).index_ = p.index_ := by
  induction cs generalizing p with
  | nil => rfl
  | cons c cs ih => simp [release_children, ih]

@[simp] theorem aquire_children_context (p : cut_update_pool) (v m : Nat) (cs : List Nat) :
    (aquire_children p v m cs).context_id_ = p.context_id_ := by
  induction cs generalizing p with
  | nil => rfl
  | cons c cs ih => simp [aquire_children, ih]

@[simp] theorem release_children_context (p : cut_update_pool) (v m : Nat) (cs : List Nat) :
    (release_children p v m cs).context_id_ = p.context_id_ := by
  induction cs generalizing p with
  | nil => rfl
  | cons c cs ih => simp [release_children, ih]

@[simp] theorem pop_front_index (p : cut_update_pool) (q : queue_t) :
    (p.pop_front q).index_ = p.index_.pop_front_action q := rfl

@[simp] theorem pop_back_index (p : cut_update_pool) (q : queue_t) :
    (p.pop_back q).index_ = p.index_.Popback_action q := rfl

@[simp] theorem pop_front_context (p : cut_update_pool) (q : queue_t) :
    (p.pop_front q).context_id_ = p.context_id_ := rfl

@[simp] theorem pop_back_context (p : cut_update_pool) (q : queue_t) :
    (p.pop_back q).context_id_ = p.context_id_ := rfl

@[simp] theorem pop_front_ooc (p : cut_update_pool) (q : queue_t) :
    (p.pop_front q).ooc_cache_ = p.ooc_cache_ := rfl

@[simp] theorem pop_back_ooc (p : cut_update_pool) (q : queue_t) :
    (p.pop_back q).ooc_cache_ = p.ooc_cache_ := rfl

@[simp] theorem pop_front_gpu (p : cut_update_pool) (q : queue_t) :
    (p.pop_front q).gpu_cache_ = p.gpu_cache_ := rfl

@[simp] theorem pop_back_gpu (p : cut_update_pool) (q : queue_t) :
    (p.pop_back q).gpu_cache_ = p.gpu_cache_ := rfl

theorem collapse_node_index (p : cut_update_pool) (a : action) :
    (collapse_node p a).index_
      = p.index_.add_to_current_cut a.view_id_ a.model_id_ (p.index_.collapsed_nodes a) := by
  unfold collapse_node cut_update_index.collapsed_nodes
  split
  · simp [reject, cut_update_index.reject_action_eq]
  · simp [approve, cut_update_index.approve_action_eq]

theorem approve_index (p : cut_update_pool) (a : action) :
    (approve p a).index_
      = p.index_.add_to_current_cut a.view_id_ a.model_id_ (p.index_.approved_nodes a) := by
  simp [approve, cut_update_index.approve_action_eq]

theorem reject_index (p : cut_update_pool) (a : action) :
    (reject p a).index_
      = p.index_.add_to_current_cut a.view_id_ a.model_id_ (p.index_.rejected_nodes a) := by
  simp [reject, cut_update_index.reject_action_eq]

/-- A drain loop whose handler commits the nodes `out` of each action: the queue
loses as many actions as the loop handles, the other queues and the tree are
untouched, and the current cuts gain exactly the committed nodes. -/
theorem drain_queue_spec (q : queue_t) (h : cut_update_pool → action → cut_update_pool)
    (out : cut_update_index → action → List Nat)
    (hres : ∀ p a, (h p a).index_
      = p.index_.add_to_current_cut a.view_id_ a.model_id_ (out p.index_ a))
    (hcongr : ∀ idx idx' : cut_update_index, idx'.fan_factors_ = idx.fan_factors_ →
      idx'.num_nodes_ = idx.num_nodes_ → ∀ a, out idx' a = out idx a)
    (l : List action) (p : cut_update_pool) :
    (drain_queue q h l p).index_.fan_factors_ = p.index_.fan_factors_ ∧
    (drain_queue q h l p).index_.num_nodes_ = p.index_.num_nodes_ ∧
    (drain_queue q h l p).index_.action_queues_
      = set_queue p.index_.action_queues_ q ((p.index_.action_queues_ q).drop l.length) ∧
    ∀ v m x, x ∈ (drain_queue q h l p).index_.get_current_cut v m ↔
      (x ∈ p.index_.get_current_cut v m ∨
        ∃ a ∈ l, a.view_id_ = v ∧ a.model_id_ = m ∧ x ∈ out p.index_ a) := by
  induction l generalizing p with
  | nil =>
    refine ⟨rfl, rfl, ?_, ?_⟩
    · funext q'
      by_cases hq : q' = q
      · subst hq; simp [set_queue, drain_queue]
      · simp [set_queue, hq, drain_queue]
    · intro v m x; simp [drain_queue]
  | cons a l ih =>
    obtain ⟨h1, h2, h3, h4⟩ := ih (h (p.pop_front q) a)
    have hidx := hres (p.pop_front q) a
    simp only [pop_front_index] at hidx
    refine ⟨?_, ?_, ?_, ?_⟩
    · rw [drain_queue, h1, hidx]; rfl
    · rw [drain_queue, h2, hidx]; rfl
    · rw [drain_queue, h3, hidx]
      funext q'
      by_cases hq : q' = q
      · subst hq; simp [set_queue, List.drop_tail]
      · simp [set_queue, hq]
    · intro v m x
      rw [drain_queue, h4 v m x, hidx]
      have hout : ∀ ns b, out ((p.index_.pop_front_action q).add_to_current_cut a.view_id_
          a.model_id_ ns) b = out p.index_ b :=
        fun ns b => hcongr p.index_ ((p.index_.pop_front_action q).add_to_current_cut a.view_id_
          a.model_id_ ns) rfl rfl b
      have hout' : out (p.index_.pop_front_action q) a = out p.index_ a :=
        hcongr p.index_ (p.index_.pop_front_action q) rfl rfl a
      simp only [hout, cut_update_index.mem_add_to_current_cut, hout', List.mem_cons]
      have : (p.index_.pop_front_action q).get_current_cut v m = p.index_.get_current_cut v m :=
        rfl
      rw [this]
      constructor
      · rintro ((hx | ⟨rfl, rfl, hx⟩) | ⟨b, hb, hv, hm, hx⟩)
        · exact Or.inl hx
        · exact Or.inr ⟨a, Or.inl rfl, rfl, rfl, hx⟩
        · exact Or.inr ⟨b, Or.inr hb, hv, hm, hx⟩
      · rintro (hx | ⟨b, (rfl | hb), hv, hm, hx⟩)
        · exact Or.inl (Or.inl hx)
        · exact Or.inl (Or.inr ⟨hv.symm, hm.symm, hx⟩)
        · exact Or.inr ⟨b, hb, hv, hm, hx⟩

end cut_update_pool

namespace cut_update_pool

@[simp] theorem compile_render_list_index (p : cut_update_pool) :
    (compile_render_list p).index_ = p.index_ := rfl

@[simp] theorem compile_transfer_list_index (inp : frame_input) (p : cut_update_pool) :
    (compile_transfer_list inp p).index_ = p.index_ := rfl

/-- The four final loops of `cut_update` together: the tree is untouched, the
split queue is untouched and the four other queues are empty, and the current
cuts gain the nodes `collapse_node` commits for the must-collapse actions, the
nodes reinstated for the collapse-on-need and maybe-collapse actions and the
nodes of the keep actions. -/
theorem cut_update_drain_spec (p : cut_update_pool) :
    (cut_update_drain p).index_.fan_factors_ = p.index_.fan_factors_ ∧
    (cut_update_drain p).index_.num_nodes_ = p.index_.num_nodes_ ∧
    (∀ q, (cut_update_drain p).index_.action_queues_ q
      = if q = queue_t.MUST_SPLIT then p.index_.action_queues_ queue_t.MUST_SPLIT else []) ∧
    ∀ v m x, x ∈ (cut_update_drain p).index_.get_current_cut v m ↔
      (x ∈ p.index_.get_current_cut v m ∨
        (∃ a ∈ p.index_.action_queues_ queue_t.MUST_COLLAPSE,
          a.view_id_ = v ∧ a.model_id_ = m ∧ x ∈ p.index_.collapsed_nodes a) ∨
        (∃ a ∈ p.index_.action_queues_ queue_t.COLLAPSE_ON_NEED,
          a.view_id_ = v ∧ a.model_id_ = m ∧ x ∈ p.index_.rejected_nodes a) ∨
        (∃ a ∈ p.index_.action_queues_ queue_t.MAYBE_COLLAPSE,
          a.view_id_ = v ∧ a.model_id_ = m ∧ x ∈ p.index_.rejected_nodes a) ∨
        (∃ a ∈ p.index_.action_queues_ queue_t.KEEP,
          a.view_id_ = v ∧ a.model_id_ = m ∧ x ∈ p.index_.approved_nodes a)) := by
  obtain ⟨p1, hp1⟩ : ∃ p1, p1 = drain_queue queue_t.MUST_COLLAPSE collapse_node
    (p.index_.action_queues_ queue_t.MUST_COLLAPSE) p := ⟨_, rfl⟩
  obtain ⟨p2, hp2⟩ : ∃ p2, p2 = drain_queue queue_t.COLLAPSE_ON_NEED reject
    (p1.index_.action_queues_ queue_t.COLLAPSE_ON_NEED) p1 := ⟨_, rfl⟩
  obtain ⟨p3, hp3⟩ : ∃ p3, p3 = drain_queue queue_t.MAYBE_COLLAPSE reject
    (p2.index_.action_queues_ queue_t.MAYBE_COLLAPSE) p2 := ⟨_, rfl⟩
  obtain ⟨p4, hp4⟩ : ∃ p4, p4 = drain_queue queue_t.KEEP approve
    (p3.index_.action_queues_ queue_t.KEEP) p3 := ⟨_, rfl⟩
  have e : cut_update_drain p = p4 := by
    rw [hp4, hp3, hp2, hp1]; rfl
  obtain ⟨a1, a2, a3, a4⟩ := drain_queue_spec queue_t.MUST_COLLAPSE collapse_node
    cut_update_index.collapsed_nodes collapse_node_index
    (fun idx idx' hf hn a => cut_update_index.collapsed_nodes_congr idx idx' hf hn a)
    (p.index_.action_queues_ queue_t.MUST_COLLAPSE) p
  rw [← hp1] at a1 a2 a3 a4
  obtain ⟨b1, b2, b3, b4⟩ := drain_queue_spec queue_t.COLLAPSE_ON_NEED reject
    cut_update_index.rejected_nodes reject_index
    (fun idx idx' hf hn a => cut_update_index.rejected_nodes_congr idx idx' hf hn a)
    (p1.index_.action_queues_ queue_t.COLLAPSE_ON_NEED) p1
  rw [← hp2] at b1 b2 b3 b4
  obtain ⟨c1, c2, c3, c4⟩ := drain_queue_spec queue_t.MAYBE_COLLAPSE reject
    cut_update_index.rejected_nodes reject_index
    (fun idx idx' hf hn a => cut_update_index.rejected_nodes_congr idx idx' hf hn a)
    (p2.index_.action_queues_ queue_t.MAYBE_COLLAPSE) p2
  rw [← hp3] at c1 c2 c3 c4
  obtain ⟨d1, d2, d3, d4⟩ := drain_queue_spec queue_t.KEEP approve
    cut_update_index.approved_nodes approve_index
    (fun idx idx' hf hn a => cut_update_index.approved_nodes_congr idx idx' hf hn a)
    (p3.index_.action_queues_ queue_t.KEEP) p3
  rw [← hp4] at d1 d2 d3 d4
  rw [e]
  have f1 : p1.index_.fan_factors_ = p.index_.fan_factors_ := a1
  have f2 : p2.index_.fan_factors_ = p.index_.fan_factors_ := b1.trans f1
  have f3 : p3.index_.fan_factors_ = p.index_.fan_factors_ := c1.trans f2
  have n1 : p1.index_.num_nodes_ = p.index_.num_nodes_ := a2
  have n2 : p2.index_.num_nodes_ = p.index_.num_nodes_ := b2.trans n1
  have n3 : p3.index_.num_nodes_ = p.index_.num_nodes_ := c2.trans n2
  have q1 : ∀ q, p1.index_.action_queues_ q
      = if q = queue_t.MUST_COLLAPSE then [] else p.index_.action_queues_ q := by
    intro q; rw [a3]; simp [set_queue]
  have q2 : ∀ q, p2.index_.action_queues_ q = if q = queue_t.COLLAPSE_ON_NEED then []
      else if q = queue_t.MUST_COLLAPSE then [] else p.index_.action_queues_ q := by
    intro q; rw [b3]; simp only [set_queue, List.drop_length, q1]
  have q3 : ∀ q, p3.index_.action_queues_ q = if q = queue_t.MAYBE_COLLAPSE then []
      else if q = queue_t.COLLAPSE_ON_NEED then []
      else if q = queue_t.MUST_COLLAPSE then [] else p.index_.action_queues_ q := by
    intro q; rw [c3]; simp only [set_queue, List.drop_length, q2]
  refine ⟨d1.trans f3, d2.trans n3, ?_, ?_⟩
  · intro q
    rw [d3]
    simp only [set_queue, List.drop_length, q3]
    cases q <;> simp
  · intro v m x
    rw [d4 v m x, c4 v m x, b4 v m x, a4 v m x]
    have k1 : p1.index_.action_queues_ queue_t.COLLAPSE_ON_NEED
        = p.index_.action_queues_ queue_t.COLLAPSE_ON_NEED := by rw [q1]; simp
    have k2 : p2.index_.action_queues_ queue_t.MAYBE_COLLAPSE
        = p.index_.action_queues_ queue_t.MAYBE_COLLAPSE := by rw [q2]; simp
    have k3 : p3.index_.action_queues_ queue_t.KEEP
        = p.index_.action_queues_ queue_t.KEEP := by rw [q3]; simp
    rw [k1, k2, k3]
    have o1 : ∀ a, p1.index_.rejected_nodes a = p.index_.rejected_nodes a :=
      fun a => cut_update_index.rejected_nodes_congr p.index_ p1.index_ f1 n1 a
    have o2 : ∀ a, p2.index_.rejected_nodes a = p.index_.rejected_nodes a :=
      fun a => cut_update_index.rejected_nodes_congr p.index_ p2.index_ f2 n2 a
    have o3 : ∀ a, p3.index_.approved_nodes a = p.index_.approved_nodes a :=
      fun a => cut_update_index.approved_nodes_congr p.index_ p3.index_ f3 n3 a
    simp only [o1, o2, o3, or_assoc]

end cut_update_pool

/-! ## Lemmas on the hierarchy -/

theorem tree_parent_le (F n : Nat) : tree_parent F n ≤ n := by
  unfold tree_parent
  exact le_trans (Nat.div_le_self _ _) (Nat.sub_le _ _)

theorem tree_parent_child (F n i : Nat) (hi : i < F) : tree_parent F (n * F + 1 + i) = n := by
  unfold tree_parent
  have h : n * F + 1 + i - 1 = i + F * n := by
    have : n * F = F * n := Nat.mul_comm _ _
    omega
  rw [h, Nat.add_mul_div_left _ _ (by omega : 0 < F), Nat.div_eq_of_lt hi, Nat.zero_add]

/-- A node other than the root is a child of its parent. -/
theorem tree_child_of_parent (F n : Nat) (hF : 1 ≤ F) (hn : 0 < n) :
    ∃ i, i < F ∧ n = tree_parent F n * F + 1 + i := by
  refine ⟨(n - 1) % F, Nat.mod_lt _ (by omega), ?_⟩
  unfold tree_parent
  have := Nat.div_add_mod (n - 1) F
  have h2 : (n - 1) / F * F = F * ((n - 1) / F) := Nat.mul_comm _ _
  omega

theorem tree_parent_lt (F n : Nat) (hF : 1 ≤ F) (hn : 0 < n) : tree_parent F n < n := by
  obtain ⟨i, _, h⟩ := tree_child_of_parent F n hF hn
  have : tree_parent F n ≤ tree_parent F n * F := Nat.le_mul_of_pos_right _ (by omega)
  omega

theorem ancestor_refl (F a : Nat) : is_ancestor_or_self F a a := ⟨0, rfl⟩

theorem ancestor_parent (F x : Nat) : is_ancestor_or_self F (tree_parent F x) x := ⟨1, rfl⟩

theorem ancestor_trans (F a b c : Nat) (h1 : is_ancestor_or_self F a b)
    (h2 : is_ancestor_or_self F b c) : is_ancestor_or_self F a c := by
  obtain ⟨k, hk⟩ := h1
  obtain ⟨j, hj⟩ := h2
  refine ⟨k + j, ?_⟩
  rw [Function.iterate_add_apply, hj, hk]

theorem ancestor_le (F a x : Nat) (h : is_ancestor_or_self F a x) : a ≤ x := by
  obtain ⟨k, hk⟩ := h
  induction k generalizing x with
  | zero => simp at hk; omega
  | succ k ih =>
    rw [Function.iterate_succ_apply] at hk
    exact le_trans (ih _ hk) (tree_parent_le F x)

/-- The ancestors of a node form a chain. -/
theorem ancestor_chain (F a b x : Nat) (ha : is_ancestor_or_self F a x)
    (hb : is_ancestor_or_self F b x) :
    is_ancestor_or_self F a b ∨ is_ancestor_or_self F b a := by
  obtain ⟨k, hk⟩ := ha
  obtain ⟨j, hj⟩ := hb
  rcases Nat.le_total k j with h | h
  · right
    refine ⟨j - k, ?_⟩
    rw [← hk, ← Function.iterate_add_apply, Nat.sub_add_cancel h, hj]
  · left
    refine ⟨k - j, ?_⟩
    rw [← hj, ← Function.iterate_add_apply, Nat.sub_add_cancel h, hk]

/-- A proper ancestor of a node is the parent of the node or an ancestor of it. -/
theorem ancestor_of_parent (F a x : Nat) (h : is_ancestor_or_self F a x) (hne : a ≠ x) :
    is_ancestor_or_self F a (tree_parent F x) := by
  obtain ⟨k, hk⟩ := h
  cases k with
  | zero => simp at hk; exact absurd hk.symm hne
  | succ k =>
    rw [Function.iterate_succ_apply] at hk
    exact ⟨k, hk⟩

/-- A proper ancestor of a node is an ancestor of, or is, a child of itself that
lies above the node. -/
theorem ancestor_through_child (F a x : Nat) (hF : 1 ≤ F) (h : is_ancestor_or_self F a x)
    (hne : a ≠ x) : ∃ i, i < F ∧ is_ancestor_or_self F (a * F + 1 + i) x := by
  obtain ⟨k, hk⟩ := h
  induction k generalizing x with
  | zero => simp at hk; exact absurd hk.symm hne
  | succ k ih =>
    rw [Function.iterate_succ_apply] at hk
    by_cases hpx : a = tree_parent F x
    · have hx : 0 < x := by
        rcases Nat.eq_zero_or_pos x with h0 | h0
        · subst h0
          have : tree_parent F 0 = 0 := by simp [tree_parent]
          rw [this] at hpx
          exact absurd hpx hne
        · exact h0
      obtain ⟨i, hi, hxi⟩ := tree_child_of_parent F x hF hx
      refine ⟨i, hi, ?_⟩
      rw [hpx, ← hxi]
      exact ancestor_refl F x
    · obtain ⟨i, hi, hanc⟩ := ih (tree_parent F x) hpx hk
      exact ⟨i, hi, ancestor_trans F _ _ _ hanc (ancestor_parent F x)⟩

theorem ancestor_child (F n i : Nat) (hi : i < F) : is_ancestor_or_self F n (n * F + 1 + i) := by
  have := ancestor_parent F (n * F + 1 + i)
  rwa [tree_parent_child F n i hi] at this

theorem child_gt (F n i : Nat) (hF : 1 ≤ F) : n < n * F + 1 + i := by
  have : n ≤ n * F := Nat.le_mul_of_pos_right _ (by omega)
  omega

theorem incomparable_symm (F a b : Nat) (h : incomparable F a b) : incomparable F b a :=
  ⟨h.2, h.1⟩

/-- Two nodes below incomparable nodes are incomparable. -/
theorem incomparable_below (F s t x y : Nat) (h : incomparable F s t)
    (hx : is_ancestor_or_self F s x) (hy : is_ancestor_or_self F t y) :
    ¬ is_ancestor_or_self F x y := by
  intro hxy
  rcases ancestor_chain F s t y (ancestor_trans F _ _ _ hx hxy) hy with h1 | h1
  · exact h.1 h1
  · exact h.2 h1

/-! ## Lemmas on the transitions of `cut_update` -/

theorem perm_insert_mid {α : Type} (A B C : List α) (a : α) (l : List α)
    (h : List.Perm B (a :: l)) : List.Perm (A ++ (B ++ C)) (a :: (A ++ (l ++ C))) := by
  have h1 : List.Perm (B ++ C) (a :: (l ++ C)) := by
    simpa using List.Perm.append_right C h
  exact (List.Perm.append_left A h1).trans List.perm_middle

namespace cut_update_index

/-- Removing one action from a queue removes it from the list of all actions. -/
theorem all_actions_perm_remove (idx : cut_update_index) (q : queue_t) (a : action)
    (rest : List action) (h : List.Perm (idx.action_queues_ q) (a :: rest)) :
    List.Perm idx.all_actions (a :: (idx.with_queue q rest).all_actions) := by
  cases q
  · simpa [all_actions, with_queue, set_queue] using
      perm_insert_mid [] _ (idx.action_queues_ queue_t.MUST_SPLIT ++
        (idx.action_queues_ queue_t.MUST_COLLAPSE ++
          (idx.action_queues_ queue_t.COLLAPSE_ON_NEED ++
            idx.action_queues_ queue_t.MAYBE_COLLAPSE))) a rest h
  · simpa [all_actions, with_queue, set_queue] using
      perm_insert_mid (idx.action_queues_ queue_t.KEEP) _
        (idx.action_queues_ queue_t.MUST_COLLAPSE ++
          (idx.action_queues_ queue_t.COLLAPSE_ON_NEED ++
            idx.action_queues_ queue_t.MAYBE_COLLAPSE)) a rest h
  · have := perm_insert_mid (idx.action_queues_ queue_t.KEEP ++
        idx.action_queues_ queue_t.MUST_SPLIT) _
        (idx.action_queues_ queue_t.COLLAPSE_ON_NEED ++
            idx.action_queues_ queue_t.MAYBE_COLLAPSE) a rest h
    simpa [all_actions, with_queue, set_queue, List.append_assoc] using this
  · have := perm_insert_mid (idx.action_queues_ queue_t.KEEP ++
        (idx.action_queues_ queue_t.MUST_SPLIT ++ idx.action_queues_ queue_t.MUST_COLLAPSE)) _
        (idx.action_queues_ queue_t.MAYBE_COLLAPSE) a rest h
    simpa [all_actions, with_queue, set_queue, List.append_assoc] using this
  · have := perm_insert_mid (idx.action_queues_ queue_t.KEEP ++
        (idx.action_queues_ queue_t.MUST_SPLIT ++ (idx.action_queues_ queue_t.MUST_COLLAPSE ++
          idx.action_queues_ queue_t.COLLAPSE_ON_NEED))) _ [] a rest h
    simpa [all_actions, with_queue, set_queue, List.append_assoc] using this

theorem front_action_perm (idx : cut_update_index) (q : queue_t) (a : action)
    (h : idx.front_action q = some a) :
    List.Perm (idx.action_queues_ q) (a :: (idx.action_queues_ q).tail) ∧
      idx.pop_front_action q = idx.with_queue q (idx.action_queues_ q).tail := by
  unfold front_action at h
  cases hq : idx.action_queues_ q with
  | nil => rw [hq] at h; simp at h
  | cons b rest =>
    rw [hq] at h
    simp at h
    subst h
    exact ⟨List.Perm.refl _, by simp [pop_front_action, with_queue, hq]⟩

theorem back_action_perm (idx : cut_update_index) (q : queue_t) (a : action)
    (h : idx.back_action q = some a) :
    List.Perm (idx.action_queues_ q) (a :: (idx.action_queues_ q).dropLast) ∧
      idx.Popback_action q = idx.with_queue q (idx.action_queues_ q).dropLast := by
  unfold back_action at h
  refine ⟨?_, rfl⟩
  have hne : idx.action_queues_ q ≠ [] := by
    intro h0; rw [h0] at h; simp at h
  have hl : (idx.action_queues_ q).getLast hne = a := by
    rw [List.getLast?_eq_getLast _ hne] at h
    exact Option.some.inj h
  have := List.dropLast_append_getLast hne
  rw [hl] at this
  conv_lhs => rw [← this]
  exact List.perm_append_comm

end cut_update_index

namespace cut_update_index

@[simp] theorem with_queue_approved_nodes (idx : cut_update_index) (q : queue_t)
    (l : List action) (a : action) :
    (idx.with_queue q l).approved_nodes a = idx.approved_nodes a :=
  approved_nodes_congr idx (idx.with_queue q l) rfl rfl a

@[simp] theorem with_queue_rejected_nodes (idx : cut_update_index) (q : queue_t)
    (l : List action) (a : action) :
    (idx.with_queue q l).rejected_nodes a = idx.rejected_nodes a :=
  rejected_nodes_congr idx (idx.with_queue q l) rfl rfl a

@[simp] theorem with_queue_collapsed_nodes (idx : cut_update_index) (q : queue_t)
    (l : List action) (a : action) :
    (idx.with_queue q l).collapsed_nodes a = idx.collapsed_nodes a :=
  collapsed_nodes_congr idx (idx.with_queue q l) rfl rfl a

end cut_update_index

namespace cut_update_pool

theorem split_node_index (p : cut_update_pool) (a : action) :
    (split_node p a).index_ = p.index_.approve_action a ∨
      (split_node p a).index_ = p.index_.reject_action a := by
  unfold split_node
  simp only []
  split
  · right; rfl
  · split
    · left; simp [approve]
    · right; rfl

end cut_update_pool

/-- Every transition of `cut_update` resolves one queued action on the index. -/
theorem update_step_index (p p' : cut_update_pool) (h : update_step p p') :
    index_step p.index_ p'.index_ := by
  cases h with
  | resident a h hres =>
    obtain ⟨hp, he⟩ := cut_update_index.front_action_perm _ _ _ h
    refine ⟨queue_t.MUST_SPLIT, a, _, hp, Or.inl ?_⟩
    simp [cut_update_pool.approve, he, cut_update_index.approve_action_eq]
  | split a h hfit =>
    obtain ⟨hp, he⟩ := cut_update_index.front_action_perm _ _ _ h
    refine ⟨queue_t.MUST_SPLIT, a, _, hp, ?_⟩
    rcases cut_update_pool.split_node_index (p.pop_front queue_t.MUST_SPLIT) a with h1 | h1
    · left
      rw [h1]
      simp [he, cut_update_index.approve_action_eq]
    · right
      rw [h1]
      simp [he, cut_update_index.reject_action_eq]
  | collapse_front q a hq h =>
    obtain ⟨hp, he⟩ := cut_update_index.front_action_perm _ _ _ h
    refine ⟨q, a, _, hp, ?_⟩
    rw [cut_update_pool.collapse_node_index]
    simp only [cut_update_pool.pop_front_index, he,
      cut_update_index.with_queue_collapsed_nodes]
    unfold cut_update_index.collapsed_nodes
    split
    · right; rfl
    · left; rfl
  | collapse_back q a hq h =>
    obtain ⟨hp, he⟩ := cut_update_index.back_action_perm _ _ _ h
    refine ⟨q, a, _, hp, ?_⟩
    rw [cut_update_pool.collapse_node_index]
    simp only [cut_update_pool.pop_back_index, he,
      cut_update_index.with_queue_collapsed_nodes]
    unfold cut_update_index.collapsed_nodes
    split
    · right; rfl
    · left; rfl
  | reject_front q a h =>
    obtain ⟨hp, he⟩ := cut_update_index.front_action_perm _ _ _ h
    refine ⟨q, a, _, hp, Or.inr ?_⟩
    rw [cut_update_pool.reject_index]
    simp [he]
  | approve_front q a hq h =>
    obtain ⟨hp, he⟩ := cut_update_index.front_action_perm _ _ _ h
    refine ⟨q, a, _, hp, Or.inl ?_⟩
    rw [cut_update_pool.approve_index]
    simp [he]

/-- A resolved action is one queued action less. -/
theorem index_step_length (idx idx' : cut_update_index) (h : index_step idx idx') :
    idx'.all_actions.length + 1 = idx.all_actions.length := by
  obtain ⟨q, a, rest, hp, h | h⟩ := h
  all_goals
    have := (cut_update_index.all_actions_perm_remove idx q a rest hp).length_eq
    rw [h]
    simpa [cut_update_index.all_actions] using this.symm

theorem update_step_length (p p' : cut_update_pool) (h : update_step p p') :
    p'.index_.all_actions.length + 1 = p.index_.all_actions.length :=
  index_step_length _ _ (update_step_index p p' h)

namespace cut_update_pool

/-- The residency loop never sets the host flag. -/
theorem residency_scan_false_left (ooc : ooc_cache) (gpu : gpu_cache) (m : Nat) :
    ∀ (l : List Nat) (g : Bool), (residency_scan ooc gpu m l (false, g)).1 = false := by
  intro l
  induction l with
  | nil => intro g; rfl
  | cons d l ih =>
    intro g
    unfold residency_scan
    simp only [Bool.false_and]
    split
    · rfl
    · split
      · rfl
      · exact ih _

/-- The residency loop never sets the GPU flag. -/
theorem residency_scan_false_right (ooc : ooc_cache) (gpu : gpu_cache) (m : Nat) :
    ∀ (l : List Nat) (o : Bool), (residency_scan ooc gpu m l (o, false)).2 = false := by
  intro l
  induction l with
  | nil => intro o; rfl
  | cons d l ih =>
    intro o
    unfold residency_scan
    simp only [Bool.false_and]
    split
    · rfl
    · split
      · rfl
      · exact ih _

/-- When the residency loop ends with both flags set, every child is resident in
both caches. -/
theorem residency_scan_both (ooc : ooc_cache) (gpu : gpu_cache) (m : Nat) :
    ∀ (l : List Nat) (fl : Bool × Bool),
      (residency_scan ooc gpu m l fl).1 = true → (residency_scan ooc gpu m l fl).2 = true →
      ∀ c ∈ l, ooc.is_node_resident m c = true ∧ gpu.is_node_resident m c = true := by
  intro l
  induction l with
  | nil => intro fl _ _ c hc; simp at hc
  | cons d l ih =>
    rintro ⟨o, g⟩ h1 h2 c hc
    unfold residency_scan at h1 h2
    cases ho : ooc.is_node_resident m d <;> cases hg : gpu.is_node_resident m d <;>
      cases o <;> cases g <;>
      simp [ho, hg, residency_scan_false_left, residency_scan_false_right] at h1 h2
    have := ih _ h1 h2
    rcases List.mem_cons.mp hc with rfl | hc'
    · exact ⟨ho, hg⟩
    · exact this c hc'

/-- The main loop of `cut_update` finishes when it is given more iterations than
there are queued actions; what it does is a sequence of transitions, and it
leaves the split queue empty. -/
theorem cut_update_loop_spec :
    ∀ (fuel : Nat) (p : cut_update_pool) (fl : update_flags),
      p.index_.all_actions.length < fuel →
      ∃ p', cut_update_loop fuel p fl = some p' ∧ Relation.ReflTransGen update_step p p' ∧
        p'.index_.action_queues_ queue_t.MUST_SPLIT = [] := by
  intro fuel
  induction fuel with
  | zero => intro p fl h; exact absurd h (Nat.not_lt_zero _)
  | succ fuel ih =>
    intro p fl h
    have key : ∀ p1 fl1, update_step p p1 →
        ∃ p', cut_update_loop fuel p1 fl1 = some p' ∧ Relation.ReflTransGen update_step p p' ∧
          p'.index_.action_queues_ queue_t.MUST_SPLIT = [] := by
      intro p1 fl1 hs
      have hl := update_step_length p p1 hs
      obtain ⟨p', h1, h2, h3⟩ := ih p1 fl1 (by omega)
      exact ⟨p', h1, Relation.ReflTransGen.head hs h2, h3⟩
    rw [cut_update_loop]
    cases hf : p.index_.front_action queue_t.MUST_SPLIT with
    | none =>
      refine ⟨p, rfl, Relation.ReflTransGen.refl, ?_⟩
      unfold cut_update_index.front_action at hf
      exact List.head?_eq_none_iff.mp hf
    | some a =>
      simp only []
      cases hcr : fl.check_residency
      · simp only [Bool.false_and, Bool.false_eq_true, if_false]
        split
        · rename_i hfit
          apply key
          refine update_step.split p a hf ?_
          simp only [Bool.or_eq_true, Bool.and_eq_true, decide_eq_true_eq] at hfit
          rcases hfit with hfit | hfit
          · exact hfit.2
          · exact hfit.2
        · split
          · rename_i c hc
            apply key
            exact update_step.collapse_front p queue_t.MUST_COLLAPSE c (by decide) hc
          · split
            · rename_i c hc
              apply key
              exact update_step.collapse_front p queue_t.COLLAPSE_ON_NEED c (by decide) hc
            · split
              · rename_i c hc
                split
                · apply key
                  exact update_step.collapse_back p queue_t.MAYBE_COLLAPSE c (by decide) hc
                · apply key
                  exact update_step.reject_front p queue_t.MUST_SPLIT a hf
              · apply key
                exact update_step.reject_front p queue_t.MUST_SPLIT a hf
      · simp only [Bool.true_and, if_true]
        split
        · rename_i hfast
          apply key
          refine update_step.resident p a hf ?_
          simp only [Bool.and_eq_true] at hfast
          exact residency_scan_both _ _ _ _ _ hfast.1 hfast.2
        · split
          · rename_i hfit
            apply key
            refine update_step.split p a hf ?_
            simp only [Bool.or_eq_true, Bool.and_eq_true, decide_eq_true_eq] at hfit
            rcases hfit with hfit | hfit
            · exact hfit.2
            · exact hfit.2
          · split
            · rename_i c hc
              apply key
              exact update_step.collapse_front p queue_t.MUST_COLLAPSE c (by decide) hc
            · split
              · rename_i c hc
                apply key
                exact update_step.collapse_front p queue_t.COLLAPSE_ON_NEED c (by decide) hc
              · split
                · rename_i c hc
                  split
                  · apply key
                    exact update_step.collapse_back p queue_t.MAYBE_COLLAPSE c (by decide) hc
                  · apply key
                    exact update_step.reject_front p queue_t.MUST_SPLIT a hf
                · apply key
                  exact update_step.reject_front p queue_t.MUST_SPLIT a hf

end cut_update_pool

namespace cut_update_pool

theorem collapse_node_queues (p : cut_update_pool) (a : action) :
    (collapse_node p a).index_.action_queues_ = p.index_.action_queues_ := by
  rw [collapse_node_index]; rfl

theorem approve_queues (p : cut_update_pool) (a : action) :
    (approve p a).index_.action_queues_ = p.index_.action_queues_ := by
  rw [approve_index]; rfl

theorem reject_queues (p : cut_update_pool) (a : action) :
    (reject p a).index_.action_queues_ = p.index_.action_queues_ := by
  rw [reject_index]; rfl

/-- A drain loop is a sequence of transitions. -/
theorem drain_queue_steps (q : queue_t) (h : cut_update_pool → action → cut_update_pool)
    (hstep : ∀ p a, p.index_.front_action q = some a → update_step p (h (p.pop_front q) a))
    (hq : ∀ p a, (h p a).index_.action_queues_ = p.index_.action_queues_) :
    ∀ (l : List action) (p : cut_update_pool), p.index_.action_queues_ q = l →
      Relation.ReflTransGen update_step p (drain_queue q h l p) := by
  intro l
  induction l with
  | nil => intro p _; exact Relation.ReflTransGen.refl
  | cons a l ih =>
    intro p hp
    have hf : p.index_.front_action q = some a := by
      simp [cut_update_index.front_action, hp]
    have hnext : (h (p.pop_front q) a).index_.action_queues_ q = l := by
      rw [hq]
      simp [set_queue, hp]
    exact Relation.ReflTransGen.head (hstep p a hf) (ih _ hnext)

/-- The four final loops of `cut_update` are a sequence of transitions. -/
theorem cut_update_drain_steps (p : cut_update_pool) :
    Relation.ReflTransGen update_step p (cut_update_drain p) := by
  unfold cut_update_drain
  have s1 := drain_queue_steps queue_t.MUST_COLLAPSE collapse_node
    (fun p a h => update_step.collapse_front p _ a (by decide) h) collapse_node_queues _ p rfl
  have s2 := drain_queue_steps queue_t.COLLAPSE_ON_NEED reject
    (fun p a h => update_step.reject_front p _ a h) reject_queues _
    (drain_queue queue_t.MUST_COLLAPSE collapse_node
      (p.index_.action_queues_ queue_t.MUST_COLLAPSE) p) rfl
  have s3 := drain_queue_steps queue_t.MAYBE_COLLAPSE reject
    (fun p a h => update_step.reject_front p _ a h) reject_queues _
    (drain_queue queue_t.COLLAPSE_ON_NEED reject
      ((drain_queue queue_t.MUST_COLLAPSE collapse_node
        (p.index_.action_queues_ queue_t.MUST_COLLAPSE) p).index_.action_queues_
          queue_t.COLLAPSE_ON_NEED)
      (drain_queue queue_t.MUST_COLLAPSE collapse_node
        (p.index_.action_queues_ queue_t.MUST_COLLAPSE) p)) rfl
  have s4 := drain_queue_steps queue_t.KEEP approve
    (fun p a h => update_step.approve_front p _ a rfl h) approve_queues _
    (drain_queue queue_t.MAYBE_COLLAPSE reject
      ((drain_queue queue_t.COLLAPSE_ON_NEED reject
        ((drain_queue queue_t.MUST_COLLAPSE collapse_node
          (p.index_.action_queues_ queue_t.MUST_COLLAPSE) p).index_.action_queues_
            queue_t.COLLAPSE_ON_NEED)
        (drain_queue queue_t.MUST_COLLAPSE collapse_node
          (p.index_.action_queues_ queue_t.MUST_COLLAPSE) p)).index_.action_queues_
            queue_t.MAYBE_COLLAPSE)
      (drain_queue queue_t.COLLAPSE_ON_NEED reject
        ((drain_queue queue_t.MUST_COLLAPSE collapse_node
          (p.index_.action_queues_ queue_t.MUST_COLLAPSE) p).index_.action_queues_
            queue_t.COLLAPSE_ON_NEED)
        (drain_queue queue_t.MUST_COLLAPSE collapse_node
          (p.index_.action_queues_ queue_t.MUST_COLLAPSE) p))) rfl
  exact ((s1.trans s2).trans s3).trans s4

/-- `cut_update` returns: after the refresh of the host cache it runs a sequence
of transitions that empties all five queues, and then compiles the render list
and the transfer list. -/
theorem cut_update_spec (inp : frame_input) (p : cut_update_pool) :
    ∃ p1, cut_update inp p
        = some (compile_transfer_list inp (compile_render_list p1)) ∧
      Relation.ReflTransGen update_step (p.refreshed inp) p1 ∧
      ∀ q, p1.index_.action_queues_ q = [] := by
  obtain ⟨p', h1, h2, h3⟩ := cut_update_loop_spec (cut_update_fuel (p.refreshed inp))
    (p.refreshed inp)
    { check_residency := true, all_children_in_ooc_cache := true,
      all_children_in_gpu_cache := true } (Nat.lt_succ_self _)
  refine ⟨cut_update_drain p', ?_, h2.trans (cut_update_drain_steps p'), ?_⟩
  · unfold cut_update
    simp only []
    have : { p with ooc_cache_ := p.ooc_cache_.refresh inp.loads_completed_update }
        = p.refreshed inp := rfl
    rw [this, h1]
  · intro q
    rw [(cut_update_drain_spec p').2.2.1 q, h3]
    split <;> rfl

end cut_update_pool

/-! ## The cut invariant is kept by every transition -/

namespace cut_update_index

/-- When all children of a node exist, `get_all_children` lists them. -/
theorem get_all_children_of_valid (idx : cut_update_index) (m n : Nat)
    (h : ∀ i, i < idx.fan_factor m → n * idx.fan_factor m + 1 + i < idx.num_nodes m) :
    idx.get_all_children m n
      = (List.range (idx.fan_factor m)).map (fun i => n * idx.fan_factor m + 1 + i) := by
  unfold get_all_children
  apply List.map_congr_left
  intro i hi
  unfold get_child_id
  rw [if_pos (h i (List.mem_range.mp hi))]

theorem mem_children_of_valid (idx : cut_update_index) (m n x : Nat)
    (h : ∀ i, i < idx.fan_factor m → n * idx.fan_factor m + 1 + i < idx.num_nodes m) :
    x ∈ idx.get_all_children m n ↔ ∃ i, i < idx.fan_factor m ∧ x = n * idx.fan_factor m + 1 + i := by
  rw [get_all_children_of_valid idx m n h]
  simp only [List.mem_map, List.mem_range]
  constructor
  · rintro ⟨i, hi, rfl⟩; exact ⟨i, hi, rfl⟩
  · rintro ⟨i, hi, rfl⟩; exact ⟨i, hi, rfl⟩

end cut_update_index

/-- Two children of one node are equal or incomparable. -/
theorem children_antichain (F n i j : Nat) (hF : 1 ≤ F) (hj : j < F)
    (h : is_ancestor_or_self F (n * F + 1 + i) (n * F + 1 + j)) :
    n * F + 1 + i = n * F + 1 + j := by
  by_contra hne
  have h1 := ancestor_of_parent F _ _ h hne
  rw [tree_parent_child F n j hj] at h1
  have h2 := ancestor_le F _ _ h1
  have h3 := child_gt F n i hF
  omega

/-- The nodes an action commits, approved or rejected: they lie below the node of
the action, no one above another, and there is at least one. -/
theorem resolved_nodes_props (idx : cut_update_index) (a : action)
    (hF : 1 ≤ idx.fan_factor a.model_id_) (hwf : action_wf idx a) (ns : List Nat)
    (hns : ns = idx.approved_nodes a ∨ ns = idx.rejected_nodes a) :
    (∀ y ∈ ns, is_ancestor_or_self (idx.fan_factor a.model_id_) a.node_id_ y) ∧
    (∀ y ∈ ns, ∀ z ∈ ns, is_ancestor_or_self (idx.fan_factor a.model_id_) y z → y = z) ∧
    ns ≠ [] := by
  have single : ∀ l : List Nat, l = [a.node_id_] →
      (∀ y ∈ l, is_ancestor_or_self (idx.fan_factor a.model_id_) a.node_id_ y) ∧
      (∀ y ∈ l, ∀ z ∈ l, is_ancestor_or_self (idx.fan_factor a.model_id_) y z → y = z) ∧
      l ≠ [] := by
    rintro l rfl
    refine ⟨?_, ?_, by simp⟩
    · intro y hy
      rw [List.mem_singleton.mp hy]
      exact ancestor_refl _ _
    · intro y hy z hz _
      rw [List.mem_singleton.mp hy, List.mem_singleton.mp hz]
  have children : a.queue_ ≠ queue_t.KEEP →
      ∀ l : List Nat, l = idx.get_all_children a.model_id_ a.node_id_ →
      (∀ y ∈ l, is_ancestor_or_self (idx.fan_factor a.model_id_) a.node_id_ y) ∧
      (∀ y ∈ l, ∀ z ∈ l, is_ancestor_or_self (idx.fan_factor a.model_id_) y z → y = z) ∧
      l ≠ [] := by
    rintro hk l rfl
    have hv := hwf hk
    refine ⟨?_, ?_, ?_⟩
    · intro y hy
      obtain ⟨i, hi, rfl⟩ := (cut_update_index.mem_children_of_valid idx _ _ y hv).mp hy
      exact ancestor_child _ _ _ hi
    · intro y hy z hz hyz
      obtain ⟨i, hi, rfl⟩ := (cut_update_index.mem_children_of_valid idx _ _ y hv).mp hy
      obtain ⟨j, hj, rfl⟩ := (cut_update_index.mem_children_of_valid idx _ _ z hv).mp hz
      exact children_antichain _ _ i j hF hj hyz
    · intro h0
      have : a.node_id_ * idx.fan_factor a.model_id_ + 1 + 0
          ∈ idx.get_all_children a.model_id_ a.node_id_ :=
        (cut_update_index.mem_children_of_valid idx _ _ _ hv).mpr ⟨0, by omega, rfl⟩
      rw [h0] at this
      simp at this
  rcases hns with h | h
  · unfold cut_update_index.approved_nodes at h
    cases hq : a.queue_ <;> rw [hq] at h <;> simp only [] at h
    · exact single ns h
    · exact children (by rw [hq]; simp) ns h
    · exact single ns h
    · exact single ns h
    · exact single ns h
  · unfold cut_update_index.rejected_nodes at h
    cases hq : a.queue_ <;> rw [hq] at h <;> simp only [] at h
    · exact single ns h
    · exact single ns h
    · exact children (by rw [hq]; simp) ns h
    · exact children (by rw [hq]; simp) ns h
    · exact children (by rw [hq]; simp) ns h

/-- Resolving one queued action keeps the cut invariant of every view and
model. -/
theorem cut_invariant_step (v m : Nat) (idx idx' : cut_update_index)
    (hF : 1 ≤ idx.fan_factor m) (hs : index_step idx idx') (hinv : cut_invariant v m idx) :
    cut_invariant v m idx' := by
  obtain ⟨q, a, rest, hp, h⟩ := hs
  have hperm := cut_update_index.all_actions_perm_remove idx q a rest hp
  obtain ⟨ns, hns, rfl⟩ : ∃ ns, (ns = idx.approved_nodes a ∨ ns = idx.rejected_nodes a) ∧
      idx' = (idx.with_queue q rest).add_to_current_cut a.view_id_ a.model_id_ ns := by
    rcases h with h | h
    · exact ⟨_, Or.inl rfl, h⟩
    · exact ⟨_, Or.inr rfl, h⟩
  have hsub : ∀ b ∈ (idx.with_queue q rest).all_actions, b ∈ idx.all_actions :=
    fun b hb => hperm.symm.subset (List.mem_cons_of_mem _ hb)
  have ha_mem : a ∈ idx.all_actions := hperm.symm.subset (List.mem_cons_self _ _)
  have hsymm : ∀ {x y : action},
      (action_of v m x → action_of v m y →
        incomparable (idx.fan_factor m) x.node_id_ y.node_id_) →
      (action_of v m y → action_of v m x →
        incomparable (idx.fan_factor m) y.node_id_ x.node_id_) :=
    fun h hy hx => incomparable_symm _ _ _ (h hx hy)
  have hpw := (hperm.pairwise_iff hsymm).mp hinv.pending
  rw [List.pairwise_cons] at hpw
  obtain ⟨hpa, hprest⟩ := hpw
  have hcut : ∀ x, x ∈ ((idx.with_queue q rest).add_to_current_cut a.view_id_ a.model_id_
      ns).get_current_cut v m ↔
      (x ∈ idx.get_current_cut v m ∨ (action_of v m a ∧ x ∈ ns)) := by
    intro x
    rw [cut_update_index.mem_add_to_current_cut]
    unfold action_of
    constructor
    · rintro (hx | ⟨h1, h2, hx⟩)
      · exact Or.inl hx
      · exact Or.inr ⟨⟨h1.symm, h2.symm⟩, hx⟩
    · rintro (hx | ⟨⟨h1, h2⟩, hx⟩)
      · exact Or.inl hx
      · exact Or.inr ⟨h1.symm, h2.symm, hx⟩
  by_cases hvm : action_of v m a
  · have hm : a.model_id_ = m := hvm.2
    have props := resolved_nodes_props idx a (by rw [hm]; exact hF) (hinv.wf a ha_mem hvm)
      ns hns
    rw [hm] at props
    obtain ⟨n1, n2, n3⟩ := props
    have cross : ∀ x ∈ idx.get_current_cut v m, ∀ y ∈ ns,
        ¬ is_ancestor_or_self (idx.fan_factor m) x y ∧
        ¬ is_ancestor_or_self (idx.fan_factor m) y x := by
      intro x hx y hy
      obtain ⟨t, ht, hinc⟩ := hinv.separated x hx a ha_mem hvm
      exact ⟨incomparable_below _ _ _ _ _ hinc ht (n1 y hy),
        incomparable_below _ _ _ _ _ (incomparable_symm _ _ _ hinc) (n1 y hy) ht⟩
    refine ⟨?_, hprest, ?_, ?_, ?_⟩
    · intro x hx y hy hxy
      rcases (hcut x).mp hx with hx | ⟨_, hx⟩ <;> rcases (hcut y).mp hy with hy | ⟨_, hy⟩
      · exact hinv.antichain x hx y hy hxy
      · exact absurd hxy (cross x hx y hy).1
      · exact absurd hxy (cross y hy x hx).2
      · exact n2 x hx y hy hxy
    · intro x hx b hb hbvm
      rcases (hcut x).mp hx with hx | ⟨_, hx⟩
      · exact hinv.separated x hx b (hsub b hb) hbvm
      · exact ⟨a.node_id_, n1 x hx, hpa b hb hvm hbvm⟩
    · intro b hb hbvm
      exact hinv.wf b (hsub b hb) hbvm
    · left
      intro h0
      obtain ⟨y, hy⟩ := List.exists_mem_of_ne_nil ns n3
      have := (hcut y).mpr (Or.inr ⟨hvm, hy⟩)
      rw [h0] at this
      simp at this
  · have hcut' : ∀ x, x ∈ ((idx.with_queue q rest).add_to_current_cut a.view_id_ a.model_id_
        ns).get_current_cut v m ↔ x ∈ idx.get_current_cut v m := by
      intro x
      rw [hcut]
      constructor
      · rintro (hx | ⟨h1, _⟩)
        · exact hx
        · exact absurd h1 hvm
      · exact Or.inl
    refine ⟨?_, hprest, ?_, ?_, ?_⟩
    · intro x hx y hy hxy
      exact hinv.antichain x ((hcut' x).mp hx) y ((hcut' y).mp hy) hxy
    · intro x hx b hb hbvm
      exact hinv.separated x ((hcut' x).mp hx) b (hsub b hb) hbvm
    · intro b hb hbvm
      exact hinv.wf b (hsub b hb) hbvm
    · rcases hinv.inhabited with h0 | ⟨b, hb, hbvm⟩
      · left
        intro h1
        obtain ⟨y, hy⟩ := List.exists_mem_of_ne_nil _ h0
        have := (hcut' y).mpr hy
        rw [h1] at this
        simp at this
      · right
        refine ⟨b, ?_, hbvm⟩
        rcases List.mem_cons.mp (hperm.subset hb) with rfl | hb'
        · exact absurd hbvm hvm
        · exact hb'

theorem index_step_tree (idx idx' : cut_update_index) (hs : index_step idx idx') :
    idx'.fan_factors_ = idx.fan_factors_ ∧ idx'.num_nodes_ = idx.num_nodes_ := by
  obtain ⟨q, a, rest, _, h | h⟩ := hs <;> rw [h] <;> exact ⟨rfl, rfl⟩

/-- A sequence of transitions keeps the cut invariant. -/
theorem cut_invariant_steps (v m : Nat) (p p' : cut_update_pool)
    (hs : Relation.ReflTransGen update_step p p') (hF : 1 ≤ p.index_.fan_factor m)
    (hinv : cut_invariant v m p.index_) :
    cut_invariant v m p'.index_ ∧ p'.index_.fan_factors_ = p.index_.fan_factors_ ∧
      p'.index_.num_nodes_ = p.index_.num_nodes_ := by
  induction hs with
  | refl => exact ⟨hinv, rfl, rfl⟩
  | tail _ hstep ih =>
    obtain ⟨i1, i2, i3⟩ := ih
    have hi := update_step_index _ _ hstep
    obtain ⟨t1, t2⟩ := index_step_tree _ _ hi
    refine ⟨cut_invariant_step v m _ _ ?_ hi i1, t1.trans i2, t2.trans i3⟩
    unfold cut_update_index.fan_factor
    rw [i2]
    exact hF

/-! ## The actions of `cut_analysis` -/

theorem ancestor_consistent_iff (F : Nat) (cut : List Nat) :
    ancestor_consistent F cut ↔
      ∀ x ∈ cut, ∀ y ∈ cut, is_ancestor_or_self F x y → x = y := by
  unfold ancestor_consistent is_proper_ancestor
  constructor
  · intro h x hx y hy hxy
    by_contra hne
    exact h x hx y hy ⟨hne, hxy⟩
  · intro h x hx y hy hxy
    exact hxy.1 (h x hx y hy hxy.2)

/-- Two actions with disjoint footprints in an ancestor-consistent cut: the node
of the one is not above the node of the other. -/
theorem not_ancestor_of_disjoint (F : Nat) (hF : 1 ≤ F) (old : List Nat)
    (hanti : ∀ x ∈ old, ∀ y ∈ old, is_ancestor_or_self F x y → x = y)
    (t1 t2 : Nat) (fp1 fp2 : List Nat) (h1 : footprint_of F t1 fp1)
    (h2 : footprint_of F t2 fp2) (s1 : ∀ y ∈ fp1, y ∈ old) (s2 : ∀ y ∈ fp2, y ∈ old)
    (hd : ∀ y, y ∈ fp1 → y ∈ fp2 → False) : ¬ is_ancestor_or_self F t1 t2 := by
  intro hanc
  have c0 : ∀ t, t * F + 1 + 0 ∈ (List.range F).map (fun i => t * F + 1 + i) := by
    intro t
    exact List.mem_map.mpr ⟨0, List.mem_range.mpr (by omega), rfl⟩
  have ci : ∀ t i, i < F → t * F + 1 + i ∈ (List.range F).map (fun i => t * F + 1 + i) := by
    intro t i hi
    exact List.mem_map.mpr ⟨i, List.mem_range.mpr hi, rfl⟩
  rcases h1 with rfl | rfl <;> rcases h2 with rfl | rfl
  · have := hanti t1 (s1 _ (List.mem_singleton.mpr rfl)) t2 (s2 _ (List.mem_singleton.mpr rfl))
      hanc
    subst this
    exact hd t1 (List.mem_singleton.mpr rfl) (List.mem_singleton.mpr rfl)
  · have h3 := ancestor_trans F _ _ _ hanc (ancestor_child F t2 0 (by omega))
    have := hanti t1 (s1 _ (List.mem_singleton.mpr rfl)) _ (s2 _ (c0 t2)) h3
    exact hd t1 (List.mem_singleton.mpr rfl) (this ▸ c0 t2)
  · by_cases hne : t1 = t2
    · subst hne
      have h3 := ancestor_child F t1 0 (by omega : 0 < F)
      have := hanti t1 (s2 _ (List.mem_singleton.mpr rfl)) _ (s1 _ (c0 t1)) h3
      have := child_gt F t1 0 hF
      omega
    · obtain ⟨i, hi, h3⟩ := ancestor_through_child F t1 t2 hF hanc hne
      have := hanti _ (s1 _ (ci t1 i hi)) t2 (s2 _ (List.mem_singleton.mpr rfl)) h3
      exact hd _ (ci t1 i hi) (this ▸ List.mem_singleton.mpr rfl)
  · by_cases hne : t1 = t2
    · subst hne
      exact hd _ (c0 t1) (c0 t1)
    · obtain ⟨i, hi, h3⟩ := ancestor_through_child F t1 t2 hF hanc hne
      have h4 := ancestor_trans F _ _ _ h3 (ancestor_child F t2 0 (by omega))
      have := hanti _ (s1 _ (ci t1 i hi)) _ (s2 _ (c0 t2)) h4
      exact hd _ (ci t1 i hi) (this ▸ c0 t2)

/-- The footprint of a well-formed action is the list of nodes its rejection
reinstates. -/
theorem footprint_of_rejected (idx : cut_update_index) (a : action) (hwf : action_wf idx a) :
    footprint_of (idx.fan_factor a.model_id_) a.node_id_ (idx.rejected_nodes a) := by
  unfold cut_update_index.rejected_nodes
  cases hq : a.queue_ <;> simp only []
  · left; rfl
  · left; rfl
  all_goals
    right
    exact cut_update_index.get_all_children_of_valid idx _ _ (hwf (by rw [hq]; simp))

/-- A strictly ascending list that contains `a, a+1, …, a+k-1` and nothing below
`a` starts with them. -/
theorem sorted_take_consecutive :
    ∀ (k : Nat) (l : List Nat) (a : Nat), l.Pairwise (fun x y => x < y) →
      (∀ i, i < k → a + i ∈ l) → (∀ x ∈ l, a ≤ x) →
      l.take k = (List.range k).map (fun i => a + i) ∧
      ∀ x ∈ l.drop k, a + k ≤ x := by
  intro k
  induction k with
  | zero =>
    intro l a _ _ hge
    simp only [List.take_zero, List.range_zero, List.map_nil, List.drop_zero, Nat.add_zero,
      true_and]
    exact hge
  | succ k ih =>
    intro l a hs hmem hge
    cases l with
    | nil =>
      have := hmem 0 (by omega)
      simp at this
    | cons hd tl =>
      rw [List.pairwise_cons] at hs
      obtain ⟨hlt, hs'⟩ := hs
      have hhd : hd = a := by
        have h1 := hge hd (List.mem_cons_self _ _)
        have h2 := hmem 0 (by omega)
        rcases List.mem_cons.mp h2 with h3 | h3
        · simpa using h3.symm
        · have := hlt _ h3
          simp at this
          omega
      subst hhd
      have hmem' : ∀ i, i < k → hd + 1 + i ∈ tl := by
        intro i hi
        have := hmem (i + 1) (by omega)
        rcases List.mem_cons.mp this with h3 | h3
        · omega
        · rw [show hd + 1 + i = hd + (i + 1) by omega]; exact h3
      have hge' : ∀ x ∈ tl, hd + 1 ≤ x := fun x hx => hlt x hx
      obtain ⟨i1, i2⟩ := ih tl (hd + 1) hs' hmem' hge'
      constructor
      · rw [List.take_succ_cons, i1, List.range_succ_eq_map, List.map_cons, List.map_map]
        simp only [Nat.add_zero, List.cons.injEq, true_and]
        apply List.map_congr_left
        intro i _
        simp only [Function.comp]
        omega
      · intro x hx
        rw [List.drop_succ_cons] at hx
        have := i2 x hx
        omega

namespace cut_update_pool

/-- Stepping over `k` elements of the cut is dropping them. -/
theorem cut_analysis_actions_skip (cfg : config) (inp : frame_input) (p : cut_update_pool)
    (v m : Nat) (old : List Nat) (timeout : Bool) :
    ∀ (k : Nat) (l : List Nat),
      cut_analysis_actions cfg inp p v m old timeout k l
        = cut_analysis_actions cfg inp p v m old timeout 0 (l.drop k) := by
  intro k
  induction k with
  | zero => intro l; rfl
  | succ k ih =>
    intro l
    cases l with
    | nil => simp [cut_analysis_actions]
    | cons x rest =>
      rw [cut_analysis_actions, ih rest, List.drop_succ_cons]

/-- When `children_allow_split` holds, all children of the node exist. -/
theorem children_allow_split_valid (inp : frame_input) (p : cut_update_pool) (v m n : Nat)
    (t : ℚ) (h : children_allow_split inp p v m n t = true) :
    ∀ i, i < p.index_.fan_factor m → n * p.index_.fan_factor m + 1 + i < p.index_.num_nodes m := by
  intro i hi
  unfold children_allow_split cut_update_index.get_all_children at h
  rw [List.all_eq_true] at h
  have := h (p.index_.get_child_id m n i) (List.mem_map.mpr ⟨i, List.mem_range.mpr hi, rfl⟩)
  unfold cut_update_index.get_child_id at this
  by_contra hlt
  rw [if_neg hlt] at this
  simp at this

/-- When `is_all_nodes_in_cut` holds of the children of a node, all of them exist
and are in the cut. -/
theorem is_all_nodes_in_cut_children (p : cut_update_pool) (m q : Nat) (old : List Nat)
    (h : p.is_all_nodes_in_cut m (p.index_.get_all_children m q) old = true) :
    ∀ i, i < p.index_.fan_factor m →
      q * p.index_.fan_factor m + 1 + i < p.index_.num_nodes m ∧
      q * p.index_.fan_factor m + 1 + i ∈ old := by
  intro i hi
  unfold is_all_nodes_in_cut cut_update_index.get_all_children at h
  rw [List.all_eq_true] at h
  have := h (p.index_.get_child_id m q i) (List.mem_map.mpr ⟨i, List.mem_range.mpr hi, rfl⟩)
  unfold cut_update_index.get_child_id at this
  by_cases hlt : q * p.index_.fan_factor m + 1 + i < p.index_.num_nodes m
  · rw [if_pos hlt] at this
    simp at this
    exact ⟨hlt, this.2⟩
  · rw [if_neg hlt] at this
    simp at this

theorem analyse_node_props (inp : frame_input) (p : cut_update_pool) (v m n : Nat)
    (pe t1 t2 : ℚ) (timeout : Bool) :
    (analyse_node inp p v m n pe t1 t2 timeout).view_id_ = v ∧
    (analyse_node inp p v m n pe t1 t2 timeout).model_id_ = m ∧
    (analyse_node inp p v m n pe t1 t2 timeout).node_id_ = n ∧
    ((analyse_node inp p v m n pe t1 t2 timeout).queue_ = queue_t.KEEP ∨
      ((analyse_node inp p v m n pe t1 t2 timeout).queue_ = queue_t.MUST_SPLIT ∧
        children_allow_split inp p v m n t1 = true)) := by
  unfold analyse_node
  simp only []
  split
  · split
    · exact ⟨rfl, rfl, rfl, Or.inl rfl⟩
    · rename_i h
      refine ⟨rfl, rfl, rfl, Or.inr ⟨rfl, ?_⟩⟩
      simp at h
      exact h.1
  · exact ⟨rfl, rfl, rfl, Or.inl rfl⟩

end cut_update_pool

namespace cut_update_pool

/-- The actions pushed for a complete group of siblings: either one collapse on
the parent, or splits and keeps on pairwise different siblings. -/
theorem analyse_group_props (cfg : config) (inp : frame_input) (p : cut_update_pool)
    (v m parent : Nat) (siblings : List Nat) (pe t1 t2 : ℚ) (nsf timeout : Bool) :
    (∀ a ∈ analyse_group cfg inp p v m parent siblings pe t1 t2 nsf timeout,
      a.view_id_ = v ∧ a.model_id_ = m ∧
      (((a.queue_ = queue_t.MUST_COLLAPSE ∨ a.queue_ = queue_t.COLLAPSE_ON_NEED ∨
          a.queue_ = queue_t.MAYBE_COLLAPSE) ∧ a.node_id_ = parent) ∨
       (a.queue_ = queue_t.MUST_SPLIT ∧ a.node_id_ ∈ siblings ∧
          children_allow_split inp p v m a.node_id_ t1 = true) ∨
       (a.queue_ = queue_t.KEEP ∧ a.node_id_ ∈ siblings))) ∧
    analyse_group cfg inp p v m parent siblings pe t1 t2 nsf timeout ≠ [] ∧
    (siblings.Nodup →
     (∃ c, analyse_group cfg inp p v m parent siblings pe t1 t2 nsf timeout = [c]) ∨
      ((analyse_group cfg inp p v m parent siblings pe t1 t2 nsf timeout).Pairwise
          (fun a b => a.node_id_ ≠ b.node_id_) ∧
        ∀ a ∈ analyse_group cfg inp p v m parent siblings pe t1 t2 nsf timeout,
          a.queue_ = queue_t.KEEP ∨ a.queue_ = queue_t.MUST_SPLIT)) := by
  have single : ∀ (A : List action) (c : action), A = [c] →
      c.view_id_ = v → c.model_id_ = m →
      ((c.queue_ = queue_t.MUST_COLLAPSE ∨ c.queue_ = queue_t.COLLAPSE_ON_NEED ∨
          c.queue_ = queue_t.MAYBE_COLLAPSE) ∧ c.node_id_ = parent) →
      (∀ a ∈ A, a.view_id_ = v ∧ a.model_id_ = m ∧
        (((a.queue_ = queue_t.MUST_COLLAPSE ∨ a.queue_ = queue_t.COLLAPSE_ON_NEED ∨
            a.queue_ = queue_t.MAYBE_COLLAPSE) ∧ a.node_id_ = parent) ∨
         (a.queue_ = queue_t.MUST_SPLIT ∧ a.node_id_ ∈ siblings ∧
            children_allow_split inp p v m a.node_id_ t1 = true) ∨
         (a.queue_ = queue_t.KEEP ∧ a.node_id_ ∈ siblings))) ∧
      A ≠ [] ∧
      (siblings.Nodup → (∃ c, A = [c]) ∨
        (A.Pairwise (fun a b => a.node_id_ ≠ b.node_id_) ∧
          ∀ a ∈ A, a.queue_ = queue_t.KEEP ∨ a.queue_ = queue_t.MUST_SPLIT)) := by
    rintro A c rfl h1 h2 h3
    refine ⟨?_, by simp, fun _ => Or.inl ⟨c, rfl⟩⟩
    intro a ha
    rw [List.mem_singleton.mp ha]
    exact ⟨h1, h2, Or.inl h3⟩
  unfold analyse_group
  split
  · split
    · exact single _ _ rfl rfl rfl ⟨Or.inl rfl, rfl⟩
    · exact single _ _ rfl rfl rfl ⟨Or.inr (Or.inl rfl), rfl⟩
  · split
    · exact single _ _ rfl rfl rfl ⟨Or.inr (Or.inl rfl), rfl⟩
    · simp only []
      by_cases hS : siblings.filter (sibling_splits inp p v m t1 t2) = []
      · rw [hS]
        simp only [List.map_nil, List.nil_append, List.isEmpty_nil, Bool.true_and, if_true]
        split
        · exact single _ _ rfl rfl rfl ⟨Or.inl rfl, rfl⟩
        · exact single _ _ rfl rfl rfl ⟨Or.inr (Or.inr rfl), rfl⟩
      · have hE : (siblings.filter (sibling_splits inp p v m t1 t2)).isEmpty = false := by
          cases h : siblings.filter (sibling_splits inp p v m t1 t2) with
          | nil => exact absurd h hS
          | cons _ _ => rfl
        rw [hE]
        simp only [Bool.false_and, Bool.false_eq_true, if_false]
        refine ⟨?_, ?_, fun hnd => Or.inr ⟨?_, ?_⟩⟩
        · intro a ha
          rcases List.mem_append.mp ha with ha | ha
          · obtain ⟨s, hs, rfl⟩ := List.mem_map.mp ha
            rw [List.mem_filter] at hs
            refine ⟨rfl, rfl, Or.inr (Or.inl ⟨rfl, hs.1, ?_⟩)⟩
            have := hs.2
            unfold sibling_splits at this
            simp only [Bool.and_eq_true] at this
            exact this.2
          · obtain ⟨s, hs, rfl⟩ := List.mem_map.mp ha
            rw [List.mem_filter] at hs
            exact ⟨rfl, rfl, Or.inr (Or.inr ⟨rfl, List.mem_of_mem_take hs.1⟩)⟩
        · intro h0
          have := List.append_eq_nil.mp h0
          exact hS (List.map_eq_nil_iff.mp this.1)
        · rw [List.pairwise_append]
          refine ⟨?_, ?_, ?_⟩
          · rw [List.pairwise_map]
            exact (hnd.filter _).imp (fun h => h)
          · rw [List.pairwise_map]
            have : (siblings.take (p.index_.fan_factor m)).Nodup :=
              hnd.sublist (List.take_sublist _ _)
            exact (this.filter _).imp (fun h => h)
          · intro a ha b hb
            obtain ⟨s, hs, rfl⟩ := List.mem_map.mp ha
            obtain ⟨s', hs', rfl⟩ := List.mem_map.mp hb
            rw [List.mem_filter] at hs hs'
            simp only []
            intro heq
            subst heq
            have h1 := hs.2
            have h2 := hs'.2
            rw [h1] at h2
            simp at h2
        · intro a ha
          rcases List.mem_append.mp ha with ha | ha
          · obtain ⟨s, _, rfl⟩ := List.mem_map.mp ha
            exact Or.inr rfl
          · obtain ⟨s, _, rfl⟩ := List.mem_map.mp ha
            exact Or.inl rfl

end cut_update_pool

namespace cut_update_pool

/-- The step of the analysis loop at a node whose sibling group is complete. -/
theorem cut_analysis_actions_group (cfg : config) (inp : frame_input) (p : cut_update_pool)
    (v m : Nat) (old : List Nat) (timeout : Bool) (x : Nat) (rest : List Nat)
    (h0 : 0 < x) (hN : x < p.index_.num_nodes m)
    (hall : p.is_all_nodes_in_cut m
      (p.index_.get_all_children m (tree_parent (p.index_.fan_factor m) x)) old = true) :
    cut_analysis_actions cfg inp p v m old timeout 0 (x :: rest)
      = analyse_group cfg inp p v m (tree_parent (p.index_.fan_factor m) x)
          (p.index_.get_all_children m (tree_parent (p.index_.fan_factor m) x))
          (inp.node_error v m (tree_parent (p.index_.fan_factor m) x))
          (p.min_error_threshold m) (p.max_error_threshold m)
          (!(inp.node_in_frustum v m (tree_parent (p.index_.fan_factor m) x))) timeout
        ++ cut_analysis_actions cfg inp p v m old timeout 0
            (rest.drop (p.index_.fan_factor m - 1)) := by
  have hpar : p.index_.get_parent_id m x = tree_parent (p.index_.fan_factor m) x := by
    unfold cut_update_index.get_parent_id tree_parent
    rw [if_neg (by omega)]
  rw [cut_analysis_actions]
  simp only [gt_iff_lt, h0, hN, decide_True, Bool.and_self, if_true, Bool.true_and,
    cut_update_index.get_all_siblings, hpar, hall, Bool.not_true, Bool.false_eq_true, if_false]
  rw [cut_analysis_actions_skip]

/-- The step of the analysis loop at a node whose sibling group is not complete
(or that has no parent). -/
theorem cut_analysis_actions_node (cfg : config) (inp : frame_input) (p : cut_update_pool)
    (v m : Nat) (old : List Nat) (timeout : Bool) (x : Nat) (rest : List Nat)
    (h : ¬ (0 < x ∧ x < p.index_.num_nodes m ∧ p.is_all_nodes_in_cut m
      (p.index_.get_all_children m (tree_parent (p.index_.fan_factor m) x)) old = true)) :
    cut_analysis_actions cfg inp p v m old timeout 0 (x :: rest)
      = analyse_node inp p v m x
          (if 0 < x ∧ x < p.index_.num_nodes m then
            inp.node_error v m (tree_parent (p.index_.fan_factor m) x) else 0)
          (p.min_error_threshold m) (p.max_error_threshold m) timeout
        :: cut_analysis_actions cfg inp p v m old timeout 0 rest := by
  rw [cut_analysis_actions]
  by_cases hp : 0 < x ∧ x < p.index_.num_nodes m
  · have hpar : p.index_.get_parent_id m x = tree_parent (p.index_.fan_factor m) x := by
      unfold cut_update_index.get_parent_id tree_parent
      rw [if_neg (by omega)]
    have hall : p.is_all_nodes_in_cut m
        (p.index_.get_all_children m (tree_parent (p.index_.fan_factor m) x)) old = false := by
      cases hc : p.is_all_nodes_in_cut m
        (p.index_.get_all_children m (tree_parent (p.index_.fan_factor m) x)) old
      · rfl
      · exact absurd ⟨hp.1, hp.2, hc⟩ h
    simp only [gt_iff_lt, hp.1, hp.2, decide_True, Bool.and_self, if_true, Bool.true_and,
      cut_update_index.get_all_siblings, hpar, hall, Bool.not_false, and_self]
  · have hb : (decide (x > 0) && decide (x < p.index_.num_nodes m)) = false := by
      cases hc : (decide (x > 0) && decide (x < p.index_.num_nodes m))
      · rfl
      · simp only [Bool.and_eq_true, decide_eq_true_eq] at hc
        exact absurd hc hp
    simp only [hb, Bool.false_and, Bool.not_false, if_true, Bool.false_eq_true, if_false, hp]

end cut_update_pool

namespace cut_update_pool

/-- The actions of the analysis of a strictly ascending cut in which every
complete sibling group lies entirely: every action belongs to the view and the
model, is well-formed and stands for nodes of the cut, and no two actions stand
for a common node; a non-empty cut gives at least one action. -/
theorem cut_analysis_actions_spec (cfg : config) (inp : frame_input) (p : cut_update_pool)
    (v m : Nat) (old : List Nat) (timeout : Bool) (hF : 1 ≤ p.index_.fan_factor m) :
    ∀ (n : Nat) (l : List Nat), l.length ≤ n → l.Pairwise (fun x y => x < y) →
      (∀ x ∈ l, 0 < x → x < p.index_.num_nodes m →
        p.is_all_nodes_in_cut m
          (p.index_.get_all_children m (tree_parent (p.index_.fan_factor m) x)) old = true →
        ∀ i, i < p.index_.fan_factor m →
          tree_parent (p.index_.fan_factor m) x * p.index_.fan_factor m + 1 + i ∈ l) →
      (∀ a ∈ cut_analysis_actions cfg inp p v m old timeout 0 l,
        action_of v m a ∧ action_wf p.index_ a ∧ ∀ y ∈ p.index_.rejected_nodes a, y ∈ l) ∧
      (cut_analysis_actions cfg inp p v m old timeout 0 l).Pairwise
        (fun a b => ∀ y, y ∈ p.index_.rejected_nodes a → y ∈ p.index_.rejected_nodes b → False) ∧
      (l ≠ [] → cut_analysis_actions cfg inp p v m old timeout 0 l ≠ []) := by
  intro n
  induction n with
  | zero =>
    intro l hlen _ _
    have : l = [] := List.length_eq_zero.mp (Nat.le_zero.mp hlen)
    subst this
    simp [cut_analysis_actions]
  | succ n ih =>
    intro l hlen hs hcl
    cases l with
    | nil => simp [cut_analysis_actions]
    | cons x rest =>
      have hs' := hs
      rw [List.pairwise_cons] at hs'
      obtain ⟨hlt, hsrest⟩ := hs'
      by_cases hg : 0 < x ∧ x < p.index_.num_nodes m ∧ p.is_all_nodes_in_cut m
          (p.index_.get_all_children m (tree_parent (p.index_.fan_factor m) x)) old = true
      · -- a complete group
        obtain ⟨h0, hN, hall⟩ := hg
        rw [cut_analysis_actions_group cfg inp p v m old timeout x rest h0 hN hall]
        have hv := is_all_nodes_in_cut_children p m _ old hall
        have hin := hcl x (List.mem_cons_self _ _) h0 hN hall
        obtain ⟨j, hj, hxj⟩ := tree_child_of_parent (p.index_.fan_factor m) x hF h0
        have hj0 : j = 0 := by
          have h1 := hin 0 (by omega)
          rcases List.mem_cons.mp h1 with h2 | h2
          · omega
          · have := hlt _ h2
            omega
        subst hj0
        have hmin : ∀ y ∈ x :: rest,
            tree_parent (p.index_.fan_factor m) x * p.index_.fan_factor m + 1 ≤ y := by
          intro y hy
          rcases List.mem_cons.mp hy with rfl | hy
          · omega
          · have := hlt y hy
            omega
        obtain ⟨htake, hdrop⟩ := sorted_take_consecutive (p.index_.fan_factor m) (x :: rest)
          (tree_parent (p.index_.fan_factor m) x * p.index_.fan_factor m + 1) hs hin hmin
        have hdropeq : (x :: rest).drop (p.index_.fan_factor m)
            = rest.drop (p.index_.fan_factor m - 1) := by
          obtain ⟨k, hk⟩ : ∃ k, p.index_.fan_factor m = k + 1 := ⟨p.index_.fan_factor m - 1, by omega⟩
          rw [hk]
          simp
        rw [hdropeq] at hdrop
        have hsib : p.index_.get_all_children m (tree_parent (p.index_.fan_factor m) x)
            = (List.range (p.index_.fan_factor m)).map
                (fun i => tree_parent (p.index_.fan_factor m) x * p.index_.fan_factor m + 1 + i) :=
          cut_update_index.get_all_children_of_valid _ _ _ (fun i hi => (hv i hi).1)
        have hnd : (p.index_.get_all_children m (tree_parent (p.index_.fan_factor m) x)).Nodup := by
          rw [hsib]
          refine (List.nodup_range _).map ?_
          intro a b hab
          simp only [] at hab
          omega
        obtain ⟨g1, g2, g3⟩ := analyse_group_props cfg inp p v m
          (tree_parent (p.index_.fan_factor m) x)
          (p.index_.get_all_children m (tree_parent (p.index_.fan_factor m) x))
          (inp.node_error v m (tree_parent (p.index_.fan_factor m) x))
          (p.min_error_threshold m) (p.max_error_threshold m)
          (!(inp.node_in_frustum v m (tree_parent (p.index_.fan_factor m) x))) timeout
        -- the footprints of the group actions are siblings
        have hsibmem : ∀ y, y ∈ p.index_.get_all_children m
            (tree_parent (p.index_.fan_factor m) x) →
            y ∈ x :: rest ∧
            y < tree_parent (p.index_.fan_factor m) x * p.index_.fan_factor m + 1
              + p.index_.fan_factor m := by
          intro y hy
          rw [hsib] at hy
          obtain ⟨i, hi, rfl⟩ := List.mem_map.mp hy
          exact ⟨hin i (List.mem_range.mp hi), by have := List.mem_range.mp hi; omega⟩
        have gfp : ∀ a ∈ analyse_group cfg inp p v m
            (tree_parent (p.index_.fan_factor m) x)
            (p.index_.get_all_children m (tree_parent (p.index_.fan_factor m) x))
            (inp.node_error v m (tree_parent (p.index_.fan_factor m) x))
            (p.min_error_threshold m) (p.max_error_threshold m)
            (!(inp.node_in_frustum v m (tree_parent (p.index_.fan_factor m) x))) timeout,
            action_of v m a ∧ action_wf p.index_ a ∧
            ∀ y ∈ p.index_.rejected_nodes a,
              y ∈ p.index_.get_all_children m (tree_parent (p.index_.fan_factor m) x) := by
          intro a ha
          obtain ⟨a1, a2, a3⟩ := g1 a ha
          refine ⟨⟨a1, a2⟩, ?_, ?_⟩
          · intro hk i hi
            rw [a2] at hi ⊢
            rcases a3 with ⟨_, hnode⟩ | ⟨_, _, hsplit⟩ | ⟨hkeep, _⟩
            · rw [hnode]; exact (hv i hi).1
            · exact children_allow_split_valid inp p v m _ _ hsplit i hi
            · exact absurd hkeep hk
          · intro y hy
            unfold cut_update_index.rejected_nodes at hy
            rcases a3 with ⟨hq, hnode⟩ | ⟨hq, hmem, _⟩ | ⟨hq, hmem⟩
            · rw [a2, hnode] at hy
              rcases hq with hq | hq | hq <;> rw [hq] at hy <;> exact hy
            · rw [hq] at hy
              rw [List.mem_singleton.mp hy]; exact hmem
            · rw [hq] at hy
              rw [List.mem_singleton.mp hy]; exact hmem
        -- the rest of the cut
        have hlen' : (rest.drop (p.index_.fan_factor m - 1)).length ≤ n := by
          have := List.length_drop (p.index_.fan_factor m - 1) rest
          simp only [List.length_cons] at hlen
          omega
        have hsub : List.Sublist (rest.drop (p.index_.fan_factor m - 1)) rest :=
          List.drop_sublist _ _
        have hcl' : ∀ y ∈ rest.drop (p.index_.fan_factor m - 1), 0 < y →
            y < p.index_.num_nodes m →
            p.is_all_nodes_in_cut m
              (p.index_.get_all_children m (tree_parent (p.index_.fan_factor m) y)) old = true →
            ∀ i, i < p.index_.fan_factor m →
              tree_parent (p.index_.fan_factor m) y * p.index_.fan_factor m + 1 + i
                ∈ rest.drop (p.index_.fan_factor m - 1) := by
          intro y hy hy0 hyN hyall i hi
          have hyl : y ∈ x :: rest := List.mem_cons_of_mem _ (hsub.subset hy)
          have hmem := hcl y hyl hy0 hyN hyall i hi
          have hsplit := List.take_append_drop (p.index_.fan_factor m) (x :: rest)
          rw [← hsplit, List.mem_append] at hmem
          rcases hmem with hmem | hmem
          · -- the sibling would be in the first group: then so would y
            exfalso
            rw [htake] at hmem
            obtain ⟨k, hk, hkeq⟩ := List.mem_map.mp hmem
            have hk' := List.mem_range.mp hk
            have hpar : tree_parent (p.index_.fan_factor m) y
                = tree_parent (p.index_.fan_factor m) x := by
              have e1 := tree_parent_child (p.index_.fan_factor m)
                (tree_parent (p.index_.fan_factor m) y) i hi
              have e2 := tree_parent_child (p.index_.fan_factor m)
                (tree_parent (p.index_.fan_factor m) x) k hk'
              rw [← e1, ← e2]
              congr 1
              omega
            obtain ⟨j, hj, hyj⟩ := tree_child_of_parent (p.index_.fan_factor m) y hF hy0
            have := hdrop y hy
            rw [hpar] at hyj
            omega
          · rw [hdropeq] at hmem
            exact hmem
        obtain ⟨r1, r2, _⟩ := ih _ hlen' (hsrest.sublist hsub) hcl'
        refine ⟨?_, ?_, ?_⟩
        · intro a ha
          rcases List.mem_append.mp ha with ha | ha
          · obtain ⟨b1, b2, b3⟩ := gfp a ha
            exact ⟨b1, b2, fun y hy => (hsibmem y (b3 y hy)).1⟩
          · obtain ⟨b1, b2, b3⟩ := r1 a ha
            exact ⟨b1, b2, fun y hy => List.mem_cons_of_mem _ (hsub.subset (b3 y hy))⟩
        · rw [List.pairwise_append]
          refine ⟨?_, r2, ?_⟩
          · rcases g3 hnd with ⟨c, hc⟩ | ⟨hpw, hkinds⟩
            · rw [hc]; exact List.pairwise_singleton _ _
            · refine List.Pairwise.imp_of_mem ?_ hpw
              intro a b ha hb hne y hya hyb
              have ka := hkinds a ha
              have kb := hkinds b hb
              unfold cut_update_index.rejected_nodes at hya hyb
              rcases ka with ka | ka <;> rcases kb with kb | kb <;>
                rw [ka] at hya <;> rw [kb] at hyb <;>
                simp only [List.mem_singleton] at hya hyb <;>
                exact hne (hya.symm.trans hyb)
          · intro a ha b hb y hya hyb
            have h1 := (hsibmem y ((gfp a ha).2.2 y hya)).2
            have h2 := hdrop y ((r1 b hb).2.2 y hyb)
            omega
        · intro _ h0
          exact g2 (List.append_eq_nil.mp h0).1
      · -- a node on its own
        rw [cut_analysis_actions_node cfg inp p v m old timeout x rest hg]
        obtain ⟨a1, a2, a3, a4⟩ := analyse_node_props inp p v m x
          (if 0 < x ∧ x < p.index_.num_nodes m then
            inp.node_error v m (tree_parent (p.index_.fan_factor m) x) else 0)
          (p.min_error_threshold m) (p.max_error_threshold m) timeout
        have hlen' : rest.length ≤ n := by
          simp only [List.length_cons] at hlen
          omega
        have hcl' : ∀ y ∈ rest, 0 < y → y < p.index_.num_nodes m →
            p.is_all_nodes_in_cut m
              (p.index_.get_all_children m (tree_parent (p.index_.fan_factor m) y)) old = true →
            ∀ i, i < p.index_.fan_factor m →
              tree_parent (p.index_.fan_factor m) y * p.index_.fan_factor m + 1 + i ∈ rest := by
          intro y hy hy0 hyN hyall i hi
          have hmem := hcl y (List.mem_cons_of_mem _ hy) hy0 hyN hyall i hi
          rcases List.mem_cons.mp hmem with hmem | hmem
          · -- x would be a sibling of y, so its group would be complete
            exfalso
            have hv := is_all_nodes_in_cut_children p m _ old hyall i hi
            have hpar : tree_parent (p.index_.fan_factor m) x
                = tree_parent (p.index_.fan_factor m) y := by
              rw [← hmem]
              exact tree_parent_child _ _ i hi
            apply hg
            refine ⟨by omega, by rw [← hmem]; exact hv.1, ?_⟩
            rw [hpar]
            exact hyall
          · exact hmem
        obtain ⟨r1, r2, _⟩ := ih rest hlen' hsrest hcl'
        have hrej : ∀ y, y ∈ p.index_.rejected_nodes (analyse_node inp p v m x
            (if 0 < x ∧ x < p.index_.num_nodes m then
              inp.node_error v m (tree_parent (p.index_.fan_factor m) x) else 0)
            (p.min_error_threshold m) (p.max_error_threshold m) timeout) → y = x := by
          intro y hy
          unfold cut_update_index.rejected_nodes at hy
          rcases a4 with hq | ⟨hq, _⟩ <;> rw [hq, a3] at hy <;> exact List.mem_singleton.mp hy
        refine ⟨?_, ?_, by simp⟩
        · intro a ha
          rcases List.mem_cons.mp ha with rfl | ha
          · refine ⟨⟨a1, a2⟩, ?_, ?_⟩
            · intro hk i hi
              rcases a4 with hq | ⟨_, hsplit⟩
              · exact absurd hq hk
              · rw [a2] at hi
                rw [a2, a3]
                exact children_allow_split_valid inp p v m x _ hsplit i hi
            · intro y hy
              rw [hrej y hy]
              exact List.mem_cons_self _ _
          · obtain ⟨b1, b2, b3⟩ := r1 a ha
            exact ⟨b1, b2, fun y hy => List.mem_cons_of_mem _ (b3 y hy)⟩
        · rw [List.pairwise_cons]
          refine ⟨?_, r2⟩
          intro b hb y hya hyb
          rw [hrej y hya] at hyb
          have := hlt x ((r1 b hb).2.2 x hyb)
          omega

end cut_update_pool

/-! ## From the analysis to the cut invariant -/

theorem pairwise_filter_test {α : Type} (R : α → α → Prop) (f : α → Bool) (l : List α) :
    (l.filter f).Pairwise R ↔ l.Pairwise (fun a b => f a = true → f b = true → R a b) := by
  induction l with
  | nil => simp
  | cons x l ih =>
    by_cases hx : f x = true
    · rw [List.filter_cons_of_pos hx, List.pairwise_cons, List.pairwise_cons, ih]
      constructor
      · rintro ⟨h1, h2⟩
        exact ⟨fun b hb _ hfb => h1 b (List.mem_filter.mpr ⟨hb, hfb⟩), h2⟩
      · rintro ⟨h1, h2⟩
        exact ⟨fun b hb => h1 b (List.mem_filter.mp hb).1 hx (List.mem_filter.mp hb).2, h2⟩
    · rw [List.filter_cons_of_neg hx, List.pairwise_cons, ih]
      constructor
      · intro h
        exact ⟨fun b _ hfx => absurd hfx hx, h⟩
      · exact fun h => h.2

theorem action_of_test_iff (v m : Nat) (a : action) :
    action_of_test v m a = true ↔ action_of v m a := by
  simp [action_of_test, action_of]

namespace cut_update_index

/-- Pushing an action adds it to the list of all actions. -/
theorem all_actions_push (idx : cut_update_index) (a : action) (b : Bool) :
    List.Perm (idx.push_action a b).all_actions (a :: idx.all_actions) := by
  have h1 : List.Perm ((idx.push_action a b).action_queues_ a.queue_)
      (a :: idx.action_queues_ a.queue_) := by
    simp only [push_action, set_queue, if_true]
    exact List.perm_append_comm
  have h2 := all_actions_perm_remove (idx.push_action a b) a.queue_ a _ h1
  have h3 : ((idx.push_action a b).with_queue a.queue_ (idx.action_queues_ a.queue_)).all_actions
      = idx.all_actions := by
    have : ((idx.push_action a b).with_queue a.queue_
        (idx.action_queues_ a.queue_)).action_queues_ = idx.action_queues_ := by
      funext q
      simp only [with_queue, push_action, set_queue]
      split
      · rename_i h; rw [h]
      · rfl
    simp only [all_actions, this]
  rw [h3] at h2
  exact h2

/-- Pushing a list of actions adds them to the list of all actions and leaves
the cuts and the tree alone. -/
theorem push_actions_spec (acts : List action) :
    ∀ idx : cut_update_index,
      List.Perm (acts.foldl (fun i a => i.push_action a false) idx).all_actions
        (acts ++ idx.all_actions) ∧
      (acts.foldl (fun i a => i.push_action a false) idx).current_cut_ = idx.current_cut_ ∧
      (acts.foldl (fun i a => i.push_action a false) idx).previous_cut_ = idx.previous_cut_ ∧
      (acts.foldl (fun i a => i.push_action a false) idx).fan_factors_ = idx.fan_factors_ ∧
      (acts.foldl (fun i a => i.push_action a false) idx).num_nodes_ = idx.num_nodes_ := by
  induction acts with
  | nil => intro idx; exact ⟨List.Perm.refl _, rfl, rfl, rfl, rfl⟩
  | cons a acts ih =>
    intro idx
    obtain ⟨h1, h2, h3, h4, h5⟩ := ih (idx.push_action a false)
    refine ⟨?_, h2, h3, h4, h5⟩
    simp only [List.foldl_cons, List.cons_append]
    exact h1.trans ((List.Perm.append_left acts (all_actions_push idx a false)).trans
      List.perm_middle)

/-- `sort()` permutes the queued actions. -/
theorem all_actions_sort (idx : cut_update_index) :
    List.Perm idx.sort.all_actions idx.all_actions := by
  unfold all_actions sort
  simp only []
  refine List.Perm.append_left _ (List.Perm.append (List.perm_insertionSort _ _) ?_)
  exact List.Perm.append_left _ (List.Perm.append_left _ (List.perm_insertionSort _ _))

end cut_update_index

/-- The cut invariant of `(v, m)` only depends on the tree, on the current cut of
`(v, m)` and on the queued actions of `(v, m)` up to their order. -/
theorem cut_invariant_congr (v m : Nat) (idx idx' : cut_update_index)
    (hf : idx'.fan_factors_ = idx.fan_factors_) (hn : idx'.num_nodes_ = idx.num_nodes_)
    (hcut : idx'.get_current_cut v m = idx.get_current_cut v m)
    (hperm : List.Perm (idx'.all_actions.filter (action_of_test v m))
      (idx.all_actions.filter (action_of_test v m)))
    (h : cut_invariant v m idx) : cut_invariant v m idx' := by
  have hF : idx'.fan_factor m = idx.fan_factor m := by
    unfold cut_update_index.fan_factor; rw [hf]
  have hmem : ∀ a, a ∈ idx'.all_actions → action_of v m a → a ∈ idx.all_actions := by
    intro a ha hvm
    have : a ∈ idx'.all_actions.filter (action_of_test v m) :=
      List.mem_filter.mpr ⟨ha, (action_of_test_iff v m a).mpr hvm⟩
    exact (List.mem_filter.mp (hperm.subset this)).1
  have hmem' : ∀ a, a ∈ idx.all_actions → action_of v m a → a ∈ idx'.all_actions := by
    intro a ha hvm
    have : a ∈ idx.all_actions.filter (action_of_test v m) :=
      List.mem_filter.mpr ⟨ha, (action_of_test_iff v m a).mpr hvm⟩
    exact (List.mem_filter.mp (hperm.symm.subset this)).1
  refine ⟨?_, ?_, ?_, ?_, ?_⟩
  · rw [hcut, hF]; exact h.antichain
  · rw [hF]
    have h1 : (idx.all_actions.filter (action_of_test v m)).Pairwise
        (fun a b => incomparable (idx.fan_factor m) a.node_id_ b.node_id_) := by
      rw [pairwise_filter_test]
      refine h.pending.imp ?_
      intro a b hab ha hb
      exact hab ((action_of_test_iff v m a).mp ha) ((action_of_test_iff v m b).mp hb)
    have h2 := (hperm.pairwise_iff (fun hab => incomparable_symm _ _ _ hab)).mpr h1
    rw [pairwise_filter_test] at h2
    refine h2.imp ?_
    intro a b hab ha hb
    exact hab ((action_of_test_iff v m a).mpr ha) ((action_of_test_iff v m b).mpr hb)
  · rw [hcut, hF]
    intro x hx a ha hvm
    exact h.separated x hx a (hmem a ha hvm) hvm
  · intro a ha hvm
    have := h.wf a (hmem a ha hvm) hvm
    unfold action_wf cut_update_index.fan_factor cut_update_index.num_nodes at this ⊢
    rw [hf, hn]
    exact this
  · rw [hcut]
    rcases h.inhabited with h0 | ⟨a, ha, hvm⟩
    · exact Or.inl h0
    · exact Or.inr ⟨a, hmem' a ha hvm, hvm⟩

theorem mem_ite_or {α : Type} (c : Prop) [Decidable c] (A B : List α) (a : α)
    (h : a ∈ if c then A else B) : a ∈ A ∨ a ∈ B := by
  split at h
  · exact Or.inl h
  · exact Or.inr h

namespace cut_update_pool

/-- Every action of the analysis of `(v, m)` belongs to `(v, m)`. -/
theorem cut_analysis_actions_of (cfg : config) (inp : frame_input) (p : cut_update_pool)
    (v m : Nat) (old : List Nat) (timeout : Bool) :
    ∀ (l : List Nat) (k : Nat) (a : action),
      a ∈ cut_analysis_actions cfg inp p v m old timeout k l → action_of v m a := by
  intro l
  induction l with
  | nil => intro k a h; cases k <;> simp [cut_analysis_actions] at h
  | cons x rest ih =>
    intro k a h
    cases k with
    | succ k =>
      rw [cut_analysis_actions] at h
      exact ih k a h
    | zero =>
      rw [cut_analysis_actions] at h
      rcases mem_ite_or _ _ _ _ h with h | h
      · rcases List.mem_cons.mp h with rfl | h
        · exact ⟨(analyse_node_props _ _ _ _ _ _ _ _ _).1, (analyse_node_props _ _ _ _ _ _ _ _ _).2.1⟩
        · exact ih 0 a h
      · rcases List.mem_append.mp h with h | h
        · have := (analyse_group_props _ _ _ _ _ _ _ _ _ _ _ _).1 a h
          exact ⟨this.1, this.2.1⟩
        · exact ih _ a h

theorem cut_analysis_index (cfg : config) (inp : frame_input) (p : cut_update_pool)
    (v m : Nat) :
    (cut_analysis cfg inp p v m).index_
      = (cut_analysis_actions cfg inp p v m (p.index_.get_previous_cut v m)
          (freshness_timeout cfg p m) 0 (p.index_.get_previous_cut v m)).foldl
          (fun idx a => idx.push_action a false) (p.index_.reset_cut v m) := rfl

/-- The analysis of `(v, m)` establishes the cut invariant of `(v, m)`. -/
theorem cut_analysis_establishes (cfg : config) (inp : frame_input) (p : cut_update_pool)
    (v m : Nat) (hF : 1 ≤ p.index_.fan_factor m)
    (hq : p.index_.all_actions.filter (action_of_test v m) = [])
    (hsorted : (p.index_.get_previous_cut v m).Pairwise (fun x y => x < y))
    (hne : p.index_.get_previous_cut v m ≠ [])
    (hcons : ancestor_consistent (p.index_.fan_factor m) (p.index_.get_previous_cut v m)) :
    cut_invariant v m (cut_analysis cfg inp p v m).index_ := by
  rw [cut_analysis_index]
  obtain ⟨s1, s2, s3⟩ := cut_analysis_actions_spec cfg inp p v m (p.index_.get_previous_cut v m)
    (freshness_timeout cfg p m) hF _ (p.index_.get_previous_cut v m) le_rfl hsorted
    (fun x _ _ _ hall i hi => (is_all_nodes_in_cut_children p m _ _ hall i hi).2)
  obtain ⟨q1, q2, _, q4, q5⟩ := cut_update_index.push_actions_spec
    (cut_analysis_actions cfg inp p v m (p.index_.get_previous_cut v m)
      (freshness_timeout cfg p m) 0 (p.index_.get_previous_cut v m)) (p.index_.reset_cut v m)
  generalize hacts : cut_analysis_actions cfg inp p v m (p.index_.get_previous_cut v m)
      (freshness_timeout cfg p m) 0 (p.index_.get_previous_cut v m) = acts at s1 s2 s3 q1 q2 q4 q5
  generalize hidx : acts.foldl (fun idx a => idx.push_action a false) (p.index_.reset_cut v m)
      = idx1 at q1 q2 q4 q5
  have hA0 : (p.index_.reset_cut v m).all_actions = p.index_.all_actions := rfl
  rw [hA0] at q1
  have hF1 : idx1.fan_factor m = p.index_.fan_factor m := by
    unfold cut_update_index.fan_factor; rw [q4]; rfl
  have hcut : idx1.get_current_cut v m = [] := by
    unfold cut_update_index.get_current_cut
    rw [q2]
    simp [cut_update_index.reset_cut, set_cut]
  have hanti := (ancestor_consistent_iff _ _).mp hcons
  have hmem : ∀ a ∈ idx1.all_actions, action_of v m a → a ∈ acts := by
    intro a ha hvm
    rcases List.mem_append.mp (q1.subset ha) with h | h
    · exact h
    · have : a ∈ p.index_.all_actions.filter (action_of_test v m) :=
        List.mem_filter.mpr ⟨h, (action_of_test_iff v m a).mpr hvm⟩
      rw [hq] at this
      simp at this
  have hinc : ∀ a ∈ acts, ∀ b ∈ acts,
      (∀ y, y ∈ p.index_.rejected_nodes a → y ∈ p.index_.rejected_nodes b → False) →
      incomparable (p.index_.fan_factor m) a.node_id_ b.node_id_ := by
    intro a ha b hb hd
    obtain ⟨a1, a2, a3⟩ := s1 a ha
    obtain ⟨b1, b2, b3⟩ := s1 b hb
    have fa := footprint_of_rejected p.index_ a a2
    have fb := footprint_of_rejected p.index_ b b2
    rw [a1.2] at fa
    rw [b1.2] at fb
    exact ⟨not_ancestor_of_disjoint _ hF _ hanti _ _ _ _ fa fb a3 b3 hd,
      not_ancestor_of_disjoint _ hF _ hanti _ _ _ _ fb fa b3 a3 (fun y h1 h2 => hd y h2 h1)⟩
  refine ⟨?_, ?_, ?_, ?_, ?_⟩
  · rw [hcut]; intro x hx; simp at hx
  · rw [hF1]
    have hp1 : (acts ++ p.index_.all_actions).Pairwise
        (fun a b => action_of v m a → action_of v m b →
          incomparable (p.index_.fan_factor m) a.node_id_ b.node_id_) := by
      rw [List.pairwise_append]
      refine ⟨?_, ?_, ?_⟩
      · refine List.Pairwise.imp_of_mem ?_ s2
        intro a b ha hb hd _ _
        exact hinc a ha b hb hd
      · have := (pairwise_filter_test
          (fun a b => incomparable (p.index_.fan_factor m) a.node_id_ b.node_id_)
          (action_of_test v m) p.index_.all_actions).mp (by rw [hq]; exact List.Pairwise.nil)
        refine this.imp ?_
        intro a b hab ha hb
        exact hab ((action_of_test_iff v m a).mpr ha) ((action_of_test_iff v m b).mpr hb)
      · intro a _ b hb _ hbvm
        have : b ∈ p.index_.all_actions.filter (action_of_test v m) :=
          List.mem_filter.mpr ⟨hb, (action_of_test_iff v m b).mpr hbvm⟩
        rw [hq] at this
        simp at this
    exact (q1.pairwise_iff (fun h hy hx => incomparable_symm _ _ _ (h hx hy))).mpr hp1
  · rw [hcut]; intro x hx; simp at hx
  · intro a ha hvm
    have := (s1 a (hmem a ha hvm)).2.1
    unfold action_wf cut_update_index.fan_factor cut_update_index.num_nodes at this ⊢
    rw [q4, q5]
    exact this
  · right
    obtain ⟨a, ha⟩ := List.exists_mem_of_ne_nil _ (s3 hne)
    exact ⟨a, q1.symm.subset (List.mem_append_left _ ha), (s1 a ha).1⟩

end cut_update_pool

namespace cut_update_pool

/-- The analysis of another view or model leaves what the cut invariant of
`(v, m)` depends on alone. -/
theorem cut_analysis_other (cfg : config) (inp : frame_input) (p : cut_update_pool)
    (v m v' m' : Nat) (hne : ¬ (v' = v ∧ m' = m)) :
    (cut_analysis cfg inp p v' m').index_.fan_factors_ = p.index_.fan_factors_ ∧
    (cut_analysis cfg inp p v' m').index_.num_nodes_ = p.index_.num_nodes_ ∧
    (cut_analysis cfg inp p v' m').index_.previous_cut_ = p.index_.previous_cut_ ∧
    (cut_analysis cfg inp p v' m').index_.get_current_cut v m = p.index_.get_current_cut v m ∧
    List.Perm ((cut_analysis cfg inp p v' m').index_.all_actions.filter (action_of_test v m))
      (p.index_.all_actions.filter (action_of_test v m)) := by
  rw [cut_analysis_index]
  obtain ⟨q1, q2, q3, q4, q5⟩ := cut_update_index.push_actions_spec
    (cut_analysis_actions cfg inp p v' m' (p.index_.get_previous_cut v' m')
      (freshness_timeout cfg p m') 0 (p.index_.get_previous_cut v' m'))
    (p.index_.reset_cut v' m')
  refine ⟨q4, q5, q3, ?_, ?_⟩
  · unfold cut_update_index.get_current_cut
    rw [q2]
    simp only [cut_update_index.reset_cut, set_cut]
    rw [if_neg]
    intro h
    exact hne ⟨h.1.symm, h.2.symm⟩
  · refine (q1.filter _).trans ?_
    rw [List.filter_append]
    have : (cut_analysis_actions cfg inp p v' m' (p.index_.get_previous_cut v' m')
        (freshness_timeout cfg p m') 0 (p.index_.get_previous_cut v' m')).filter
        (action_of_test v m) = [] := by
      rw [List.filter_eq_nil_iff]
      intro a ha hvm
      have h1 := cut_analysis_actions_of _ _ _ _ _ _ _ _ _ a ha
      have h2 := (action_of_test_iff v m a).mp hvm
      exact hne ⟨h1.1.symm.trans h2.1, h1.2.symm.trans h2.2⟩
    rw [this]
    exact List.Perm.refl _

/-- Analyses of other views and models keep the cut invariant of `(v, m)`. -/
theorem run_analysis_keeps (cfg : config) (inp : frame_input) (v m : Nat) :
    ∀ (jobs : List (Nat × Nat)) (p : cut_update_pool), (v, m) ∉ jobs →
      cut_invariant v m p.index_ →
      cut_invariant v m (run_analysis cfg inp p jobs).index_ ∧
      (run_analysis cfg inp p jobs).index_.fan_factors_ = p.index_.fan_factors_ := by
  intro jobs
  induction jobs with
  | nil => intro p _ h; exact ⟨h, rfl⟩
  | cons job jobs ih =>
    intro p hnot h
    have hne : ¬ (job.1 = v ∧ job.2 = m) := by
      rintro ⟨h1, h2⟩
      exact hnot (by rw [← h1, ← h2]; exact List.mem_cons_self _ _)
    obtain ⟨o1, o2, _, o4, o5⟩ := cut_analysis_other cfg inp p v m job.1 job.2 hne
    have := ih (cut_analysis cfg inp p job.1 job.2)
      (fun hm => hnot (List.mem_cons_of_mem _ hm))
      (cut_invariant_congr v m _ _ o1 o2 o4 o5 h)
    exact ⟨this.1, this.2.trans o1⟩

/-- After the analysis tasks have run, the cut invariant holds of every `(v, m)`
among them whose previous cut is strictly ascending, non-empty and
ancestor-consistent and that had no action queued before. -/
theorem run_analysis_establishes (cfg : config) (inp : frame_input) (v m : Nat) :
    ∀ (jobs : List (Nat × Nat)) (p : cut_update_pool), jobs.Nodup → (v, m) ∈ jobs →
      1 ≤ p.index_.fan_factor m →
      p.index_.all_actions.filter (action_of_test v m) = [] →
      (p.index_.get_previous_cut v m).Pairwise (fun x y => x < y) →
      p.index_.get_previous_cut v m ≠ [] →
      ancestor_consistent (p.index_.fan_factor m) (p.index_.get_previous_cut v m) →
      cut_invariant v m (run_analysis cfg inp p jobs).index_ ∧
      (run_analysis cfg inp p jobs).index_.fan_factors_ = p.index_.fan_factors_ := by
  intro jobs
  induction jobs with
  | nil => intro p _ hmem; simp at hmem
  | cons job jobs ih =>
    intro p hnd hmem hF hq hs hne hcons
    rw [List.nodup_cons] at hnd
    by_cases hj : job = (v, m)
    · subst hj
      have h1 := cut_analysis_establishes cfg inp p v m hF hq hs hne hcons
      have h2 := run_analysis_keeps cfg inp v m jobs (cut_analysis cfg inp p v m) hnd.1 h1
      refine ⟨h2.1, h2.2.trans ?_⟩
      rw [cut_analysis_index]
      exact (cut_update_index.push_actions_spec _ _).2.2.2.1
    · have hne' : ¬ (job.1 = v ∧ job.2 = m) := by
        rintro ⟨h1, h2⟩
        exact hj (Prod.ext h1 h2)
      obtain ⟨o1, o2, o3, _, o5⟩ := cut_analysis_other cfg inp p v m job.1 job.2 hne'
      have hmem' : (v, m) ∈ jobs := by
        rcases List.mem_cons.mp hmem with h | h
        · exact absurd h.symm hj
        · exact h
      have hF' : (cut_analysis cfg inp p job.1 job.2).index_.fan_factor m
          = p.index_.fan_factor m := by
        unfold cut_update_index.fan_factor; rw [o1]
      have hprev : (cut_analysis cfg inp p job.1 job.2).index_.get_previous_cut v m
          = p.index_.get_previous_cut v m := by
        unfold cut_update_index.get_previous_cut; rw [o3]
      have := ih (cut_analysis cfg inp p job.1 job.2) hnd.2 hmem' (by rw [hF']; exact hF)
        (by
          have := o5.length_eq
          rw [hq] at this
          exact List.length_eq_zero.mp this)
        (by rw [hprev]; exact hs) (by rw [hprev]; exact hne)
        (by rw [hprev, hF']; exact hcons)
      exact ⟨this.1, this.2.trans o1⟩

end cut_update_pool

/-! ## The caches: what the operations keep -/

namespace cache_slots

theorem any_slot_test_iff (s : cache_slots) (f : cache_entry → Bool) :
    s.any (slot_test f) = true ↔ ∃ e, some e ∈ s ∧ f e = true := by
  rw [List.any_eq_true]
  constructor
  · rintro ⟨x, hx, hf⟩
    cases x with
    | none => simp [slot_test] at hf
    | some e => exact ⟨e, hx, hf⟩
  · rintro ⟨e, he, hf⟩
    exact ⟨some e, he, hf⟩

theorem mem_map_entries (s : cache_slots) (g : cache_entry → cache_entry) (e' : cache_entry) :
    some e' ∈ s.map (Option.map g) ↔ ∃ e, some e ∈ s ∧ g e = e' := by
  rw [List.mem_map]
  constructor
  · rintro ⟨x, hx, hg⟩
    cases x with
    | none => simp at hg
    | some e => exact ⟨e, hx, by simpa using hg⟩
  · rintro ⟨e, he, hg⟩
    exact ⟨some e, he, by simp [hg]⟩

theorem is_node_indexed_iff (s : cache_slots) (m n : Nat) :
    s.is_node_indexed m n = true ↔ ∃ e, some e ∈ s ∧ e.model_id = m ∧ e.node_id = n := by
  unfold is_node_indexed
  rw [any_slot_test_iff]
  simp [cache_entry.is_for]

theorem is_node_resident_iff (s : cache_slots) (m n : Nat) :
    s.is_node_resident m n = true ↔
      ∃ e, some e ∈ s ∧ e.model_id = m ∧ e.node_id = n ∧ e.loaded = true := by
  unfold is_node_resident
  rw [any_slot_test_iff]
  simp [cache_entry.is_for, and_assoc]

theorem is_node_aquired_iff (s : cache_slots) (c v m n : Nat) :
    s.is_node_aquired c v m n = true ↔
      ∃ e, some e ∈ s ∧ e.model_id = m ∧ e.node_id = n ∧ (c, v) ∈ e.holders := by
  unfold is_node_aquired
  rw [any_slot_test_iff]
  simp [cache_entry.is_for, and_assoc]

theorem is_node_indexed_of_resident (s : cache_slots) (m n : Nat)
    (h : s.is_node_resident m n = true) : s.is_node_indexed m n = true := by
  rw [is_node_resident_iff] at h
  rw [is_node_indexed_iff]
  obtain ⟨e, he, h1, h2, _⟩ := h
  exact ⟨e, he, h1, h2⟩

/-- An operation that rewrites the entries in place, keeping the node of each. -/
theorem is_node_indexed_map (s : cache_slots) (g : cache_entry → cache_entry)
    (hg : ∀ e, (g e).model_id = e.model_id ∧ (g e).node_id = e.node_id) (m n : Nat) :
    is_node_indexed (s.map (Option.map g)) m n = s.is_node_indexed m n := by
  rw [Bool.eq_iff_iff, is_node_indexed_iff, is_node_indexed_iff]
  constructor
  · rintro ⟨e', he', h1, h2⟩
    obtain ⟨e, he, rfl⟩ := (mem_map_entries s g e').1 he'
    exact ⟨e, he, by rw [← (hg e).1]; exact h1, by rw [← (hg e).2]; exact h2⟩
  · rintro ⟨e, he, h1, h2⟩
    exact ⟨g e, (mem_map_entries s g _).2 ⟨e, he, rfl⟩, by rw [(hg e).1]; exact h1,
      by rw [(hg e).2]; exact h2⟩

theorem is_node_resident_map (s : cache_slots) (g : cache_entry → cache_entry)
    (hg : ∀ e, (g e).model_id = e.model_id ∧ (g e).node_id = e.node_id)
    (hl : ∀ e, e.loaded = true → (g e).loaded = true) (m n : Nat)
    (h : s.is_node_resident m n = true) :
    is_node_resident (s.map (Option.map g)) m n = true := by
  rw [is_node_resident_iff] at h ⊢
  obtain ⟨e, he, h1, h2, h3⟩ := h
  exact ⟨g e, (mem_map_entries s g _).2 ⟨e, he, rfl⟩, by rw [(hg e).1]; exact h1,
    by rw [(hg e).2]; exact h2, hl e h3⟩

theorem is_node_aquired_map (s : cache_slots) (g : cache_entry → cache_entry)
    (c v m n : Nat)
    (hg : ∀ e, (g e).model_id = e.model_id ∧ (g e).node_id = e.node_id)
    (hh : ∀ e, e.model_id = m → e.node_id = n → (c, v) ∈ e.holders → (c, v) ∈ (g e).holders)
    (h : s.is_node_aquired c v m n = true) :
    is_node_aquired (s.map (Option.map g)) c v m n = true := by
  rw [is_node_aquired_iff] at h ⊢
  obtain ⟨e, he, h1, h2, h3⟩ := h
  exact ⟨g e, (mem_map_entries s g _).2 ⟨e, he, rfl⟩, by rw [(hg e).1]; exact h1,
    by rw [(hg e).2]; exact h2, hh e h1 h2 h3⟩

theorem num_free_slots_map (s : cache_slots) (g : cache_entry → cache_entry) :
    num_free_slots (s.map (Option.map g)) = s.num_free_slots := by
  unfold num_free_slots
  rw [List.countP_map]
  congr 1
  funext x
  cases x <;> rfl

theorem length_map_entries (s : cache_slots) (g : cache_entry → cache_entry) :
    (s.map (Option.map g)).length = s.length := List.length_map _ _

end cache_slots

namespace cache_entry

theorem aquire_node_id (e : cache_entry) (c v : Nat) :
    (e.aquire c v).model_id = e.model_id ∧ (e.aquire c v).node_id = e.node_id := by
  unfold aquire; split <;> simp

theorem aquire_loaded (e : cache_entry) (c v : Nat) : (e.aquire c v).loaded = e.loaded := by
  unfold aquire; split <;> simp

theorem mem_aquire_holders (e : cache_entry) (c v : Nat) (h : Nat × Nat) :
    h ∈ (e.aquire c v).holders ↔ h = (c, v) ∨ h ∈ e.holders := by
  unfold aquire
  split
  · constructor
    · exact Or.inr
    · rintro (rfl | h1)
      · assumption
      · exact h1
  · simp

theorem mem_release_holders (e : cache_entry) (c v : Nat) (h : Nat × Nat) :
    h ∈ (e.release c v).holders ↔ h ≠ (c, v) ∧ h ∈ e.holders := by
  unfold release
  simp [List.mem_filter, and_comm]

end cache_entry

namespace cache_slots

theorem aquire_node_keeps (e : cache_entry) (c v m n : Nat) :
    (if e.is_for m n then e.aquire c v else e).model_id = e.model_id ∧
    (if e.is_for m n then e.aquire c v else e).node_id = e.node_id := by
  split
  · exact cache_entry.aquire_node_id e c v
  · exact ⟨rfl, rfl⟩

theorem release_node_keeps (e : cache_entry) (c v m n : Nat) :
    (if e.is_for m n then e.release c v else e).model_id = e.model_id ∧
    (if e.is_for m n then e.release c v else e).node_id = e.node_id := by
  split <;> exact ⟨rfl, rfl⟩

theorem is_node_indexed_aquire (s : cache_slots) (c v m n m' n' : Nat) :
    (s.aquire_node c v m n).is_node_indexed m' n' = s.is_node_indexed m' n' :=
  is_node_indexed_map s _ (fun e => aquire_node_keeps e c v m n) m' n'

theorem is_node_indexed_release (s : cache_slots) (c v m n m' n' : Nat) :
    (s.release_node c v m n).is_node_indexed m' n' = s.is_node_indexed m' n' :=
  is_node_indexed_map s _ (fun e => release_node_keeps e c v m n) m' n'

theorem is_node_resident_aquire (s : cache_slots) (c v m n m' n' : Nat)
    (h : s.is_node_resident m' n' = true) :
    (s.aquire_node c v m n).is_node_resident m' n' = true := by
  refine is_node_resident_map s _ (fun e => aquire_node_keeps e c v m n) ?_ m' n' h
  intro e he
  split
  · rw [cache_entry.aquire_loaded]; exact he
  · exact he

theorem is_node_resident_release (s : cache_slots) (c v m n m' n' : Nat)
    (h : s.is_node_resident m' n' = true) :
    (s.release_node c v m n).is_node_resident m' n' = true := by
  refine is_node_resident_map s _ (fun e => release_node_keeps e c v m n) ?_ m' n' h
  intro e he
  split
  · exact he
  · exact he

/-- Acquiring keeps every acquisition. -/
theorem is_node_aquired_aquire (s : cache_slots) (c v m n c' v' m' n' : Nat)
    (h : s.is_node_aquired c' v' m' n' = true) :
    (s.aquire_node c v m n).is_node_aquired c' v' m' n' = true := by
  refine is_node_aquired_map s _ c' v' m' n' (fun e => aquire_node_keeps e c v m n) ?_ h
  intro e _ _ he
  split
  · exact (cache_entry.mem_aquire_holders e c v _).2 (Or.inr he)
  · exact he

/-- Acquiring a node that has an entry makes it acquired. -/
theorem is_node_aquired_aquire_self (s : cache_slots) (c v m n : Nat)
    (h : s.is_node_indexed m n = true) :
    (s.aquire_node c v m n).is_node_aquired c v m n = true := by
  rw [is_node_indexed_iff] at h
  rw [is_node_aquired_iff]
  obtain ⟨e, he, h1, h2⟩ := h
  refine ⟨e.aquire c v, (mem_map_entries s _ _).2 ⟨e, he, ?_⟩, ?_, ?_, ?_⟩
  · simp [cache_entry.is_for, h1, h2]
  · rw [(cache_entry.aquire_node_id e c v).1]; exact h1
  · rw [(cache_entry.aquire_node_id e c v).2]; exact h2
  · exact (cache_entry.mem_aquire_holders e c v _).2 (Or.inl rfl)

/-- Releasing a node keeps the acquisitions of every other node and of every other
context and view. -/
theorem is_node_aquired_release (s : cache_slots) (c v m n c' v' m' n' : Nat)
    (hne : ¬ (c' = c ∧ v' = v ∧ m' = m ∧ n' = n))
    (h : s.is_node_aquired c' v' m' n' = true) :
    (s.release_node c v m n).is_node_aquired c' v' m' n' = true := by
  refine is_node_aquired_map s _ c' v' m' n' (fun e => release_node_keeps e c v m n) ?_ h
  intro e h1 h2 he
  split
  · rename_i hf
    simp only [cache_entry.is_for, Bool.and_eq_true, beq_iff_eq] at hf
    rw [cache_entry.mem_release_holders]
    refine ⟨?_, he⟩
    intro heq
    simp only [Prod.mk.injEq] at heq
    exact hne ⟨heq.1, heq.2, by rw [← h1, hf.1], by rw [← h2, hf.2]⟩
  · exact he

theorem num_free_slots_release (s : cache_slots) (c v m n : Nat) :
    (s.release_node c v m n).num_free_slots = s.num_free_slots :=
  num_free_slots_map s _

end cache_slots

namespace cache_slots

theorem place_free_isSome (e : cache_entry) (s : cache_slots) (h : 0 < s.num_free_slots) :
    ∃ s', place_free e s = some s' := by
  induction s with
  | nil => simp [num_free_slots] at h
  | cons x rest ih =>
    cases x with
    | none => exact ⟨_, rfl⟩
    | some y =>
      have h' : 0 < num_free_slots rest := by
        simpa [num_free_slots, List.countP_cons] using h
      obtain ⟨s', hs'⟩ := ih h'
      exact ⟨some y :: s', by simp [place_free, hs']⟩

theorem place_free_spec (e : cache_entry) (s s' : cache_slots) (h : place_free e s = some s') :
    (∀ x, some x ∈ s' ↔ x = e ∨ some x ∈ s) ∧
      s'.num_free_slots + 1 = s.num_free_slots ∧ s'.length = s.length := by
  induction s generalizing s' with
  | nil => simp [place_free] at h
  | cons y rest ih =>
    cases y with
    | none =>
      simp only [place_free, Option.some.injEq] at h
      subst h
      refine ⟨?_, ?_, ?_⟩
      · intro x; simp
      · simp [num_free_slots, List.countP_cons]
      · simp
    | some z =>
      simp only [place_free, Option.map_eq_some'] at h
      obtain ⟨r, hr, rfl⟩ := h
      obtain ⟨i1, i2, i3⟩ := ih r hr
      refine ⟨?_, ?_, ?_⟩
      · intro x
        simp only [List.mem_cons, Option.some.injEq, i1 x]
        tauto
      · simpa [num_free_slots, List.countP_cons] using i2
      · simp [i3]

theorem place_of_free (e : cache_entry) (s : cache_slots) (h : 0 < s.num_free_slots) :
    ∃ s', place s e = some s' ∧ (∀ x, some x ∈ s' ↔ x = e ∨ some x ∈ s) ∧
      s'.num_free_slots + 1 = s.num_free_slots := by
  obtain ⟨s', hs'⟩ := place_free_isSome e s h
  refine ⟨s', ?_, (place_free_spec e s s' hs').1, (place_free_spec e s s' hs').2.1⟩
  simp [place, hs']

theorem extends_slots_refl (s : cache_slots) : extends_slots s s := fun _ h => h

theorem extends_slots_trans (s s' s'' : cache_slots) (h1 : extends_slots s s')
    (h2 : extends_slots s' s'') : extends_slots s s'' := fun x h => h2 x (h1 x h)

theorem is_node_indexed_extends (s s' : cache_slots) (h : extends_slots s s') (m n : Nat)
    (hi : s.is_node_indexed m n = true) : s'.is_node_indexed m n = true := by
  rw [is_node_indexed_iff] at hi ⊢
  obtain ⟨e, he, h1⟩ := hi
  exact ⟨e, h e he, h1⟩

theorem is_node_resident_extends (s s' : cache_slots) (h : extends_slots s s') (m n : Nat)
    (hi : s.is_node_resident m n = true) : s'.is_node_resident m n = true := by
  rw [is_node_resident_iff] at hi ⊢
  obtain ⟨e, he, h1⟩ := hi
  exact ⟨e, h e he, h1⟩

theorem is_node_aquired_extends (s s' : cache_slots) (h : extends_slots s s') (c v m n : Nat)
    (hi : s.is_node_aquired c v m n = true) : s'.is_node_aquired c v m n = true := by
  rw [is_node_aquired_iff] at hi ⊢
  obtain ⟨e, he, h1⟩ := hi
  exact ⟨e, h e he, h1⟩

end cache_slots

namespace ooc_cache

/-- With a free slot, a registration in the host cache evicts nothing. -/
theorem register_node_extends (c : ooc_cache) (m n : Nat) (pr : Int)
    (h : 0 < c.num_free_slots) :
    cache_slots.extends_slots c.slots_ (c.register_node m n pr).slots_ := by
  unfold register_node
  split
  · exact cache_slots.extends_slots_refl _
  · obtain ⟨s', h1, h2, _⟩ := cache_slots.place_of_free
      { model_id := m, node_id := n, loaded := false, priority := pr, holders := [] }
      c.slots_ h
    rw [h1]
    intro x hx
    exact (h2 x).2 (Or.inr hx)

theorem refresh_resident (c : ooc_cache) (f : Nat → Nat → Bool) (m n : Nat)
    (h : c.is_node_resident m n = true) : (c.refresh f).is_node_resident m n = true := by
  unfold refresh is_node_resident
  exact cache_slots.is_node_resident_map c.slots_
    (fun e => { e with loaded := e.loaded || f e.model_id e.node_id }) (fun e => ⟨rfl, rfl⟩)
    (fun e he => by simp [he]) m n h

theorem refresh_aquired (c : ooc_cache) (f : Nat → Nat → Bool) (cx v m n : Nat)
    (h : c.slots_.is_node_aquired cx v m n = true) :
    (c.refresh f).slots_.is_node_aquired cx v m n = true := by
  unfold refresh
  exact cache_slots.is_node_aquired_map c.slots_
    (fun e => { e with loaded := e.loaded || f e.model_id e.node_id }) cx v m n
    (fun e => ⟨rfl, rfl⟩) (fun e _ _ he => he) h

end ooc_cache

namespace gpu_cache

/-- With a free slot, a registration in the GPU cache evicts nothing and leaves
the node with a slot. -/
theorem register_node_slot (g : gpu_cache) (m n : Nat) (h : 0 < g.num_free_slots) :
    cache_slots.extends_slots g.slots_ (g.register_node m n).1.slots_ ∧
      (g.register_node m n).1.is_node_resident m n = true := by
  unfold register_node
  split
  · rename_i hi
    exact ⟨cache_slots.extends_slots_refl _, hi⟩
  · obtain ⟨s', h1, h2, _⟩ := cache_slots.place_of_free
      { model_id := m, node_id := n, loaded := true, priority := 0, holders := [] }
      g.slots_ h
    rw [h1]
    refine ⟨fun x hx => (h2 x).2 (Or.inr hx), ?_⟩
    unfold is_node_resident
    rw [cache_slots.is_node_indexed_iff]
    exact ⟨_, (h2 _).2 (Or.inl rfl), rfl, rfl⟩

end gpu_cache

namespace cache_slots

theorem keeps_refl (s : cache_slots) (c v m : Nat) (R : List Nat) : keeps s s c v m R :=
  ⟨fun _ _ h => h, fun _ _ h => h, fun _ _ _ _ h _ => h⟩

theorem keeps_trans (s s' s'' : cache_slots) (c v m : Nat) (R : List Nat)
    (h1 : keeps s s' c v m R) (h2 : keeps s' s'' c v m R) : keeps s s'' c v m R :=
  ⟨fun m' n' h => h2.1 m' n' (h1.1 m' n' h), fun m' n' h => h2.2.1 m' n' (h1.2.1 m' n' h),
    fun c' v' m' n' h hne => h2.2.2 c' v' m' n' (h1.2.2 c' v' m' n' h hne) hne⟩

theorem keeps_mono (s s' : cache_slots) (c v m : Nat) (R R' : List Nat)
    (hR : ∀ n, n ∈ R → n ∈ R') (h : keeps s s' c v m R) : keeps s s' c v m R' :=
  ⟨h.1, h.2.1, fun c' v' m' n' ha hne =>
    h.2.2 c' v' m' n' ha (fun hh => hne ⟨hh.1, hh.2.1, hh.2.2.1, hR _ hh.2.2.2⟩)⟩

theorem keeps_of_extends (s s' : cache_slots) (c v m : Nat) (R : List Nat)
    (h : extends_slots s s') : keeps s s' c v m R :=
  ⟨fun m' n' hi => is_node_indexed_extends s s' h m' n' hi,
    fun m' n' hi => is_node_resident_extends s s' h m' n' hi,
    fun c' v' m' n' hi _ => is_node_aquired_extends s s' h c' v' m' n' hi⟩

theorem keeps_aquire (s : cache_slots) (c v m n c0 v0 m0 : Nat) (R : List Nat) :
    keeps s (s.aquire_node c v m n) c0 v0 m0 R :=
  ⟨fun m' n' hi => by rw [is_node_indexed_aquire]; exact hi,
    fun m' n' hi => is_node_resident_aquire s c v m n m' n' hi,
    fun c' v' m' n' hi _ => is_node_aquired_aquire s c v m n c' v' m' n' hi⟩

theorem keeps_release (s : cache_slots) (c v m n : Nat) (R : List Nat) (hn : n ∈ R) :
    keeps s (s.release_node c v m n) c v m R :=
  ⟨fun m' n' hi => by rw [is_node_indexed_release]; exact hi,
    fun m' n' hi => is_node_resident_release s c v m n m' n' hi,
    fun c' v' m' n' hi hne => is_node_aquired_release s c v m n c' v' m' n'
      (fun hh => hne ⟨hh.1, hh.2.1, hh.2.2.1, by rw [hh.2.2.2]; exact hn⟩) hi⟩

end cache_slots

namespace cut_update_pool

theorem keeps_caches_refl (p : cut_update_pool) (v m : Nat) (R : List Nat) :
    keeps_caches p p v m R :=
  ⟨rfl, cache_slots.keeps_refl _ _ _ _ _, cache_slots.keeps_refl _ _ _ _ _⟩

theorem keeps_caches_trans (p p' p'' : cut_update_pool) (v m : Nat) (R : List Nat)
    (h1 : keeps_caches p p' v m R) (h2 : keeps_caches p' p'' v m R) :
    keeps_caches p p'' v m R := by
  obtain ⟨a1, a2, a3⟩ := h1
  obtain ⟨b1, b2, b3⟩ := h2
  rw [a1] at b2 b3
  exact ⟨b1.trans a1, cache_slots.keeps_trans _ _ _ _ _ _ _ a2 b2,
    cache_slots.keeps_trans _ _ _ _ _ _ _ a3 b3⟩

/-- Kept caches keep a held node that is not released. -/
theorem node_held_of_keeps (p p' : cut_update_pool) (v m : Nat) (R : List Nat)
    (h : keeps_caches p p' v m R) (v' m' x : Nat) (hx : p.node_held v' m' x)
    (hne : ¬ (v' = v ∧ m' = m ∧ x ∈ R)) : p'.node_held v' m' x := by
  obtain ⟨a1, a2, a3⟩ := h
  obtain ⟨x1, x2, x3, x4⟩ := hx
  refine ⟨a2.2.1 _ _ x1, a3.1 _ _ x2, ?_, ?_⟩
  · rw [a1]
    exact a2.2.2 _ _ _ _ x3 (fun hh => hne hh.2)
  · rw [a1]
    exact a3.2.2 _ _ _ _ x4 (fun hh => hne hh.2)

theorem keeps_caches_mono (p p' : cut_update_pool) (v m : Nat) (R R' : List Nat)
    (hR : ∀ n, n ∈ R → n ∈ R') (h : keeps_caches p p' v m R) : keeps_caches p p' v m R' :=
  ⟨h.1, cache_slots.keeps_mono _ _ _ _ _ _ _ hR h.2.1, cache_slots.keeps_mono _ _ _ _ _ _ _ hR h.2.2⟩

/-- The acquisition loop keeps the caches and acquires every listed node that has
an entry. -/
theorem aquire_children_keeps (v m : Nat) (v0 m0 : Nat) :
    ∀ (cs : List Nat) (p : cut_update_pool),
      keeps_caches p (aquire_children p v m cs) v0 m0 [] ∧
      ∀ c ∈ cs, (p.ooc_cache_.slots_.is_node_indexed m c = true →
          (aquire_children p v m cs).ooc_cache_.slots_.is_node_aquired p.context_id_ v m c
            = true) ∧
        (p.gpu_cache_.slots_.is_node_indexed m c = true →
          (aquire_children p v m cs).gpu_cache_.slots_.is_node_aquired p.context_id_ v m c
            = true) := by
  intro cs
  induction cs with
  | nil => intro p; exact ⟨keeps_caches_refl _ _ _ _, by simp⟩
  | cons c cs ih =>
    intro p
    obtain ⟨p1, hp1⟩ : ∃ p1 : cut_update_pool, p1 = { p with
        gpu_cache_ := p.gpu_cache_.aquire_node p.context_id_ v m c,
        ooc_cache_ := p.ooc_cache_.aquire_node p.context_id_ v m c } := ⟨_, rfl⟩
    have e : aquire_children p v m (c :: cs) = aquire_children p1 v m cs := by
      rw [hp1]; rfl
    have hctx : p1.context_id_ = p.context_id_ := by rw [hp1]
    have hooc : p1.ooc_cache_.slots_ = p.ooc_cache_.slots_.aquire_node p.context_id_ v m c := by
      rw [hp1]; rfl
    have hgpu : p1.gpu_cache_.slots_ = p.gpu_cache_.slots_.aquire_node p.context_id_ v m c := by
      rw [hp1]; rfl
    have k1 : keeps_caches p p1 v0 m0 [] := by
      refine ⟨hctx, ?_, ?_⟩
      · rw [hooc]; exact cache_slots.keeps_aquire _ _ _ _ _ _ _ _ _
      · rw [hgpu]; exact cache_slots.keeps_aquire _ _ _ _ _ _ _ _ _
    obtain ⟨k2, a2⟩ := ih p1
    rw [e]
    refine ⟨keeps_caches_trans _ _ _ _ _ _ k1 k2, ?_⟩
    intro x hx
    rcases List.mem_cons.mp hx with rfl | hx'
    · constructor
      · intro hi
        have h1 : p1.ooc_cache_.slots_.is_node_aquired p.context_id_ v m x = true := by
          rw [hooc]; exact cache_slots.is_node_aquired_aquire_self _ _ _ _ _ hi
        exact k2.2.1.2.2 _ _ _ _ h1 (by simp)
      · intro hi
        have h1 : p1.gpu_cache_.slots_.is_node_aquired p.context_id_ v m x = true := by
          rw [hgpu]; exact cache_slots.is_node_aquired_aquire_self _ _ _ _ _ hi
        exact k2.2.2.2.2 _ _ _ _ h1 (by simp)
    · have := a2 x hx'
      rw [hctx] at this
      constructor
      · intro hi
        exact this.1 (k1.2.1.1 _ _ hi)
      · intro hi
        exact this.2 (k1.2.2.1 _ _ hi)

/-- The release loop keeps the caches, the acquisitions of the released nodes
apart. -/
theorem release_children_keeps (v m : Nat) (R : List Nat) :
    ∀ (cs : List Nat) (p : cut_update_pool), (∀ c ∈ cs, c ∈ R) →
      keeps_caches p (release_children p v m cs) v m R := by
  intro cs
  induction cs with
  | nil => intro p _; exact keeps_caches_refl _ _ _ _
  | cons c cs ih =>
    intro p hR
    obtain ⟨p1, hp1⟩ : ∃ p1 : cut_update_pool, p1 = { p with
        gpu_cache_ := p.gpu_cache_.release_node p.context_id_ v m c,
        ooc_cache_ := p.ooc_cache_.release_node p.context_id_ v m c } := ⟨_, rfl⟩
    have e : release_children p v m (c :: cs) = release_children p1 v m cs := by
      rw [hp1]; rfl
    have hctx : p1.context_id_ = p.context_id_ := by rw [hp1]
    have hooc : p1.ooc_cache_.slots_ = p.ooc_cache_.slots_.release_node p.context_id_ v m c := by
      rw [hp1]; rfl
    have hgpu : p1.gpu_cache_.slots_ = p.gpu_cache_.slots_.release_node p.context_id_ v m c := by
      rw [hp1]; rfl
    have hc : c ∈ R := hR c (List.mem_cons_self _ _)
    have k1 : keeps_caches p p1 v m R := by
      refine ⟨hctx, ?_, ?_⟩
      · rw [hooc]; exact cache_slots.keeps_release _ _ _ _ _ _ hc
      · rw [hgpu]; exact cache_slots.keeps_release _ _ _ _ _ _ hc
    rw [e]
    exact keeps_caches_trans _ _ _ _ _ _ k1
      (ih p1 (fun x hx => hR x (List.mem_cons_of_mem _ hx)))

end cut_update_pool

namespace cut_update_pool

/-- The load loop of `split_node` evicts nothing; when it leaves the flag set, every
child is host-resident and the host cache is untouched. -/
theorem split_node_load_spec (m : Nat) (pr : Int) (fit : Bool) :
    ∀ (cs : List Nat) (ooc : ooc_cache) (flag : Bool),
      cache_slots.extends_slots ooc.slots_ (split_node_load m pr fit cs (ooc, flag)).1.slots_ ∧
      ((split_node_load m pr fit cs (ooc, flag)).2 = true →
        flag = true ∧ (split_node_load m pr fit cs (ooc, flag)).1 = ooc ∧
          ∀ c ∈ cs, ooc.is_node_resident m c = true) := by
  intro cs
  induction cs with
  | nil =>
    intro ooc flag
    exact ⟨cache_slots.extends_slots_refl _, fun h => ⟨h, rfl, by simp⟩⟩
  | cons c cs ih =>
    intro ooc flag
    rw [split_node_load]
    by_cases hres : ooc.is_node_resident m c = true
    · simp only [hres, Bool.not_true, Bool.false_eq_true, if_false]
      obtain ⟨i1, i2⟩ := ih ooc flag
      refine ⟨i1, fun h => ?_⟩
      obtain ⟨j1, j2, j3⟩ := i2 h
      refine ⟨j1, j2, ?_⟩
      intro x hx
      rcases List.mem_cons.mp hx with rfl | hx'
      · exact hres
      · exact j3 x hx'
    · simp only [hres, Bool.not_false, if_true]
      constructor
      · by_cases hg : (fit && decide (ooc.num_free_slots > 0)) = true
        · rw [if_pos hg]
          have hfree : 0 < ooc.num_free_slots := by
            simp only [Bool.and_eq_true, decide_eq_true_eq] at hg
            exact hg.2
          exact cache_slots.extends_slots_trans _ _ _
            (ooc_cache.register_node_extends ooc m c pr hfree) (ih _ false).1
        · rw [if_neg hg]
          exact (ih _ false).1
      · intro h
        have := ((ih _ false).2 h).1
        simp at this

/-- The transfer loop of `split_node` evicts nothing; when it leaves the flag set,
every child has a GPU slot. -/
theorem split_node_transfer_spec (m : Nat) (fit : Bool) :
    ∀ (cs : List Nat) (gpu : gpu_cache) (flag : Bool),
      cache_slots.extends_slots gpu.slots_ (split_node_transfer m fit cs (gpu, flag)).1.slots_ ∧
      ((split_node_transfer m fit cs (gpu, flag)).2 = true →
        flag = true ∧
          ∀ c ∈ cs, (split_node_transfer m fit cs (gpu, flag)).1.is_node_resident m c = true) := by
  intro cs
  induction cs with
  | nil =>
    intro gpu flag
    exact ⟨cache_slots.extends_slots_refl _, fun h => ⟨h, by simp⟩⟩
  | cons c cs ih =>
    intro gpu flag
    rw [split_node_transfer]
    have keep : ∀ (g : gpu_cache) (f : Bool),
        cache_slots.extends_slots gpu.slots_ g.slots_ → g.is_node_resident m c = true →
        (f = true → flag = true) →
        cache_slots.extends_slots gpu.slots_ (split_node_transfer m fit cs (g, f)).1.slots_ ∧
        ((split_node_transfer m fit cs (g, f)).2 = true →
          flag = true ∧ ∀ x ∈ c :: cs,
            (split_node_transfer m fit cs (g, f)).1.is_node_resident m x = true) := by
      intro g f hext hres hf
      obtain ⟨i1, i2⟩ := ih g f
      refine ⟨cache_slots.extends_slots_trans _ _ _ hext i1, fun h => ?_⟩
      obtain ⟨j1, j2⟩ := i2 h
      refine ⟨hf j1, ?_⟩
      intro x hx
      rcases List.mem_cons.mp hx with rfl | hx'
      · exact cache_slots.is_node_indexed_extends _ _ i1 _ _ hres
      · exact j2 x hx'
    have drop : cache_slots.extends_slots gpu.slots_
          (split_node_transfer m fit cs (gpu, false)).1.slots_ ∧
        ((split_node_transfer m fit cs (gpu, false)).2 = true →
          flag = true ∧ ∀ x ∈ c :: cs,
            (split_node_transfer m fit cs (gpu, false)).1.is_node_resident m x = true) := by
      refine ⟨(ih gpu false).1, fun h => ?_⟩
      have := ((ih gpu false).2 h).1
      simp at this
    by_cases hres : gpu.is_node_resident m c = true
    · simp only [hres, Bool.not_true, Bool.false_eq_true, if_false]
      exact keep gpu flag (cache_slots.extends_slots_refl _) hres (fun h => h)
    · simp only [hres, Bool.not_false, if_true]
      by_cases hfit : fit = true
      · rw [if_pos hfit]
        by_cases hg : (decide (gpu.transfer_budget > 0) && decide (gpu.num_free_slots > 0)) = true
        · rw [if_pos hg]
          have hfree : 0 < gpu.num_free_slots := by
            simp only [Bool.and_eq_true, decide_eq_true_eq] at hg
            exact hg.2
          obtain ⟨r1, r2⟩ := gpu_cache.register_node_slot gpu m c hfree
          exact keep _ flag r1 r2 (fun h => h)
        · rw [if_neg hg]
          exact drop
      · rw [if_neg hfit]
        exact drop

end cut_update_pool

namespace cut_update_pool

/-- The two loops of `split_node` that obtain the children evict nothing; when
all children are available, each is host-resident and has a GPU slot. -/
theorem split_node_obtain_spec (p : cut_update_pool) (a : action) :
    cache_slots.extends_slots p.ooc_cache_.slots_ (split_node_obtain p a).1.slots_ ∧
    cache_slots.extends_slots p.gpu_cache_.slots_ (split_node_obtain p a).2.1.slots_ ∧
    ((split_node_obtain p a).2.2 = true →
      ∀ c ∈ p.index_.get_all_children a.model_id_ a.node_id_,
        (split_node_obtain p a).1.is_node_resident a.model_id_ c = true ∧
        (split_node_obtain p a).2.1.is_node_resident a.model_id_ c = true) := by
  unfold split_node_obtain
  simp only []
  obtain ⟨l1, l2⟩ := split_node_load_spec a.model_id_ (error_priority a.error_)
    (decide (p.ooc_cache_.num_free_slots ≥ p.index_.fan_factor a.model_id_))
    (p.index_.get_all_children a.model_id_ a.node_id_) p.ooc_cache_ true
  obtain ⟨t1, t2⟩ := split_node_transfer_spec a.model_id_
    (decide (p.gpu_cache_.transfer_budget ≥ p.index_.fan_factor a.model_id_)
      && decide (p.gpu_cache_.num_free_slots ≥ p.index_.fan_factor a.model_id_))
    (p.index_.get_all_children a.model_id_ a.node_id_) p.gpu_cache_ true
  split
  · rename_i hl
    refine ⟨l1, t1, fun h c hc => ?_⟩
    obtain ⟨_, j2, j3⟩ := l2 hl
    refine ⟨?_, (t2 h).2 c hc⟩
    simp only []
    rw [j2]
    exact j3 c hc
  · refine ⟨l1, cache_slots.extends_slots_refl _, fun h => ?_⟩
    simp at h

/-- What `split_node` does to the caches: it keeps them, and when it approves the
split every child is resident in both caches and acquired. -/
theorem split_node_summary (p : cut_update_pool) (a : action) (v0 m0 : Nat) :
    keeps_caches p (split_node p a) v0 m0 [] ∧
    ((split_node p a).index_ = p.index_.reject_action a ∨
      ((split_node p a).index_ = p.index_.approve_action a ∧
        ∀ c ∈ p.index_.get_all_children a.model_id_ a.node_id_,
          (split_node p a).node_held a.view_id_ a.model_id_ c)) := by
  obtain ⟨o1, o2, o3⟩ := split_node_obtain_spec p a
  obtain ⟨p1, hp1⟩ : ∃ p1 : cut_update_pool, p1 = { p with
      ooc_cache_ := (split_node_obtain p a).1,
      gpu_cache_ := (split_node_obtain p a).2.1 } := ⟨_, rfl⟩
  have hctx : p1.context_id_ = p.context_id_ := by rw [hp1]
  have hidx : p1.index_ = p.index_ := by rw [hp1]
  have hooc : p1.ooc_cache_ = (split_node_obtain p a).1 := by rw [hp1]
  have hgpu : p1.gpu_cache_ = (split_node_obtain p a).2.1 := by rw [hp1]
  have k1 : keeps_caches p p1 v0 m0 [] := by
    refine ⟨hctx, ?_, ?_⟩
    · rw [hooc]; exact cache_slots.keeps_of_extends _ _ _ _ _ _ o1
    · rw [hgpu]; exact cache_slots.keeps_of_extends _ _ _ _ _ _ o2
  unfold split_node
  simp only []
  split
  · exact ⟨keeps_caches_refl _ _ _ _, Or.inl rfl⟩
  · rw [← hp1]
    split
    · rename_i hav
      obtain ⟨k2, a2⟩ := aquire_children_keeps a.view_id_ a.model_id_ v0 m0
        (p.index_.get_all_children a.model_id_ a.node_id_) p1
      refine ⟨keeps_caches_trans _ _ _ _ _ _ k1 k2, Or.inr ⟨?_, ?_⟩⟩
      · simp [approve, hidx]
      · intro c hc
        obtain ⟨r1, r2⟩ := o3 hav c hc
        rw [← hooc] at r1
        rw [← hgpu] at r2
        obtain ⟨q1, q2⟩ := a2 c hc
        refine ⟨k2.2.1.2.1 _ _ r1, k2.2.2.1 _ _ r2, ?_, ?_⟩
        · show (aquire_children p1 a.view_id_ a.model_id_ _).ooc_cache_.slots_.is_node_aquired
            (aquire_children p1 a.view_id_ a.model_id_ _).context_id_ _ _ _ = true
          rw [aquire_children_context]
          exact q1 (cache_slots.is_node_indexed_of_resident _ _ _ r1)
        · show (aquire_children p1 a.view_id_ a.model_id_ _).gpu_cache_.slots_.is_node_aquired
            (aquire_children p1 a.view_id_ a.model_id_ _).context_id_ _ _ _ = true
          rw [aquire_children_context]
          exact q2 r2
    · exact ⟨k1, Or.inl (by simp [reject, hidx])⟩

/-- What `collapse_node` does to the caches: it keeps them, the acquisitions of the
children of the node apart, and keeps them all when it rejects the action. -/
theorem collapse_node_summary (p : cut_update_pool) (a : action) :
    ((decide (a.node_id_ < 1) || a.node_id_ == invalid_node_t) = true →
      keeps_caches p (collapse_node p a) a.view_id_ a.model_id_ []) ∧
    keeps_caches p (collapse_node p a) a.view_id_ a.model_id_
      (p.index_.get_all_children a.model_id_ a.node_id_) := by
  unfold collapse_node
  split
  · exact ⟨fun _ => keeps_caches_refl _ _ _ _, keeps_caches_refl _ _ _ _⟩
  · rename_i h
    refine ⟨fun h' => absurd h' h, ?_⟩
    exact release_children_keeps a.view_id_ a.model_id_ _ _ p (fun c hc => hc)

end cut_update_pool

/-! ## Residency and acquisition all through `cut_update` -/

namespace cut_update_pool

theorem keeps_caches_pop_front (p p' : cut_update_pool) (q : queue_t) (v m : Nat) (R : List Nat)
    (h : keeps_caches (p.pop_front q) p' v m R) : keeps_caches p p' v m R := h

theorem keeps_caches_pop_back (p p' : cut_update_pool) (q : queue_t) (v m : Nat) (R : List Nat)
    (h : keeps_caches (p.pop_back q) p' v m R) : keeps_caches p p' v m R := h

end cut_update_pool

/-- Every transition of `cut_update` resolves one queued action on the index and
keeps the caches as `pool_step` says. -/
theorem update_step_pool (p p' : cut_update_pool) (h : update_step p p') : pool_step p p' := by
  cases h with
  | resident a h hres =>
    obtain ⟨hp, he⟩ := cut_update_index.front_action_perm _ _ _ h
    refine ⟨queue_t.MUST_SPLIT, a, _, hp, Or.inr (Or.inr (Or.inl ⟨rfl, ?_, ?_, ?_⟩))⟩
    · simp [cut_update_pool.approve, he, cut_update_index.approve_action_eq]
    · exact (cut_update_pool.aquire_children_keeps a.view_id_ a.model_id_ a.view_id_ a.model_id_
        _ (p.pop_front queue_t.MUST_SPLIT)).1
    · intro c hc
      obtain ⟨k, aq⟩ := cut_update_pool.aquire_children_keeps a.view_id_ a.model_id_
        a.view_id_ a.model_id_ (p.index_.get_all_children a.model_id_ a.node_id_)
        (p.pop_front queue_t.MUST_SPLIT)
      obtain ⟨r1, r2⟩ := hres c hc
      obtain ⟨q1, q2⟩ := aq c hc
      have hctx : (cut_update_pool.approve
          (cut_update_pool.aquire_children (p.pop_front queue_t.MUST_SPLIT) a.view_id_
            a.model_id_ (p.index_.get_all_children a.model_id_ a.node_id_)) a).context_id_
          = (p.pop_front queue_t.MUST_SPLIT).context_id_ := by
        simp [cut_update_pool.approve]
      refine ⟨k.2.1.2.1 _ _ r1, k.2.2.1 _ _ r2, ?_, ?_⟩
      · rw [hctx]
        exact q1 (cache_slots.is_node_indexed_of_resident _ _ _ r1)
      · rw [hctx]
        exact q2 r2
  | split a h hfit =>
    obtain ⟨hp, he⟩ := cut_update_index.front_action_perm _ _ _ h
    obtain ⟨k, hi⟩ := cut_update_pool.split_node_summary (p.pop_front queue_t.MUST_SPLIT) a
      a.view_id_ a.model_id_
    refine ⟨queue_t.MUST_SPLIT, a, _, hp, ?_⟩
    rcases hi with h1 | ⟨h1, h2⟩
    · left
      refine ⟨?_, k⟩
      rw [h1]
      simp [he, cut_update_index.reject_action_eq]
    · right; right; left
      refine ⟨rfl, ?_, k, ?_⟩
      · rw [h1]
        simp [he, cut_update_index.approve_action_eq]
      · intro c hc
        refine h2 c ?_
        rw [cut_update_pool.pop_front_index,
          cut_update_index.get_all_children_congr p.index_
            (p.index_.pop_front_action queue_t.MUST_SPLIT) rfl rfl]
        exact hc
  | collapse_front q a hq h =>
    obtain ⟨hp, he⟩ := cut_update_index.front_action_perm _ _ _ h
    obtain ⟨k1, k2⟩ := cut_update_pool.collapse_node_summary (p.pop_front q) a
    refine ⟨q, a, _, hp, ?_⟩
    have hidx := cut_update_pool.collapse_node_index (p.pop_front q) a
    simp only [cut_update_pool.pop_front_index, he,
      cut_update_index.with_queue_collapsed_nodes] at hidx
    unfold cut_update_index.collapsed_nodes at hidx
    by_cases hroot : (decide (a.node_id_ < 1) || a.node_id_ == invalid_node_t) = true
    · rw [if_pos hroot] at hidx
      exact Or.inl ⟨hidx, k1 hroot⟩
    · rw [if_neg hroot] at hidx
      refine Or.inr (Or.inr (Or.inr ⟨hq.1, hq.2, hidx, ?_⟩))
      rw [cut_update_pool.pop_front_index,
        cut_update_index.get_all_children_congr p.index_ (p.index_.pop_front_action q)
          rfl rfl] at k2
      exact k2
  | collapse_back q a hq h =>
    obtain ⟨hp, he⟩ := cut_update_index.back_action_perm _ _ _ h
    obtain ⟨k1, k2⟩ := cut_update_pool.collapse_node_summary (p.pop_back q) a
    refine ⟨q, a, _, hp, ?_⟩
    have hidx := cut_update_pool.collapse_node_index (p.pop_back q) a
    simp only [cut_update_pool.pop_back_index, he,
      cut_update_index.with_queue_collapsed_nodes] at hidx
    unfold cut_update_index.collapsed_nodes at hidx
    by_cases hroot : (decide (a.node_id_ < 1) || a.node_id_ == invalid_node_t) = true
    · rw [if_pos hroot] at hidx
      exact Or.inl ⟨hidx, k1 hroot⟩
    · rw [if_neg hroot] at hidx
      refine Or.inr (Or.inr (Or.inr ⟨hq.1, hq.2, hidx, ?_⟩))
      rw [cut_update_pool.pop_back_index,
        cut_update_index.get_all_children_congr p.index_ (p.index_.Popback_action q)
          rfl rfl] at k2
      exact k2
  | reject_front q a h =>
    obtain ⟨hp, he⟩ := cut_update_index.front_action_perm _ _ _ h
    refine ⟨q, a, _, hp, Or.inl ⟨?_, cut_update_pool.keeps_caches_refl _ _ _ _⟩⟩
    rw [cut_update_pool.reject_index]
    simp [he]
  | approve_front q a hq h =>
    obtain ⟨hp, he⟩ := cut_update_index.front_action_perm _ _ _ h
    refine ⟨q, a, _, hp, Or.inr (Or.inl ⟨hq, ?_, cut_update_pool.keeps_caches_refl _ _ _ _⟩)⟩
    rw [cut_update_pool.approve_index]
    simp [he]

/-- No child of a node of the current cut lies on the way to the root from a node
of the cut or from a node a queued action stands for: releasing the children of
a committed parent takes nothing that is needed. -/
theorem collapse_release_safe (v m : Nat) (idx : cut_update_index)
    (hcut : cut_invariant v m idx) (hF : 1 ≤ idx.fan_factor m) (P i y : Nat)
    (hi : i < idx.fan_factor m) (hP : P ∈ idx.get_current_cut v m)
    (hxy : is_ancestor_or_self (idx.fan_factor m) (P * idx.fan_factor m + 1 + i) y)
    (hgen : y ∈ idx.get_current_cut v m ∨
      ∃ b ∈ idx.all_actions, action_of v m b ∧ y ∈ idx.rejected_nodes b) : False := by
  have hPx := ancestor_child (idx.fan_factor m) P i hi
  have hPy := ancestor_trans _ _ _ _ hPx hxy
  rcases hgen with hy | ⟨b, hb, hvm, hy⟩
  · have := hcut.antichain P hP y hy hPy
    rw [← this] at hxy
    have h1 := ancestor_le _ _ _ hxy
    have h2 := child_gt (idx.fan_factor m) P i hF
    omega
  · obtain ⟨t, ht1, ht2⟩ := hcut.separated P hP b hb hvm
    have hwf := hcut.wf b hb hvm
    obtain ⟨rfl, rfl⟩ := hvm
    have hby := (resolved_nodes_props idx b hF hwf _ (Or.inr rfl)).1 y hy
    rcases ancestor_chain _ _ _ _ hPy hby with h | h
    · exact ht2.1 (ancestor_trans _ _ _ _ ht1 h)
    · rcases ancestor_chain _ _ _ _ ht1 h with h' | h'
      · exact ht2.1 h'
      · exact ht2.2 h'

/-- The nodes a resolved action of `(v, m)` commits, and their ancestors, were held
before or are held now. -/
theorem pool_step_new_nodes (v m : Nat) (p p' : cut_update_pool)
    (hinv : held_invariant v m p) (q : queue_t) (a : action) (rest : List action)
    (hp : List.Perm (p.index_.action_queues_ q) (a :: rest)) (hvm : action_of v m a)
    (ns : List Nat)
    (hcase : ns = p.index_.rejected_nodes a ∨
      (q = queue_t.KEEP ∧ ns = p.index_.approved_nodes a) ∨
      (q = queue_t.MUST_SPLIT ∧ ns = p.index_.approved_nodes a ∧
        ∀ c ∈ p.index_.get_all_children a.model_id_ a.node_id_,
          p'.node_held a.view_id_ a.model_id_ c) ∨
      (q ≠ queue_t.KEEP ∧ q ≠ queue_t.MUST_SPLIT ∧ ns = p.index_.approved_nodes a))
    (x y : Nat) (hxy : is_ancestor_or_self (p.index_.fan_factor m) x y) (hy : y ∈ ns) :
    p.node_held v m x ∨ p'.node_held v m x := by
  have hF := hinv.tree
  have hperm := cut_update_index.all_actions_perm_remove p.index_ q a rest hp
  have ha_mem : a ∈ p.index_.all_actions := hperm.symm.subset (List.mem_cons_self _ _)
  have ha_q : a ∈ p.index_.action_queues_ q := hp.symm.subset (List.mem_cons_self _ _)
  have hkind := hinv.kinds q a ha_q hvm
  have hwf := hinv.cut.wf a ha_mem hvm
  have hvm' := hvm
  obtain ⟨rfl, rfl⟩ := hvm
  have hrej : ∀ z, z ∈ p.index_.rejected_nodes a → is_ancestor_or_self
      (p.index_.fan_factor a.model_id_) x z → p.node_held a.view_id_ a.model_id_ x :=
    fun z hz hxz => hinv.held x z hxz (Or.inr ⟨a, ha_mem, hvm', hz⟩)
  rcases hcase with h | ⟨hq, h⟩ | ⟨hq, h, hch⟩ | ⟨hq1, hq2, h⟩
  · left
    rw [h] at hy
    exact hrej y hy hxy
  · left
    rw [hq] at hkind
    have : p.index_.rejected_nodes a = ns := by
      rw [h]
      unfold cut_update_index.rejected_nodes cut_update_index.approved_nodes
      rw [hkind]
    rw [← this] at hy
    exact hrej y hy hxy
  · rw [hq] at hkind
    have hns : ns = p.index_.get_all_children a.model_id_ a.node_id_ := by
      rw [h]
      unfold cut_update_index.approved_nodes
      rw [hkind]
    have hr : a.node_id_ ∈ p.index_.rejected_nodes a := by
      unfold cut_update_index.rejected_nodes
      rw [hkind]
      simp
    rw [hns] at hy
    by_cases hxe : x = y
    · right
      rw [hxe]
      exact hch y hy
    · left
      have hv := hwf (by rw [hkind]; simp)
      obtain ⟨i, hi, rfl⟩ := (cut_update_index.mem_children_of_valid p.index_ _ _ y hv).mp hy
      have := ancestor_of_parent _ _ _ hxy hxe
      rw [tree_parent_child _ _ _ hi] at this
      exact hrej _ hr this
  · left
    rw [← hkind] at hq1 hq2
    have hns : ns = [a.node_id_] := by
      rw [h]
      unfold cut_update_index.approved_nodes
      cases hk : a.queue_ <;> first | rfl | exact absurd hk hq2
    have hv := hwf hq1
    have hr : a.node_id_ * p.index_.fan_factor a.model_id_ + 1 + 0
        ∈ p.index_.rejected_nodes a := by
      have : p.index_.rejected_nodes a = p.index_.get_all_children a.model_id_ a.node_id_ := by
        unfold cut_update_index.rejected_nodes
        cases hk : a.queue_ <;> first | rfl | exact absurd hk hq1 | exact absurd hk hq2
      rw [this]
      exact (cut_update_index.mem_children_of_valid p.index_ _ _ _ hv).mpr ⟨0, by omega, rfl⟩
    rw [hns] at hy
    rw [List.mem_singleton.mp hy] at hxy
    exact hrej _ hr (ancestor_trans _ _ _ _ hxy (ancestor_child _ _ 0 (by omega)))

/-- Every transition of `cut_update` keeps the invariant of residency and
acquisition. -/
theorem held_invariant_step (v m : Nat) (p p' : cut_update_pool)
    (hinv : held_invariant v m p) (hs : pool_step p p') : held_invariant v m p' := by
  obtain ⟨q, a, rest, hp, hcase⟩ := hs
  have hF := hinv.tree
  have hperm := cut_update_index.all_actions_perm_remove p.index_ q a rest hp
  have ha_mem : a ∈ p.index_.all_actions := hperm.symm.subset (List.mem_cons_self _ _)
  have ha_q : a ∈ p.index_.action_queues_ q := hp.symm.subset (List.mem_cons_self _ _)
  have hsub : ∀ b ∈ (p.index_.with_queue q rest).all_actions, b ∈ p.index_.all_actions :=
    fun b hb => hperm.symm.subset (List.mem_cons_of_mem _ hb)
  obtain ⟨ns, R, hidx, hkeep, hns, hnew, hR⟩ : ∃ (ns R : List Nat),
      p'.index_ = (p.index_.with_queue q rest).add_to_current_cut a.view_id_ a.model_id_ ns ∧
      p.keeps_caches p' a.view_id_ a.model_id_ R ∧
      (ns = p.index_.approved_nodes a ∨ ns = p.index_.rejected_nodes a) ∧
      (action_of v m a → ∀ x y, is_ancestor_or_self (p.index_.fan_factor m) x y → y ∈ ns →
        p.node_held v m x ∨ p'.node_held v m x) ∧
      (R = [] ∨ (R = p.index_.get_all_children a.model_id_ a.node_id_ ∧
        q ≠ queue_t.KEEP ∧ q ≠ queue_t.MUST_SPLIT ∧ ns = p.index_.approved_nodes a)) := by
    rcases hcase with ⟨h1, h2⟩ | ⟨hq, h1, h2⟩ | ⟨hq, h1, h2, h3⟩ | ⟨hq1, hq2, h1, h2⟩
    · exact ⟨_, _, h1, h2, Or.inr rfl, fun hvm x y hxy hy =>
        pool_step_new_nodes v m p p' hinv q a rest hp hvm _ (Or.inl rfl) x y hxy hy, Or.inl rfl⟩
    · exact ⟨_, _, h1, h2, Or.inl rfl, fun hvm x y hxy hy =>
        pool_step_new_nodes v m p p' hinv q a rest hp hvm _ (Or.inr (Or.inl ⟨hq, rfl⟩))
          x y hxy hy, Or.inl rfl⟩
    · exact ⟨_, _, h1, h2, Or.inl rfl, fun hvm x y hxy hy =>
        pool_step_new_nodes v m p p' hinv q a rest hp hvm _
          (Or.inr (Or.inr (Or.inl ⟨hq, rfl, h3⟩))) x y hxy hy, Or.inl rfl⟩
    · exact ⟨_, _, h1, h2, Or.inl rfl, fun hvm x y hxy hy =>
        pool_step_new_nodes v m p p' hinv q a rest hp hvm _
          (Or.inr (Or.inr (Or.inr ⟨hq1, hq2, rfl⟩))) x y hxy hy,
        Or.inr ⟨rfl, hq1, hq2, rfl⟩⟩
  have hstep : index_step p.index_ p'.index_ := by
    refine ⟨q, a, rest, hp, ?_⟩
    rcases hns with h | h
    · left; rw [hidx, h]
    · right; rw [hidx, h]
  have cut' := cut_invariant_step v m _ _ hF hstep hinv.cut
  have hF' : p'.index_.fan_factor m = p.index_.fan_factor m := by rw [hidx]; rfl
  have hrej : ∀ b, p'.index_.rejected_nodes b = p.index_.rejected_nodes b := fun b =>
    cut_update_index.rejected_nodes_congr p.index_ p'.index_ (by rw [hidx]; rfl)
      (by rw [hidx]; rfl) b
  have hact : ∀ b ∈ p'.index_.all_actions, b ∈ p.index_.all_actions := by
    intro b hb
    rw [hidx] at hb
    exact hsub b hb
  refine ⟨cut', by rw [hF']; exact hF, ?_, ?_⟩
  · intro q' b hb hvm
    rw [hidx] at hb
    have hq' : ((p.index_.with_queue q rest).add_to_current_cut a.view_id_ a.model_id_
        ns).action_queues_ q' = set_queue p.index_.action_queues_ q rest q' := rfl
    rw [hq'] at hb
    unfold set_queue at hb
    split at hb
    · rename_i e
      rw [e]
      exact hinv.kinds q b (hp.symm.subset (List.mem_cons_of_mem _ hb)) hvm
    · exact hinv.kinds q' b hb hvm
  · intro x y hxy hgen
    have h1 : p.node_held v m x ∨ p'.node_held v m x := by
      rw [hF'] at hxy
      rcases hgen with hy | ⟨b, hb, hvm, hy⟩
      · rw [hidx, cut_update_index.mem_add_to_current_cut] at hy
        rcases hy with hy | ⟨ev, em, hy⟩
        · exact Or.inl (hinv.held x y hxy (Or.inl hy))
        · exact hnew ⟨ev.symm, em.symm⟩ x y hxy hy
      · rw [hrej] at hy
        exact Or.inl (hinv.held x y hxy (Or.inr ⟨b, hact b hb, hvm, hy⟩))
    rcases h1 with h1 | h1
    · refine cut_update_pool.node_held_of_keeps p p' _ _ R hkeep v m x h1 ?_
      rintro ⟨ev, em, hxR⟩
      rcases hR with rfl | ⟨rfl, hq1, hq2, hap⟩
      · simp at hxR
      · have hvm : action_of v m a := ⟨ev.symm, em.symm⟩
        have hkind := hinv.kinds q a ha_q hvm
        rw [← hkind] at hq1 hq2
        have hv := hinv.cut.wf a ha_mem hvm hq1
        have hnsP : ns = [a.node_id_] := by
          rw [hap]
          unfold cut_update_index.approved_nodes
          cases hk : a.queue_ <;> first | rfl | exact absurd hk hq2
        obtain ⟨i, hi, rfl⟩ := (cut_update_index.mem_children_of_valid p.index_ _ _ x hv).mp hxR
        have hP : a.node_id_ ∈ p'.index_.get_current_cut v m := by
          rw [hidx, cut_update_index.mem_add_to_current_cut]
          right
          exact ⟨ev, em, by rw [hnsP]; simp⟩
        rw [← em, ← hF'] at hi hxy
        exact collapse_release_safe v m p'.index_ cut' (by rw [hF']; exact hF) a.node_id_ i y hi
          hP hxy hgen
    · exact h1

/-- A sequence of transitions keeps the invariant of residency and acquisition. -/
theorem held_invariant_steps (v m : Nat) (p p' : cut_update_pool)
    (hs : Relation.ReflTransGen update_step p p') (hinv : held_invariant v m p) :
    held_invariant v m p' := by
  induction hs with
  | refl => exact hinv
  | tail _ hstep ih => exact held_invariant_step v m _ _ ih (update_step_pool _ _ hstep)

/-! ## What the analysis queues -/

namespace cut_update_index

/-- Pushed actions sit in the queue of their kind. -/
theorem push_actions_queues (acts : List action) :
    ∀ (idx : cut_update_index) (q : queue_t) (a : action),
      a ∈ (acts.foldl (fun i a => i.push_action a false) idx).action_queues_ q →
      a ∈ idx.action_queues_ q ∨ (a ∈ acts ∧ a.queue_ = q) := by
  induction acts with
  | nil => intro idx q a h; exact Or.inl h
  | cons b acts ih =>
    intro idx q a h
    rw [List.foldl_cons] at h
    rcases ih _ q a h with h1 | ⟨h1, h2⟩
    · simp only [push_action, set_queue] at h1
      split at h1
      · rename_i e
        rcases List.mem_append.mp h1 with h3 | h3
        · left; rw [e]; exact h3
        · right
          rw [List.mem_singleton.mp h3]
          exact ⟨List.mem_cons_self _ _, e.symm⟩
      · exact Or.inl h1
    · exact Or.inr ⟨List.mem_cons_of_mem _ h1, h2⟩

end cut_update_index

namespace cut_update_pool

/-- An analysis task touches the index only. -/
theorem cut_analysis_caches (cfg : config) (inp : frame_input) (p : cut_update_pool)
    (v m : Nat) :
    (cut_analysis cfg inp p v m).ooc_cache_ = p.ooc_cache_ ∧
    (cut_analysis cfg inp p v m).gpu_cache_ = p.gpu_cache_ ∧
    (cut_analysis cfg inp p v m).context_id_ = p.context_id_ := ⟨rfl, rfl, rfl⟩

theorem cut_analysis_tree (cfg : config) (inp : frame_input) (p : cut_update_pool)
    (v m : Nat) :
    (cut_analysis cfg inp p v m).index_.fan_factors_ = p.index_.fan_factors_ ∧
    (cut_analysis cfg inp p v m).index_.num_nodes_ = p.index_.num_nodes_ ∧
    (cut_analysis cfg inp p v m).index_.previous_cut_ = p.index_.previous_cut_ := by
  rw [cut_analysis_index]
  obtain ⟨_, _, q3, q4, q5⟩ := cut_update_index.push_actions_spec
    (cut_analysis_actions cfg inp p v m (p.index_.get_previous_cut v m)
      (freshness_timeout cfg p m) 0 (p.index_.get_previous_cut v m))
    (p.index_.reset_cut v m)
  exact ⟨q4, q5, q3⟩

/-- Every action the analysis queues for `(v, m)` sits in the queue of its kind and
stands for nodes of the previous cut of `(v, m)`. -/
theorem cut_analysis_footprints (cfg : config) (inp : frame_input) (p : cut_update_pool)
    (v m v' m' : Nat) (hF : 1 ≤ p.index_.fan_factor m)
    (hsorted : (p.index_.get_previous_cut v m).Pairwise (fun x y => x < y))
    (hG : ∀ q, ∀ a ∈ p.index_.action_queues_ q, action_of v m a →
      a.queue_ = q ∧ ∀ y ∈ p.index_.rejected_nodes a, y ∈ p.index_.get_previous_cut v m) :
    ∀ q, ∀ a ∈ (cut_analysis cfg inp p v' m').index_.action_queues_ q, action_of v m a →
      a.queue_ = q ∧ ∀ y ∈ (cut_analysis cfg inp p v' m').index_.rejected_nodes a,
        y ∈ (cut_analysis cfg inp p v' m').index_.get_previous_cut v m := by
  obtain ⟨t1, t2, t3⟩ := cut_analysis_tree cfg inp p v' m'
  have hrej : ∀ b, (cut_analysis cfg inp p v' m').index_.rejected_nodes b
      = p.index_.rejected_nodes b :=
    fun b => cut_update_index.rejected_nodes_congr p.index_ _ t1 t2 b
  have hprev : (cut_analysis cfg inp p v' m').index_.get_previous_cut v m
      = p.index_.get_previous_cut v m := by
    unfold cut_update_index.get_previous_cut; rw [t3]
  intro q a ha hvm
  rw [hrej, hprev]
  rw [cut_analysis_index] at ha
  rcases cut_update_index.push_actions_queues _ _ q a ha with h | ⟨h1, h2⟩
  · exact hG q a h hvm
  · have hof := cut_analysis_actions_of _ _ _ _ _ _ _ _ _ a h1
    have ev : v' = v := hof.1.symm.trans hvm.1
    have em : m' = m := hof.2.symm.trans hvm.2
    subst ev em
    obtain ⟨s1, _, _⟩ := cut_analysis_actions_spec cfg inp p v' m'
      (p.index_.get_previous_cut v' m') (freshness_timeout cfg p m') hF _
      (p.index_.get_previous_cut v' m') le_rfl hsorted
      (fun x _ _ _ hall i hi => (is_all_nodes_in_cut_children p m' _ _ hall i hi).2)
    exact ⟨h2, (s1 a h1).2.2⟩

/-- After the analysis tasks the current cut of an analysed `(v, m)` is empty. -/
theorem run_analysis_cut_empty (cfg : config) (inp : frame_input) (v m : Nat) :
    ∀ (jobs : List (Nat × Nat)) (p : cut_update_pool),
      ((v, m) ∈ jobs ∨ p.index_.get_current_cut v m = []) →
      (run_analysis cfg inp p jobs).index_.get_current_cut v m = [] := by
  intro jobs
  induction jobs with
  | nil =>
    intro p h
    rcases h with h | h
    · simp at h
    · exact h
  | cons job jobs ih =>
    intro p h
    rw [run_analysis]
    apply ih
    by_cases hj : job = (v, m)
    · right
      subst hj
      rw [cut_analysis_index]
      unfold cut_update_index.get_current_cut
      rw [(cut_update_index.push_actions_spec _ _).2.1]
      simp [cut_update_index.reset_cut, set_cut]
    · rcases h with h | h
      · rcases List.mem_cons.mp h with h' | h'
        · exact absurd h'.symm hj
        · exact Or.inl h'
      · right
        have hne' : ¬ (job.1 = v ∧ job.2 = m) := by
          rintro ⟨h1, h2⟩
          exact hj (Prod.ext h1 h2)
        rw [(cut_analysis_other cfg inp p v m job.1 job.2 hne').2.2.2.1]
        exact h

/-- The analysis tasks touch the index only, keep the tree and the previous cuts,
and queue for `(v, m)` only actions in the queue of their kind that stand for
nodes of the previous cut of `(v, m)`. -/
theorem run_analysis_footprints (cfg : config) (inp : frame_input) (v m : Nat) :
    ∀ (jobs : List (Nat × Nat)) (p : cut_update_pool),
      1 ≤ p.index_.fan_factor m →
      (p.index_.get_previous_cut v m).Pairwise (fun x y => x < y) →
      (∀ q, ∀ a ∈ p.index_.action_queues_ q, action_of v m a →
        a.queue_ = q ∧ ∀ y ∈ p.index_.rejected_nodes a, y ∈ p.index_.get_previous_cut v m) →
      (run_analysis cfg inp p jobs).ooc_cache_ = p.ooc_cache_ ∧
      (run_analysis cfg inp p jobs).gpu_cache_ = p.gpu_cache_ ∧
      (run_analysis cfg inp p jobs).context_id_ = p.context_id_ ∧
      (run_analysis cfg inp p jobs).index_.fan_factors_ = p.index_.fan_factors_ ∧
      (run_analysis cfg inp p jobs).index_.num_nodes_ = p.index_.num_nodes_ ∧
      ∀ q, ∀ a ∈ (run_analysis cfg inp p jobs).index_.action_queues_ q, action_of v m a →
        a.queue_ = q ∧ ∀ y ∈ p.index_.rejected_nodes a, y ∈ p.index_.get_previous_cut v m := by
  intro jobs
  induction jobs with
  | nil => intro p _ _ hG; exact ⟨rfl, rfl, rfl, rfl, rfl, hG⟩
  | cons job jobs ih =>
    intro p hF hs hG
    obtain ⟨t1, t2, t3⟩ := cut_analysis_tree cfg inp p job.1 job.2
    have hF' : (cut_analysis cfg inp p job.1 job.2).index_.fan_factor m
        = p.index_.fan_factor m := by
      unfold cut_update_index.fan_factor; rw [t1]
    have hprev : (cut_analysis cfg inp p job.1 job.2).index_.get_previous_cut v m
        = p.index_.get_previous_cut v m := by
      unfold cut_update_index.get_previous_cut; rw [t3]
    have hrej : ∀ b, (cut_analysis cfg inp p job.1 job.2).index_.rejected_nodes b
        = p.index_.rejected_nodes b :=
      fun b => cut_update_index.rejected_nodes_congr p.index_ _ t1 t2 b
    obtain ⟨i1, i2, i3, i4, i5, i6⟩ := ih (cut_analysis cfg inp p job.1 job.2)
      (by rw [hF']; exact hF) (by rw [hprev]; exact hs)
      (cut_analysis_footprints cfg inp p v m job.1 job.2 hF hs hG)
    rw [run_analysis]
    refine ⟨i1, i2, i3, i4.trans t1, i5.trans t2, ?_⟩
    intro q a ha hvm
    have := i6 q a ha hvm
    rw [hrej, hprev] at this
    exact this

end cut_update_pool

namespace cut_update_index

theorem mem_all_actions (idx : cut_update_index) (a : action) :
    a ∈ idx.all_actions ↔ ∃ q, a ∈ idx.action_queues_ q := by
  unfold all_actions
  simp only [List.mem_append]
  constructor
  · rintro (h | h | h | h | h)
    · exact ⟨_, h⟩
    · exact ⟨_, h⟩
    · exact ⟨_, h⟩
    · exact ⟨_, h⟩
    · exact ⟨_, h⟩
  · rintro ⟨q, h⟩
    cases q
    · exact Or.inl h
    · exact Or.inr (Or.inl h)
    · exact Or.inr (Or.inr (Or.inl h))
    · exact Or.inr (Or.inr (Or.inr (Or.inl h)))
    · exact Or.inr (Or.inr (Or.inr (Or.inr h)))

theorem mem_sort_queues (idx : cut_update_index) (q : queue_t) (a : action) :
    a ∈ idx.sort.action_queues_ q ↔ a ∈ idx.action_queues_ q := by
  cases q
  · exact Iff.rfl
  · exact (List.perm_insertionSort _ _).mem_iff
  · exact Iff.rfl
  · exact Iff.rfl
  · exact (List.perm_insertionSort _ _).mem_iff

end cut_update_index

namespace cut_update_pool

/-- The refresh of the host cache keeps every held node. -/
theorem node_held_refreshed (inp : frame_input) (p : cut_update_pool) (v m x : Nat)
    (h : p.node_held v m x) : (p.refreshed inp).node_held v m x := by
  obtain ⟨h1, h2, h3, h4⟩ := h
  exact ⟨ooc_cache.refresh_resident _ _ _ _ h1, h2, ooc_cache.refresh_aquired _ _ _ _ _ _ h3, h4⟩

/-- The render list and the transfer list are compiled without a change to the
slots of the caches. -/
theorem node_held_compiled (inp : frame_input) (p : cut_update_pool) (v m x : Nat)
    (h : p.node_held v m x) :
    (compile_transfer_list inp (compile_render_list p)).node_held v m x := h

end cut_update_pool

/-! ## The root-only cut: one queued action -/

theorem orderedInsert_last (n : Nat) :
    ∀ l : List Nat, (∀ b ∈ l, b < n) → List.orderedInsert (fun a b => a ≤ b) n l = l ++ [n] := by
  intro l
  induction l with
  | nil => intro _; rfl
  | cons b l ih =>
    intro h
    have hb : b < n := h b (List.mem_cons_self _ _)
    rw [List.orderedInsert, if_neg (by omega), ih (fun c hc => h c (List.mem_cons_of_mem _ hc))]
    rfl

/-- Inserting an ascending run above a set appends it. -/
theorem set_insert_all_ascending :
    ∀ (ns s : List Nat), (s ++ ns).Pairwise (fun x y => x < y) → set_insert_all ns s = s ++ ns := by
  intro ns
  induction ns with
  | nil => intro s _; simp [set_insert_all]
  | cons n ns ih =>
    intro s h
    have hlt : ∀ b ∈ s, b < n := by
      intro b hb
      rw [List.pairwise_append] at h
      exact h.2.2 b hb n (List.mem_cons_self _ _)
    have hnot : n ∉ s := fun hn => Nat.lt_irrefl _ (hlt n hn)
    have e : set_insert n s = s ++ [n] := by
      rw [set_insert, if_neg hnot, orderedInsert_last n s hlt]
    have h' : ((s ++ [n]) ++ ns).Pairwise (fun x y => x < y) := by
      simpa [List.append_assoc] using h
    have := ih (s ++ [n]) h'
    rw [set_insert_all] at this ⊢
    rw [List.foldl_cons, e, this]
    simp

namespace cut_update_pool

theorem split_node_queues (p : cut_update_pool) (a : action) :
    (split_node p a).index_.action_queues_ = p.index_.action_queues_ := by
  rcases split_node_index p a with h | h
  · rw [h, cut_update_index.approve_action_eq]; rfl
  · rw [h, cut_update_index.reject_action_eq]; rfl

/-- The final loops of `cut_update` do nothing when the queues are empty. -/
theorem cut_update_drain_empty (p : cut_update_pool)
    (h : ∀ q, p.index_.action_queues_ q = []) : cut_update_drain p = p := by
  unfold cut_update_drain
  simp only [h, drain_queue]

/-- The residency loop keeps the host flag when every child is host-resident. -/
theorem residency_scan_host (ooc : ooc_cache) (gpu : gpu_cache) (m : Nat) :
    ∀ (l : List Nat) (g : Bool), (∀ c ∈ l, ooc.is_node_resident m c = true) →
      (residency_scan ooc gpu m l (true, g)).1 = true := by
  intro l
  induction l with
  | nil => intro g _; rfl
  | cons d l ih =>
    intro g h
    have hd := h d (List.mem_cons_self _ _)
    unfold residency_scan
    simp only [hd, Bool.and_true, Bool.not_true, Bool.false_and, Bool.false_eq_true, if_false,
      Bool.and_false]
    exact ih _ (fun c hc => h c (List.mem_cons_of_mem _ hc))

/-- The residency loop keeps both flags when every child is resident in both
caches. -/
theorem residency_scan_all (ooc : ooc_cache) (gpu : gpu_cache) (m : Nat) :
    ∀ (l : List Nat), (∀ c ∈ l, ooc.is_node_resident m c = true ∧
        gpu.is_node_resident m c = true) →
      residency_scan ooc gpu m l (true, true) = (true, true) := by
  intro l
  induction l with
  | nil => intro _; rfl
  | cons d l ih =>
    intro h
    have hd := h d (List.mem_cons_self _ _)
    unfold residency_scan
    simp only [hd.1, hd.2, Bool.and_true, Bool.not_true, Bool.false_and, Bool.false_eq_true,
      if_false]
    exact ih (fun c hc => h c (List.mem_cons_of_mem _ hc))

end cut_update_pool

namespace cut_update_pool

/-- The main loop of `cut_update` with one split queued and nothing else: the
split is approved at once when its children are resident in both caches, and
handed to `split_node` or rejected otherwise. -/
theorem cut_update_loop_single_split (p : cut_update_pool) (a : action)
    (hq : ∀ q, p.index_.action_queues_ q = if q = queue_t.MUST_SPLIT then [a] else []) :
    ∃ P, cut_update_loop 2 p
        { check_residency := true, all_children_in_ooc_cache := true,
          all_children_in_gpu_cache := true } = some P ∧
      (∀ q, P.index_.action_queues_ q = []) ∧
      ((∀ c ∈ p.index_.get_all_children a.model_id_ a.node_id_,
          p.ooc_cache_.is_node_resident a.model_id_ c = true ∧
          p.gpu_cache_.is_node_resident a.model_id_ c = true) →
        P = approve (aquire_children (p.pop_front queue_t.MUST_SPLIT) a.view_id_ a.model_id_
          (p.index_.get_all_children a.model_id_ a.node_id_)) a) ∧
      (¬ (∀ c ∈ p.index_.get_all_children a.model_id_ a.node_id_,
          p.ooc_cache_.is_node_resident a.model_id_ c = true ∧
          p.gpu_cache_.is_node_resident a.model_id_ c = true) →
        (P = split_node (p.pop_front queue_t.MUST_SPLIT) a ∧
          ((∀ c ∈ p.index_.get_all_children a.model_id_ a.node_id_,
              p.ooc_cache_.is_node_resident a.model_id_ c = true) →
            p.index_.fan_factor a.model_id_ ≤ p.gpu_cache_.num_free_slots)) ∨
        (P = reject (p.pop_front queue_t.MUST_SPLIT) a ∧
          ((∀ c ∈ p.index_.get_all_children a.model_id_ a.node_id_,
              p.ooc_cache_.is_node_resident a.model_id_ c = true) →
            ¬ p.index_.fan_factor a.model_id_ ≤ p.gpu_cache_.num_free_slots))) := by
  have hfront : p.index_.front_action queue_t.MUST_SPLIT = some a := by
    simp [cut_update_index.front_action, hq]
  have hmc : p.index_.front_action queue_t.MUST_COLLAPSE = none := by
    simp [cut_update_index.front_action, hq]
  have hcn : p.index_.front_action queue_t.COLLAPSE_ON_NEED = none := by
    simp [cut_update_index.front_action, hq]
  have hmb : p.index_.back_action queue_t.MAYBE_COLLAPSE = none := by
    simp [cut_update_index.back_action, hq]
  have hpop : (p.index_.pop_front_action queue_t.MUST_SPLIT).action_queues_ queue_t.MUST_SPLIT
      = [] := by
    simp [set_queue, hq]
  have hnext : ∀ (P : cut_update_pool) (fl : update_flags),
      P.index_.action_queues_ = (p.index_.pop_front_action queue_t.MUST_SPLIT).action_queues_ →
      cut_update_loop 1 P fl = some P := by
    intro P fl hP
    rw [cut_update_loop]
    have : P.index_.front_action queue_t.MUST_SPLIT = none := by
      simp only [cut_update_index.front_action, hP, hpop, List.head?_nil]
    simp only [this]
  have hempty : ∀ (P : cut_update_pool),
      P.index_.action_queues_ = (p.index_.pop_front_action queue_t.MUST_SPLIT).action_queues_ →
      ∀ q, P.index_.action_queues_ q = [] := by
    intro P hP q
    rw [hP]
    simp only [cut_update_index.pop_front_action_queues, set_queue, hq]
    split <;> simp_all
  rw [cut_update_loop]
  simp only [hfront, hmc, hcn, hmb, if_true, Bool.true_and]
  by_cases hall : ∀ c ∈ p.index_.get_all_children a.model_id_ a.node_id_,
      p.ooc_cache_.is_node_resident a.model_id_ c = true ∧
      p.gpu_cache_.is_node_resident a.model_id_ c = true
  · rw [residency_scan_all _ _ _ _ hall]
    simp only [Bool.and_self, if_true]
    have hP : (approve (aquire_children (p.pop_front queue_t.MUST_SPLIT) a.view_id_ a.model_id_
        (p.index_.get_all_children a.model_id_ a.node_id_)) a).index_.action_queues_
        = (p.index_.pop_front_action queue_t.MUST_SPLIT).action_queues_ := by
      rw [approve_queues]
      simp
    exact ⟨_, hnext _ _ hP, hempty _ hP, fun _ => rfl, fun h => absurd hall h⟩
  · have hscan : ¬ ((residency_scan p.ooc_cache_ p.gpu_cache_ a.model_id_
          (p.index_.get_all_children a.model_id_ a.node_id_) (true, true)).1 = true ∧
        (residency_scan p.ooc_cache_ p.gpu_cache_ a.model_id_
          (p.index_.get_all_children a.model_id_ a.node_id_) (true, true)).2 = true) := by
      rintro ⟨h1, h2⟩
      exact hall (residency_scan_both _ _ _ _ _ h1 h2)
    rw [if_neg (by simpa using hscan)]
    split
    · rename_i hfit
      have hP : (split_node (p.pop_front queue_t.MUST_SPLIT) a).index_.action_queues_
          = (p.index_.pop_front_action queue_t.MUST_SPLIT).action_queues_ := by
        rw [split_node_queues]
        rfl
      refine ⟨_, hnext _ _ hP, hempty _ hP, fun h => absurd h hall,
        fun _ => Or.inl ⟨rfl, fun hhost => ?_⟩⟩
      · simp only [Bool.or_eq_true, Bool.and_eq_true, decide_eq_true_eq] at hfit
        rcases hfit with h | h
        · exact h.2
        · exact h.2
    · rename_i hfit
      have hP : (reject_front_split p a).index_.action_queues_
          = (p.index_.pop_front_action queue_t.MUST_SPLIT).action_queues_ := by
        unfold reject_front_split
        rw [reject_queues]
        rfl
      refine ⟨_, hnext _ _ hP, hempty _ hP, fun h => absurd h hall,
        fun _ => Or.inr ⟨rfl, fun hhost => ?_⟩⟩
      · intro hfree
        apply hfit
        have := residency_scan_host p.ooc_cache_ p.gpu_cache_ a.model_id_ _ true hhost
        simp only [Bool.or_eq_true, Bool.and_eq_true, decide_eq_true_eq]
        exact Or.inr ⟨this, hfree⟩

end cut_update_pool

namespace gpu_cache

/-- The registration of a node without a slot, with a free slot at hand: one slot
and one unit of budget are taken, the node joins the transfer list of its
model, and it is the only node that gains a slot. -/
theorem register_node_fresh (g : gpu_cache) (m n : Nat)
    (hni : g.is_node_resident m n = false) (hfree : 0 < g.num_free_slots) :
    (g.register_node m n).1.transfer_budget = g.transfer_budget - 1 ∧
    (g.register_node m n).1.num_free_slots + 1 = g.num_free_slots ∧
    (g.register_node m n).1.transfer_list m = set_insert_unordered n (g.transfer_list m) ∧
    (∀ m', m' ≠ m → (g.register_node m n).1.transfer_list m' = g.transfer_list m') ∧
    (g.register_node m n).1.transfer_slots_written = g.transfer_slots_written ∧
    ∀ m' n', (g.register_node m n).1.is_node_resident m' n' = true ↔
      ((m' = m ∧ n' = n) ∨ g.is_node_resident m' n' = true) := by
  obtain ⟨s', h1, h2, h3⟩ := cache_slots.place_of_free
    { model_id := m, node_id := n, loaded := true, priority := 0, holders := [] }
    g.slots_ hfree
  have hni' : g.slots_.is_node_indexed m n = false := hni
  unfold register_node
  rw [hni', h1]
  simp only [Bool.false_eq_true, if_false]
  refine ⟨rfl, h3, by simp [transfer_list], fun m' hm' => by simp [transfer_list, hm'], rfl, ?_⟩
  intro m' n'
  unfold is_node_resident
  simp only []
  rw [cache_slots.is_node_indexed_iff, cache_slots.is_node_indexed_iff]
  constructor
  · rintro ⟨e, he, e1, e2⟩
    rcases (h2 e).1 he with rfl | h
    · exact Or.inl ⟨e1.symm, e2.symm⟩
    · exact Or.inr ⟨e, h, e1, e2⟩
  · rintro (⟨rfl, rfl⟩ | ⟨e, he, e1, e2⟩)
    · exact ⟨_, (h2 _).2 (Or.inl rfl), rfl, rfl⟩
    · exact ⟨e, (h2 e).2 (Or.inr he), e1, e2⟩

end gpu_cache

namespace cut_update_pool

/-- Without room in the GPU cache the transfer loop of `split_node` registers
nothing, and it leaves the flag set only when every child has a GPU slot. -/
theorem split_node_transfer_no_room (m : Nat) :
    ∀ (cs : List Nat) (gpu : gpu_cache) (flag : Bool),
      (split_node_transfer m false cs (gpu, flag)).2 = true →
      ∀ c ∈ cs, gpu.is_node_resident m c = true := by
  intro cs
  induction cs with
  | nil => intro gpu flag _ c hc; simp at hc
  | cons d cs ih =>
    intro gpu flag h c hc
    rw [split_node_transfer] at h
    by_cases hres : gpu.is_node_resident m d = true
    · simp only [hres, Bool.not_true, Bool.false_eq_true, if_false] at h
      rcases List.mem_cons.mp hc with rfl | hc'
      · exact hres
      · exact ih gpu flag h c hc'
    · simp only [hres, Bool.not_false, if_true, Bool.false_eq_true, if_false] at h
      have := ((split_node_transfer_spec m false cs gpu false).2 h).1
      simp at this

/-- With room in the GPU cache the transfer loop of `split_node` keeps the flag. -/
theorem split_node_transfer_room (m : Nat) :
    ∀ (cs : List Nat) (gpu : gpu_cache) (flag : Bool),
      cs.length ≤ gpu.transfer_budget → cs.length ≤ gpu.num_free_slots →
      (split_node_transfer m true cs (gpu, flag)).2 = flag := by
  intro cs
  induction cs with
  | nil => intro gpu flag _ _; rfl
  | cons d cs ih =>
    intro gpu flag hb hf
    simp only [List.length_cons] at hb hf
    rw [split_node_transfer]
    by_cases hres : gpu.is_node_resident m d = true
    · simp only [hres, Bool.not_true, Bool.false_eq_true, if_false]
      exact ih gpu flag (by omega) (by omega)
    · have hres' : gpu.is_node_resident m d = false := by simpa using hres
      have hg : (decide (gpu.transfer_budget > 0) && decide (gpu.num_free_slots > 0)) = true := by
        simp only [Bool.and_eq_true, decide_eq_true_eq]
        omega
      simp only [hres', Bool.not_false, if_true, hg]
      obtain ⟨r1, r2, _⟩ := gpu_cache.register_node_fresh gpu m d hres' (by omega)
      exact ih _ flag (by rw [r1]; omega) (by omega)

/-- With room in the GPU cache and no child on the GPU yet, the transfer loop of
`split_node` appends the children to the transfer list of the model in their
order. -/
theorem split_node_transfer_fresh (m : Nat) :
    ∀ (cs : List Nat) (gpu : gpu_cache) (flag : Bool), cs.Nodup →
      (∀ c ∈ cs, gpu.is_node_resident m c = false) →
      cs.length ≤ gpu.transfer_budget → cs.length ≤ gpu.num_free_slots →
      (∀ c ∈ cs, c ∉ gpu.transfer_list m) →
      (split_node_transfer m true cs (gpu, flag)).1.transfer_list m
        = gpu.transfer_list m ++ cs ∧
      (split_node_transfer m true cs (gpu, flag)).1.transfer_slots_written
        = gpu.transfer_slots_written := by
  intro cs
  induction cs with
  | nil => intro gpu flag _ _ _ _ _; simp [split_node_transfer]
  | cons d cs ih =>
    intro gpu flag hnd hoff hb hf hnl
    simp only [List.length_cons] at hb hf
    rw [List.nodup_cons] at hnd
    have hres' : gpu.is_node_resident m d = false := hoff d (List.mem_cons_self _ _)
    have hg : (decide (gpu.transfer_budget > 0) && decide (gpu.num_free_slots > 0)) = true := by
      simp only [Bool.and_eq_true, decide_eq_true_eq]
      omega
    rw [split_node_transfer]
    simp only [hres', Bool.not_false, if_true, hg]
    obtain ⟨r1, r2, r3, _, r5, r6⟩ := gpu_cache.register_node_fresh gpu m d hres' (by omega)
    have hd : d ∉ gpu.transfer_list m := hnl d (List.mem_cons_self _ _)
    have r3' : (gpu.register_node m d).1.transfer_list m = gpu.transfer_list m ++ [d] := by
      rw [r3, set_insert_unordered, if_neg hd]
    obtain ⟨i1, i2⟩ := ih (gpu.register_node m d).1 flag hnd.2
      (by
        intro c hc
        have hc0 := hoff c (List.mem_cons_of_mem _ hc)
        cases hr : (gpu.register_node m d).1.is_node_resident m c with
        | false => rfl
        | true =>
          rcases (r6 m c).1 hr with h | h
          · exact absurd (h.2 ▸ hc) hnd.1
          · rw [hc0] at h; simp at h)
      (by rw [r1]; omega) (by omega)
      (by
        intro c hc
        rw [r3']
        intro hmem
        rcases List.mem_append.mp hmem with h | h
        · exact hnl c (List.mem_cons_of_mem _ hc) h
        · rw [List.mem_singleton] at h
          exact hnd.1 (h ▸ hc))
    rw [i1, i2, r3', r5]
    simp

end cut_update_pool

namespace cut_update_pool

/-- When the load loop of `split_node` finds every child host-resident it leaves
the host cache untouched; it finds that only when every child is
host-resident. -/
theorem split_node_obtain_host (p : cut_update_pool) (a : action)
    (h : (split_node_obtain p a).2.2 = true) :
    (split_node_obtain p a).1 = p.ooc_cache_ ∧
    ∀ c ∈ p.index_.get_all_children a.model_id_ a.node_id_,
      p.ooc_cache_.is_node_resident a.model_id_ c = true := by
  unfold split_node_obtain at h ⊢
  simp only [] at h ⊢
  obtain ⟨_, l2⟩ := split_node_load_spec a.model_id_ (error_priority a.error_)
    (decide (p.ooc_cache_.num_free_slots ≥ p.index_.fan_factor a.model_id_))
    (p.index_.get_all_children a.model_id_ a.node_id_) p.ooc_cache_ true
  split at h
  · rename_i hl
    obtain ⟨_, j2, j3⟩ := l2 hl
    rw [if_pos hl]
    exact ⟨j2, j3⟩
  · simp at h

/-- `split_node` rejects a split with a child that is not host-resident. -/
theorem split_node_rejects_host (p : cut_update_pool) (a : action)
    (h : ¬ ∀ c ∈ p.index_.get_all_children a.model_id_ a.node_id_,
      p.ooc_cache_.is_node_resident a.model_id_ c = true) :
    (split_node p a).index_ = p.index_.reject_action a := by
  unfold split_node
  simp only []
  split
  · rfl
  · split
    · rename_i hav
      exact absurd (split_node_obtain_host p a hav).2 h
    · rfl

/-- `split_node` rejects a split with a child without a GPU slot when the GPU cache
has fewer free slots or less transfer budget than children. -/
theorem split_node_rejects_gpu (p : cut_update_pool) (a : action)
    (hroom : ¬ (p.index_.fan_factor a.model_id_ ≤ p.gpu_cache_.num_free_slots ∧
      p.index_.fan_factor a.model_id_ ≤ p.gpu_cache_.transfer_budget))
    (h : ¬ ∀ c ∈ p.index_.get_all_children a.model_id_ a.node_id_,
      p.gpu_cache_.is_node_resident a.model_id_ c = true) :
    (split_node p a).index_ = p.index_.reject_action a := by
  unfold split_node
  simp only []
  split
  · rfl
  · split
    · rename_i hav
      exfalso
      unfold split_node_obtain at hav
      simp only [] at hav
      split at hav
      · have hfit : (decide (p.gpu_cache_.transfer_budget ≥ p.index_.fan_factor a.model_id_)
            && decide (p.gpu_cache_.num_free_slots ≥ p.index_.fan_factor a.model_id_))
            = false := by
          cases hc : (decide (p.gpu_cache_.transfer_budget ≥ p.index_.fan_factor a.model_id_)
            && decide (p.gpu_cache_.num_free_slots ≥ p.index_.fan_factor a.model_id_))
          · rfl
          · simp only [Bool.and_eq_true, decide_eq_true_eq] at hc
            exact absurd ⟨hc.2, hc.1⟩ hroom
        rw [hfit] at hav
        exact h (split_node_transfer_no_room a.model_id_ _ _ _ hav)
      · simp at hav
    · rfl

/-- The acquisition loop leaves the transfer state of the GPU cache alone. -/
theorem aquire_children_transfer (v m : Nat) :
    ∀ (cs : List Nat) (p : cut_update_pool),
      (aquire_children p v m cs).gpu_cache_.transfer_list_ = p.gpu_cache_.transfer_list_ ∧
      (aquire_children p v m cs).gpu_cache_.transfer_slots_written_
        = p.gpu_cache_.transfer_slots_written_ ∧
      (aquire_children p v m cs).transfer_list_ = p.transfer_list_ := by
  intro cs
  induction cs with
  | nil => intro p; exact ⟨rfl, rfl, rfl⟩
  | cons c cs ih =>
    intro p
    rw [aquire_children]
    obtain ⟨i1, i2, i3⟩ := ih { p with
      gpu_cache_ := p.gpu_cache_.aquire_node p.context_id_ v m c,
      ooc_cache_ := p.ooc_cache_.aquire_node p.context_id_ v m c }
    exact ⟨i1, i2, i3⟩

/-- The staging loop of `compile_transfer_list` appends one descriptor per node, in
the order of the nodes, and counts them. -/
theorem compile_transfer_nodes_spec (inp : frame_input) (p : cut_update_pool) (m : Nat) :
    ∀ (ns : List Nat) (storage : temporary_buffer → Nat → Nat) (tl : List (Nat × Nat))
      (k : Nat),
      (compile_transfer_nodes inp p m ns (storage, tl, k)).2.1
        = tl ++ (List.range ns.length).map
            (fun i => (k + i, p.gpu_cache_.slot_id m (ns.getD i 0))) ∧
      (compile_transfer_nodes inp p m ns (storage, tl, k)).2.2 = k + ns.length := by
  intro ns
  induction ns with
  | nil => intro storage tl k; simp [compile_transfer_nodes]
  | cons n ns ih =>
    intro storage tl k
    rw [compile_transfer_nodes]
    obtain ⟨i1, i2⟩ := ih
      (match p.current_gpu_storage_ with
        | some b => fun b' =>
            if b' = b then
              memcpy (storage b) (k * inp.slot_size) (inp.node_data m n) inp.slot_size
            else storage b'
        | none => storage)
      (tl ++ [(k, p.gpu_cache_.slot_id m n)]) (k + 1)
    rw [i1, i2]
    refine ⟨?_, by simp only [List.length_cons]; omega⟩
    rw [List.length_cons, List.range_succ_eq_map, List.map_cons, List.map_map,
      List.append_assoc]
    congr 1
    simp only [List.singleton_append, List.getD_cons_zero, Nat.add_zero, List.cons.injEq,
      true_and]
    apply List.map_congr_left
    intro i _
    simp only [Function.comp, List.getD_cons_succ]
    congr 1
    omega

end cut_update_pool

namespace cut_update_pool

/-- The analysis of a root-only previous cut pushes one action, the one
`cut_analysis` computes for a node without parent. -/
theorem root_analysis_index (cfg : config) (inp : frame_input) (p : cut_update_pool)
    (hprev : p.index_.get_previous_cut 0 0 = [0]) :
    (run_analysis cfg inp p [(0, 0)]).index_
      = (p.index_.reset_cut 0 0).push_action
          (analyse_node inp p 0 0 0 0 (p.min_error_threshold 0)
            (p.max_error_threshold 0) (freshness_timeout cfg p 0)) false := by
  simp [run_analysis, cut_analysis, hprev, cut_analysis_actions]

theorem root_analysis_caches (cfg : config) (inp : frame_input) (p : cut_update_pool) :
    (run_analysis cfg inp p [(0, 0)]).ooc_cache_ = p.ooc_cache_ ∧
    (run_analysis cfg inp p [(0, 0)]).gpu_cache_ = p.gpu_cache_ ∧
    (run_analysis cfg inp p [(0, 0)]).context_id_ = p.context_id_ ∧
    (run_analysis cfg inp p [(0, 0)]).transfer_list_ = p.transfer_list_ :=
  ⟨rfl, rfl, rfl, rfl⟩

/-- The action `cut_analysis` computes for the root: a split with the error of the
root when the conditions of `root_split_emitted` hold, a keep otherwise. -/
theorem root_action_eq (cfg : config) (inp : frame_input) (p : cut_update_pool) :
    (root_split_emitted cfg inp p →
      analyse_node inp p 0 0 0 0 (p.min_error_threshold 0)
          (p.max_error_threshold 0) (freshness_timeout cfg p 0)
        = { queue_ := queue_t.MUST_SPLIT, view_id_ := 0, model_id_ := 0, node_id_ := 0,
            error_ := inp.node_error 0 0 0 }) ∧
    (¬ root_split_emitted cfg inp p →
      analyse_node inp p 0 0 0 0 (p.min_error_threshold 0)
          (p.max_error_threshold 0) (freshness_timeout cfg p 0)
        = { queue_ := queue_t.KEEP, view_id_ := 0, model_id_ := 0, node_id_ := 0,
            error_ := 0 }) := by
  unfold root_split_emitted analyse_node
  constructor
  · rintro ⟨h1, h2, h3, h4⟩
    simp [h1, h2, h3, h4]
  · intro h
    by_cases h1 : inp.node_in_frustum 0 0 0 = true
    · by_cases h2 : inp.node_error 0 0 0 > p.max_error_threshold 0
      · by_cases h3 : children_allow_split inp p 0 0 0 (p.min_error_threshold 0) = true
        · have h4 : freshness_timeout cfg p 0 = true := by
            cases hf : freshness_timeout cfg p 0
            · exact absurd ⟨h1, h2, h3, hf⟩ h
            · rfl
          simp [h1, h2, h3, h4]
        · simp [h1, h2, h3]
      · simp [h1, h2]
    · simp [h1]

end cut_update_pool

namespace cut_update_pool

/-- `cut_update` with one keep queued and nothing else approves the keep. -/
theorem cut_update_single_keep (inp : frame_input) (p : cut_update_pool) (a : action)
    (hq : ∀ q, p.index_.action_queues_ q = if q = queue_t.KEEP then [a] else []) :
    cut_update inp p = some (compile_transfer_list inp (compile_render_list
      (approve ((p.refreshed inp).pop_front queue_t.KEEP) a))) := by
  have hq0 : ∀ q, (p.refreshed inp).index_.action_queues_ q
      = if q = queue_t.KEEP then [a] else [] := hq
  have hloop : cut_update_loop (cut_update_fuel (p.refreshed inp)) (p.refreshed inp)
      { check_residency := true, all_children_in_ooc_cache := true,
        all_children_in_gpu_cache := true } = some (p.refreshed inp) := by
    simp [cut_update_fuel, cut_update_loop, cut_update_index.front_action, hq0]
  have hdrain : cut_update_drain (p.refreshed inp)
      = approve ((p.refreshed inp).pop_front queue_t.KEEP) a := by
    unfold cut_update_drain
    simp [hq0, drain_queue]
  unfold cut_update
  simp only []
  have e : { p with ooc_cache_ := p.ooc_cache_.refresh inp.loads_completed_update }
      = p.refreshed inp := rfl
  rw [e, hloop]
  simp only []
  rw [hdrain]

/-- `cut_update` with one split queued and nothing else: the split is approved at
once when its children are resident in both caches, and handed to `split_node`
or rejected otherwise. -/
theorem cut_update_single_split (inp : frame_input) (p : cut_update_pool) (a : action)
    (hq : ∀ q, p.index_.action_queues_ q = if q = queue_t.MUST_SPLIT then [a] else []) :
    ∃ P, cut_update inp p = some (compile_transfer_list inp (compile_render_list P)) ∧
      ((∀ c ∈ p.index_.get_all_children a.model_id_ a.node_id_,
          (p.refreshed inp).ooc_cache_.is_node_resident a.model_id_ c = true ∧
          p.gpu_cache_.is_node_resident a.model_id_ c = true) →
        P = approve (aquire_children ((p.refreshed inp).pop_front queue_t.MUST_SPLIT)
          a.view_id_ a.model_id_ (p.index_.get_all_children a.model_id_ a.node_id_)) a) ∧
      (¬ (∀ c ∈ p.index_.get_all_children a.model_id_ a.node_id_,
          (p.refreshed inp).ooc_cache_.is_node_resident a.model_id_ c = true ∧
          p.gpu_cache_.is_node_resident a.model_id_ c = true) →
        (P = split_node ((p.refreshed inp).pop_front queue_t.MUST_SPLIT) a ∧
          ((∀ c ∈ p.index_.get_all_children a.model_id_ a.node_id_,
              (p.refreshed inp).ooc_cache_.is_node_resident a.model_id_ c = true) →
            p.index_.fan_factor a.model_id_ ≤ p.gpu_cache_.num_free_slots)) ∨
        (P = reject ((p.refreshed inp).pop_front queue_t.MUST_SPLIT) a ∧
          ((∀ c ∈ p.index_.get_all_children a.model_id_ a.node_id_,
              (p.refreshed inp).ooc_cache_.is_node_resident a.model_id_ c = true) →
            ¬ p.index_.fan_factor a.model_id_ ≤ p.gpu_cache_.num_free_slots))) := by
  have hq0 : ∀ q, (p.refreshed inp).index_.action_queues_ q
      = if q = queue_t.MUST_SPLIT then [a] else [] := hq
  obtain ⟨P, h1, h2, h3, h4⟩ := cut_update_loop_single_split (p.refreshed inp) a hq0
  have hfuel : cut_update_fuel (p.refreshed inp) = 2 := by
    simp [cut_update_fuel, cut_update_index.all_actions, hq0]
  refine ⟨P, ?_, h3, h4⟩
  unfold cut_update
  simp only []
  have e : { p with ooc_cache_ := p.ooc_cache_.refresh inp.loads_completed_update }
      = p.refreshed inp := rfl
  rw [e, hfuel, h1]
  simp only []
  rw [cut_update_drain_empty P h2]

/-- The load loop of `split_node` leaves the host cache and the flag alone when
every child is host-resident. -/
theorem split_node_load_resident (m : Nat) (pr : Int) (fit : Bool) :
    ∀ (cs : List Nat) (ooc : ooc_cache) (flag : Bool),
      (∀ c ∈ cs, ooc.is_node_resident m c = true) →
      split_node_load m pr fit cs (ooc, flag) = (ooc, flag) := by
  intro cs
  induction cs with
  | nil => intro ooc flag _; rfl
  | cons c cs ih =>
    intro ooc flag h
    rw [split_node_load]
    simp only [h c (List.mem_cons_self _ _), Bool.not_true, Bool.false_eq_true, if_false]
    exact ih ooc flag (fun x hx => h x (List.mem_cons_of_mem _ hx))

/-- With every child host-resident and room in the GPU cache, `split_node` obtains
all children: the host cache is untouched and the GPU cache is the one the
transfer loop leaves. -/
theorem split_node_obtain_room (p : cut_update_pool) (a : action)
    (hhost : ∀ c ∈ p.index_.get_all_children a.model_id_ a.node_id_,
      p.ooc_cache_.is_node_resident a.model_id_ c = true)
    (hroom : p.index_.fan_factor a.model_id_ ≤ p.gpu_cache_.num_free_slots ∧
      p.index_.fan_factor a.model_id_ ≤ p.gpu_cache_.transfer_budget) :
    split_node_obtain p a = (p.ooc_cache_,
      (split_node_transfer a.model_id_ true
        (p.index_.get_all_children a.model_id_ a.node_id_) (p.gpu_cache_, true)).1, true) := by
  have hlen : (p.index_.get_all_children a.model_id_ a.node_id_).length
      = p.index_.fan_factor a.model_id_ := by
    simp [cut_update_index.get_all_children]
  have hfit : (decide (p.gpu_cache_.transfer_budget ≥ p.index_.fan_factor a.model_id_)
      && decide (p.gpu_cache_.num_free_slots ≥ p.index_.fan_factor a.model_id_)) = true := by
    simp only [Bool.and_eq_true, decide_eq_true_eq]
    exact ⟨hroom.2, hroom.1⟩
  unfold split_node_obtain
  simp only []
  rw [split_node_load_resident _ _ _ _ _ _ hhost, hfit]
  simp only [if_true]
  rw [split_node_transfer_room a.model_id_ _ _ _ (by rw [hlen]; exact hroom.2)
    (by rw [hlen]; exact hroom.1)]

end cut_update_pool

namespace cut_update_pool

/-- `split_node` on a valid node whose children are all available: the children are
acquired in the caches the two loops leave and the split is approved; every
child is then resident in both caches and acquired. -/
theorem split_node_available (p : cut_update_pool) (a : action)
    (hguard : ((p.index_.get_all_children a.model_id_ a.node_id_).head? == some invalid_node_t
      || a.node_id_ == invalid_node_t) = false)
    (hav : (split_node_obtain p a).2.2 = true) :
    split_node p a = approve (aquire_children
        { p with ooc_cache_ := (split_node_obtain p a).1,
                 gpu_cache_ := (split_node_obtain p a).2.1 }
        a.view_id_ a.model_id_ (p.index_.get_all_children a.model_id_ a.node_id_)) a ∧
    ∀ c ∈ p.index_.get_all_children a.model_id_ a.node_id_,
      (split_node p a).node_held a.view_id_ a.model_id_ c := by
  have e : split_node p a = approve (aquire_children
      { p with ooc_cache_ := (split_node_obtain p a).1,
               gpu_cache_ := (split_node_obtain p a).2.1 }
      a.view_id_ a.model_id_ (p.index_.get_all_children a.model_id_ a.node_id_)) a := by
    unfold split_node
    simp only [hguard, hav, Bool.false_eq_true, if_false, if_true]
  refine ⟨e, ?_⟩
  obtain ⟨_, _, o3⟩ := split_node_obtain_spec p a
  obtain ⟨p1, hp1⟩ : ∃ p1 : cut_update_pool, p1 = { p with
      ooc_cache_ := (split_node_obtain p a).1,
      gpu_cache_ := (split_node_obtain p a).2.1 } := ⟨_, rfl⟩
  have hooc : p1.ooc_cache_ = (split_node_obtain p a).1 := by rw [hp1]
  have hgpu : p1.gpu_cache_ = (split_node_obtain p a).2.1 := by rw [hp1]
  rw [e, ← hp1]
  obtain ⟨k2, a2⟩ := aquire_children_keeps a.view_id_ a.model_id_ 0 0
    (p.index_.get_all_children a.model_id_ a.node_id_) p1
  intro c hc
  obtain ⟨r1, r2⟩ := o3 hav c hc
  rw [← hooc] at r1
  rw [← hgpu] at r2
  obtain ⟨q1, q2⟩ := a2 c hc
  refine ⟨k2.2.1.2.1 _ _ r1, k2.2.2.1 _ _ r2, ?_, ?_⟩
  · show (aquire_children p1 a.view_id_ a.model_id_ _).ooc_cache_.slots_.is_node_aquired
      (aquire_children p1 a.view_id_ a.model_id_ _).context_id_ _ _ _ = true
    rw [aquire_children_context]
    exact q1 (cache_slots.is_node_indexed_of_resident _ _ _ r1)
  · show (aquire_children p1 a.view_id_ a.model_id_ _).gpu_cache_.slots_.is_node_aquired
      (aquire_children p1 a.view_id_ a.model_id_ _).context_id_ _ _ _ = true
    rw [aquire_children_context]
    exact q2 r2

end cut_update_pool

/-- Mapping over the positions of a list is mapping over the list. -/
theorem range_map_getD {β : Type} (l : List Nat) (f : Nat → β) :
    (List.range l.length).map (fun i => f (l.getD i 0)) = l.map f := by
  apply List.ext_getElem
  · simp
  · intro i h1 h2
    simp only [List.length_map, List.length_range] at h1
    simp [List.getD_eq_getElem?_getD, List.getElem?_eq_getElem h1]

namespace cut_update_pool

/-- `compile_transfer_list` for one model: one descriptor per node of the transfer
list of the model, in the order in which the set is visited, numbered from
`transfer_slots_written` on. -/
theorem compile_transfer_list_single (inp : frame_input) (p : cut_update_pool)
    (hm : p.index_.num_models = 1) :
    (compile_transfer_list inp p).transfer_list_
      = p.transfer_list_ ++ (List.range (p.transfer_nodes inp 0).length).map
          (fun i => (p.gpu_cache_.transfer_slots_written + i,
            p.gpu_cache_.slot_id 0 ((p.transfer_nodes inp 0).getD i 0))) ∧
    (compile_transfer_list inp p).gpu_cache_.transfer_slots_written
      = p.gpu_cache_.transfer_slots_written + (p.transfer_nodes inp 0).length ∧
    (compile_transfer_list inp p).gpu_cache_.slots_ = p.gpu_cache_.slots_ := by
  obtain ⟨h1, h2⟩ := compile_transfer_nodes_spec inp p 0 (p.transfer_nodes inp 0)
    p.gpu_storage_ p.transfer_list_ p.gpu_cache_.transfer_slots_written
  have hr : List.range p.index_.num_models = [0] := by rw [hm]; rfl
  unfold compile_transfer_list
  simp only [hr, List.foldl_cons, List.foldl_nil]
  exact ⟨h1, h2, rfl⟩

end cut_update_pool

namespace cut_update_index

/-- The children of a node with all children present form an ascending run. -/
theorem get_all_children_sorted (idx : cut_update_index) (m n : Nat)
    (h : ∀ i, i < idx.fan_factor m → n * idx.fan_factor m + 1 + i < idx.num_nodes m) :
    (idx.get_all_children m n).Pairwise (fun x y => x < y) := by
  rw [get_all_children_of_valid idx m n h, List.pairwise_map]
  exact (List.pairwise_lt_range _).imp (fun hab => by omega)

end cut_update_index

namespace cut_update_pool

/-- `cut_update` with the keep of the root queued and nothing else, the current cut
empty: the current cut becomes `{0}`. -/
theorem root_keep_update (inp : frame_input) (p : cut_update_pool) (e : ℚ)
    (hq : ∀ q, p.index_.action_queues_ q = if q = queue_t.KEEP then
      [{ queue_ := queue_t.KEEP, view_id_ := 0, model_id_ := 0, node_id_ := 0, error_ := e }]
      else [])
    (hcut : p.index_.get_current_cut 0 0 = []) :
    ∃ p', cut_update inp p = some p' ∧ p'.index_.get_current_cut 0 0 = [0] := by
  refine ⟨_, cut_update_single_keep inp p _ hq, ?_⟩
  unfold cut_update_index.get_current_cut at hcut
  simp [approve, refreshed, pop_front, cut_update_index.approve_action,
    cut_update_index.add_to_current_cut, cut_update_index.get_current_cut, set_cut,
    cut_update_index.pop_front_action, hcut, set_insert_all, set_insert]

end cut_update_pool

namespace cut_update_pool

/-- `cut_update` with the split of the root queued and nothing else, the current
cut empty, all children of the root present: the current cut becomes the
children of the root when they are all host-resident and either all have a GPU
slot or the GPU cache has room; it becomes `{0}` in every other case. With no
child on the GPU and an empty transfer state, every child is transferred. -/
theorem root_split_update (inp : frame_input) (p : cut_update_pool) (e : ℚ)
    (hq : ∀ q, p.index_.action_queues_ q = if q = queue_t.MUST_SPLIT then
      [{ queue_ := queue_t.MUST_SPLIT, view_id_ := 0, model_id_ := 0, node_id_ := 0,
         error_ := e }]
      else [])
    (hcut : p.index_.get_current_cut 0 0 = [])
    (hF : 1 ≤ p.index_.fan_factor 0)
    (hvalid : ∀ i, i < p.index_.fan_factor 0 → 0 * p.index_.fan_factor 0 + 1 + i
      < p.index_.num_nodes 0)
    (hninv : ∀ c ∈ p.index_.get_all_children 0 0, c ≠ invalid_node_t) :
    ∃ p', cut_update inp p = some p' ∧
      (root_children_on_host inp p → (root_children_on_gpu p ∨ gpu_has_room p) →
        p'.index_.get_current_cut 0 0 = p.index_.get_all_children 0 0 ∧
        ∀ c ∈ p.index_.get_all_children 0 0, p'.node_held 0 0 c) ∧
      (root_children_on_host inp p → root_children_off_gpu p → gpu_has_room p →
        p.index_.num_models = 1 → p.gpu_cache_.transfer_list 0 = [] →
        p.gpu_cache_.transfer_slots_written = 0 → p.transfer_list_ = [] →
        p'.transfer_list_
          = (List.range (inp.unordered_set_order (p.index_.get_all_children 0 0)).length).map
            (fun i => (i, p'.gpu_cache_.slot_id 0
              ((inp.unordered_set_order (p.index_.get_all_children 0 0)).getD i 0))) ∧
        p'.gpu_cache_.transfer_slots_written
          = (inp.unordered_set_order (p.index_.get_all_children 0 0)).length) ∧
      (¬ (root_children_on_host inp p ∧ (root_children_on_gpu p ∨ gpu_has_room p)) →
        p'.index_.get_current_cut 0 0 = [0]) := by
  obtain ⟨a, ha⟩ : ∃ a : action, a =
      { queue_ := queue_t.MUST_SPLIT, view_id_ := 0, model_id_ := 0, node_id_ := 0,
        error_ := e } := ⟨_, rfl⟩
  rw [← ha] at hq
  have hav : a.view_id_ = 0 := by rw [ha]
  have ham : a.model_id_ = 0 := by rw [ha]
  have han : a.node_id_ = 0 := by rw [ha]
  have haq : a.queue_ = queue_t.MUST_SPLIT := by rw [ha]
  obtain ⟨pf, hpf⟩ : ∃ pf, pf = (p.refreshed inp).pop_front queue_t.MUST_SPLIT := ⟨_, rfl⟩
  obtain ⟨cs, hcs⟩ : ∃ cs, cs = p.index_.get_all_children 0 0 := ⟨_, rfl⟩
  have hpfcs : pf.index_.get_all_children a.model_id_ a.node_id_ = cs := by
    rw [hpf, ham, han, hcs]; rfl
  have hpcs : p.index_.get_all_children a.model_id_ a.node_id_ = cs := by
    rw [ham, han, hcs]
  have hsorted : cs.Pairwise (fun x y => x < y) := by
    rw [hcs]; exact cut_update_index.get_all_children_sorted p.index_ 0 0 hvalid
  have hlen : cs.length = p.index_.fan_factor 0 := by
    rw [hcs]; simp [cut_update_index.get_all_children]
  have hmem0 : 0 * p.index_.fan_factor 0 + 1 + 0 ∈ cs := by
    rw [hcs]
    exact (cut_update_index.mem_children_of_valid p.index_ 0 0 _ hvalid).mpr ⟨0, by omega, rfl⟩
  have hpfcut : pf.index_.current_cut_ 0 0 = [] := by
    rw [hpf]; exact hcut
  have hpfooc : pf.ooc_cache_ = p.ooc_cache_.refresh inp.loads_completed_update := by
    rw [hpf]; rfl
  have hpfgpu : pf.gpu_cache_ = p.gpu_cache_ := by rw [hpf]; rfl
  have hpffan : pf.index_.fan_factor a.model_id_ = p.index_.fan_factor 0 := by
    rw [hpf, ham]; rfl
  have hrej : ∀ P : cut_update_pool, P.index_ = pf.index_.reject_action a →
      (compile_transfer_list inp (compile_render_list P)).index_.get_current_cut 0 0 = [0] := by
    intro P hP
    simp [hP, cut_update_index.reject_action, haq, hav, ham, han,
      cut_update_index.add_to_current_cut, cut_update_index.get_current_cut, set_cut,
      hpfcut, set_insert_all, set_insert]
  have happ : ∀ P : cut_update_pool, P.index_ = pf.index_.approve_action a →
      (compile_transfer_list inp (compile_render_list P)).index_.get_current_cut 0 0 = cs := by
    intro P hP
    simp only [compile_transfer_list_index, compile_render_list_index, hP,
      cut_update_index.approve_action, haq]
    rw [hpfcs, hav, ham]
    simp only [cut_update_index.add_to_current_cut, cut_update_index.get_current_cut, set_cut,
      hpfcut, and_self, if_true]
    simpa using set_insert_all_ascending cs [] (by simpa using hsorted)
  obtain ⟨P, hcu, hres, hnres⟩ := cut_update_single_split inp p a hq
  rw [hpcs, ham, ← hpf] at hres hnres
  rw [hav] at hres
  have hooc : (p.refreshed inp).ooc_cache_ = p.ooc_cache_.refresh inp.loads_completed_update :=
    rfl
  rw [hooc] at hres hnres
  have hguard : ((pf.index_.get_all_children a.model_id_ a.node_id_).head?
      == some invalid_node_t || a.node_id_ == invalid_node_t) = false := by
    rw [hpfcs, han]
    have h0 : (0 == invalid_node_t) = false := by decide
    rw [h0, Bool.or_false]
    cases hh : cs.head? with
    | none => rfl
    | some c =>
      have hc : c ∈ cs := List.mem_of_mem_head? hh
      have := hninv c (by rw [← hcs]; exact hc)
      simpa using this
  have hA : (∀ c ∈ cs, (p.ooc_cache_.refresh inp.loads_completed_update).is_node_resident 0 c
        = true) →
      (p.index_.fan_factor 0 ≤ p.gpu_cache_.num_free_slots ∧
        p.index_.fan_factor 0 ≤ p.gpu_cache_.transfer_budget) →
      P = split_node pf a →
      P.index_ = pf.index_.approve_action a ∧ (∀ c ∈ cs, P.node_held 0 0 c) ∧
      P.gpu_cache_.transfer_list_
        = (split_node_transfer 0 true cs (p.gpu_cache_, true)).1.transfer_list_ ∧
      P.gpu_cache_.transfer_slots_written_
        = (split_node_transfer 0 true cs (p.gpu_cache_, true)).1.transfer_slots_written_ ∧
      P.transfer_list_ = p.transfer_list_ ∧ P.index_.num_models = p.index_.num_models := by
    intro hh hr hP
    have hob := split_node_obtain_room pf a
      (by rw [hpfcs, ham, hpfooc]; exact hh) (by rw [hpffan, hpfgpu]; exact hr)
    rw [hpfcs, ham, hpfgpu] at hob
    obtain ⟨e1, e2⟩ := split_node_available pf a hguard (by rw [hob])
    rw [hpfcs, hav, ham, hob] at e1
    rw [hpfcs, hav, ham, ← hP] at e2
    simp only [] at e1
    obtain ⟨t1, t2, t3⟩ := aquire_children_transfer 0 0 cs
      { pf with ooc_cache_ := pf.ooc_cache_,
                gpu_cache_ := (split_node_transfer 0 true cs (p.gpu_cache_, true)).1 }
    rw [hP, e1]
    refine ⟨by simp [approve], ?_, t1, t2, ?_, ?_⟩
    · rw [← e1, ← hP]; exact e2
    · rw [approve]; simp only []; rw [t3, hpf]; rfl
    · simp only [approve, aquire_children_index, cut_update_index.approve_action_eq]
      rw [hpf]; rfl
  refine ⟨_, hcu, ?_⟩
  unfold root_children_on_host root_children_on_gpu root_children_off_gpu gpu_has_room
  rw [← hcs]
  have hpfres : ∀ c, pf.ooc_cache_.is_node_resident 0 c
      = (p.ooc_cache_.refresh inp.loads_completed_update).is_node_resident 0 c := by
    intro c; rw [hpfooc]
  refine ⟨fun hh hor => ?_, fun hh hoff hr hm ht hw hl => ?_, fun hn => ?_⟩
  · by_cases hall : ∀ c ∈ cs,
        (p.ooc_cache_.refresh inp.loads_completed_update).is_node_resident 0 c = true ∧
        p.gpu_cache_.is_node_resident 0 c = true
    · have hP := hres hall
      have hidx : P.index_ = pf.index_.approve_action a := by
        rw [hP]; simp [approve]
      refine ⟨happ P hidx, ?_⟩
      intro c hc
      apply node_held_compiled
      obtain ⟨k, aq⟩ := aquire_children_keeps 0 0 0 0 cs pf
      obtain ⟨r1, r2⟩ := hall c hc
      have r1' : pf.ooc_cache_.is_node_resident 0 c = true := by rw [hpfooc]; exact r1
      have r2' : pf.gpu_cache_.is_node_resident 0 c = true := by rw [hpfgpu]; exact r2
      obtain ⟨q1, q2⟩ := aq c hc
      rw [hP]
      refine ⟨k.2.1.2.1 _ _ r1', k.2.2.1 _ _ r2', ?_, ?_⟩
      · show (aquire_children pf 0 0 cs).ooc_cache_.slots_.is_node_aquired
          (aquire_children pf 0 0 cs).context_id_ _ _ _ = true
        rw [aquire_children_context]
        exact q1 (cache_slots.is_node_indexed_of_resident _ _ _ r1')
      · show (aquire_children pf 0 0 cs).gpu_cache_.slots_.is_node_aquired
          (aquire_children pf 0 0 cs).context_id_ _ _ _ = true
        rw [aquire_children_context]
        exact q2 r2'
    · have hroom : p.index_.fan_factor 0 ≤ p.gpu_cache_.num_free_slots ∧
          p.index_.fan_factor 0 ≤ p.gpu_cache_.transfer_budget := by
        rcases hor with hg | hr
        · exact absurd (fun c hc => ⟨hh c hc, hg c hc⟩) hall
        · exact hr
      rcases hnres hall with ⟨hP, _⟩ | ⟨_, hnfit⟩
      · obtain ⟨i1, i2, _⟩ := hA hh hroom hP
        exact ⟨happ P i1, fun c hc => node_held_compiled inp P 0 0 c (i2 c hc)⟩
      · exact absurd hroom.1 (hnfit hh)
  · have hall : ¬ ∀ c ∈ cs,
        (p.ooc_cache_.refresh inp.loads_completed_update).is_node_resident 0 c = true ∧
        p.gpu_cache_.is_node_resident 0 c = true := by
      intro hall
      have h1 := (hall _ hmem0).2
      rw [hoff _ hmem0] at h1
      simp at h1
    rcases hnres hall with ⟨hP, _⟩ | ⟨_, hnfit⟩
    · obtain ⟨_, _, i3, i4, i5, i6⟩ := hA hh hr hP
      obtain ⟨f1, f2⟩ := split_node_transfer_fresh 0 cs p.gpu_cache_ true (hsorted.imp (fun h => Nat.ne_of_lt h))
        hoff (by rw [hlen]; exact hr.2) (by rw [hlen]; exact hr.1) (by rw [ht]; simp)
      obtain ⟨c1, c2, c3⟩ := compile_transfer_list_single inp (compile_render_list P)
        (by rw [compile_render_list_index, i6]; exact hm)
      have hgl : (compile_render_list P).gpu_cache_.transfer_list 0 = cs := by
        show P.gpu_cache_.transfer_list_ 0 = cs
        rw [i3]
        have : (split_node_transfer 0 true cs (p.gpu_cache_, true)).1.transfer_list 0
            = p.gpu_cache_.transfer_list 0 ++ cs := f1
        rw [ht] at this
        simpa using this
      have hgw : (compile_render_list P).gpu_cache_.transfer_slots_written = 0 := by
        show P.gpu_cache_.transfer_slots_written_ = 0
        rw [i4]
        have : (split_node_transfer 0 true cs (p.gpu_cache_, true)).1.transfer_slots_written
            = p.gpu_cache_.transfer_slots_written := f2
        rw [hw] at this
        exact this
      have htl : (compile_render_list P).transfer_list_ = [] := by
        show P.transfer_list_ = []
        rw [i5, hl]
      have hgn : (compile_render_list P).transfer_nodes inp 0 = inp.unordered_set_order cs := by
        unfold transfer_nodes
        rw [hgl]
      rw [hgn, hgw, htl] at c1
      rw [hgn, hgw] at c2
      refine ⟨?_, by rw [c2]; simp⟩
      rw [c1, List.nil_append]
      apply List.map_congr_left
      intro i _
      simp only [Nat.zero_add, Prod.mk.injEq, true_and]
      unfold gpu_cache.slot_id
      rw [c3]
    · exact absurd hr.1 (hnfit hh)
  · by_cases hall : ∀ c ∈ cs,
        (p.ooc_cache_.refresh inp.loads_completed_update).is_node_resident 0 c = true ∧
        p.gpu_cache_.is_node_resident 0 c = true
    · exact absurd ⟨fun c hc => (hall c hc).1, Or.inl (fun c hc => (hall c hc).2)⟩ hn
    · rcases hnres hall with ⟨hP, _⟩ | ⟨hP, _⟩
      · apply hrej
        rw [hP]
        by_cases hh : ∀ c ∈ cs,
            (p.ooc_cache_.refresh inp.loads_completed_update).is_node_resident 0 c = true
        · have hg : ¬ ∀ c ∈ cs, p.gpu_cache_.is_node_resident 0 c = true :=
            fun hg => hall (fun c hc => ⟨hh c hc, hg c hc⟩)
          have hnr : ¬ (p.index_.fan_factor 0 ≤ p.gpu_cache_.num_free_slots ∧
              p.index_.fan_factor 0 ≤ p.gpu_cache_.transfer_budget) :=
            fun hr => hn ⟨hh, Or.inr hr⟩
          exact split_node_rejects_gpu pf a (by rw [hpffan, hpfgpu]; exact hnr)
            (by rw [hpfcs, ham, hpfgpu]; exact hg)
        · exact split_node_rejects_host pf a (by rw [hpfcs, ham, hpfooc]; exact hh)
      · apply hrej
        rw [hP]
        rfl

end cut_update_pool

/-! ## Steps that register nothing -/

namespace cache_slots

theorem same_entries_refl (s : cache_slots) : same_entries s s := ⟨fun _ _ => rfl, fun _ _ => rfl, rfl⟩

theorem same_entries_trans (s s' s'' : cache_slots) (h1 : same_entries s s')
    (h2 : same_entries s' s'') : same_entries s s'' :=
  ⟨fun m n => (h2.1 m n).trans (h1.1 m n), fun m n => (h2.2.1 m n).trans (h1.2.1 m n),
    h2.2.2.trans h1.2.2⟩

/-- An operation that rewrites the entries in place, keeping the node and the
residency of each, registers nothing. -/
theorem same_entries_map (s : cache_slots) (g : cache_entry → cache_entry)
    (hg : ∀ e, (g e).model_id = e.model_id ∧ (g e).node_id = e.node_id)
    (hl : ∀ e, (g e).loaded = e.loaded) : same_entries s (s.map (Option.map g)) := by
  refine ⟨fun m n => is_node_indexed_map s g hg m n, fun m n => ?_, num_free_slots_map s g⟩
  rw [Bool.eq_iff_iff, is_node_resident_iff, is_node_resident_iff]
  constructor
  · rintro ⟨e', he', h1, h2, h3⟩
    obtain ⟨e, he, rfl⟩ := (mem_map_entries s g e').1 he'
    exact ⟨e, he, by rw [← (hg e).1]; exact h1, by rw [← (hg e).2]; exact h2,
      by rw [← hl e]; exact h3⟩
  · rintro ⟨e, he, h1, h2, h3⟩
    exact ⟨g e, (mem_map_entries s g _).2 ⟨e, he, rfl⟩, by rw [(hg e).1]; exact h1,
      by rw [(hg e).2]; exact h2, by rw [hl e]; exact h3⟩

theorem same_entries_aquire (s : cache_slots) (c v m n : Nat) :
    same_entries s (s.aquire_node c v m n) := by
  refine same_entries_map s _ (fun e => aquire_node_keeps e c v m n) ?_
  intro e
  split
  · exact cache_entry.aquire_loaded e c v
  · rfl

theorem same_entries_release (s : cache_slots) (c v m n : Nat) :
    same_entries s (s.release_node c v m n) := by
  refine same_entries_map s _ (fun e => release_node_keeps e c v m n) ?_
  intro e
  split <;> rfl

end cache_slots

namespace cut_update_pool

theorem nothing_registered_refl (p : cut_update_pool) : nothing_registered p p :=
  ⟨cache_slots.same_entries_refl _, cache_slots.same_entries_refl _, rfl, rfl, rfl, rfl⟩

theorem nothing_registered_trans (p p' p'' : cut_update_pool) (h1 : nothing_registered p p')
    (h2 : nothing_registered p' p'') : nothing_registered p p'' :=
  ⟨cache_slots.same_entries_trans _ _ _ h1.1 h2.1,
    cache_slots.same_entries_trans _ _ _ h1.2.1 h2.2.1,
    h2.2.2.1.trans h1.2.2.1, h2.2.2.2.1.trans h1.2.2.2.1,
    h2.2.2.2.2.1.trans h1.2.2.2.2.1, h2.2.2.2.2.2.trans h1.2.2.2.2.2⟩

/-- The acquisition loop registers nothing. -/
theorem aquire_children_registers_nothing (v m : Nat) :
    ∀ (cs : List Nat) (p : cut_update_pool), nothing_registered p (aquire_children p v m cs) := by
  intro cs
  induction cs with
  | nil => intro p; exact nothing_registered_refl p
  | cons c cs ih =>
    intro p
    rw [aquire_children]
    refine nothing_registered_trans _ _ _ ?_ (ih _)
    exact ⟨cache_slots.same_entries_aquire _ _ _ _ _, cache_slots.same_entries_aquire _ _ _ _ _,
      rfl, rfl, rfl, rfl⟩

/-- The release loop registers nothing. -/
theorem release_children_registers_nothing (v m : Nat) :
    ∀ (cs : List Nat) (p : cut_update_pool),
      nothing_registered p (release_children p v m cs) := by
  intro cs
  induction cs with
  | nil => intro p; exact nothing_registered_refl p
  | cons c cs ih =>
    intro p
    rw [release_children]
    refine nothing_registered_trans _ _ _ ?_ (ih _)
    exact ⟨cache_slots.same_entries_release _ _ _ _ _,
      cache_slots.same_entries_release _ _ _ _ _, rfl, rfl, rfl, rfl⟩

/-- `collapse_node` registers nothing. -/
theorem collapse_node_registers_nothing (p : cut_update_pool) (a : action) :
    nothing_registered p (collapse_node p a) := by
  unfold collapse_node
  split
  · exact nothing_registered_refl p
  · exact release_children_registers_nothing _ _ _ p

end cut_update_pool

namespace ooc_cache

/-- With a free slot, a registration in the host cache changes the residency of no
node: the new entry is pending. -/
theorem register_node_resident (c : ooc_cache) (m n : Nat) (pr : Int)
    (h : 0 < c.num_free_slots) (m' n' : Nat) :
    (c.register_node m n pr).is_node_resident m' n' = c.is_node_resident m' n' := by
  unfold register_node
  split
  · rfl
  · obtain ⟨s', h1, h2, _⟩ := cache_slots.place_of_free
      { model_id := m, node_id := n, loaded := false, priority := pr, holders := [] }
      c.slots_ h
    rw [h1]
    unfold is_node_resident
    simp only []
    rw [Bool.eq_iff_iff, cache_slots.is_node_resident_iff, cache_slots.is_node_resident_iff]
    constructor
    · rintro ⟨e, he, e1, e2, e3⟩
      rcases (h2 e).1 he with rfl | h'
      · simp at e3
      · exact ⟨e, h', e1, e2, e3⟩
    · rintro ⟨e, he, e1, e2, e3⟩
      exact ⟨e, (h2 e).2 (Or.inr he), e1, e2, e3⟩

end ooc_cache

namespace cut_update_pool

theorem nothing_transferred_refl (p : cut_update_pool) : nothing_transferred p p :=
  ⟨cache_slots.same_entries_refl _, rfl, rfl, rfl, rfl, fun _ _ => rfl⟩

theorem nothing_transferred_trans (p p' p'' : cut_update_pool) (h1 : nothing_transferred p p')
    (h2 : nothing_transferred p' p'') : nothing_transferred p p'' :=
  ⟨cache_slots.same_entries_trans _ _ _ h1.1 h2.1, h2.2.1.trans h1.2.1,
    h2.2.2.1.trans h1.2.2.1, h2.2.2.2.1.trans h1.2.2.2.1, h2.2.2.2.2.1.trans h1.2.2.2.2.1,
    fun m n => (h2.2.2.2.2.2 m n).trans (h1.2.2.2.2.2 m n)⟩

theorem nothing_transferred_of_registered (p p' : cut_update_pool)
    (h : nothing_registered p p') : nothing_transferred p p' :=
  ⟨h.2.1, h.2.2.1, h.2.2.2.1, h.2.2.2.2.1, h.2.2.2.2.2, h.1.2.1⟩

/-- The load loop of `split_node` changes the residency of no node. -/
theorem split_node_load_residency (m : Nat) (pr : Int) (fit : Bool) (m' n' : Nat) :
    ∀ (cs : List Nat) (ooc : ooc_cache) (flag : Bool),
      (split_node_load m pr fit cs (ooc, flag)).1.is_node_resident m' n'
        = ooc.is_node_resident m' n' := by
  intro cs
  induction cs with
  | nil => intro ooc flag; rfl
  | cons c cs ih =>
    intro ooc flag
    rw [split_node_load]
    split
    · split
      · rename_i hg
        have hfree : 0 < ooc.num_free_slots := by
          simp only [Bool.and_eq_true, decide_eq_true_eq] at hg
          exact hg.2
        rw [ih, ooc_cache.register_node_resident ooc m c pr hfree]
      · exact ih _ _
    · exact ih _ _

/-- Without room in the GPU cache the transfer loop of `split_node` leaves the GPU
cache as it is. -/
theorem split_node_transfer_unfit (m : Nat) :
    ∀ (cs : List Nat) (gpu : gpu_cache) (flag : Bool),
      (split_node_transfer m false cs (gpu, flag)).1 = gpu := by
  intro cs
  induction cs with
  | nil => intro gpu flag; rfl
  | cons c cs ih =>
    intro gpu flag
    rw [split_node_transfer]
    split
    · simp only [Bool.false_eq_true, if_false]
      exact ih _ _
    · exact ih _ _

/-- `split_node` with no transfer budget, on a node with fan-out at least one:
nothing is registered in the GPU cache, the residency of no node changes in
the host cache, and all children are found available only when every child is
resident in both caches. -/
theorem split_node_zero_budget (p : cut_update_pool) (a : action)
    (hb : p.gpu_cache_.transfer_budget = 0) (hF : 1 ≤ p.index_.fan_factor a.model_id_) :
    nothing_transferred p (split_node p a) ∧
    ((split_node_obtain p a).2.2 = true →
      ∀ c ∈ p.index_.get_all_children a.model_id_ a.node_id_,
        p.ooc_cache_.is_node_resident a.model_id_ c = true ∧
        p.gpu_cache_.is_node_resident a.model_id_ c = true) := by
  have hfit : (decide (p.gpu_cache_.transfer_budget ≥ p.index_.fan_factor a.model_id_)
      && decide (p.gpu_cache_.num_free_slots ≥ p.index_.fan_factor a.model_id_)) = false := by
    rw [hb]
    have : ¬ (0 ≥ p.index_.fan_factor a.model_id_) := by omega
    simp [this]
  have hob : (split_node_obtain p a).2.1 = p.gpu_cache_ := by
    unfold split_node_obtain
    simp only [hfit]
    split
    · exact split_node_transfer_unfit _ _ _ _
    · rfl
  have hres : ∀ m n, (split_node_obtain p a).1.is_node_resident m n
      = p.ooc_cache_.is_node_resident m n := by
    intro m n
    unfold split_node_obtain
    simp only []
    split <;> exact split_node_load_residency _ _ _ _ _ _ _ _
  have hav : (split_node_obtain p a).2.2 = true →
      ∀ c ∈ p.index_.get_all_children a.model_id_ a.node_id_,
        p.ooc_cache_.is_node_resident a.model_id_ c = true ∧
        p.gpu_cache_.is_node_resident a.model_id_ c = true := by
    intro h c hc
    refine ⟨(split_node_obtain_host p a h).2 c hc, ?_⟩
    unfold split_node_obtain at h
    simp only [hfit] at h
    split at h
    · exact split_node_transfer_no_room a.model_id_ _ _ _ h c hc
    · simp at h
  refine ⟨?_, hav⟩
  obtain ⟨p1, hp1⟩ : ∃ p1 : cut_update_pool, p1 = { p with
      ooc_cache_ := (split_node_obtain p a).1,
      gpu_cache_ := (split_node_obtain p a).2.1 } := ⟨_, rfl⟩
  have h1 : nothing_transferred p p1 := by
    rw [hp1]
    refine ⟨?_, ?_, ?_, ?_, rfl, hres⟩
    · show cache_slots.same_entries p.gpu_cache_.slots_ (split_node_obtain p a).2.1.slots_
      rw [hob]; exact cache_slots.same_entries_refl _
    · show (split_node_obtain p a).2.1.transfer_budget_ = _
      rw [hob]
    · show (split_node_obtain p a).2.1.transfer_list_ = _
      rw [hob]
    · show (split_node_obtain p a).2.1.transfer_slots_written_ = _
      rw [hob]
  unfold split_node
  simp only []
  split
  · exact nothing_transferred_refl p
  · rw [← hp1]
    split
    · exact nothing_transferred_trans _ _ _ h1
        (nothing_transferred_of_registered _ _ (aquire_children_registers_nothing _ _ _ p1))
    · exact h1

end cut_update_pool

/-- A resolved action leaves the queues with no new action. -/
theorem index_step_queues (idx idx' : cut_update_index) (h : index_step idx idx') :
    ∀ q a, a ∈ idx'.action_queues_ q → a ∈ idx.action_queues_ q := by
  obtain ⟨q0, a0, rest, hp, h | h⟩ := h
  all_goals
    intro q a ha
    rw [h] at ha
    change a ∈ set_queue idx.action_queues_ q0 rest q at ha
    unfold set_queue at ha
    split at ha
    · rename_i hq
      rw [hq]
      exact hp.symm.subset (List.mem_cons_of_mem _ ha)
    · exact ha

/-- A transition of `cut_update` with no transfer budget left registers nothing in
the GPU cache and changes the residency of no node in the host cache. -/
theorem update_step_zero_budget (p p' : cut_update_pool) (h : update_step p p')
    (hb : p.gpu_cache_.transfer_budget = 0) (hF : ∀ m, 1 ≤ p.index_.fan_factor m) :
    cut_update_pool.nothing_transferred p p' := by
  cases h with
  | resident a h hres =>
    exact cut_update_pool.nothing_transferred_of_registered _ _
      (cut_update_pool.aquire_children_registers_nothing _ _ _ (p.pop_front queue_t.MUST_SPLIT))
  | split a h hfit =>
    exact (cut_update_pool.split_node_zero_budget (p.pop_front queue_t.MUST_SPLIT) a hb
      (hF a.model_id_)).1
  | collapse_front q a hq h =>
    exact cut_update_pool.nothing_transferred_of_registered _ _
      (cut_update_pool.collapse_node_registers_nothing (p.pop_front q) a)
  | collapse_back q a hq h =>
    exact cut_update_pool.nothing_transferred_of_registered _ _
      (cut_update_pool.collapse_node_registers_nothing (p.pop_back q) a)
  | reject_front q a h => exact cut_update_pool.nothing_transferred_refl _
  | approve_front q a hq h => exact cut_update_pool.nothing_transferred_refl _

/-- A transition of `cut_update` registers nothing when the GPU cache has fewer
free slots than the front split has children. -/
theorem update_step_no_room (p p' : cut_update_pool) (h : update_step p p')
    (hroom : ∀ a, p.index_.front_action queue_t.MUST_SPLIT = some a →
      p.gpu_cache_.num_free_slots < p.index_.fan_factor a.model_id_) :
    cut_update_pool.nothing_registered p p' := by
  cases h with
  | resident a h hres =>
    exact cut_update_pool.aquire_children_registers_nothing _ _ _ (p.pop_front queue_t.MUST_SPLIT)
  | split a h hfit =>
    have := hroom a h
    omega
  | collapse_front q a hq h =>
    exact cut_update_pool.collapse_node_registers_nothing (p.pop_front q) a
  | collapse_back q a hq h =>
    exact cut_update_pool.collapse_node_registers_nothing (p.pop_back q) a
  | reject_front q a h => exact cut_update_pool.nothing_registered_refl _
  | approve_front q a hq h => exact cut_update_pool.nothing_registered_refl _

/-- With no transfer budget at the start, no state that `cut_update` goes through
has a node registered in the GPU cache or a node whose host residency changed. -/
theorem update_steps_zero_budget (p q : cut_update_pool)
    (hs : Relation.ReflTransGen update_step p q)
    (hb : p.gpu_cache_.transfer_budget = 0) (hF : ∀ m, 1 ≤ p.index_.fan_factor m) :
    cut_update_pool.nothing_transferred p q ∧ q.index_.fan_factors_ = p.index_.fan_factors_ ∧
      q.index_.num_nodes_ = p.index_.num_nodes_ := by
  induction hs with
  | refl => exact ⟨cut_update_pool.nothing_transferred_refl _, rfl, rfl⟩
  | tail _ hstep ih =>
    obtain ⟨i1, i2, i3⟩ := ih
    obtain ⟨t1, t2⟩ := index_step_tree _ _ (update_step_index _ _ hstep)
    refine ⟨cut_update_pool.nothing_transferred_trans _ _ _ i1
      (update_step_zero_budget _ _ hstep ?_ ?_), t1.trans i2, t2.trans i3⟩
    · show _ = 0
      have := i1.2.1
      unfold gpu_cache.transfer_budget at hb ⊢
      rw [this]; exact hb
    · intro m
      unfold cut_update_index.fan_factor
      rw [i2]
      exact hF m

/-- With fewer free GPU slots than children for every queued split, no state that
`cut_update` goes through has a node registered in either cache. -/
theorem update_steps_no_room (p q : cut_update_pool)
    (hs : Relation.ReflTransGen update_step p q)
    (hroom : ∀ a ∈ p.index_.action_queues_ queue_t.MUST_SPLIT,
      p.gpu_cache_.num_free_slots < p.index_.fan_factor a.model_id_) :
    cut_update_pool.nothing_registered p q ∧ q.index_.fan_factors_ = p.index_.fan_factors_ ∧
      ∀ qq a, a ∈ q.index_.action_queues_ qq → a ∈ p.index_.action_queues_ qq := by
  induction hs with
  | refl => exact ⟨cut_update_pool.nothing_registered_refl _, rfl, fun _ _ h => h⟩
  | tail _ hstep ih =>
    obtain ⟨i1, i2, i3⟩ := ih
    have hi := update_step_index _ _ hstep
    obtain ⟨t1, _⟩ := index_step_tree _ _ hi
    refine ⟨cut_update_pool.nothing_registered_trans _ _ _ i1
      (update_step_no_room _ _ hstep ?_), t1.trans i2,
      fun qq a ha => i3 qq a (index_step_queues _ _ hi qq a ha)⟩
    intro a ha
    have hmem : a ∈ p.index_.action_queues_ queue_t.MUST_SPLIT := by
      apply i3
      unfold cut_update_index.front_action at ha
      exact List.mem_of_mem_head? ha
    have := hroom a hmem
    unfold gpu_cache.num_free_slots cut_update_index.fan_factor at this ⊢
    rw [i1.2.1.2.2, i2]
    exact this

namespace cut_update_pool

/-- With no transfer budget `split_node` either rejects the split, with the GPU
cache untouched, or finds every child resident in both caches and approves the
split with both caches as they were. -/
theorem split_node_zero_budget_outcome (p : cut_update_pool) (a : action)
    (hb : p.gpu_cache_.transfer_budget = 0) (hF : 1 ≤ p.index_.fan_factor a.model_id_) :
    (∃ o : ooc_cache, split_node p a = reject { p with ooc_cache_ := o } a) ∨
    ((∀ c ∈ p.index_.get_all_children a.model_id_ a.node_id_,
        p.ooc_cache_.is_node_resident a.model_id_ c = true ∧
        p.gpu_cache_.is_node_resident a.model_id_ c = true) ∧
      split_node p a = approve (aquire_children p a.view_id_ a.model_id_
        (p.index_.get_all_children a.model_id_ a.node_id_)) a) := by
  have hfit : (decide (p.gpu_cache_.transfer_budget ≥ p.index_.fan_factor a.model_id_)
      && decide (p.gpu_cache_.num_free_slots ≥ p.index_.fan_factor a.model_id_)) = false := by
    rw [hb]
    have : ¬ (0 ≥ p.index_.fan_factor a.model_id_) := by omega
    simp [this]
  have hob : (split_node_obtain p a).2.1 = p.gpu_cache_ := by
    unfold split_node_obtain
    simp only [hfit]
    split
    · exact split_node_transfer_unfit _ _ _ _
    · rfl
  unfold split_node
  simp only []
  split
  · exact Or.inl ⟨p.ooc_cache_, rfl⟩
  · split
    · rename_i hav
      right
      refine ⟨(split_node_zero_budget p a hb hF).2 hav, ?_⟩
      rw [hob, (split_node_obtain_host p a hav).1]
    · left
      refine ⟨(split_node_obtain p a).1, ?_⟩
      rw [hob]

end cut_update_pool

/-! ## An update in which every split is blocked -/

/-- With every split blocked a transition of `cut_update` puts the node of the
resolved action back into the cut and registers nothing. -/
theorem update_step_blocked (p p' : cut_update_pool) (h : update_step p p')
    (hb : p.splits_blocked) :
    (∃ q a rest, List.Perm (p.index_.action_queues_ q) (a :: rest) ∧
      p'.index_ = (p.index_.with_queue q rest).add_to_current_cut a.view_id_ a.model_id_
        [a.node_id_]) ∧
    cut_update_pool.nothing_registered p p' := by
  obtain ⟨c1, c2, c3, hk, hs⟩ := hb
  have hempty : ∀ q, q ≠ queue_t.KEEP ∧ q ≠ queue_t.MUST_SPLIT → p.index_.action_queues_ q = [] := by
    intro q hq
    cases q
    · exact absurd rfl hq.1
    · exact absurd rfl hq.2
    · exact c1
    · exact c2
    · exact c3
  have hfront : ∀ q a, p.index_.front_action q = some a → a ∈ p.index_.action_queues_ q := by
    intro q a h
    unfold cut_update_index.front_action at h
    exact List.mem_of_mem_head? h
  have hkind : ∀ q a, a ∈ p.index_.action_queues_ q →
      (p.index_.pop_front_action q).rejected_nodes a = [a.node_id_] ∧
      (a.queue_ = queue_t.KEEP → (p.index_.pop_front_action q).approved_nodes a = [a.node_id_]) := by
    intro q a ha
    have hq : a.queue_ = queue_t.KEEP ∨ a.queue_ = queue_t.MUST_SPLIT := by
      cases q
      · exact Or.inl (hk a ha)
      · exact Or.inr (hs a ha).1
      · rw [c1] at ha; simp at ha
      · rw [c2] at ha; simp at ha
      · rw [c3] at ha; simp at ha
    constructor
    · unfold cut_update_index.rejected_nodes
      rcases hq with hq | hq <;> rw [hq]
    · intro hq'
      unfold cut_update_index.approved_nodes
      rw [hq']
  cases h with
  | resident a h hres =>
    exfalso
    obtain ⟨_, _, c, hc, hcr⟩ := hs a (hfront _ _ h)
    have := (hres c hc).2
    rw [hcr] at this
    exact Bool.false_ne_true this
  | split a h hfit =>
    exfalso
    have := (hs a (hfront _ _ h)).2.1
    omega
  | collapse_front q a hq h =>
    exfalso
    have := hfront _ _ h
    rw [hempty q hq] at this
    simp at this
  | collapse_back q a hq h =>
    exfalso
    unfold cut_update_index.back_action at h
    rw [hempty q hq] at h
    simp at h
  | reject_front q a h =>
    obtain ⟨hp, he⟩ := cut_update_index.front_action_perm _ _ _ h
    refine ⟨⟨q, a, _, hp, ?_⟩, cut_update_pool.nothing_registered_refl _⟩
    rw [cut_update_pool.reject_index, cut_update_pool.pop_front_index,
      (hkind q a (hfront _ _ h)).1, he]
  | approve_front q a hq h =>
    obtain ⟨hp, he⟩ := cut_update_index.front_action_perm _ _ _ h
    refine ⟨⟨q, a, _, hp, ?_⟩, cut_update_pool.nothing_registered_refl _⟩
    have hka : a.queue_ = queue_t.KEEP := by
      have := hfront _ _ h
      rw [hq] at this
      exact hk a this
    rw [cut_update_pool.approve_index, cut_update_pool.pop_front_index,
      (hkind q a (hfront _ _ h)).2 hka, he]

/-- Putting the node of a resolved action back into the cut keeps the set of the
nodes that are in the current cut or have an action queued. -/
theorem pending_node_step (idx idx' : cut_update_index) (q : queue_t) (a : action)
    (rest : List action) (hp : List.Perm (idx.action_queues_ q) (a :: rest))
    (he : idx' = (idx.with_queue q rest).add_to_current_cut a.view_id_ a.model_id_
        [a.node_id_]) (v m x : Nat) :
    (x ∈ idx'.get_current_cut v m ∨ idx'.pending_node v m x) ↔
      (x ∈ idx.get_current_cut v m ∨ idx.pending_node v m x) := by
  have hall := cut_update_index.all_actions_perm_remove idx q a rest hp
  have hall' : idx'.all_actions = (idx.with_queue q rest).all_actions := by rw [he]; rfl
  have hcut : (idx.with_queue q rest).get_current_cut v m = idx.get_current_cut v m := rfl
  unfold cut_update_index.pending_node
  rw [hall', he, cut_update_index.mem_add_to_current_cut, hcut]
  constructor
  · rintro ((h | ⟨rfl, rfl, h⟩) | ⟨b, hb, h⟩)
    · exact Or.inl h
    · right
      refine ⟨a, hall.symm.subset (List.mem_cons_self _ _), rfl, rfl, ?_⟩
      exact (List.mem_singleton.1 h).symm
    · exact Or.inr ⟨b, hall.symm.subset (List.mem_cons_of_mem _ hb), h⟩
  · rintro (h | ⟨b, hb, h⟩)
    · exact Or.inl (Or.inl h)
    · rcases List.mem_cons.1 (hall.subset hb) with rfl | hb'
      · left; right
        obtain ⟨h1, h2, h3⟩ := h
        exact ⟨h1.symm, h2.symm, by simp [h3]⟩
      · exact Or.inr ⟨b, hb', h⟩

/-- With every split blocked at the start, in every state `cut_update` goes
through every split is blocked, nothing has been registered, and the nodes that
are in the current cut or have an action queued are those of the start. -/
theorem update_steps_blocked (p q : cut_update_pool)
    (hs : Relation.ReflTransGen update_step p q) (hb : p.splits_blocked) :
    q.splits_blocked ∧ cut_update_pool.nothing_registered p q ∧
    ∀ v m x, (x ∈ q.index_.get_current_cut v m ∨ q.index_.pending_node v m x) ↔
      (x ∈ p.index_.get_current_cut v m ∨ p.index_.pending_node v m x) := by
  induction hs with
  | refl => exact ⟨hb, cut_update_pool.nothing_registered_refl _, fun _ _ _ => Iff.rfl⟩
  | @tail q q' _ hstep ih =>
    obtain ⟨i1, i2, i3⟩ := ih
    obtain ⟨⟨qq, a, rest, hp, he⟩, hreg⟩ := update_step_blocked _ _ hstep i1
    have hi := update_step_index _ _ hstep
    have hsub := index_step_queues _ _ hi
    obtain ⟨t1, t2⟩ := index_step_tree _ _ hi
    refine ⟨?_, cut_update_pool.nothing_registered_trans _ _ _ i2 hreg, ?_⟩
    · obtain ⟨c1, c2, c3, hk, hsp⟩ := i1
      refine ⟨?_, ?_, ?_, fun a ha => hk a (hsub _ a ha), ?_⟩
      · exact List.eq_nil_iff_forall_not_mem.2 (fun a ha => by
          have := hsub _ a ha; rw [c1] at this; simp at this)
      · exact List.eq_nil_iff_forall_not_mem.2 (fun a ha => by
          have := hsub _ a ha; rw [c2] at this; simp at this)
      · exact List.eq_nil_iff_forall_not_mem.2 (fun a ha => by
          have := hsub _ a ha; rw [c3] at this; simp at this)
      · intro a ha
        obtain ⟨k1, k2, c, hc, hcr⟩ := hsp a (hsub _ a ha)
        refine ⟨k1, ?_, c, ?_, ?_⟩
        · unfold gpu_cache.num_free_slots cut_update_index.fan_factor at k2 ⊢
          rw [hreg.2.1.2.2, t1]
          exact k2
        · rw [cut_update_index.get_all_children_congr q.index_ q'.index_ t1 t2]
          exact hc
        · unfold gpu_cache.is_node_resident at hcr ⊢
          rw [hreg.2.1.1]
          exact hcr
    · intro v m x
      rw [pending_node_step q.index_ q'.index_ qq a rest hp he v m x]
      exact i3 v m x

/-! ## The action the analysis emits for a node of the previous cut -/

/-- In a list of actions no two of which stand for a common node, the actions
that stand for `x` are the one action that does. -/
theorem filter_eq_singleton {α : Type} (P : α → Bool) :
    ∀ (l : List α) (c : α), l.Pairwise (fun a b => ¬ (P a = true ∧ P b = true)) →
      c ∈ l → P c = true → l.filter P = [c] := by
  intro l
  induction l with
  | nil => intro c _ hc; simp at hc
  | cons a l ih =>
    intro c hp hc hPc
    rw [List.pairwise_cons] at hp
    obtain ⟨h1, h2⟩ := hp
    rcases List.mem_cons.mp hc with rfl | hc
    · rw [List.filter_cons_of_pos hPc]
      congr 1
      rw [List.filter_eq_nil_iff]
      intro b hb hPb
      exact h1 b hb ⟨hPc, hPb⟩
    · have hPa : ¬ P a = true := fun hPa => h1 c hc ⟨hPa, hPc⟩
      rw [List.filter_cons_of_neg hPa]
      exact ih c h2 hc hPc

namespace cut_update_pool

theorem group_complete_iff (p : cut_update_pool) (m : Nat) (old : List Nat) (x : Nat) :
    p.group_complete m old x ↔ (0 < x ∧ x < p.index_.num_nodes m ∧ p.is_all_nodes_in_cut m
      (p.index_.get_all_children m (tree_parent (p.index_.fan_factor m) x)) old = true) := by
  unfold group_complete cut_update_index.get_all_siblings cut_update_index.get_parent_id tree_parent
  constructor
  · rintro ⟨h0, hN, h⟩
    rw [if_neg (by omega)] at h
    exact ⟨h0, hN, h⟩
  · rintro ⟨h0, hN, h⟩
    rw [if_neg (by omega)]
    exact ⟨h0, hN, h⟩

/-- Every node of a strictly ascending cut is reached by the loop of the
analysis: the actions of its complete sibling group, or its own action, are
among the actions of the cut. -/
theorem cut_analysis_actions_reach (cfg : config) (inp : frame_input) (p : cut_update_pool)
    (v m : Nat) (old : List Nat) (timeout : Bool) (hF : 1 ≤ p.index_.fan_factor m) :
    ∀ (n : Nat) (l : List Nat), l.length ≤ n → l.Pairwise (fun x y => x < y) →
      (∀ x ∈ l, 0 < x → x < p.index_.num_nodes m →
        p.is_all_nodes_in_cut m
          (p.index_.get_all_children m (tree_parent (p.index_.fan_factor m) x)) old = true →
        ∀ i, i < p.index_.fan_factor m →
          tree_parent (p.index_.fan_factor m) x * p.index_.fan_factor m + 1 + i ∈ l) →
      ∀ x ∈ l,
        ((0 < x ∧ x < p.index_.num_nodes m ∧ p.is_all_nodes_in_cut m
            (p.index_.get_all_children m (tree_parent (p.index_.fan_factor m) x)) old = true) →
          ∀ a ∈ analyse_group cfg inp p v m (tree_parent (p.index_.fan_factor m) x)
              (p.index_.get_all_children m (tree_parent (p.index_.fan_factor m) x))
              (inp.node_error v m (tree_parent (p.index_.fan_factor m) x))
              (p.min_error_threshold m) (p.max_error_threshold m)
              (!(inp.node_in_frustum v m (tree_parent (p.index_.fan_factor m) x))) timeout,
            a ∈ cut_analysis_actions cfg inp p v m old timeout 0 l) ∧
        (¬ (0 < x ∧ x < p.index_.num_nodes m ∧ p.is_all_nodes_in_cut m
            (p.index_.get_all_children m (tree_parent (p.index_.fan_factor m) x)) old = true) →
          analyse_node inp p v m x
              (if 0 < x ∧ x < p.index_.num_nodes m then
                inp.node_error v m (tree_parent (p.index_.fan_factor m) x) else 0)
              (p.min_error_threshold m) (p.max_error_threshold m) timeout
            ∈ cut_analysis_actions cfg inp p v m old timeout 0 l) := by
  intro n
  induction n with
  | zero =>
    intro l hlen _ _ x hx
    have : l = [] := List.length_eq_zero.mp (Nat.le_zero.mp hlen)
    subst this
    simp at hx
  | succ n ih =>
    intro l hlen hs hcl
    cases l with
    | nil => intro x hx; simp at hx
    | cons y rest =>
      have hs' := hs
      rw [List.pairwise_cons] at hs'
      obtain ⟨hlt, hsrest⟩ := hs'
      by_cases hg : 0 < y ∧ y < p.index_.num_nodes m ∧ p.is_all_nodes_in_cut m
          (p.index_.get_all_children m (tree_parent (p.index_.fan_factor m) y)) old = true
      · -- a complete group
        obtain ⟨h0, hN, hall⟩ := hg
        rw [cut_analysis_actions_group cfg inp p v m old timeout y rest h0 hN hall]
        have hv := is_all_nodes_in_cut_children p m _ old hall
        have hin := hcl y (List.mem_cons_self _ _) h0 hN hall
        obtain ⟨j, hj, hxj⟩ := tree_child_of_parent (p.index_.fan_factor m) y hF h0
        have hj0 : j = 0 := by
          have h1 := hin 0 (by omega)
          rcases List.mem_cons.mp h1 with h2 | h2
          · omega
          · have := hlt _ h2
            omega
        subst hj0
        have hmin : ∀ z ∈ y :: rest,
            tree_parent (p.index_.fan_factor m) y * p.index_.fan_factor m + 1 ≤ z := by
          intro z hz
          rcases List.mem_cons.mp hz with rfl | hz
          · omega
          · have := hlt z hz
            omega
        obtain ⟨htake, hdrop⟩ := sorted_take_consecutive (p.index_.fan_factor m) (y :: rest)
          (tree_parent (p.index_.fan_factor m) y * p.index_.fan_factor m + 1) hs hin hmin
        have hdropeq : (y :: rest).drop (p.index_.fan_factor m)
            = rest.drop (p.index_.fan_factor m - 1) := by
          obtain ⟨k, hk⟩ : ∃ k, p.index_.fan_factor m = k + 1 := ⟨p.index_.fan_factor m - 1, by omega⟩
          rw [hk]
          simp
        rw [hdropeq] at hdrop
        have hlen' : (rest.drop (p.index_.fan_factor m - 1)).length ≤ n := by
          have := List.length_drop (p.index_.fan_factor m - 1) rest
          simp only [List.length_cons] at hlen
          omega
        have hsub : List.Sublist (rest.drop (p.index_.fan_factor m - 1)) rest :=
          List.drop_sublist _ _
        have hcl' : ∀ z ∈ rest.drop (p.index_.fan_factor m - 1), 0 < z →
            z < p.index_.num_nodes m →
            p.is_all_nodes_in_cut m
              (p.index_.get_all_children m (tree_parent (p.index_.fan_factor m) z)) old = true →
            ∀ i, i < p.index_.fan_factor m →
              tree_parent (p.index_.fan_factor m) z * p.index_.fan_factor m + 1 + i
                ∈ rest.drop (p.index_.fan_factor m - 1) := by
          intro z hz hz0 hzN hzall i hi
          have hzl : z ∈ y :: rest := List.mem_cons_of_mem _ (hsub.subset hz)
          have hmem := hcl z hzl hz0 hzN hzall i hi
          have hsplit := List.take_append_drop (p.index_.fan_factor m) (y :: rest)
          rw [← hsplit, List.mem_append] at hmem
          rcases hmem with hmem | hmem
          · exfalso
            rw [htake] at hmem
            obtain ⟨k, hk, hkeq⟩ := List.mem_map.mp hmem
            have hk' := List.mem_range.mp hk
            have hpar : tree_parent (p.index_.fan_factor m) z
                = tree_parent (p.index_.fan_factor m) y := by
              have e1 := tree_parent_child (p.index_.fan_factor m)
                (tree_parent (p.index_.fan_factor m) z) i hi
              have e2 := tree_parent_child (p.index_.fan_factor m)
                (tree_parent (p.index_.fan_factor m) y) k hk'
              rw [← e1, ← e2]
              congr 1
              omega
            obtain ⟨j, hj, hzj⟩ := tree_child_of_parent (p.index_.fan_factor m) z hF hz0
            have := hdrop z hz
            rw [hpar] at hzj
            omega
          · rw [hdropeq] at hmem
            exact hmem
        intro x hx
        have hsplit := List.take_append_drop (p.index_.fan_factor m) (y :: rest)
        rw [← hsplit, List.mem_append] at hx
        rcases hx with hx | hx
        · rw [htake] at hx
          obtain ⟨k, hk, hkeq⟩ := List.mem_map.mp hx
          have hk' := List.mem_range.mp hk
          have hpar : tree_parent (p.index_.fan_factor m) x
              = tree_parent (p.index_.fan_factor m) y := by
            rw [← hkeq]
            exact tree_parent_child _ _ k hk'
          constructor
          · intro _ a ha
            rw [hpar] at ha
            exact List.mem_append_left _ ha
          · intro hng
            exfalso
            apply hng
            refine ⟨by omega, by rw [← hkeq]; exact (hv k hk').1, ?_⟩
            rw [hpar]
            exact hall
        · rw [hdropeq] at hx
          obtain ⟨r1, r2⟩ := ih _ hlen' (hsrest.sublist hsub) hcl' x hx
          exact ⟨fun h a ha => List.mem_append_right _ (r1 h a ha),
            fun h => List.mem_append_right _ (r2 h)⟩
      · -- a node on its own
        rw [cut_analysis_actions_node cfg inp p v m old timeout y rest hg]
        have hlen' : rest.length ≤ n := by
          simp only [List.length_cons] at hlen
          omega
        have hcl' : ∀ z ∈ rest, 0 < z → z < p.index_.num_nodes m →
            p.is_all_nodes_in_cut m
              (p.index_.get_all_children m (tree_parent (p.index_.fan_factor m) z)) old = true →
            ∀ i, i < p.index_.fan_factor m →
              tree_parent (p.index_.fan_factor m) z * p.index_.fan_factor m + 1 + i ∈ rest := by
          intro z hz hz0 hzN hzall i hi
          have hmem := hcl z (List.mem_cons_of_mem _ hz) hz0 hzN hzall i hi
          rcases List.mem_cons.mp hmem with hmem | hmem
          · exfalso
            have hv := is_all_nodes_in_cut_children p m _ old hzall i hi
            have hpar : tree_parent (p.index_.fan_factor m) y
                = tree_parent (p.index_.fan_factor m) z := by
              rw [← hmem]
              exact tree_parent_child _ _ i hi
            apply hg
            refine ⟨by omega, by rw [← hmem]; exact hv.1, ?_⟩
            rw [hpar]
            exact hzall
          · exact hmem
        intro x hx
        rcases List.mem_cons.mp hx with rfl | hx
        · exact ⟨fun h => absurd h hg, fun _ => List.mem_cons_self _ _⟩
        · obtain ⟨r1, r2⟩ := ih rest hlen' hsrest hcl' x hx
          exact ⟨fun h a ha => List.mem_cons_of_mem _ (r1 h a ha),
            fun h => List.mem_cons_of_mem _ (r2 h)⟩

end cut_update_pool

namespace cut_update_pool

/-- The previous cut contains every complete sibling group entirely. -/
theorem previous_cut_closed (p : cut_update_pool) (m : Nat) (old : List Nat) :
    ∀ x ∈ old, 0 < x → x < p.index_.num_nodes m →
      p.is_all_nodes_in_cut m
        (p.index_.get_all_children m (tree_parent (p.index_.fan_factor m) x)) old = true →
      ∀ i, i < p.index_.fan_factor m →
        tree_parent (p.index_.fan_factor m) x * p.index_.fan_factor m + 1 + i ∈ old :=
  fun _ _ _ _ hall i hi => (is_all_nodes_in_cut_children p m _ old hall i hi).2

/-- An action of the analysis that stands for the node `x` is the only one that
does. -/
theorem actions_for_of_mem (cfg : config) (inp : frame_input) (p : cut_update_pool)
    (v m : Nat) (old : List Nat) (timeout : Bool) (hF : 1 ≤ p.index_.fan_factor m)
    (hs : old.Pairwise (fun x y => x < y)) (c : action) (x : Nat)
    (hc : c ∈ cut_analysis_actions cfg inp p v m old timeout 0 old)
    (hx : x ∈ p.index_.rejected_nodes c) :
    p.index_.actions_for (cut_analysis_actions cfg inp p v m old timeout 0 old) x = [c] := by
  obtain ⟨_, h2, _⟩ := cut_analysis_actions_spec cfg inp p v m old timeout hF old.length old
    (Nat.le_refl _) hs (previous_cut_closed p m old)
  unfold cut_update_index.actions_for
  refine filter_eq_singleton _ _ c ?_ hc (by simpa using hx)
  refine h2.imp ?_
  intro a b hab hP
  simp only [decide_eq_true_eq] at hP
  exact hab x hP.1 hP.2

/-- The one action that stands for a node whose sibling group is not complete. -/
theorem actions_for_node (cfg : config) (inp : frame_input) (p : cut_update_pool)
    (v m : Nat) (hF : 1 ≤ p.index_.fan_factor m)
    (hs : (p.index_.get_previous_cut v m).Pairwise (fun x y => x < y)) (x : Nat)
    (hx : x ∈ p.index_.get_previous_cut v m)
    (hg : ¬ p.group_complete m (p.index_.get_previous_cut v m) x) :
    p.index_.actions_for (p.analysis_actions cfg inp v m) x
      = [analyse_node inp p v m x (p.parent_error inp v m x)
          (p.min_error_threshold m) (p.max_error_threshold m)
          (freshness_timeout cfg p m)] := by
  rw [group_complete_iff] at hg
  have hr := (cut_analysis_actions_reach cfg inp p v m (p.index_.get_previous_cut v m)
    (freshness_timeout cfg p m) hF _ _ (Nat.le_refl _) hs (previous_cut_closed p m _) x hx).2 hg
  have hpe : p.parent_error inp v m x = (if 0 < x ∧ x < p.index_.num_nodes m then
      inp.node_error v m (tree_parent (p.index_.fan_factor m) x) else 0) := by
    unfold parent_error cut_update_index.get_parent_id tree_parent
    by_cases h : 0 < x ∧ x < p.index_.num_nodes m
    · rw [if_pos h, if_pos h, if_neg (by omega)]
    · rw [if_neg h, if_neg h]
  rw [hpe]
  refine actions_for_of_mem cfg inp p v m _ _ hF hs _ x hr ?_
  obtain ⟨_, _, a3, a4⟩ := analyse_node_props inp p v m x
    (if 0 < x ∧ x < p.index_.num_nodes m then
      inp.node_error v m (tree_parent (p.index_.fan_factor m) x) else 0)
    (p.min_error_threshold m) (p.max_error_threshold m) (freshness_timeout cfg p m)
  unfold cut_update_index.rejected_nodes
  rcases a4 with hq | ⟨hq, _⟩ <;> rw [hq, a3] <;> exact List.mem_singleton.mpr rfl

/-- The one action that stands for a node whose sibling group is complete is the
action of the group that stands for it. -/
theorem actions_for_group (cfg : config) (inp : frame_input) (p : cut_update_pool)
    (v m : Nat) (hF : 1 ≤ p.index_.fan_factor m)
    (hs : (p.index_.get_previous_cut v m).Pairwise (fun x y => x < y)) (x : Nat)
    (hx : x ∈ p.index_.get_previous_cut v m)
    (hg : p.group_complete m (p.index_.get_previous_cut v m) x) (c : action)
    (hc : c ∈ analyse_group cfg inp p v m (p.index_.get_parent_id m x)
      (p.index_.get_all_siblings m x) (p.parent_error inp v m x)
      (p.min_error_threshold m) (p.max_error_threshold m)
      (!(inp.node_in_frustum v m (p.index_.get_parent_id m x))) (freshness_timeout cfg p m))
    (hxc : x ∈ p.index_.rejected_nodes c) :
    p.index_.actions_for (p.analysis_actions cfg inp v m) x = [c] := by
  have hg' := (group_complete_iff p m _ x).1 hg
  have hpar : p.index_.get_parent_id m x = tree_parent (p.index_.fan_factor m) x := by
    unfold cut_update_index.get_parent_id tree_parent
    rw [if_neg (by have := hg.1; omega)]
  have hpe : p.parent_error inp v m x
      = inp.node_error v m (tree_parent (p.index_.fan_factor m) x) := by
    unfold parent_error
    rw [if_pos ⟨hg.1, hg.2.1⟩, hpar]
  have hsib : p.index_.get_all_siblings m x
      = p.index_.get_all_children m (tree_parent (p.index_.fan_factor m) x) := by
    unfold cut_update_index.get_all_siblings
    rw [hpar]
  rw [hpar, hsib, hpe] at hc
  have hr := (cut_analysis_actions_reach cfg inp p v m (p.index_.get_previous_cut v m)
    (freshness_timeout cfg p m) hF _ _ (Nat.le_refl _) hs (previous_cut_closed p m _) x hx).1
    hg' c hc
  exact actions_for_of_mem cfg inp p v m _ _ hF hs c x hr hxc

/-- A node with a complete sibling group is one of the children of its parent,
which all exist. -/
theorem group_complete_sibling (p : cut_update_pool) (m : Nat) (old : List Nat) (x : Nat)
    (hF : 1 ≤ p.index_.fan_factor m) (hg : p.group_complete m old x) :
    x ∈ p.index_.get_all_siblings m x ∧
    (p.index_.get_all_siblings m x).Nodup ∧
    (p.index_.get_all_siblings m x).length = p.index_.fan_factor m ∧
    p.index_.get_all_children m (p.index_.get_parent_id m x) = p.index_.get_all_siblings m x := by
  have hg' := (group_complete_iff p m _ x).1 hg
  obtain ⟨h0, hN, hall⟩ := hg'
  have hv := is_all_nodes_in_cut_children p m _ old hall
  have hpar : p.index_.get_parent_id m x = tree_parent (p.index_.fan_factor m) x := by
    unfold cut_update_index.get_parent_id tree_parent
    rw [if_neg (by omega)]
  have hsib : p.index_.get_all_siblings m x
      = (List.range (p.index_.fan_factor m)).map
          (fun i => tree_parent (p.index_.fan_factor m) x * p.index_.fan_factor m + 1 + i) := by
    unfold cut_update_index.get_all_siblings
    rw [hpar]
    exact cut_update_index.get_all_children_of_valid _ _ _ (fun i hi => (hv i hi).1)
  refine ⟨?_, ?_, ?_, rfl⟩
  · rw [hsib]
    obtain ⟨j, hj, hxj⟩ := tree_child_of_parent (p.index_.fan_factor m) x hF h0
    exact List.mem_map.mpr ⟨j, List.mem_range.mpr hj, hxj.symm⟩
  · rw [hsib]
    refine (List.nodup_range _).map ?_
    intro a b hab
    simp only [] at hab
    omega
  · rw [hsib]
    simp

end cut_update_pool

namespace cut_update_pool

/-- A collapse of the complete sibling group of `x` into its parent stands for
`x`. -/
theorem parent_action_stands_for (inp : frame_input) (p : cut_update_pool) (v m : Nat)
    (old : List Nat) (x : Nat) (hF : 1 ≤ p.index_.fan_factor m)
    (hg : p.group_complete m old x) (q : queue_t)
    (hq : q ≠ queue_t.KEEP ∧ q ≠ queue_t.MUST_SPLIT) :
    x ∈ p.index_.rejected_nodes (p.parent_action inp q v m x) := by
  obtain ⟨h1, _, _, h4⟩ := group_complete_sibling p m old x hF hg
  unfold cut_update_index.rejected_nodes parent_action
  cases q
  · exact absurd rfl hq.1
  · exact absurd rfl hq.2
  all_goals
    simp only []
    rw [h4]
    exact h1

end cut_update_pool

namespace cut_update_pool

/-- The actions of a visible complete group without timeout, by cases on the
siblings that split. -/
theorem analyse_group_visible (cfg : config) (inp : frame_input) (p : cut_update_pool)
    (v m parent : Nat) (siblings : List Nat) (pe t1 t2 : ℚ)
    (hlen : siblings.length = p.index_.fan_factor m) :
    ((∀ s ∈ siblings, sibling_splits inp p v m t1 t2 s = false) →
      (∀ s ∈ siblings, inp.node_error v m s < t1) →
      analyse_group cfg inp p v m parent siblings pe t1 t2 false false
        = [{ queue_ := queue_t.MUST_COLLAPSE, view_id_ := v, model_id_ := m,
             node_id_ := parent, error_ := pe }]) ∧
    ((∀ s ∈ siblings, sibling_splits inp p v m t1 t2 s = false) →
      (∃ s ∈ siblings, inp.node_error v m s ≥ t1) →
      analyse_group cfg inp p v m parent siblings pe t1 t2 false false
        = [{ queue_ := queue_t.MAYBE_COLLAPSE, view_id_ := v, model_id_ := m,
             node_id_ := parent, error_ := pe }]) ∧
    ((∃ s ∈ siblings, sibling_splits inp p v m t1 t2 s = true) →
      ∀ x ∈ siblings,
        (if sibling_splits inp p v m t1 t2 x = true then
          ({ queue_ := queue_t.MUST_SPLIT, view_id_ := v, model_id_ := m, node_id_ := x,
             error_ := inp.node_error v m x } : action)
         else
          { queue_ := queue_t.KEEP, view_id_ := v, model_id_ := m, node_id_ := x,
            error_ := pe })
          ∈ analyse_group cfg inp p v m parent siblings pe t1 t2 false false) := by
  refine ⟨?_, ?_, ?_⟩
  · intro hns hlow
    have hS : siblings.filter (sibling_splits inp p v m t1 t2) = [] := by
      rw [List.filter_eq_nil_iff]
      intro s hs h
      rw [hns s hs] at h
      exact Bool.false_ne_true h
    have hall : siblings.all (fun sibling_id =>
        !(decide (inp.node_error v m sibling_id ≥ t1))) = true := by
      rw [List.all_eq_true]
      intro s hs
      have := hlow s hs
      simp only [ge_iff_le, Bool.not_eq_true', decide_eq_false_iff_not, not_le]
      exact this
    unfold analyse_group
    simp only [Bool.false_eq_true, if_false, hS, List.map_nil, List.nil_append,
      List.isEmpty_nil, hall, Bool.and_self, if_true]
  · intro hns hhigh
    have hS : siblings.filter (sibling_splits inp p v m t1 t2) = [] := by
      rw [List.filter_eq_nil_iff]
      intro s hs h
      rw [hns s hs] at h
      exact Bool.false_ne_true h
    have hall : siblings.all (fun sibling_id =>
        !(decide (inp.node_error v m sibling_id ≥ t1))) = false := by
      rw [Bool.eq_false_iff]
      intro h
      rw [List.all_eq_true] at h
      obtain ⟨s, hs, hge⟩ := hhigh
      have := h s hs
      simp only [ge_iff_le, Bool.not_eq_true', decide_eq_false_iff_not, not_le] at this
      exact absurd hge (not_le.mpr this)
    unfold analyse_group
    simp only [Bool.false_eq_true, if_false, hS, List.map_nil, List.nil_append,
      List.isEmpty_nil, hall, Bool.and_false, Bool.true_and, if_true]
  · rintro ⟨s, hs, hsp⟩ x hx
    have hS : (siblings.filter (sibling_splits inp p v m t1 t2)).isEmpty = false := by
      rw [Bool.eq_false_iff]
      intro h
      rw [List.isEmpty_iff] at h
      have : s ∈ siblings.filter (sibling_splits inp p v m t1 t2) :=
        List.mem_filter.mpr ⟨hs, hsp⟩
      rw [h] at this
      simp at this
    unfold analyse_group
    simp only [Bool.false_eq_true, if_false, hS, Bool.false_and]
    rw [List.mem_append]
    by_cases hx' : sibling_splits inp p v m t1 t2 x = true
    · left
      rw [if_pos hx']
      exact List.mem_map.mpr ⟨x, List.mem_filter.mpr ⟨hx, hx'⟩, rfl⟩
    · right
      rw [if_neg hx']
      refine List.mem_map.mpr ⟨x, List.mem_filter.mpr ⟨?_, ?_⟩, rfl⟩
      · rw [← hlen, List.take_length]
        exact hx
      · simpa using hx'

end cut_update_pool

namespace cut_update_pool

/-- The action of `cut_analysis` for a node on its own, without timeout: a split
with the error of the node when the node is in the frustum, its error is above
the maximum threshold and every child exists and has an error not below the
minimum threshold; a keep otherwise. -/
theorem analyse_node_eq (inp : frame_input) (p : cut_update_pool) (v m x : Nat)
    (pe t1 t2 : ℚ) :
    ((inp.node_in_frustum v m x = true ∧ inp.node_error v m x > t2 ∧
        ∀ c ∈ p.index_.get_all_children m x, c ≠ invalid_node_t ∧ t1 ≤ inp.node_error v m c) →
      analyse_node inp p v m x pe t1 t2 false
        = { queue_ := queue_t.MUST_SPLIT, view_id_ := v, model_id_ := m, node_id_ := x,
            error_ := inp.node_error v m x }) ∧
    (¬ (inp.node_in_frustum v m x = true ∧ inp.node_error v m x > t2 ∧
        ∀ c ∈ p.index_.get_all_children m x, c ≠ invalid_node_t ∧ t1 ≤ inp.node_error v m c) →
      analyse_node inp p v m x pe t1 t2 false
        = { queue_ := queue_t.KEEP, view_id_ := v, model_id_ := m, node_id_ := x,
            error_ := pe }) := by
  have hcs : children_allow_split inp p v m x t1 = true ↔
      ∀ c ∈ p.index_.get_all_children m x, c ≠ invalid_node_t ∧ t1 ≤ inp.node_error v m c := by
    unfold children_allow_split
    rw [List.all_eq_true]
    constructor
    · intro h c hc
      have := h c hc
      simp only [Bool.and_eq_true, Bool.not_eq_true', beq_eq_false_iff_ne, ne_eq,
        decide_eq_false_iff_not, not_lt] at this
      exact this
    · intro h c hc
      have := h c hc
      simp only [Bool.and_eq_true, Bool.not_eq_true', beq_eq_false_iff_ne, ne_eq,
        decide_eq_false_iff_not, not_lt]
      exact this
  unfold analyse_node
  constructor
  · rintro ⟨h1, h2, h3⟩
    simp [h1, h2, hcs.2 h3]
  · intro h
    by_cases h1 : inp.node_in_frustum v m x = true
    · by_cases h2 : inp.node_error v m x > t2
      · have h3 : children_allow_split inp p v m x t1 = false := by
          rw [Bool.eq_false_iff]
          intro h3
          exact h ⟨h1, h2, hcs.1 h3⟩
        simp [h1, h2, h3]
      · simp [h1, h2]
    · simp [h1]

end cut_update_pool

namespace cut_update_pool

/-- Under a freshness timeout a node on its own is kept. -/
theorem analyse_node_timeout (inp : frame_input) (p : cut_update_pool) (v m x : Nat)
    (pe t1 t2 : ℚ) :
    analyse_node inp p v m x pe t1 t2 true
      = { queue_ := queue_t.KEEP, view_id_ := v, model_id_ := m, node_id_ := x,
          error_ := pe } := by
  unfold analyse_node
  simp

/-- Under a freshness timeout a complete group is collapsed into its parent:
`MUST_COLLAPSE` when the parent is outside the frustum and
must-collapse-outside-frustum is enabled, `COLLAPSE_ON_NEED` otherwise. -/
theorem analyse_group_timeout (cfg : config) (inp : frame_input) (p : cut_update_pool)
    (v m parent : Nat) (siblings : List Nat) (pe t1 t2 : ℚ) (nsf : Bool) :
    analyse_group cfg inp p v m parent siblings pe t1 t2 nsf true
      = [{ queue_ := if nsf && cfg.LAMURE_CUT_UPDATE_MUST_COLLAPSE_OUTSIDE_FRUSTUM then
             queue_t.MUST_COLLAPSE else queue_t.COLLAPSE_ON_NEED,
           view_id_ := v, model_id_ := m, node_id_ := parent, error_ := pe }] := by
  unfold analyse_group
  cases nsf <;> cases cfg.LAMURE_CUT_UPDATE_MUST_COLLAPSE_OUTSIDE_FRUSTUM <;> simp

theorem collapse_kind_cases (b : Bool) :
    (if b = true then queue_t.MUST_COLLAPSE else queue_t.COLLAPSE_ON_NEED)
        = queue_t.MUST_COLLAPSE ∨
      (if b = true then queue_t.MUST_COLLAPSE else queue_t.COLLAPSE_ON_NEED)
        = queue_t.COLLAPSE_ON_NEED := by
  cases b <;> simp

/-- Under a freshness timeout the analysis emits keeps, must-collapses and
collapse-on-needs only. -/
theorem cut_analysis_actions_timeout (cfg : config) (inp : frame_input) (p : cut_update_pool)
    (v m : Nat) (old : List Nat) :
    ∀ (l : List Nat) (skip : Nat),
      ∀ a ∈ cut_analysis_actions cfg inp p v m old true skip l,
        a.queue_ = queue_t.KEEP ∨ a.queue_ = queue_t.MUST_COLLAPSE ∨
          a.queue_ = queue_t.COLLAPSE_ON_NEED := by
  intro l
  induction l with
  | nil =>
    intro skip a ha
    cases skip <;> simp [cut_analysis_actions] at ha
  | cons x rest ih =>
    intro skip a ha
    cases skip with
    | succ k =>
      rw [cut_analysis_actions] at ha
      exact ih k a ha
    | zero =>
      rw [cut_analysis_actions] at ha
      rcases mem_ite_or _ _ _ _ ha with ha | ha
      · rcases List.mem_cons.mp ha with rfl | ha
        · rw [analyse_node_timeout]
          exact Or.inl rfl
        · exact ih 0 a ha
      · rcases List.mem_append.mp ha with ha | ha
        · rw [analyse_group_timeout, List.mem_singleton] at ha
          rw [ha]
          exact Or.inr (collapse_kind_cases _)
        · exact ih _ a ha

end cut_update_pool

/-! ## A previous cut that is the children of the root -/

namespace cut_update_pool

/-- The loop `is_all_nodes_in_cut` succeeds on nodes that exist, are valid and are
in the cut. -/
theorem is_all_nodes_in_cut_of (p : cut_update_pool) (m : Nat) (cs old : List Nat)
    (h : ∀ c ∈ cs, c < p.index_.num_nodes m ∧ c ≠ invalid_node_t ∧ c ∈ old) :
    p.is_all_nodes_in_cut m cs old = true := by
  unfold is_all_nodes_in_cut
  rw [List.all_eq_true]
  intro c hc
  obtain ⟨h1, h2, h3⟩ := h c hc
  simp only [ge_iff_le, Bool.and_eq_true, Bool.not_eq_true', decide_eq_false_iff_not, not_le,
    beq_eq_false_iff_ne, ne_eq, decide_eq_true_eq]
  exact ⟨⟨h1, h2⟩, h3⟩

/-- When the previous cut is the complete set of the children of the root, the
analysis handles it as one sibling group. -/
theorem root_group_analysis (cfg : config) (inp : frame_input) (p : cut_update_pool)
    (v m : Nat) (hF : 1 ≤ p.index_.fan_factor m)
    (hvalid : ∀ i, i < p.index_.fan_factor m →
      0 * p.index_.fan_factor m + 1 + i < p.index_.num_nodes m)
    (hninv : ∀ c ∈ p.index_.get_all_children m 0, c ≠ invalid_node_t)
    (hprev : p.index_.get_previous_cut v m = p.index_.get_all_children m 0) :
    p.analysis_actions cfg inp v m
      = analyse_group cfg inp p v m 0 (p.index_.get_all_children m 0) (inp.node_error v m 0)
          (p.min_error_threshold m) (p.max_error_threshold m)
          (!(inp.node_in_frustum v m 0)) (freshness_timeout cfg p m) := by
  have hch := cut_update_index.get_all_children_of_valid p.index_ m 0 hvalid
  obtain ⟨k, hk⟩ : ∃ k, p.index_.fan_factor m = k + 1 := ⟨p.index_.fan_factor m - 1, by omega⟩
  have hcons : p.index_.get_all_children m 0
      = 1 :: (List.range k).map (fun i => i + 2) := by
    rw [hch, hk, List.range_succ_eq_map]
    simp only [Nat.zero_mul, Nat.zero_add, List.map_cons, List.map_map, Nat.add_zero]
    congr 1
    apply List.map_congr_left
    intro i _
    simp only [Function.comp]
    omega
  have hpar : tree_parent (p.index_.fan_factor m) 1 = 0 := by
    unfold tree_parent
    simp
  have h1N : 1 < p.index_.num_nodes m := by
    have := hvalid 0 (by omega)
    omega
  have hall : p.is_all_nodes_in_cut m
      (p.index_.get_all_children m (tree_parent (p.index_.fan_factor m) 1))
      (p.index_.get_all_children m 0) = true := by
    rw [hpar]
    apply is_all_nodes_in_cut_of
    intro c hc
    refine ⟨?_, hninv c hc, hc⟩
    rw [hch] at hc
    obtain ⟨i, hi, rfl⟩ := List.mem_map.mp hc
    exact hvalid i (List.mem_range.mp hi)
  unfold analysis_actions
  rw [hprev]
  have hstep := cut_analysis_actions_group cfg inp p v m (p.index_.get_all_children m 0)
    (freshness_timeout cfg p m) 1 ((List.range k).map (fun i => i + 2)) (by omega) h1N hall
  rw [hpar] at hstep
  have hdrop : ((List.range k).map (fun i => i + 2)).drop (p.index_.fan_factor m - 1) = [] := by
    apply List.drop_eq_nil_of_le
    simp only [List.length_map, List.length_range]
    omega
  rw [hdrop] at hstep
  have hnil : cut_analysis_actions cfg inp p v m (p.index_.get_all_children m 0)
      (freshness_timeout cfg p m) 0 [] = [] := by
    rw [cut_analysis_actions]
  rw [hnil, List.append_nil] at hstep
  rw [← hstep]
  congr 1

end cut_update_pool

namespace cut_update_pool

/-- With no split queued `cut_update` is its final loops. -/
theorem cut_update_no_split (inp : frame_input) (p : cut_update_pool)
    (h : p.index_.action_queues_ queue_t.MUST_SPLIT = []) :
    cut_update inp p = some (compile_transfer_list inp (compile_render_list
      (cut_update_drain (p.refreshed inp)))) := by
  have h0 : (p.refreshed inp).index_.action_queues_ queue_t.MUST_SPLIT = [] := h
  have hloop : cut_update_loop (cut_update_fuel (p.refreshed inp)) (p.refreshed inp)
      { check_residency := true, all_children_in_ooc_cache := true,
        all_children_in_gpu_cache := true } = some (p.refreshed inp) := by
    simp [cut_update_fuel, cut_update_loop, cut_update_index.front_action, h0]
  unfold cut_update
  simp only []
  have e : { p with ooc_cache_ := p.ooc_cache_.refresh inp.loads_completed_update }
      = p.refreshed inp := rfl
  rw [e, hloop]

/-- The final loops of `cut_update` with one collapse into the root queued and
nothing else reject it. -/
theorem cut_update_drain_root_collapse (p : cut_update_pool) (a : action)
    (han : a.node_id_ = 0)
    (hk : a.queue_ = queue_t.MUST_COLLAPSE ∨ a.queue_ = queue_t.COLLAPSE_ON_NEED)
    (hq : ∀ q, p.index_.action_queues_ q = if q = a.queue_ then [a] else []) :
    cut_update_drain p = reject (p.pop_front a.queue_) a := by
  have hpop : ∀ q, (p.index_.pop_front_action a.queue_).action_queues_ q = [] := by
    intro q
    unfold cut_update_index.pop_front_action set_queue
    simp only []
    split
    · rw [hq, if_pos rfl]; rfl
    · rename_i hne
      rw [hq, if_neg hne]
  unfold cut_update_drain
  rcases hk with hk | hk
  · have e1 : p.index_.action_queues_ queue_t.MUST_COLLAPSE = [a] := by
      rw [hq, if_pos hk.symm]
    rw [hk] at hpop
    have hc : collapse_node (p.pop_front queue_t.MUST_COLLAPSE) a
        = reject (p.pop_front queue_t.MUST_COLLAPSE) a := by
      unfold collapse_node
      simp [han]
    have hq1 : ∀ q, (reject (p.pop_front queue_t.MUST_COLLAPSE) a).index_.action_queues_ q
        = [] := by
      intro q
      rw [reject_queues]
      exact hpop q
    simp only [e1, drain_queue, hc, hq1]
    rw [hk]
  · have e1 : p.index_.action_queues_ queue_t.MUST_COLLAPSE = [] := by
      rw [hq, if_neg (by rw [hk]; simp)]
    have e2 : p.index_.action_queues_ queue_t.COLLAPSE_ON_NEED = [a] := by
      rw [hq, if_pos hk.symm]
    rw [hk] at hpop
    have hq1 : ∀ q, (reject (p.pop_front queue_t.COLLAPSE_ON_NEED) a).index_.action_queues_ q
        = [] := by
      intro q
      rw [reject_queues]
      exact hpop q
    simp only [e1, e2, drain_queue, hq1]
    rw [hk]

end cut_update_pool

namespace cut_update_pool

/-- A frame whose analysis emits one collapse of the children of the root into the
root and nothing else: `cut_update` rejects it, the current cut is the children
of the root again, and neither cache is touched beyond the opening refresh of
the host cache. -/
theorem root_collapse_frame (cfg : config) (inp : frame_input) (p : cut_update_pool)
    (v m : Nat) (a : action)
    (hA : p.analysis_actions cfg inp v m = [a])
    (hav : a.view_id_ = v) (ham : a.model_id_ = m) (han : a.node_id_ = 0)
    (hk : a.queue_ = queue_t.MUST_COLLAPSE ∨ a.queue_ = queue_t.COLLAPSE_ON_NEED)
    (hq : ∀ q, p.index_.action_queues_ q = [])
    (hvalid : ∀ i, i < p.index_.fan_factor m →
      0 * p.index_.fan_factor m + 1 + i < p.index_.num_nodes m) :
    ∃ P, analysis_and_update cfg inp p [(v, m)] = some P ∧
      P.index_.get_current_cut v m = p.index_.get_all_children m 0 ∧
      P.ooc_cache_ = p.ooc_cache_.refresh inp.loads_completed_update ∧
      P.gpu_cache_.slots_ = p.gpu_cache_.slots_ ∧
      P.gpu_cache_.transfer_budget = p.gpu_cache_.transfer_budget := by
  obtain ⟨p1, hp1⟩ : ∃ p1, p1 = run_analysis cfg inp p [(v, m)] := ⟨_, rfl⟩
  have hidx : p1.index_ = (p.index_.reset_cut v m).push_action a false := by
    rw [hp1]
    show (p.analysis_actions cfg inp v m).foldl _ _ = _
    rw [hA]
    rfl
  have hooc : p1.ooc_cache_ = p.ooc_cache_ := by rw [hp1]; rfl
  have hgpu : p1.gpu_cache_ = p.gpu_cache_ := by rw [hp1]; rfl
  obtain ⟨p2, hp2⟩ : ∃ p2 : cut_update_pool, p2 = { p1 with index_ := p1.index_.sort } :=
    ⟨_, rfl⟩
  have hq2 : ∀ q, p2.index_.action_queues_ q = if q = a.queue_ then [a] else [] := by
    intro q
    have e : p2.index_ = p1.index_.sort := by rw [hp2]
    rw [e, hidx]
    rcases hk with hk | hk <;> cases q <;>
      simp [cut_update_index.sort, cut_update_index.push_action,
        cut_update_index.reset_cut, set_queue, hq, hk]
  have hms : p2.index_.action_queues_ queue_t.MUST_SPLIT = [] := by
    rw [hq2, if_neg]
    rcases hk with hk | hk <;> rw [hk] <;> simp
  have hupd := cut_update_no_split inp p2 hms
  have hq2' : ∀ q, (p2.refreshed inp).index_.action_queues_ q
      = if q = a.queue_ then [a] else [] := hq2
  rw [cut_update_drain_root_collapse (p2.refreshed inp) a han hk hq2'] at hupd
  refine ⟨compile_transfer_list inp (compile_render_list
    (reject ((p2.refreshed inp).pop_front a.queue_) a)), ?_, ?_, ?_, ?_, ?_⟩
  · unfold analysis_and_update
    simp only []
    rw [← hp1, ← hp2]
    exact hupd
  · have hcut : p1.index_.sort.get_current_cut v m = [] := by
      rw [hidx]
      simp [cut_update_index.sort, cut_update_index.push_action, cut_update_index.reset_cut,
        cut_update_index.get_current_cut, set_cut]
    have hch : p1.index_.sort.get_all_children m 0 = p.index_.get_all_children m 0 := by
      rw [hidx]
      rfl
    have hrej : (p1.index_.sort.pop_front_action a.queue_).rejected_nodes a
        = p.index_.get_all_children m 0 := by
      unfold cut_update_index.rejected_nodes
      rw [ham, han]
      rcases hk with hk | hk <;> rw [hk] <;> exact hch
    simp only [compile_transfer_list_index, compile_render_list_index, reject_index,
      pop_front_index]
    have e : (p2.refreshed inp).index_ = p1.index_.sort := by rw [hp2]; rfl
    rw [e, hrej, hav, ham]
    unfold cut_update_index.add_to_current_cut cut_update_index.get_current_cut set_cut
    simp only [and_self, if_true]
    have hc0 : (p1.index_.sort.pop_front_action a.queue_).current_cut_ v m = [] := hcut
    rw [hc0]
    have := set_insert_all_ascending (p.index_.get_all_children m 0) []
      (by simpa using cut_update_index.get_all_children_sorted p.index_ m 0 hvalid)
    simpa using this
  · rw [hp2]
    show p1.ooc_cache_.refresh inp.loads_completed_update = _
    rw [hooc]
  · rw [hp2]
    show p1.gpu_cache_.slots_ = _
    rw [hgpu]
  · rw [hp2]
    show p1.gpu_cache_.transfer_budget_ = _
    rw [hgpu]
    rfl

end cut_update_pool

/-! ## The thresholds in `float64_t` arithmetic -/

/-- The literal `0.1` is `3602879701896397 / 2 ^ 55`, above one tenth. -/
theorem float64_tenth_value :
    float64_tenth = mkRat 3602879701896397 (2 ^ 55) ∧ (1 / 10 : ℚ) < float64_tenth := by
  decide!

/-- A value of `float64_t` is its own rounding, and the rounding takes the nearer
of the two neighbouring values: `1 + 2 ^ -53` lies half way between `1` and
`1 + 2 ^ -52` and goes to `1`, the even one. -/
theorem float64_round_examples :
    float64_round 1 = 1 ∧ float64_round (1 / 2) = 1 / 2 ∧
    float64_round float64_tenth = float64_tenth ∧
    float64_round (1 + mkRat 1 (2 ^ 53)) = 1 ∧
    float64_round (1 + mkRat 3 (2 ^ 53)) = 1 + mkRat 1 (2 ^ 51) ∧
    float64_round (-(1 / 10)) = -float64_tenth := by
  decide!

/-- With the threshold 1 the maximum threshold is the `double` nearest to 1.1,
which is above `1 + 1 / 10`: a root whose error is that value does not exceed
it and is kept, although its error exceeds `1 + 1 / 10`. -/
theorem max_error_threshold_rounds :
    unit_threshold_pool.max_error_threshold 0 = mkRat 2476979795053773 (2 ^ 51) ∧
    boundary_error 0 > 1 + 1 / 10 ∧
    ¬ (boundary_error 0 > unit_threshold_pool.max_error_threshold 0) ∧
    unit_threshold_pool.analysis_actions scenario_config (scenario_input boundary_error) 0 0
      = [{ queue_ := queue_t.KEEP, view_id_ := 0, model_id_ := 0, node_id_ := 0,
           error_ := 0 }] := by
  refine ⟨?_, ?_, ?_, ?_⟩
  · decide!
  · decide!
  · decide!
  · decide!


/-! ## The root bootstrap of `prepare` -/

namespace cache_slots

/-- An eviction puts the new entry in the place of an old one. -/
theorem place_evict_mem (e : cache_entry) (pr : Int) :
    ∀ (s : cache_slots) (x : cache_entry), some x ∈ place_evict e pr s → x = e ∨ some x ∈ s := by
  intro s
  induction s with
  | nil => intro x h; simp [place_evict] at h
  | cons y rest ih =>
    intro x h
    cases y with
    | none =>
      rw [place_evict] at h
      rcases List.mem_cons.mp h with h | h
      · simp at h
      · rcases ih x h with h | h
        · exact Or.inl h
        · exact Or.inr (List.mem_cons_of_mem _ h)
    | some z =>
      rw [place_evict] at h
      split at h
      · rcases List.mem_cons.mp h with h | h
        · left
          simpa using h
        · exact Or.inr (List.mem_cons_of_mem _ h)
      · rcases List.mem_cons.mp h with h | h
        · right
          rw [h]
          exact List.mem_cons_self _ _
        · rcases ih x h with h | h
          · exact Or.inl h
          · exact Or.inr (List.mem_cons_of_mem _ h)

/-- A reservation adds the new entry and no other. -/
theorem place_mem (s s' : cache_slots) (e : cache_entry) (h : place s e = some s') :
    ∀ x, some x ∈ s' → x = e ∨ some x ∈ s := by
  intro x hx
  unfold place at h
  split at h
  · rename_i s1 h1
    simp only [Option.some.injEq] at h
    subst h
    exact ((place_free_spec e s s1 h1).1 x).1 hx
  · split at h
    · simp only [Option.some.injEq] at h
      subst h
      exact place_evict_mem e _ s x hx
    · simp at h

end cache_slots

namespace ooc_cache

/-- A registration makes no node resident. -/
theorem register_node_not_resident (c : ooc_cache) (m n : Nat) (pr : Int) (m' n' : Nat)
    (h : (c.register_node m n pr).is_node_resident m' n' = true) :
    c.is_node_resident m' n' = true := by
  unfold register_node at h
  split at h
  · exact h
  · split at h
    · rename_i s hs
      unfold is_node_resident at h ⊢
      rw [cache_slots.is_node_resident_iff] at h ⊢
      obtain ⟨e, he, h1, h2, h3⟩ := h
      rcases cache_slots.place_mem _ _ _ hs e he with rfl | he'
      · simp at h3
      · exact ⟨e, he', h1, h2, h3⟩
    · exact h

end ooc_cache

namespace cut_update_pool

/-- The loop of `prepare` over the roots makes no node resident. -/
theorem register_roots_not_resident :
    ∀ (ms : List Nat) (c : ooc_cache) (f : Bool) (m' n' : Nat),
      (register_roots ms (c, f)).1.is_node_resident m' n' = true →
      c.is_node_resident m' n' = true := by
  intro ms
  induction ms with
  | nil => intro c f m' n' h; exact h
  | cons m ms ih =>
    intro c f m' n' h
    rw [register_roots] at h
    split at h
    · exact ooc_cache.register_node_not_resident c m 0 100 m' n' (ih _ _ m' n' h)
    · exact ih _ _ m' n' h

end cut_update_pool

namespace cut_update_pool

end cut_update_pool

namespace cut_update_pool

end cut_update_pool

namespace cut_update_pool

end cut_update_pool

namespace cut_update_index

/-- The root is the child of no node. -/
theorem zero_not_child (idx : cut_update_index) (m n : Nat) : 0 ∉ idx.get_all_children m n := by
  intro h
  unfold get_all_children at h
  obtain ⟨i, _, hi⟩ := List.mem_map.mp h
  unfold get_child_id at hi
  split at hi
  · omega
  · unfold invalid_node_t at hi
    omega

end cut_update_index

namespace cut_update_index

/-- Pushing actions keeps the queued actions. -/
theorem push_actions_mono (acts : List action) :
    ∀ (idx : cut_update_index) (q : queue_t) (a : action),
      a ∈ idx.action_queues_ q →
      a ∈ (acts.foldl (fun i a => i.push_action a false) idx).action_queues_ q := by
  induction acts with
  | nil => intro idx q a h; exact h
  | cons b acts ih =>
    intro idx q a h
    rw [List.foldl_cons]
    apply ih
    simp only [push_action, set_queue]
    split
    · rename_i e
      rw [e] at h
      exact List.mem_append_left _ h
    · exact h

end cut_update_index

namespace cut_update_pool

end cut_update_pool

namespace cut_update_pool

end cut_update_pool

namespace cut_update_pool

end cut_update_pool
/-! ## The staging state through a frame -/

namespace cut_update_pool

theorem same_staging_refl (p : cut_update_pool) : p.same_staging p := ⟨rfl, rfl, rfl, rfl⟩

theorem same_staging_trans (p q r : cut_update_pool) (h1 : p.same_staging q)
    (h2 : q.same_staging r) : p.same_staging r :=
  ⟨h2.1.trans h1.1, h2.2.1.trans h1.2.1, h2.2.2.1.trans h1.2.2.1, h2.2.2.2.trans h1.2.2.2⟩

theorem aquire_children_staging (v m : Nat) (p0 : cut_update_pool) :
    ∀ (cs : List Nat) (p : cut_update_pool), p0.same_staging p →
      p0.same_staging (aquire_children p v m cs) := by
  intro cs
  induction cs with
  | nil => intro p h; exact h
  | cons c cs ih =>
    intro p h
    rw [aquire_children]
    exact ih _ h

theorem release_children_staging (v m : Nat) (p0 : cut_update_pool) :
    ∀ (cs : List Nat) (p : cut_update_pool), p0.same_staging p →
      p0.same_staging (release_children p v m cs) := by
  intro cs
  induction cs with
  | nil => intro p h; exact h
  | cons c cs ih =>
    intro p h
    rw [release_children]
    exact ih _ h

theorem split_node_staging (p0 p : cut_update_pool) (a : action) (h : p0.same_staging p) :
    p0.same_staging (split_node p a) := by
  unfold split_node
  simp only []
  split
  · exact h
  · split
    · exact aquire_children_staging _ _ p0 _ _ h
    · exact h

theorem collapse_node_staging (p0 p : cut_update_pool) (a : action) (h : p0.same_staging p) :
    p0.same_staging (collapse_node p a) := by
  unfold collapse_node
  split
  · exact h
  · exact release_children_staging _ _ p0 _ _ h

end cut_update_pool

theorem update_step_staging (p p' : cut_update_pool) (h : update_step p p') :
    p.same_staging p' := by
  cases h with
  | resident a h hres =>
    exact cut_update_pool.aquire_children_staging _ _ p _ _ ⟨rfl, rfl, rfl, rfl⟩
  | split a h hfit => exact cut_update_pool.split_node_staging p _ _ ⟨rfl, rfl, rfl, rfl⟩
  | collapse_front q a hq h =>
    exact cut_update_pool.collapse_node_staging p _ _ ⟨rfl, rfl, rfl, rfl⟩
  | collapse_back q a hq h =>
    exact cut_update_pool.collapse_node_staging p _ _ ⟨rfl, rfl, rfl, rfl⟩
  | reject_front q a h => exact ⟨rfl, rfl, rfl, rfl⟩
  | approve_front q a hq h => exact ⟨rfl, rfl, rfl, rfl⟩

theorem update_steps_staging (p p' : cut_update_pool)
    (h : Relation.ReflTransGen update_step p p') : p.same_staging p' := by
  induction h with
  | refl => exact cut_update_pool.same_staging_refl p
  | tail _ hstep ih => exact cut_update_pool.same_staging_trans _ _ _ ih (update_step_staging _ _ hstep)

namespace cut_update_pool

theorem run_analysis_staging (cfg : config) (inp : frame_input) (p0 : cut_update_pool) :
    ∀ (jobs : List (Nat × Nat)) (p : cut_update_pool), p0.same_staging p →
      p0.same_staging (run_analysis cfg inp p jobs) := by
  intro jobs
  induction jobs with
  | nil => intro p h; exact h
  | cons job jobs ih =>
    intro p h
    rw [run_analysis]
    exact ih _ h

theorem aquire_root_views_staging (m : Nat) (p0 : cut_update_pool) :
    ∀ (vs : List Nat) (p : cut_update_pool), p0.same_staging p →
      p0.same_staging (aquire_root_views m vs p) := by
  intro vs
  induction vs with
  | nil => intro p h; exact h
  | cons v vs ih =>
    intro p h
    rw [aquire_root_views]
    split
    · exact ih _ h
    · exact ih _ h

theorem aquire_roots_staging (p0 : cut_update_pool) :
    ∀ (ms : List Nat) (p : cut_update_pool), p0.same_staging p →
      p0.same_staging (aquire_roots ms p) := by
  intro ms
  induction ms with
  | nil => intro p h; exact h
  | cons m ms ih =>
    intro p h
    rw [aquire_roots]
    refine ih _ (aquire_root_views_staging _ p0 _ _ ?_)
    split
    · exact h
    · exact h

/-- What `prepare` leaves of the staging state: the tag, the selected region and the
staging memories are those at its start, and every threshold is the clamped
threshold of the record. -/
theorem prepare_staging (cfg : config) (inp : frame_input) (p : cut_update_pool) :
    (prepare cfg inp p).1.current_gpu_buffer_ = p.current_gpu_buffer_ ∧
    (prepare cfg inp p).1.current_gpu_storage_ = p.current_gpu_storage_ ∧
    (prepare cfg inp p).1.gpu_storage_ = p.gpu_storage_ ∧
    (prepare cfg inp p).1.model_thresholds_
      = fun model_id => clamp_threshold cfg (inp.thresholds model_id) := by
  have h0 : (prepare_receive cfg inp p).same_staging (prepare_receive cfg inp p) :=
    same_staging_refl _
  have key : (prepare_receive cfg inp p).same_staging (prepare cfg inp p).1 := by
    unfold prepare
    simp only []
    split
    · exact h0
    · split
      · exact h0
      · exact aquire_roots_staging _ _ _ h0
  exact ⟨key.1, key.2.1, key.2.2.1, key.2.2.2⟩

/-- The staging state at the end of a frame that ran: `cut_master` returns, the
tag and the selected region are the swapped ones, the record gets the tag. -/
theorem analysis_and_update_staging (cfg : config) (inp : frame_input) (p : cut_update_pool)
    (jobs : List (Nat × Nat)) :
    ∃ p1 : cut_update_pool, ∃ P : cut_update_pool,
      analysis_and_update cfg inp p jobs = some P ∧
      P = compile_transfer_list inp p1 ∧ p.same_staging p1 := by
  unfold analysis_and_update
  simp only []
  obtain ⟨p1, h1, h2, _⟩ := cut_update_spec inp
    { run_analysis cfg inp p jobs with index_ := (run_analysis cfg inp p jobs).index_.sort }
  refine ⟨compile_render_list p1, _, h1, rfl, ?_⟩
  have a1 : p.same_staging (run_analysis cfg inp p jobs) :=
    run_analysis_staging cfg inp p jobs p (same_staging_refl p)
  have a2 := update_steps_staging _ _ h2
  exact same_staging_trans _ _ _ a1 a2

end cut_update_pool
namespace cut_update_pool

/-- The loop of `compile_transfer_list` over the nodes of one model, with a staging
region selected: one descriptor per node with consecutive staging indices, the
payload of each node in its staging slot, nothing else written. -/
theorem compile_transfer_nodes_staging (inp : frame_input) (p : cut_update_pool) (m : Nat)
    (b : temporary_buffer) (hb : p.current_gpu_storage_ = some b) :
    ∀ (ns : List Nat) (storage : temporary_buffer → Nat → Nat) (tl : List (Nat × Nat))
      (k : Nat),
      (compile_transfer_nodes inp p m ns (storage, tl, k)).2.1
        = tl ++ (ns.enumFrom k).map (fun e => (e.1, p.gpu_cache_.slot_id m e.2)) ∧
      (compile_transfer_nodes inp p m ns (storage, tl, k)).2.2 = k + ns.length ∧
      (∀ b', b' ≠ b → (compile_transfer_nodes inp p m ns (storage, tl, k)).1 b' = storage b') ∧
      (∀ x, x < k * inp.slot_size ∨ (k + ns.length) * inp.slot_size ≤ x →
        (compile_transfer_nodes inp p m ns (storage, tl, k)).1 b x = storage b x) ∧
      ∀ e ∈ ns.enumFrom k, ∀ j, j < inp.slot_size →
        (compile_transfer_nodes inp p m ns (storage, tl, k)).1 b (e.1 * inp.slot_size + j)
          = (inp.node_data m e.2).getD j 0 := by
  intro ns
  induction ns with
  | nil => intro storage tl k; simp [compile_transfer_nodes]
  | cons n ns ih =>
    intro storage tl k
    rw [compile_transfer_nodes]
    simp only [hb]
    obtain ⟨i1, i2, i3, i4, i5⟩ := ih
      (fun b' => if b' = b then
          memcpy (storage b) (k * inp.slot_size) (inp.node_data m n) inp.slot_size
        else storage b')
      (tl ++ [(k, p.gpu_cache_.slot_id m n)]) (k + 1)
    have hS : (k + 1) * inp.slot_size = k * inp.slot_size + inp.slot_size := by ring
    have hS2 : (k + 1 + ns.length) * inp.slot_size
        = k * inp.slot_size + inp.slot_size + ns.length * inp.slot_size := by ring
    have hS3 : (k + (ns.length + 1)) * inp.slot_size
        = k * inp.slot_size + inp.slot_size + ns.length * inp.slot_size := by ring
    refine ⟨?_, ?_, ?_, ?_, ?_⟩
    · rw [i1]
      simp [List.enumFrom]
    · rw [i2]
      simp only [List.length_cons]
      omega
    · intro b' hb'
      rw [i3 b' hb']
      simp [hb']
    · intro x hx
      simp only [List.length_cons] at hx
      rw [i4 x (by rw [hS, hS2]; rw [hS3] at hx; omega)]
      simp only [if_true, memcpy]
      rw [if_neg]
      rw [hS3] at hx
      omega
    · intro e he j hj
      obtain ⟨i, x⟩ := e
      simp only [List.enumFrom, List.mem_cons, Prod.mk.injEq] at he
      rcases he with ⟨rfl, rfl⟩ | he
      · change _ = (inp.node_data m x).getD j 0
        rw [i4 (i * inp.slot_size + j) (Or.inl (by rw [hS]; omega))]
        simp only [if_true, memcpy]
        rw [if_pos (by omega)]
        congr 1
        omega
      · exact i5 (i, x) he j hj

/-- The two loops of `compile_transfer_list` over a list of models. -/
theorem compile_transfer_models_staging (inp : frame_input) (p : cut_update_pool)
    (b : temporary_buffer) (hb : p.current_gpu_storage_ = some b) :
    ∀ (ms : List Nat) (storage : temporary_buffer → Nat → Nat) (tl : List (Nat × Nat))
      (k : Nat),
      (ms.foldl (fun st model_id =>
          compile_transfer_nodes inp p model_id (p.transfer_nodes inp model_id) st)
        (storage, tl, k)).2.1
        = tl ++ ((p.transfer_entries inp ms).enumFrom k).map
            (fun e => (e.1, p.gpu_cache_.slot_id e.2.1 e.2.2)) ∧
      (ms.foldl (fun st model_id =>
          compile_transfer_nodes inp p model_id (p.transfer_nodes inp model_id) st)
        (storage, tl, k)).2.2 = k + (p.transfer_entries inp ms).length ∧
      (∀ b', b' ≠ b → (ms.foldl (fun st model_id =>
          compile_transfer_nodes inp p model_id (p.transfer_nodes inp model_id) st)
        (storage, tl, k)).1 b' = storage b') ∧
      (∀ x, x < k * inp.slot_size ∨ (k + (p.transfer_entries inp ms).length) * inp.slot_size ≤ x →
        (ms.foldl (fun st model_id =>
          compile_transfer_nodes inp p model_id (p.transfer_nodes inp model_id) st)
        (storage, tl, k)).1 b x = storage b x) ∧
      ∀ e ∈ (p.transfer_entries inp ms).enumFrom k, ∀ j, j < inp.slot_size →
        (ms.foldl (fun st model_id =>
          compile_transfer_nodes inp p model_id (p.transfer_nodes inp model_id) st)
        (storage, tl, k)).1 b (e.1 * inp.slot_size + j)
          = (inp.node_data e.2.1 e.2.2).getD j 0 := by
  intro ms
  induction ms with
  | nil => intro storage tl k; simp [transfer_entries]
  | cons m ms ih =>
    intro storage tl k
    obtain ⟨n1, n2, n3, n4, n5⟩ := compile_transfer_nodes_staging inp p m b hb
      (p.transfer_nodes inp m) storage tl k
    obtain ⟨st, hst⟩ : ∃ st, st = compile_transfer_nodes inp p m
      (p.transfer_nodes inp m) (storage, tl, k) := ⟨_, rfl⟩
    rw [← hst] at n1 n2 n3 n4 n5
    obtain ⟨i1, i2, i3, i4, i5⟩ := ih st.1 st.2.1 st.2.2
    have hent : p.transfer_entries inp (m :: ms)
        = (p.transfer_nodes inp m).map (fun node_id => (m, node_id))
          ++ p.transfer_entries inp ms := by
      simp [transfer_entries]
    have hlen : (p.transfer_entries inp (m :: ms)).length
        = (p.transfer_nodes inp m).length + (p.transfer_entries inp ms).length := by
      rw [hent]; simp
    simp only [List.foldl_cons]
    rw [← hst]
    have hst' : st = (st.1, st.2.1, st.2.2) := rfl
    rw [hst']
    have hmul : ∀ a c : Nat, a ≤ c → a * inp.slot_size ≤ c * inp.slot_size :=
      fun a c h => Nat.mul_le_mul_right _ h
    refine ⟨?_, ?_, ?_, ?_, ?_⟩
    · rw [i1, n1, hent, List.enumFrom_append, List.map_append, List.append_assoc, n2]
      simp [List.enumFrom_map, List.map_map, Function.comp_def]
    · rw [i2, n2, hlen]; omega
    · intro b' hb'
      rw [i3 b' hb', n3 b' hb']
    · intro x hx
      rw [hlen] at hx
      have h1 := hmul k (k + (p.transfer_nodes inp m).length) (by omega)
      have h2 := hmul (k + (p.transfer_nodes inp m).length)
        (k + ((p.transfer_nodes inp m).length + (p.transfer_entries inp ms).length))
        (by omega)
      have h3 : st.2.2 + (p.transfer_entries inp ms).length
          = k + ((p.transfer_nodes inp m).length + (p.transfer_entries inp ms).length) := by
        rw [n2]; omega
      rw [i4 x (by rw [h3, n2]; omega), n4 x (by omega)]
    · intro e he j hj
      rw [hent, List.enumFrom_append, List.mem_append] at he
      rcases he with he | he
      · have hm := List.mem_enumFrom he
        simp only [List.length_map] at hm
        have h1 := hmul (e.1 + 1) (k + (p.transfer_nodes inp m).length) (by omega)
        have h2 : (e.1 + 1) * inp.slot_size = e.1 * inp.slot_size + inp.slot_size := by ring
        rw [i4 _ (Or.inl (by rw [n2]; omega))]
        rw [List.enumFrom_map] at he
        obtain ⟨e', he', rfl⟩ := List.mem_map.1 he
        exact n5 e' he' j hj
      · simp only [List.length_map] at he
        rw [← n2] at he
        exact i5 e he j hj

end cut_update_pool
namespace cut_update_pool

/-- A frame whose `prepare` fails: `cut_master` returns without touching the
record, the tag, the selected staging region or the staging memories. -/
theorem cut_master_not_prepared (cfg : config) (inp : frame_input) (p : cut_update_pool)
    (r : cut_database_record) (hprep : (prepare cfg inp p).2 = false) :
    ∃ P, cut_master cfg inp p r = some (P, r) ∧
      P.current_gpu_buffer_ = p.current_gpu_buffer_ ∧
      P.current_gpu_storage_ = p.current_gpu_storage_ ∧
      P.gpu_storage_ = p.gpu_storage_ := by
  obtain ⟨s1, s2, s3, _⟩ := prepare_staging cfg inp p
  refine ⟨{ (prepare cfg inp p).1 with master_dispatched_ := false }, ?_, s1, s2, s3⟩
  unfold cut_master
  simp only [hprep, Bool.not_false, if_true]

/-- The pool after the swap of the buffer and of the cuts: the tag is the other one,
the staging region of the new tag is selected, the staging memories are those of
the start of the frame. -/
theorem swapped_staging (cfg : config) (inp : frame_input) (p : cut_update_pool) :
    ({ swap_buffer (prepare cfg inp p).1 with
        index_ := (swap_buffer (prepare cfg inp p).1).index_.swap_cuts }
          : cut_update_pool).current_gpu_buffer_ = p.current_gpu_buffer_.toggled ∧
    ({ swap_buffer (prepare cfg inp p).1 with
        index_ := (swap_buffer (prepare cfg inp p).1).index_.swap_cuts }
          : cut_update_pool).current_gpu_storage_ = some p.current_gpu_buffer_.toggled ∧
    ({ swap_buffer (prepare cfg inp p).1 with
        index_ := (swap_buffer (prepare cfg inp p).1).index_.swap_cuts }
          : cut_update_pool).gpu_storage_ = p.gpu_storage_ := by
  obtain ⟨s1, s2, s3, _⟩ := prepare_staging cfg inp p
  show (swap_buffer (prepare cfg inp p).1).current_gpu_buffer_ = p.current_gpu_buffer_.toggled ∧
    (swap_buffer (prepare cfg inp p).1).current_gpu_storage_
      = some p.current_gpu_buffer_.toggled ∧
    (swap_buffer (prepare cfg inp p).1).gpu_storage_ = p.gpu_storage_
  rw [← s1, ← s3]
  unfold swap_buffer
  cases (prepare cfg inp p).1.current_gpu_buffer_ <;> exact ⟨rfl, rfl, rfl⟩

/-- The analysis and the update of a frame, run on a pool with the staging region
of its tag `b` selected: they return, and neither the tag nor the selection
changes, nor the staging memory of the other tag. -/
theorem analysis_and_update_tag (cfg : config) (inp : frame_input) (p2 : cut_update_pool)
    (b : temporary_buffer) (t1 : p2.current_gpu_buffer_ = b)
    (t2 : p2.current_gpu_storage_ = some b) (jobs : List (Nat × Nat)) :
    ∃ P, analysis_and_update cfg inp p2 jobs = some P ∧
      P.current_gpu_buffer_ = b ∧ P.current_gpu_storage_ = some b ∧
      ∀ b', b' ≠ b → P.gpu_storage_ b' = p2.gpu_storage_ b' := by
  obtain ⟨p3, P, h1, h2, h3⟩ := analysis_and_update_staging cfg inp p2 jobs
  refine ⟨P, h1, ?_, ?_, ?_⟩
  · rw [h2]
    exact h3.1.trans t1
  · rw [h2]
    exact h3.2.1.trans t2
  · intro b' hb'
    rw [h2, ← h3.2.2.1]
    exact (compile_transfer_models_staging inp p3 b (h3.2.1.trans t2)
      (List.range p3.index_.num_models) p3.gpu_storage_ p3.transfer_list_
      p3.gpu_cache_.transfer_slots_written).2.2.1 _ hb'

/-- A frame whose `prepare` succeeds and that is not shut down: `cut_master`
returns, the tag is the other one, the staging region selected is the one of the
new tag, the record gets the new tag, and the staging memory of the old tag is
not written. -/
theorem cut_master_prepared (cfg : config) (inp : frame_input) (p : cut_update_pool)
    (r : cut_database_record) (hprep : (prepare cfg inp p).2 = true)
    (hs1 : inp.is_shutdown_after_analysis = false)
    (hs2 : inp.is_shutdown_after_update = false) :
    ∃ P R, cut_master cfg inp p r = some (P, R) ∧
      P.current_gpu_buffer_ = p.current_gpu_buffer_.toggled ∧
      P.current_gpu_storage_ = some p.current_gpu_buffer_.toggled ∧
      R.buffer = p.current_gpu_buffer_.toggled ∧
      P.gpu_storage_ p.current_gpu_buffer_ = p.gpu_storage_ p.current_gpu_buffer_ := by
  obtain ⟨p2, hp2⟩ : ∃ p2 : cut_update_pool, p2 = { swap_buffer (prepare cfg inp p).1 with
      index_ := (swap_buffer (prepare cfg inp p).1).index_.swap_cuts } := ⟨_, rfl⟩
  obtain ⟨t1, t2, t3⟩ := swapped_staging cfg inp p
  rw [← hp2] at t1 t2 t3
  obtain ⟨P, h1, c1, c2, c3⟩ := analysis_and_update_tag cfg inp p2 _ t1 t2 (analysis_jobs p2)
  have hne : p.current_gpu_buffer_ ≠ p.current_gpu_buffer_.toggled := by
    cases p.current_gpu_buffer_ <;> simp [temporary_buffer.toggled]
  refine ⟨{ P with master_dispatched_ := false }, apply_changes P r, ?_, c1, c2, c1,
    (c3 _ hne).trans (by rw [t3])⟩
  unfold cut_master
  simp only [hprep, hs1, hs2, Bool.not_true, Bool.false_eq_true, if_false]
  rw [← hp2, h1]

/-- A frame whose `prepare` succeeds and in which the master sees the shut-down at
one of its two tests: `cut_master` returns with the record as it was; the tag
is the other one, the staging region of the new tag is selected, and the
staging memory of the old tag is not written. -/
theorem cut_master_shut_down (cfg : config) (inp : frame_input) (p : cut_update_pool)
    (r : cut_database_record) (hprep : (prepare cfg inp p).2 = true)
    (hs : inp.is_shutdown_after_analysis = true ∨ inp.is_shutdown_after_update = true) :
    ∃ P, cut_master cfg inp p r = some (P, r) ∧
      P.current_gpu_buffer_ = p.current_gpu_buffer_.toggled ∧
      P.current_gpu_storage_ = some p.current_gpu_buffer_.toggled ∧
      P.gpu_storage_ p.current_gpu_buffer_ = p.gpu_storage_ p.current_gpu_buffer_ := by
  obtain ⟨p2, hp2⟩ : ∃ p2 : cut_update_pool, p2 = { swap_buffer (prepare cfg inp p).1 with
      index_ := (swap_buffer (prepare cfg inp p).1).index_.swap_cuts } := ⟨_, rfl⟩
  obtain ⟨t1, t2, t3⟩ := swapped_staging cfg inp p
  rw [← hp2] at t1 t2 t3
  have hne : p.current_gpu_buffer_ ≠ p.current_gpu_buffer_.toggled := by
    cases p.current_gpu_buffer_ <;> simp [temporary_buffer.toggled]
  by_cases h1 : inp.is_shutdown_after_analysis = true
  · have a1 := run_analysis_staging cfg inp p2
      ((analysis_jobs p2).take inp.analysis_tasks_run) p2 (same_staging_refl p2)
    refine ⟨run_analysis cfg inp p2 ((analysis_jobs p2).take inp.analysis_tasks_run), ?_,
      a1.1.trans t1, a1.2.1.trans t2, by rw [a1.2.2.1, t3]⟩
    unfold cut_master
    simp only [hprep, h1, Bool.not_true, Bool.false_eq_true, if_false, if_true]
    rw [← hp2]
  · have h1' : inp.is_shutdown_after_analysis = false := by simpa using h1
    have h2 : inp.is_shutdown_after_update = true := by
      rcases hs with h | h
      · exact absurd h h1
      · exact h
    by_cases h3 : inp.update_task_run = true
    · obtain ⟨P, e, c1, c2, c3⟩ :=
        analysis_and_update_tag cfg inp p2 _ t1 t2 (analysis_jobs p2)
      refine ⟨P, ?_, c1, c2, (c3 _ hne).trans (by rw [t3])⟩
      unfold cut_master
      simp only [hprep, h1', h2, h3, Bool.not_true, Bool.false_eq_true, if_false, if_true]
      rw [← hp2, e]
    · have h3' : inp.update_task_run = false := by simpa using h3
      have a1 := run_analysis_staging cfg inp p2 (analysis_jobs p2) p2 (same_staging_refl p2)
      refine ⟨{ run_analysis cfg inp p2 (analysis_jobs p2) with
          index_ := (run_analysis cfg inp p2 (analysis_jobs p2)).index_.sort }, ?_,
        a1.1.trans t1, a1.2.1.trans t2, ?_⟩
      · unfold cut_master
        simp only [hprep, h1', h2, h3', Bool.not_true, Bool.false_eq_true, if_false, if_true]
        rw [← hp2]
      · show (run_analysis cfg inp p2 (analysis_jobs p2)).gpu_storage_ p.current_gpu_buffer_
          = p.gpu_storage_ p.current_gpu_buffer_
        rw [a1.2.2.1, t3]

end cut_update_pool
/-! ## The camera session file -/

/-- The element loop over a stream that starts with as many numbers as there are
iterations: the numbers replace the elements from the start index on. -/
theorem read_matrix_elements_numbers :
    ∀ (count : Nat) (pre old post nums : List ℚ) (rest : List (Option ℚ)),
      nums.length = count → old.length = count →
      read_matrix_elements count pre.length
          { tokens := nums.map some ++ rest, failed := false } (pre ++ old ++ post)
        = pre ++ nums ++ post := by
  intro count
  induction count with
  | zero =>
    intro pre old post nums rest hn ho
    have h1 : nums = [] := List.length_eq_zero.mp hn
    have h2 : old = [] := List.length_eq_zero.mp ho
    subst h1 h2
    simp [read_matrix_elements]
  | succ count ih =>
    intro pre old post nums rest hn ho
    cases nums with
    | nil => simp at hn
    | cons x nums =>
      cases old with
      | nil => simp at ho
      | cons o old =>
        simp only [List.length_cons, Nat.add_right_cancel_iff] at hn ho
        rw [read_matrix_elements]
        simp only [istringstream.extract, List.map_cons, List.cons_append, Bool.false_eq_true,
          if_false]
        have hset : (pre ++ o :: old ++ post).set pre.length x
            = (pre ++ [x]) ++ old ++ post := by
          rw [List.append_assoc, List.set_append_right _ _ (le_refl _)]
          simp
        have hlen : pre.length + 1 = (pre ++ [x]).length := by simp
        rw [hset, hlen, ih (pre ++ [x]) old post nums rest hn ho]
        simp

/-- The `push_back` loop collects the images of the lines in their order. -/
theorem push_back_fold {α β : Type} (f : α → β) :
    ∀ (lines : List α) (init : List β),
      lines.foldl (fun acc line => acc ++ [f line]) init = init ++ lines.map f := by
  intro lines
  induction lines with
  | nil => intro init; simp
  | cons l lines ih => intro init; simp [ih]

/-- Taking the elements from the back of a reversed vector one by one yields the
vector in its order, and nothing after its last element. -/
theorem playback_reverse :
    ∀ (l : List (List ℚ)) (steps : Nat), l.length ≤ steps → playback steps l.reverse = l := by
  intro l
  induction l with
  | nil =>
    intro steps _
    cases steps <;> simp [playback, playback_step]
  | cons x xs ih =>
    intro steps h
    cases steps with
    | zero => simp at h
    | succ steps =>
      simp only [List.length_cons, Nat.add_le_add_iff_right] at h
      have h1 : (x :: xs).reverse.getLast? = some x := by
        rw [List.reverse_cons]; exact List.getLast?_concat _
      have h2 : (x :: xs).reverse.dropLast = xs.reverse := by
        rw [List.reverse_cons]; exact List.dropLast_concat
      rw [playback, playback_step, h1]
      simp only [h2]
      rw [ih steps h]
/-! ## One iteration of the main loop of `cut_update` -/

namespace cut_update_pool

/-- One iteration of the main loop with the split `s` at the front of its queue:
the loop goes on from one of six pools. -/
theorem cut_update_loop_iteration (p : cut_update_pool) (fl : update_flags)
    (s : action) (hs : p.index_.front_action queue_t.MUST_SPLIT = some s) :
    ∃ P fl', (∀ fuel, cut_update_loop (fuel + 1) p fl = cut_update_loop fuel P fl') ∧
      ((p.approved_as_resident fl s = true ∧
          P = approve (aquire_children (p.pop_front queue_t.MUST_SPLIT) s.view_id_ s.model_id_
            (p.index_.get_all_children s.model_id_ s.node_id_)) s) ∨
        (p.approved_as_resident fl s = false ∧ p.split_fits fl s = true ∧
          P = split_node (p.pop_front queue_t.MUST_SPLIT) s) ∨
        (p.approved_as_resident fl s = false ∧ p.split_fits fl s = false ∧
          ((∃ c, p.index_.front_action queue_t.MUST_COLLAPSE = some c ∧
              P = collapse_node (p.pop_front queue_t.MUST_COLLAPSE) c) ∨
            (p.index_.front_action queue_t.MUST_COLLAPSE = none ∧
              ∃ c, p.index_.front_action queue_t.COLLAPSE_ON_NEED = some c ∧
                P = collapse_node (p.pop_front queue_t.COLLAPSE_ON_NEED) c) ∨
            (p.index_.front_action queue_t.MUST_COLLAPSE = none ∧
              p.index_.front_action queue_t.COLLAPSE_ON_NEED = none ∧
              ∃ c, p.index_.back_action queue_t.MAYBE_COLLAPSE = some c ∧
                c.error_ < s.error_ ∧
                P = collapse_node (p.pop_back queue_t.MAYBE_COLLAPSE) c) ∨
            (p.index_.front_action queue_t.MUST_COLLAPSE = none ∧
              p.index_.front_action queue_t.COLLAPSE_ON_NEED = none ∧
              (∀ c, p.index_.back_action queue_t.MAYBE_COLLAPSE = some c →
                s.error_ ≤ c.error_) ∧
              P = reject_front_split p s)))) := by
  have unfold_loop : ∀ fuel, cut_update_loop (fuel + 1) p fl
      = (match p.index_.front_action queue_t.MUST_SPLIT with
        | none => some p
        | some must_split_action =>
          if fl.check_residency && (p.scanned_flags fl must_split_action).1
              && (p.scanned_flags fl must_split_action).2 then
            cut_update_loop fuel
              (approve
                (aquire_children (p.pop_front queue_t.MUST_SPLIT) must_split_action.view_id_
                  must_split_action.model_id_
                  (p.index_.get_all_children must_split_action.model_id_
                    must_split_action.node_id_))
                must_split_action)
              { check_residency := true,
                all_children_in_ooc_cache := (p.scanned_flags fl must_split_action).1,
                all_children_in_gpu_cache := (p.scanned_flags fl must_split_action).2 }
          else
            if p.split_fits fl must_split_action then
              cut_update_loop fuel
                (split_node (p.pop_front queue_t.MUST_SPLIT) must_split_action)
                { check_residency := true,
                  all_children_in_ooc_cache := (p.scanned_flags fl must_split_action).1,
                  all_children_in_gpu_cache := (p.scanned_flags fl must_split_action).2 }
            else
              match p.index_.front_action queue_t.MUST_COLLAPSE with
              | some collapse_action =>
                cut_update_loop fuel
                  (collapse_node (p.pop_front queue_t.MUST_COLLAPSE) collapse_action)
                  { check_residency := false,
                    all_children_in_ooc_cache := (p.scanned_flags fl must_split_action).1,
                    all_children_in_gpu_cache := (p.scanned_flags fl must_split_action).2 }
              | none =>
                match p.index_.front_action queue_t.COLLAPSE_ON_NEED with
                | some collapse_on_need_action =>
                  cut_update_loop fuel
                    (collapse_node (p.pop_front queue_t.COLLAPSE_ON_NEED)
                      collapse_on_need_action)
                    { check_residency := false,
                      all_children_in_ooc_cache := (p.scanned_flags fl must_split_action).1,
                      all_children_in_gpu_cache := (p.scanned_flags fl must_split_action).2 }
                | none =>
                  match p.index_.back_action queue_t.MAYBE_COLLAPSE with
                  | some collapse_action =>
                    if must_split_action.error_ > collapse_action.error_ then
                      cut_update_loop fuel
                        (collapse_node (p.pop_back queue_t.MAYBE_COLLAPSE) collapse_action)
                        { check_residency := false,
                          all_children_in_ooc_cache := (p.scanned_flags fl must_split_action).1,
                          all_children_in_gpu_cache := (p.scanned_flags fl must_split_action).2 }
                    else
                      cut_update_loop fuel (reject_front_split p must_split_action)
                        { check_residency := true,
                          all_children_in_ooc_cache := (p.scanned_flags fl must_split_action).1,
                          all_children_in_gpu_cache := (p.scanned_flags fl must_split_action).2 }
                  | none =>
                    cut_update_loop fuel (reject_front_split p must_split_action)
                      { check_residency := true,
                        all_children_in_ooc_cache := (p.scanned_flags fl must_split_action).1,
                        all_children_in_gpu_cache :=
                          (p.scanned_flags fl must_split_action).2 }) := by
    intro fuel
    rw [cut_update_loop]
    rfl
  by_cases hres0 : p.approved_as_resident fl s = true
  · have hres : (fl.check_residency && (p.scanned_flags fl s).1
        && (p.scanned_flags fl s).2) = true := hres0
    refine ⟨_, ⟨true, (p.scanned_flags fl s).1, (p.scanned_flags fl s).2⟩, fun fuel => ?_, Or.inl ⟨hres0, rfl⟩⟩
    rw [unfold_loop, hs]
    simp only []
    rw [if_pos hres]
  · have hres : ¬ (fl.check_residency && (p.scanned_flags fl s).1
        && (p.scanned_flags fl s).2) = true := hres0
    have hresf : p.approved_as_resident fl s = false := by simpa using hres0
    by_cases hfit : p.split_fits fl s = true
    · refine ⟨_, ⟨true, (p.scanned_flags fl s).1, (p.scanned_flags fl s).2⟩, fun fuel => ?_, Or.inr (Or.inl ⟨hresf, hfit, rfl⟩)⟩
      rw [unfold_loop, hs]
      simp only []
      rw [if_neg hres, if_pos hfit]
    · have hfitf : p.split_fits fl s = false := by simpa using hfit
      cases hmc : p.index_.front_action queue_t.MUST_COLLAPSE with
      | some c =>
        refine ⟨_, ⟨false, (p.scanned_flags fl s).1, (p.scanned_flags fl s).2⟩, fun fuel => ?_, Or.inr (Or.inr ⟨hresf, hfitf, Or.inl ⟨c, rfl, rfl⟩⟩)⟩
        rw [unfold_loop, hs]
        simp only []
        rw [if_neg hres, if_neg hfit, hmc]
      | none =>
        cases hcon : p.index_.front_action queue_t.COLLAPSE_ON_NEED with
        | some c =>
          refine ⟨_, ⟨false, (p.scanned_flags fl s).1, (p.scanned_flags fl s).2⟩, fun fuel => ?_,
            Or.inr (Or.inr ⟨hresf, hfitf, Or.inr (Or.inl ⟨rfl, c, rfl, rfl⟩)⟩)⟩
          rw [unfold_loop, hs]
          simp only []
          rw [if_neg hres, if_neg hfit, hmc, hcon]
        | none =>
          cases hmb : p.index_.back_action queue_t.MAYBE_COLLAPSE with
          | some c =>
            by_cases herr : s.error_ > c.error_
            · refine ⟨_, ⟨false, (p.scanned_flags fl s).1, (p.scanned_flags fl s).2⟩, fun fuel => ?_, Or.inr (Or.inr ⟨hresf, hfitf,
                Or.inr (Or.inr (Or.inl ⟨rfl, rfl, c, rfl, herr, rfl⟩))⟩)⟩
              rw [unfold_loop, hs]
              simp only []
              rw [if_neg hres, if_neg hfit, hmc, hcon, hmb]
              simp only []
              rw [if_pos herr]
            · refine ⟨_, ⟨true, (p.scanned_flags fl s).1, (p.scanned_flags fl s).2⟩, fun fuel => ?_, Or.inr (Or.inr ⟨hresf, hfitf,
                Or.inr (Or.inr (Or.inr ⟨rfl, rfl, ?_, rfl⟩))⟩)⟩
              · rw [unfold_loop, hs]
                simp only []
                rw [if_neg hres, if_neg hfit, hmc, hcon, hmb]
                simp only []
                rw [if_neg herr]
              · intro c' hc'
                rw [Option.some.inj hc'] at herr
                exact not_lt.1 herr
          | none =>
            refine ⟨_, ⟨true, (p.scanned_flags fl s).1, (p.scanned_flags fl s).2⟩, fun fuel => ?_, Or.inr (Or.inr ⟨hresf, hfitf,
              Or.inr (Or.inr (Or.inr ⟨rfl, rfl, ?_, rfl⟩))⟩)⟩
            · rw [unfold_loop, hs]
              simp only []
              rw [if_neg hres, if_neg hfit, hmc, hcon, hmb]
            · intro c' hc'
              simp at hc'

end cut_update_pool
namespace cut_update_pool

/-- An action taken from the front of a queue that is not the keep queue. -/
theorem one_action_removed_front (p P : cut_update_pool) (q : queue_t) (a : action)
    (hq : q ≠ queue_t.KEEP) (h : p.index_.front_action q = some a)
    (hP : P.index_.action_queues_ = (p.pop_front q).index_.action_queues_) :
    p.one_action_removed P q a := by
  unfold cut_update_index.front_action at h
  refine ⟨hq, Or.inl ?_, ?_⟩
  · rw [hP]
    simp only [pop_front_index, cut_update_index.pop_front_action_queues, set_queue, if_true]
    cases hl : p.index_.action_queues_ q with
    | nil => rw [hl] at h; simp at h
    | cons b rest =>
      rw [hl] at h
      simp only [List.head?_cons, Option.some.injEq] at h
      rw [h]; rfl
  · intro q' hq'
    rw [hP]
    simp [set_queue, hq']

/-- An action taken from the back of a queue that is not the keep queue. -/
theorem one_action_removed_back (p P : cut_update_pool) (q : queue_t) (a : action)
    (hq : q ≠ queue_t.KEEP) (h : p.index_.back_action q = some a)
    (hP : P.index_.action_queues_ = (p.pop_back q).index_.action_queues_) :
    p.one_action_removed P q a := by
  unfold cut_update_index.back_action at h
  refine ⟨hq, Or.inr ?_, ?_⟩
  · rw [hP]
    simp only [pop_back_index, cut_update_index.Popback_action_queues, set_queue, if_true]
    have hne : p.index_.action_queues_ q ≠ [] := by
      intro h0; rw [h0] at h; simp at h
    have hl : (p.index_.action_queues_ q).getLast hne = a := by
      rw [List.getLast?_eq_getLast _ hne] at h
      exact Option.some.inj h
    rw [← hl]
    exact (List.dropLast_append_getLast hne).symm
  · intro q' hq'
    rw [hP]
    simp [set_queue, hq']

/-- Every iteration of the main loop removes exactly one action from the queues, a
split or a collapse-type action, and adds none. -/
theorem cut_update_loop_iteration_removes (p : cut_update_pool) (fl : update_flags)
    (s : action) (hs : p.index_.front_action queue_t.MUST_SPLIT = some s) :
    ∃ P fl', (∀ fuel, cut_update_loop (fuel + 1) p fl = cut_update_loop fuel P fl') ∧
      ∃ q a, p.one_action_removed P q a := by
  obtain ⟨P, fl', h1, h2⟩ := cut_update_loop_iteration p fl s hs
  refine ⟨P, fl', h1, ?_⟩
  rcases h2 with ⟨_, rfl⟩ | ⟨_, _, rfl⟩ | ⟨_, _, h3⟩
  · refine ⟨queue_t.MUST_SPLIT, s, one_action_removed_front _ _ _ _ (by decide) hs ?_⟩
    rw [approve_queues, aquire_children_index]
  · refine ⟨queue_t.MUST_SPLIT, s, one_action_removed_front _ _ _ _ (by decide) hs ?_⟩
    rw [split_node_queues]
  · rcases h3 with ⟨c, hc, rfl⟩ | ⟨_, c, hc, rfl⟩ | ⟨_, _, c, hc, _, rfl⟩ | ⟨_, _, _, rfl⟩
    · exact ⟨queue_t.MUST_COLLAPSE, c, one_action_removed_front _ _ _ _ (by decide) hc
        (collapse_node_queues _ _)⟩
    · exact ⟨queue_t.COLLAPSE_ON_NEED, c, one_action_removed_front _ _ _ _ (by decide) hc
        (collapse_node_queues _ _)⟩
    · exact ⟨queue_t.MAYBE_COLLAPSE, c, one_action_removed_back _ _ _ _ (by decide) hc
        (collapse_node_queues _ _)⟩
    · exact ⟨queue_t.MUST_SPLIT, s, one_action_removed_front _ _ _ _ (by decide) hs
        (reject_queues _ _)⟩

/-- An action that leaves the queues lowers the number of split and collapse-type
actions by one. -/
theorem one_action_removed_count (p P : cut_update_pool) (q : queue_t) (a : action)
    (h : p.one_action_removed P q a) :
    P.index_.num_update_actions + 1 = p.index_.num_update_actions := by
  obtain ⟨hq, hlen, hother⟩ := h
  have hl : (P.index_.action_queues_ q).length + 1 = (p.index_.action_queues_ q).length := by
    rcases hlen with h | h <;> rw [h] <;> simp
  unfold cut_update_index.num_update_actions
  cases q with
  | KEEP => exact absurd rfl hq
  | MUST_SPLIT =>
    rw [hother queue_t.MUST_COLLAPSE (by decide), hother queue_t.COLLAPSE_ON_NEED (by decide),
      hother queue_t.MAYBE_COLLAPSE (by decide)]
    omega
  | MUST_COLLAPSE =>
    rw [hother queue_t.MUST_SPLIT (by decide), hother queue_t.COLLAPSE_ON_NEED (by decide),
      hother queue_t.MAYBE_COLLAPSE (by decide)]
    omega
  | COLLAPSE_ON_NEED =>
    rw [hother queue_t.MUST_SPLIT (by decide), hother queue_t.MUST_COLLAPSE (by decide),
      hother queue_t.MAYBE_COLLAPSE (by decide)]
    omega
  | MAYBE_COLLAPSE =>
    rw [hother queue_t.MUST_SPLIT (by decide), hother queue_t.MUST_COLLAPSE (by decide),
      hother queue_t.COLLAPSE_ON_NEED (by decide)]
    omega

/-- The main loop finishes after a number of iterations that is at most the
number of split and collapse-type actions queued at its start: with more fuel
than that it returns, always the same pool, and with less it does not. -/
theorem cut_update_loop_iterations :
    ∀ (n : Nat) (p : cut_update_pool) (fl : update_flags),
      p.index_.num_update_actions = n →
      ∃ k P, k ≤ n ∧ (∀ fuel, k < fuel → cut_update_loop fuel p fl = some P) ∧
        (∀ fuel, fuel ≤ k → cut_update_loop fuel p fl = none) ∧
        P.index_.action_queues_ queue_t.MUST_SPLIT = [] := by
  intro n
  induction n with
  | zero =>
    intro p fl hn
    have hms : p.index_.action_queues_ queue_t.MUST_SPLIT = [] := by
      unfold cut_update_index.num_update_actions at hn
      exact List.length_eq_zero.mp (by omega)
    refine ⟨0, p, le_refl _, ?_, ?_, hms⟩
    · intro fuel hf
      obtain ⟨f, rfl⟩ : ∃ f, fuel = f + 1 := ⟨fuel - 1, by omega⟩
      rw [cut_update_loop]
      simp [cut_update_index.front_action, hms]
    · intro fuel hf
      have : fuel = 0 := by omega
      subst this
      rfl
  | succ n ih =>
    intro p fl hn
    cases hs : p.index_.front_action queue_t.MUST_SPLIT with
    | none =>
      have hms : p.index_.action_queues_ queue_t.MUST_SPLIT = [] := by
        unfold cut_update_index.front_action at hs
        exact List.head?_eq_none_iff.mp hs
      refine ⟨0, p, Nat.zero_le _, ?_, ?_, hms⟩
      · intro fuel hf
        obtain ⟨f, rfl⟩ : ∃ f, fuel = f + 1 := ⟨fuel - 1, by omega⟩
        rw [cut_update_loop, hs]
      · intro fuel hf
        have : fuel = 0 := by omega
        subst this
        rfl
    | some s =>
      obtain ⟨P1, fl1, h1, q, a, h2⟩ := cut_update_loop_iteration_removes p fl s hs
      have hc := one_action_removed_count p P1 q a h2
      obtain ⟨k, P, hk, i1, i2, i3⟩ := ih P1 fl1 (by omega)
      refine ⟨k + 1, P, by omega, ?_, ?_, i3⟩
      · intro fuel hf
        obtain ⟨f, rfl⟩ : ∃ f, fuel = f + 1 := ⟨fuel - 1, by omega⟩
        rw [h1 f]
        exact i1 f (by omega)
      · intro fuel hf
        cases fuel with
        | zero => rfl
        | succ f =>
          rw [h1 f]
          exact i2 f (by omega)

end cut_update_pool
/-! ## The order of the maybe-collapse queue -/

/-- After `sort()` the maybe-collapse queue ascends by error. -/
theorem sort_maybe_ascending (idx : cut_update_index) :
    ascending_by_error (idx.sort.action_queues_ queue_t.MAYBE_COLLAPSE) := by
  have htotal : IsTotal action (fun a b : action => a.error_ ≤ b.error_) :=
    ⟨fun a b => le_total a.error_ b.error_⟩
  have htrans : IsTrans action (fun a b : action => a.error_ ≤ b.error_) :=
    ⟨fun a b c h1 h2 => le_trans h1 h2⟩
  exact List.sorted_insertionSort (fun a b : action => a.error_ ≤ b.error_) _

/-- The back of an ascending queue has the highest error. -/
theorem ascending_back_highest (queue : List action) (c : action)
    (h : ascending_by_error queue) (hc : queue.getLast? = some c) :
    ∀ c' ∈ queue, c'.error_ ≤ c.error_ := by
  have hne : queue ≠ [] := by
    intro h0; rw [h0] at hc; simp at hc
  have hl : queue.getLast hne = c := by
    rw [List.getLast?_eq_getLast _ hne] at hc
    exact Option.some.inj hc
  have hq := List.dropLast_append_getLast hne
  rw [hl] at hq
  intro c' hc'
  rw [← hq] at hc' h
  rcases List.mem_append.1 hc' with h1 | h1
  · exact (List.pairwise_append.1 h).2.2 c' h1 c (List.mem_singleton_self c)
  · rw [List.mem_singleton.1 h1]

/-- A queue that lost an action at its front or at its back still ascends. -/
theorem one_action_removed_ascending (p P : cut_update_pool) (q : queue_t) (a : action)
    (h : p.one_action_removed P q a) (q' : queue_t)
    (hasc : ascending_by_error (p.index_.action_queues_ q')) :
    ascending_by_error (P.index_.action_queues_ q') := by
  obtain ⟨_, hlen, hother⟩ := h
  by_cases hq : q' = q
  · subst hq
    unfold ascending_by_error at hasc ⊢
    rcases hlen with h | h
    · rw [h] at hasc
      exact (List.pairwise_cons.1 hasc).2
    · rw [h] at hasc
      exact (List.pairwise_append.1 hasc).1
  · rw [hother q' hq]
    exact hasc
/-! ## The analysis: groups and the iterator -/

namespace cut_update_pool

/-- At a node of a complete group, an ascending part of the cut that contains its
groups starts with the group, and what follows the group contains its groups. -/
theorem groups_within_group_step (p : cut_update_pool) (m : Nat) (old : List Nat)
    (hF : 1 ≤ p.index_.fan_factor m) (x : Nat) (rest : List Nat)
    (hs : (x :: rest).Pairwise (fun a b => a < b)) (hcl : p.groups_within m old (x :: rest))
    (h0 : 0 < x) (hN : x < p.index_.num_nodes m)
    (hall : p.is_all_nodes_in_cut m
      (p.index_.get_all_children m (tree_parent (p.index_.fan_factor m) x)) old = true) :
    (x :: rest).take (p.index_.fan_factor m)
      = p.index_.get_all_children m (tree_parent (p.index_.fan_factor m) x) ∧
    p.index_.fan_factor m - 1 ≤ rest.length ∧
    p.groups_within m old (rest.drop (p.index_.fan_factor m - 1)) := by
  have hs' := hs
  rw [List.pairwise_cons] at hs'
  obtain ⟨hlt, hsrest⟩ := hs'
  have hv := is_all_nodes_in_cut_children p m _ old hall
  have hin := hcl x (List.mem_cons_self _ _) h0 hN hall
  obtain ⟨j, hj, hxj⟩ := tree_child_of_parent (p.index_.fan_factor m) x hF h0
  have hj0 : j = 0 := by
    have h1 := hin 0 (by omega)
    rcases List.mem_cons.mp h1 with h2 | h2
    · omega
    · have := hlt _ h2
      omega
  subst hj0
  have hmin : ∀ y ∈ x :: rest,
      tree_parent (p.index_.fan_factor m) x * p.index_.fan_factor m + 1 ≤ y := by
    intro y hy
    rcases List.mem_cons.mp hy with rfl | hy
    · omega
    · have := hlt y hy
      omega
  obtain ⟨htake, hdrop⟩ := sorted_take_consecutive (p.index_.fan_factor m) (x :: rest)
    (tree_parent (p.index_.fan_factor m) x * p.index_.fan_factor m + 1) hs hin hmin
  have hdropeq : (x :: rest).drop (p.index_.fan_factor m)
      = rest.drop (p.index_.fan_factor m - 1) := by
    obtain ⟨k, hk⟩ : ∃ k, p.index_.fan_factor m = k + 1 := ⟨p.index_.fan_factor m - 1, by omega⟩
    rw [hk]
    simp
  rw [hdropeq] at hdrop
  have hsib : p.index_.get_all_children m (tree_parent (p.index_.fan_factor m) x)
      = (List.range (p.index_.fan_factor m)).map
          (fun i => tree_parent (p.index_.fan_factor m) x * p.index_.fan_factor m + 1 + i) :=
    cut_update_index.get_all_children_of_valid _ _ _ (fun i hi => (hv i hi).1)
  have hsub : List.Sublist (rest.drop (p.index_.fan_factor m - 1)) rest :=
    List.drop_sublist _ _
  refine ⟨by rw [htake, hsib], ?_, ?_⟩
  · have hl := congrArg List.length htake
    simp only [List.length_take, List.length_cons, List.length_map, List.length_range] at hl
    omega
  · intro y hy hy0 hyN hyall i hi
    have hyl : y ∈ x :: rest := List.mem_cons_of_mem _ (hsub.subset hy)
    have hmem := hcl y hyl hy0 hyN hyall i hi
    have hsplit := List.take_append_drop (p.index_.fan_factor m) (x :: rest)
    rw [← hsplit, List.mem_append] at hmem
    rcases hmem with hmem | hmem
    · exfalso
      rw [htake] at hmem
      obtain ⟨k, hk, hkeq⟩ := List.mem_map.mp hmem
      have hk' := List.mem_range.mp hk
      have hpar : tree_parent (p.index_.fan_factor m) y
          = tree_parent (p.index_.fan_factor m) x := by
        have e1 := tree_parent_child (p.index_.fan_factor m)
          (tree_parent (p.index_.fan_factor m) y) i hi
        have e2 := tree_parent_child (p.index_.fan_factor m)
          (tree_parent (p.index_.fan_factor m) x) k hk'
        rw [← e1, ← e2]
        congr 1
        omega
      obtain ⟨j, hj, hyj⟩ := tree_child_of_parent (p.index_.fan_factor m) y hF hy0
      have := hdrop y hy
      rw [hpar] at hyj
      omega
    · rw [hdropeq] at hmem
      exact hmem

/-- At a node whose group is not complete, what follows the node contains its
groups. -/
theorem groups_within_node_step (p : cut_update_pool) (m : Nat) (old : List Nat)
    (x : Nat) (rest : List Nat) (hcl : p.groups_within m old (x :: rest))
    (hg : ¬ (0 < x ∧ x < p.index_.num_nodes m ∧ p.is_all_nodes_in_cut m
      (p.index_.get_all_children m (tree_parent (p.index_.fan_factor m) x)) old = true)) :
    p.groups_within m old rest := by
  intro y hy hy0 hyN hyall i hi
  have hmem := hcl y (List.mem_cons_of_mem _ hy) hy0 hyN hyall i hi
  rcases List.mem_cons.mp hmem with hmem | hmem
  · exfalso
    have hv := is_all_nodes_in_cut_children p m _ old hyall i hi
    have hpar : tree_parent (p.index_.fan_factor m) x
        = tree_parent (p.index_.fan_factor m) y := by
      rw [← hmem]
      exact tree_parent_child _ _ i hi
    apply hg
    refine ⟨by omega, by rw [← hmem]; exact hv.1, ?_⟩
    rw [hpar]
    exact hyall
  · exact hmem

/-- Stepping over elements of the group that are all there. -/
theorem skips_in_group_skip (p : cut_update_pool) (m : Nat) (old siblings : List Nat) :
    ∀ (k : Nat) (l : List Nat), k ≤ l.length → (∀ y ∈ l.take k, y ∈ siblings) →
      p.skips_in_group m old k siblings l = p.skips_in_group m old 0 siblings (l.drop k) := by
  intro k
  induction k with
  | zero => intro l _ _; rfl
  | succ k ih =>
    intro l hlen hmem
    cases l with
    | nil => simp at hlen
    | cons y rest =>
      simp only [List.length_cons, Nat.add_le_add_iff_right] at hlen
      rw [skips_in_group, List.drop_succ_cons]
      have hy : y ∈ siblings := hmem y (by simp)
      rw [ih rest hlen (fun z hz => hmem z (by
        rw [List.take_succ_cons]; exact List.mem_cons_of_mem _ hz))]
      simp [hy]

/-- At the head of the loop the group last stepped over plays no role. -/
theorem skips_in_group_zero (p : cut_update_pool) (m : Nat) (old : List Nat)
    (s1 s2 : List Nat) (l : List Nat) :
    p.skips_in_group m old 0 s1 l = p.skips_in_group m old 0 s2 l := by
  cases l with
  | nil => rfl
  | cons x rest => rw [skips_in_group, skips_in_group]

/-- In an ascending cut that contains its complete groups, every skip of the
analysis loop steps over siblings only and ends within the cut. -/
theorem skips_in_group_spec (p : cut_update_pool) (m : Nat) (old : List Nat)
    (hF : 1 ≤ p.index_.fan_factor m) :
    ∀ (n : Nat) (l : List Nat), l.length ≤ n → l.Pairwise (fun a b => a < b) →
      p.groups_within m old l → p.skips_in_group m old 0 [] l = true := by
  intro n
  induction n with
  | zero =>
    intro l hlen _ _
    have : l = [] := List.length_eq_zero.mp (Nat.le_zero.mp hlen)
    subst this
    rfl
  | succ n ih =>
    intro l hlen hs hcl
    cases l with
    | nil => rfl
    | cons x rest =>
      have hsrest := (List.pairwise_cons.1 hs).2
      simp only [List.length_cons, Nat.add_le_add_iff_right] at hlen
      by_cases hg : 0 < x ∧ x < p.index_.num_nodes m ∧ p.is_all_nodes_in_cut m
          (p.index_.get_all_children m (tree_parent (p.index_.fan_factor m) x)) old = true
      · obtain ⟨h0, hN, hall⟩ := hg
        obtain ⟨g1, g2, g3⟩ := groups_within_group_step p m old hF x rest hs hcl h0 hN hall
        have hpar : p.index_.get_parent_id m x = tree_parent (p.index_.fan_factor m) x := by
          unfold cut_update_index.get_parent_id tree_parent
          rw [if_neg (by omega)]
        rw [skips_in_group]
        simp only [gt_iff_lt, h0, hN, decide_True, Bool.and_self, if_true, Bool.true_and,
          cut_update_index.get_all_siblings, hpar, hall, Bool.not_true, Bool.false_eq_true,
          if_false]
        have hmem : ∀ y ∈ rest.take (p.index_.fan_factor m - 1),
            y ∈ p.index_.get_all_children m (tree_parent (p.index_.fan_factor m) x) := by
          intro y hy
          rw [← g1]
          obtain ⟨k, hk⟩ : ∃ k, p.index_.fan_factor m = k + 1 :=
            ⟨p.index_.fan_factor m - 1, by omega⟩
          rw [hk] at hy ⊢
          rw [List.take_succ_cons]
          exact List.mem_cons_of_mem _ (by simpa using hy)
        rw [skips_in_group_skip p m old _ _ rest g2 hmem, skips_in_group_zero p m old _ []]
        exact ih _ (by have := List.length_drop (p.index_.fan_factor m - 1) rest; omega)
          (hsrest.sublist (List.drop_sublist _ _)) g3
      · have hcl' := groups_within_node_step p m old x rest hcl hg
        rw [skips_in_group]
        have hall : (decide (x > 0) && decide (x < p.index_.num_nodes m)
            && p.is_all_nodes_in_cut m
              (if (decide (x > 0) && decide (x < p.index_.num_nodes m)) = true then
                p.index_.get_all_siblings m x else []) old) = false := by
          by_cases hp : 0 < x ∧ x < p.index_.num_nodes m
          · have hpar : p.index_.get_parent_id m x = tree_parent (p.index_.fan_factor m) x := by
              unfold cut_update_index.get_parent_id tree_parent
              rw [if_neg (by omega)]
            simp only [gt_iff_lt, hp.1, hp.2, decide_True, Bool.and_self, if_true, Bool.true_and,
              cut_update_index.get_all_siblings, hpar]
            cases hc : p.is_all_nodes_in_cut m
              (p.index_.get_all_children m (tree_parent (p.index_.fan_factor m) x)) old
            · rfl
            · exact absurd ⟨hp.1, hp.2, hc⟩ hg
          · have : (decide (x > 0) && decide (x < p.index_.num_nodes m)) = false := by
              simpa using hp
            rw [this]
            rfl
        simp only [hall, Bool.not_false, if_true]
        exact ih _ hlen hsrest hcl'

end cut_update_pool
namespace cut_update_pool

/-- For every sibling of a complete group the analysis of the group pushes an
action that stands for it: a collapse into the parent, or a split or a keep of
the sibling. -/
theorem analyse_group_covers (cfg : config) (inp : frame_input) (p : cut_update_pool)
    (v m parent : Nat) (siblings : List Nat) (pe t1 t2 : ℚ) (nsf timeout : Bool)
    (hlen : siblings.length ≤ p.index_.fan_factor m) (x : Nat) (hx : x ∈ siblings) :
    ∃ c ∈ analyse_group cfg inp p v m parent siblings pe t1 t2 nsf timeout,
      (c.node_id_ = parent ∧ (c.queue_ = queue_t.MUST_COLLAPSE ∨
          c.queue_ = queue_t.COLLAPSE_ON_NEED ∨ c.queue_ = queue_t.MAYBE_COLLAPSE)) ∨
      (c.node_id_ = x ∧ (c.queue_ = queue_t.KEEP ∨ c.queue_ = queue_t.MUST_SPLIT)) := by
  unfold analyse_group
  by_cases h1 : nsf = true
  · rw [if_pos h1]
    by_cases h2 : cfg.LAMURE_CUT_UPDATE_MUST_COLLAPSE_OUTSIDE_FRUSTUM = true
    · rw [if_pos h2]
      exact ⟨_, List.mem_singleton_self _, Or.inl ⟨rfl, Or.inl rfl⟩⟩
    · rw [if_neg h2]
      exact ⟨_, List.mem_singleton_self _, Or.inl ⟨rfl, Or.inr (Or.inl rfl)⟩⟩
  · rw [if_neg h1]
    by_cases h2 : timeout = true
    · rw [if_pos h2]
      exact ⟨_, List.mem_singleton_self _, Or.inl ⟨rfl, Or.inr (Or.inl rfl)⟩⟩
    · rw [if_neg h2]
      simp only []
      by_cases hsp : sibling_splits inp p v m t1 t2 x = true
      · refine ⟨⟨queue_t.MUST_SPLIT, v, m, x, inp.node_error v m x⟩, ?_,
          Or.inr ⟨rfl, Or.inr rfl⟩⟩
        apply List.mem_append_left
        exact List.mem_map.mpr ⟨x, List.mem_filter.mpr ⟨hx, hsp⟩, rfl⟩
      · by_cases hk : (siblings.filter (sibling_splits inp p v m t1 t2)).isEmpty = true
        · rw [hk]
          simp only [Bool.true_and]
          by_cases hb : (siblings.all (fun sibling_id =>
              !(decide (inp.node_error v m sibling_id ≥ t1)))) = true
          · rw [if_pos hb]
            exact ⟨_, List.mem_append_right _ (List.mem_singleton_self _),
              Or.inl ⟨rfl, Or.inl rfl⟩⟩
          · rw [if_neg hb]
            simp only [if_true]
            exact ⟨_, List.mem_append_right _ (List.mem_singleton_self _),
              Or.inl ⟨rfl, Or.inr (Or.inr rfl)⟩⟩
        · have hk' : (siblings.filter (sibling_splits inp p v m t1 t2)).isEmpty = false := by
            simpa using hk
          rw [hk']
          simp only [Bool.false_and, Bool.false_eq_true, if_false]
          refine ⟨⟨queue_t.KEEP, v, m, x, pe⟩, ?_, Or.inr ⟨rfl, Or.inl rfl⟩⟩
          apply List.mem_append_right
          refine List.mem_map.mpr ⟨x, List.mem_filter.mpr ⟨?_, by simpa using hsp⟩, rfl⟩
          rw [List.take_of_length_le hlen]
          exact hx

/-- Every action of the analysis loop is pushed at a node of the cut: with the
actions of its complete group, or as the action of the node on its own. -/
theorem cut_analysis_actions_origin (cfg : config) (inp : frame_input) (p : cut_update_pool)
    (v m : Nat) (old : List Nat) (timeout : Bool) :
    ∀ (n : Nat) (l : List Nat), l.length ≤ n →
      ∀ a ∈ cut_analysis_actions cfg inp p v m old timeout 0 l, ∃ x ∈ l,
        ((0 < x ∧ x < p.index_.num_nodes m ∧ p.is_all_nodes_in_cut m
            (p.index_.get_all_children m (tree_parent (p.index_.fan_factor m) x)) old = true) ∧
          a ∈ analyse_group cfg inp p v m (tree_parent (p.index_.fan_factor m) x)
              (p.index_.get_all_children m (tree_parent (p.index_.fan_factor m) x))
              (inp.node_error v m (tree_parent (p.index_.fan_factor m) x))
              (p.min_error_threshold m) (p.max_error_threshold m)
              (!(inp.node_in_frustum v m (tree_parent (p.index_.fan_factor m) x))) timeout) ∨
        (¬ (0 < x ∧ x < p.index_.num_nodes m ∧ p.is_all_nodes_in_cut m
            (p.index_.get_all_children m (tree_parent (p.index_.fan_factor m) x)) old = true) ∧
          a = analyse_node inp p v m x
            (if 0 < x ∧ x < p.index_.num_nodes m then
              inp.node_error v m (tree_parent (p.index_.fan_factor m) x) else 0)
            (p.min_error_threshold m) (p.max_error_threshold m) timeout) := by
  intro n
  induction n with
  | zero =>
    intro l hlen a ha
    have : l = [] := List.length_eq_zero.mp (Nat.le_zero.mp hlen)
    subst this
    simp [cut_analysis_actions] at ha
  | succ n ih =>
    intro l hlen a ha
    cases l with
    | nil => simp [cut_analysis_actions] at ha
    | cons x rest =>
      simp only [List.length_cons, Nat.add_le_add_iff_right] at hlen
      by_cases hg : 0 < x ∧ x < p.index_.num_nodes m ∧ p.is_all_nodes_in_cut m
          (p.index_.get_all_children m (tree_parent (p.index_.fan_factor m) x)) old = true
      · rw [cut_analysis_actions_group cfg inp p v m old timeout x rest hg.1 hg.2.1 hg.2.2] at ha
        rcases List.mem_append.mp ha with ha | ha
        · exact ⟨x, List.mem_cons_self _ _, Or.inl ⟨hg, ha⟩⟩
        · obtain ⟨y, hy, h⟩ := ih (rest.drop (p.index_.fan_factor m - 1))
            (by have := List.length_drop (p.index_.fan_factor m - 1) rest; omega) a ha
          exact ⟨y, List.mem_cons_of_mem _ ((List.drop_sublist _ _).subset hy), h⟩
      · rw [cut_analysis_actions_node cfg inp p v m old timeout x rest hg] at ha
        rcases List.mem_cons.mp ha with ha | ha
        · exact ⟨x, List.mem_cons_self _ _, Or.inr ⟨hg, ha⟩⟩
        · obtain ⟨y, hy, h⟩ := ih rest hlen a ha
          exact ⟨y, List.mem_cons_of_mem _ hy, h⟩

/-- Where the actions of the analysis come from: a keep or a split is on a node of
the cut, a collapse is on the parent of a sibling group that is complete in the
cut. -/
theorem analysis_actions_origin (cfg : config) (inp : frame_input) (p : cut_update_pool)
    (v m : Nat) :
    ∀ a ∈ p.analysis_actions cfg inp v m, action_of v m a ∧
      (((a.queue_ = queue_t.KEEP ∨ a.queue_ = queue_t.MUST_SPLIT) ∧
          a.node_id_ ∈ p.index_.get_previous_cut v m) ∨
        ((a.queue_ = queue_t.MUST_COLLAPSE ∨ a.queue_ = queue_t.COLLAPSE_ON_NEED ∨
            a.queue_ = queue_t.MAYBE_COLLAPSE) ∧
          ∃ x ∈ p.index_.get_previous_cut v m,
            p.group_complete m (p.index_.get_previous_cut v m) x ∧
            a.node_id_ = p.index_.get_parent_id m x)) := by
  intro a ha
  refine ⟨cut_analysis_actions_of cfg inp p v m _ _ _ _ a ha, ?_⟩
  obtain ⟨x, hx, h | h⟩ := cut_analysis_actions_origin cfg inp p v m
    (p.index_.get_previous_cut v m) (freshness_timeout cfg p m) _ _ (Nat.le_refl _) a ha
  · obtain ⟨hg, hmem⟩ := h
    have hpar : p.index_.get_parent_id m x = tree_parent (p.index_.fan_factor m) x := by
      unfold cut_update_index.get_parent_id tree_parent
      rw [if_neg (by have := hg.1; omega)]
    obtain ⟨_, _, hk⟩ := (analyse_group_props cfg inp p v m _ _ _ _ _ _ _).1 a hmem
    have hsibs : ∀ y ∈ p.index_.get_all_children m (tree_parent (p.index_.fan_factor m) x),
        y ∈ p.index_.get_previous_cut v m := by
      intro y hy
      have hall := hg.2.2
      unfold is_all_nodes_in_cut at hall
      rw [List.all_eq_true] at hall
      have := hall y hy
      simp only [Bool.and_eq_true, decide_eq_true_eq] at this
      exact this.2
    rcases hk with ⟨hq, hn⟩ | ⟨hq, hn, _⟩ | ⟨hq, hn⟩
    · right
      exact ⟨hq, x, hx, (group_complete_iff p m _ x).2 hg, by rw [hn, hpar]⟩
    · left
      exact ⟨Or.inr hq, hsibs _ hn⟩
    · left
      exact ⟨Or.inl hq, hsibs _ hn⟩
  · obtain ⟨_, rfl⟩ := h
    obtain ⟨_, _, a3, a4⟩ := analyse_node_props inp p v m x
      (if 0 < x ∧ x < p.index_.num_nodes m then
        inp.node_error v m (tree_parent (p.index_.fan_factor m) x) else 0)
      (p.min_error_threshold m) (p.max_error_threshold m) (freshness_timeout cfg p m)
    left
    rw [a3]
    exact ⟨a4.imp id (fun h => h.1), hx⟩

end cut_update_pool
/-! ## The holders through a split and a collapse -/

namespace cache_entry

theorem aquire_aquire (e : cache_entry) (c v : Nat) : (e.aquire c v).aquire c v = e.aquire c v := by
  unfold aquire
  by_cases h : (c, v) ∈ e.holders
  · simp [h]
  · simp [h]

theorem release_release (e : cache_entry) (c v : Nat) :
    (e.release c v).release c v = e.release c v := by
  unfold release
  simp [List.filter_filter]

theorem release_aquire (e : cache_entry) (c v : Nat) :
    (e.aquire c v).release c v = e.release c v := by
  unfold aquire release
  by_cases h : (c, v) ∈ e.holders
  · simp [h]
  · simp [h]

theorem release_of_not_mem (e : cache_entry) (c v : Nat) (h : (c, v) ∉ e.holders) :
    e.release c v = e := by
  unfold release
  have : e.holders.filter (fun h => h != (c, v)) = e.holders := by
    rw [List.filter_eq_self]
    intro x hx
    simp only [bne_iff_ne, ne_eq]
    intro hxe
    exact h (hxe ▸ hx)
  rw [this]

theorem aquire_all_nil (e : cache_entry) (c v m : Nat) : e.aquire_all c v m [] = e := by
  simp [aquire_all]

theorem release_all_nil (e : cache_entry) (c v m : Nat) : e.release_all c v m [] = e := by
  simp [release_all]

theorem aquire_all_cons (e : cache_entry) (c v m x : Nat) (cs : List Nat) :
    (if e.is_for m x then e.aquire c v else e).aquire_all c v m cs
      = e.aquire_all c v m (x :: cs) := by
  unfold aquire_all is_for
  by_cases h1 : e.model_id = m
  · by_cases h2 : e.node_id = x
    · have hid := aquire_node_id e c v
      simp only [h1, h2, beq_self_eq_true, Bool.and_self, if_true, hid.1, hid.2, true_and,
        List.mem_cons]
      by_cases h3 : x ∈ cs
      · simp [h3, aquire_aquire]
      · simp [h3]
    · simp [h1, h2]
  · have : (e.model_id == m && e.node_id == x) = false := by simp [h1]
    simp only [this, Bool.false_eq_true, if_false, h1, false_and]

theorem release_all_cons (e : cache_entry) (c v m x : Nat) (cs : List Nat) :
    (if e.is_for m x then e.release c v else e).release_all c v m cs
      = e.release_all c v m (x :: cs) := by
  unfold release_all is_for
  by_cases h1 : e.model_id = m
  · by_cases h2 : e.node_id = x
    · have hid : (e.release c v).model_id = e.model_id ∧ (e.release c v).node_id = e.node_id :=
        ⟨rfl, rfl⟩
      simp only [h1, h2, beq_self_eq_true, Bool.and_self, if_true, hid.1, hid.2, true_and,
        List.mem_cons]
      by_cases h3 : x ∈ cs
      · simp [h3, release_release]
      · simp [h3]
    · simp [h1, h2]
  · have : (e.model_id == m && e.node_id == x) = false := by simp [h1]
    simp only [this, Bool.false_eq_true, if_false, h1, false_and]

end cache_entry

namespace cut_update_pool

/-- The acquisition loop, entry by entry. -/
theorem aquire_children_slots (v m : Nat) :
    ∀ (cs : List Nat) (p : cut_update_pool),
      (aquire_children p v m cs).gpu_cache_.slots_
        = p.gpu_cache_.slots_.map (Option.map (fun e => e.aquire_all p.context_id_ v m cs)) ∧
      (aquire_children p v m cs).ooc_cache_.slots_
        = p.ooc_cache_.slots_.map (Option.map (fun e => e.aquire_all p.context_id_ v m cs)) ∧
      (aquire_children p v m cs).gpu_cache_.transfer_budget_ = p.gpu_cache_.transfer_budget_ ∧
      (aquire_children p v m cs).gpu_cache_.transfer_list_ = p.gpu_cache_.transfer_list_ ∧
      (aquire_children p v m cs).gpu_cache_.transfer_slots_written_
        = p.gpu_cache_.transfer_slots_written_ := by
  intro cs
  induction cs with
  | nil =>
    intro p
    have : (fun e : cache_entry => e.aquire_all p.context_id_ v m []) = id := by
      funext e; exact cache_entry.aquire_all_nil e _ _ _
    simp [aquire_children, this]
  | cons c cs ih =>
    intro p
    rw [aquire_children]
    obtain ⟨i1, i2, i3, i4, i5⟩ := ih { p with
      gpu_cache_ := p.gpu_cache_.aquire_node p.context_id_ v m c,
      ooc_cache_ := p.ooc_cache_.aquire_node p.context_id_ v m c }
    rw [i1, i2, i3, i4, i5]
    refine ⟨?_, ?_, rfl, rfl, rfl⟩
    · simp only [gpu_cache.aquire_node, cache_slots.aquire_node, List.map_map]
      apply List.map_congr_left
      intro x _
      cases x with
      | none => rfl
      | some e => simp [cache_entry.aquire_all_cons]
    · simp only [ooc_cache.aquire_node, cache_slots.aquire_node, List.map_map]
      apply List.map_congr_left
      intro x _
      cases x with
      | none => rfl
      | some e => simp [cache_entry.aquire_all_cons]

/-- The release loop, entry by entry. -/
theorem release_children_slots (v m : Nat) :
    ∀ (cs : List Nat) (p : cut_update_pool),
      (release_children p v m cs).gpu_cache_.slots_
        = p.gpu_cache_.slots_.map (Option.map (fun e => e.release_all p.context_id_ v m cs)) ∧
      (release_children p v m cs).ooc_cache_.slots_
        = p.ooc_cache_.slots_.map (Option.map (fun e => e.release_all p.context_id_ v m cs)) ∧
      (release_children p v m cs).gpu_cache_.transfer_budget_ = p.gpu_cache_.transfer_budget_ ∧
      (release_children p v m cs).gpu_cache_.transfer_list_ = p.gpu_cache_.transfer_list_ ∧
      (release_children p v m cs).gpu_cache_.transfer_slots_written_
        = p.gpu_cache_.transfer_slots_written_ := by
  intro cs
  induction cs with
  | nil =>
    intro p
    have : (fun e : cache_entry => e.release_all p.context_id_ v m []) = id := by
      funext e; exact cache_entry.release_all_nil e _ _ _
    simp [release_children, this]
  | cons c cs ih =>
    intro p
    rw [release_children]
    obtain ⟨i1, i2, i3, i4, i5⟩ := ih { p with
      gpu_cache_ := p.gpu_cache_.release_node p.context_id_ v m c,
      ooc_cache_ := p.ooc_cache_.release_node p.context_id_ v m c }
    rw [i1, i2, i3, i4, i5]
    refine ⟨?_, ?_, rfl, rfl, rfl⟩
    · simp only [gpu_cache.release_node, cache_slots.release_node, List.map_map]
      apply List.map_congr_left
      intro x _
      cases x with
      | none => rfl
      | some e => simp [cache_entry.release_all_cons]
    · simp only [ooc_cache.release_node, cache_slots.release_node, List.map_map]
      apply List.map_congr_left
      intro x _
      cases x with
      | none => rfl
      | some e => simp [cache_entry.release_all_cons]

end cut_update_pool
namespace cache_slots

theorem same_holders_refl (s : cache_slots) : same_holders s s := ⟨fun _ _ _ _ => rfl, fun _ _ => rfl⟩

theorem same_holders_trans (s s' s'' : cache_slots) (h1 : same_holders s s')
    (h2 : same_holders s' s'') : same_holders s s'' :=
  ⟨fun c v m n => (h2.1 c v m n).trans (h1.1 c v m n),
   fun m n => (h2.2 m n).trans (h1.2 m n)⟩

/-- What is acquired after the acquisition loop: what was acquired before, and the
listed nodes that have an entry, for `(c, v)`. -/
theorem is_node_aquired_aquire_all (s : cache_slots) (c v m : Nat) (cs : List Nat)
    (c' v' m' n' : Nat) :
    is_node_aquired (s.map (Option.map (fun e => e.aquire_all c v m cs))) c' v' m' n' = true ↔
      (s.is_node_aquired c' v' m' n' = true ∨
        (c' = c ∧ v' = v ∧ m' = m ∧ n' ∈ cs ∧ s.is_node_indexed m n' = true)) := by
  rw [is_node_aquired_iff, is_node_aquired_iff, is_node_indexed_iff]
  constructor
  · rintro ⟨e', he', h1, h2, h3⟩
    obtain ⟨e, he, rfl⟩ := (mem_map_entries s _ e').1 he'
    unfold cache_entry.aquire_all at h1 h2 h3
    by_cases hc : e.model_id = m ∧ e.node_id ∈ cs
    · rw [if_pos hc] at h1 h2 h3
      rw [(cache_entry.aquire_node_id e c v).1] at h1
      rw [(cache_entry.aquire_node_id e c v).2] at h2
      rcases (cache_entry.mem_aquire_holders e c v _).1 h3 with h | h
      · simp only [Prod.mk.injEq] at h
        right
        exact ⟨h.1, h.2, by rw [← h1, hc.1], by rw [← h2]; exact hc.2,
          e, he, hc.1, by rw [← h2]⟩
      · exact Or.inl ⟨e, he, h1, h2, h⟩
    · rw [if_neg hc] at h1 h2 h3
      exact Or.inl ⟨e, he, h1, h2, h3⟩
  · rintro (⟨e, he, h1, h2, h3⟩ | ⟨rfl, rfl, rfl, hn, e, he, h1, h2⟩)
    · refine ⟨e.aquire_all c v m cs, (mem_map_entries s _ _).2 ⟨e, he, rfl⟩, ?_, ?_, ?_⟩
      all_goals unfold cache_entry.aquire_all
      · split
        · rw [(cache_entry.aquire_node_id e c v).1]; exact h1
        · exact h1
      · split
        · rw [(cache_entry.aquire_node_id e c v).2]; exact h2
        · exact h2
      · split
        · exact (cache_entry.mem_aquire_holders e c v _).2 (Or.inr h3)
        · exact h3
    · refine ⟨e.aquire_all c' v' m' cs, (mem_map_entries s _ _).2 ⟨e, he, rfl⟩, ?_, ?_, ?_⟩
      all_goals unfold cache_entry.aquire_all
      all_goals rw [if_pos ⟨h1, by rw [h2]; exact hn⟩]
      · rw [(cache_entry.aquire_node_id e c' v').1]; exact h1
      · rw [(cache_entry.aquire_node_id e c' v').2]; exact h2
      · exact (cache_entry.mem_aquire_holders e c' v' _).2 (Or.inl rfl)

/-- What is acquired after the release loop: what was acquired before, the
acquisitions of `(c, v)` on the listed nodes apart. -/
theorem is_node_aquired_release_all (s : cache_slots) (c v m : Nat) (cs : List Nat)
    (c' v' m' n' : Nat) :
    is_node_aquired (s.map (Option.map (fun e => e.release_all c v m cs))) c' v' m' n' = true ↔
      (s.is_node_aquired c' v' m' n' = true ∧ ¬ (c' = c ∧ v' = v ∧ m' = m ∧ n' ∈ cs)) := by
  rw [is_node_aquired_iff, is_node_aquired_iff]
  constructor
  · rintro ⟨e', he', h1, h2, h3⟩
    obtain ⟨e, he, rfl⟩ := (mem_map_entries s _ e').1 he'
    unfold cache_entry.release_all at h1 h2 h3
    by_cases hc : e.model_id = m ∧ e.node_id ∈ cs
    · rw [if_pos hc] at h1 h2 h3
      have h1' : e.model_id = m' := h1
      have h2' : e.node_id = n' := h2
      rw [cache_entry.mem_release_holders] at h3
      refine ⟨⟨e, he, h1', h2', h3.2⟩, ?_⟩
      rintro ⟨rfl, rfl, _, _⟩
      exact h3.1 rfl
    · rw [if_neg hc] at h1 h2 h3
      refine ⟨⟨e, he, h1, h2, h3⟩, ?_⟩
      rintro ⟨_, _, rfl, hn⟩
      exact hc ⟨h1, by rw [h2]; exact hn⟩
  · rintro ⟨⟨e, he, h1, h2, h3⟩, hne⟩
    refine ⟨e.release_all c v m cs, (mem_map_entries s _ _).2 ⟨e, he, rfl⟩, ?_, ?_, ?_⟩
    all_goals unfold cache_entry.release_all
    · split <;> exact h1
    · split <;> exact h2
    · split
      · rename_i hc
        rw [cache_entry.mem_release_holders]
        refine ⟨?_, h3⟩
        intro heq
        simp only [Prod.mk.injEq] at heq
        exact hne ⟨heq.1, heq.2, by rw [← h1, hc.1], by rw [← h2]; exact hc.2⟩
      · exact h3

/-- Releasing what was acquired: when none of the listed nodes was acquired by
`(c, v)`, the acquisition loop followed by the release loop leaves the slots as
they were. -/
theorem release_all_aquire_all (s : cache_slots) (c v m : Nat) (cs : List Nat)
    (h : ∀ n ∈ cs, s.is_node_aquired c v m n = false) :
    (s.map (Option.map (fun e => e.aquire_all c v m cs))).map
        (Option.map (fun e => e.release_all c v m cs)) = s := by
  rw [List.map_map]
  conv_rhs => rw [← List.map_id s]
  apply List.map_congr_left
  intro x hx
  cases x with
  | none => rfl
  | some e =>
    simp only [Function.comp_apply, Option.map_some', id_eq, Option.some.injEq]
    unfold cache_entry.aquire_all cache_entry.release_all
    by_cases hc : e.model_id = m ∧ e.node_id ∈ cs
    · rw [if_pos hc]
      rw [if_pos (by
        rw [(cache_entry.aquire_node_id e c v).1, (cache_entry.aquire_node_id e c v).2]
        exact hc)]
      rw [cache_entry.release_aquire]
      apply cache_entry.release_of_not_mem
      intro hmem
      have := h e.node_id hc.2
      have hacq : s.is_node_aquired c v m e.node_id = true :=
        (is_node_aquired_iff s c v m e.node_id).2 ⟨e, hx, hc.1, rfl, hmem⟩
      rw [this] at hacq
      exact absurd hacq (by decide)
    · rw [if_neg hc, if_neg hc]

end cache_slots
namespace cache_slots

/-- An entry without holders put into a free slot changes no acquisition and no
refcount. -/
theorem place_free_same_holders (e : cache_entry) (he : e.holders = []) :
    ∀ (s s' : cache_slots), place_free e s = some s' → same_holders s s' := by
  intro s
  induction s with
  | nil => intro s' h; simp [place_free] at h
  | cons y rest ih =>
    intro s' h
    cases y with
    | none =>
      simp only [place_free, Option.some.injEq] at h
      subst h
      refine ⟨fun c v m n => ?_, fun m n => ?_⟩
      · simp [is_node_aquired, slot_test, he]
      · simp [refcount, he]
    | some z =>
      simp only [place_free, Option.map_eq_some'] at h
      obtain ⟨r, hr, rfl⟩ := h
      obtain ⟨i1, i2⟩ := ih r hr
      refine ⟨fun c v m n => ?_, fun m n => ?_⟩
      · have := i1 c v m n
        unfold is_node_aquired at this ⊢
        simp only [List.any_cons, this]
      · have := i2 m n
        unfold refcount at this ⊢
        simp only [List.map_cons, List.sum_cons, this]

end cache_slots

namespace ooc_cache

/-- With a free slot, a registration in the host cache changes no acquisition and
no refcount. -/
theorem register_node_same_holders_host (c : ooc_cache) (m n : Nat) (pr : Int)
    (h : 0 < c.num_free_slots) :
    cache_slots.same_holders c.slots_ (c.register_node m n pr).slots_ := by
  unfold register_node
  split
  · exact cache_slots.same_holders_refl _
  · obtain ⟨s', hs'⟩ := cache_slots.place_free_isSome
      { model_id := m, node_id := n, loaded := false, priority := pr, holders := [] }
      c.slots_ h
    have hp : cache_slots.place c.slots_
        { model_id := m, node_id := n, loaded := false, priority := pr, holders := [] }
        = some s' := by
      simp [cache_slots.place, hs']
    rw [hp]
    exact cache_slots.place_free_same_holders _ rfl _ _ hs'

end ooc_cache

namespace gpu_cache

/-- With a free slot, a registration in the GPU cache changes no acquisition and
no refcount. -/
theorem register_node_same_holders_gpu (g : gpu_cache) (m n : Nat) (h : 0 < g.num_free_slots) :
    cache_slots.same_holders g.slots_ (g.register_node m n).1.slots_ := by
  unfold register_node
  split
  · exact cache_slots.same_holders_refl _
  · obtain ⟨s', hs'⟩ := cache_slots.place_free_isSome
      { model_id := m, node_id := n, loaded := true, priority := 0, holders := [] }
      g.slots_ h
    have hp : cache_slots.place g.slots_
        { model_id := m, node_id := n, loaded := true, priority := 0, holders := [] }
        = some s' := by
      simp [cache_slots.place, hs']
    rw [hp]
    exact cache_slots.place_free_same_holders _ rfl _ _ hs'

end gpu_cache

namespace cut_update_pool

/-- The load loop of `split_node` changes no acquisition and no refcount. -/
theorem split_node_load_same_holders (m : Nat) (pr : Int) (fit : Bool) :
    ∀ (cs : List Nat) (ooc : ooc_cache) (flag : Bool),
      cache_slots.same_holders ooc.slots_ (split_node_load m pr fit cs (ooc, flag)).1.slots_ := by
  intro cs
  induction cs with
  | nil => intro ooc flag; exact cache_slots.same_holders_refl _
  | cons c cs ih =>
    intro ooc flag
    rw [split_node_load]
    split
    · split
      · rename_i hg
        have hfree : 0 < ooc.num_free_slots := by
          simp only [Bool.and_eq_true, decide_eq_true_eq] at hg
          exact hg.2
        exact cache_slots.same_holders_trans _ _ _
          (ooc_cache.register_node_same_holders_host ooc m c pr hfree) (ih _ _)
      · exact ih _ _
    · exact ih _ _

/-- The transfer loop of `split_node` changes no acquisition and no refcount, and
registers `k` nodes, one free slot and one unit of budget each, `k` being at
most the number of children, the free slots and the budget. -/
theorem split_node_transfer_count (m : Nat) (fit : Bool) :
    ∀ (cs : List Nat) (gpu : gpu_cache) (flag : Bool),
      cache_slots.same_holders gpu.slots_ (split_node_transfer m fit cs (gpu, flag)).1.slots_ ∧
      ∃ k, k ≤ cs.length ∧
        (split_node_transfer m fit cs (gpu, flag)).1.num_free_slots + k = gpu.num_free_slots ∧
        (split_node_transfer m fit cs (gpu, flag)).1.transfer_budget + k
          = gpu.transfer_budget := by
  intro cs
  induction cs with
  | nil =>
    intro gpu flag
    exact ⟨cache_slots.same_holders_refl _, 0, Nat.le_refl _, rfl, rfl⟩
  | cons c cs ih =>
    intro gpu flag
    rw [split_node_transfer]
    have keep : ∀ f : Bool,
        cache_slots.same_holders gpu.slots_ (split_node_transfer m fit cs (gpu, f)).1.slots_ ∧
        ∃ k, k ≤ (c :: cs).length ∧
          (split_node_transfer m fit cs (gpu, f)).1.num_free_slots + k = gpu.num_free_slots ∧
          (split_node_transfer m fit cs (gpu, f)).1.transfer_budget + k
            = gpu.transfer_budget := by
      intro f
      obtain ⟨i1, k, hk, i2, i3⟩ := ih gpu f
      exact ⟨i1, k, by simp only [List.length_cons]; omega, i2, i3⟩
    by_cases hres : gpu.is_node_resident m c = true
    · simp only [hres, Bool.not_true, Bool.false_eq_true, if_false]
      exact keep _
    · have hres' : gpu.is_node_resident m c = false := by simpa using hres
      simp only [hres', Bool.not_false, if_true]
      cases fit with
      | false =>
        simp only [Bool.false_eq_true, if_false]
        exact keep _
      | true =>
        simp only [if_true]
        by_cases hg : (decide (gpu.transfer_budget > 0) && decide (gpu.num_free_slots > 0)) = true
        · simp only [hg, if_true]
          have hroom : 0 < gpu.transfer_budget ∧ 0 < gpu.num_free_slots := by
            simpa using hg
          obtain ⟨r1, r2, _⟩ := gpu_cache.register_node_fresh gpu m c hres' hroom.2
          obtain ⟨i1, k, hk, i2, i3⟩ := ih (gpu.register_node m c).1 flag
          refine ⟨cache_slots.same_holders_trans _ _ _
            (gpu_cache.register_node_same_holders_gpu gpu m c hroom.2) i1, k + 1,
            by simp only [List.length_cons]; omega, by omega, by omega⟩
        · simp only [hg, Bool.false_eq_true, if_false]
          exact keep _

/-- The transfer loop of `split_node` leaves the GPU cache and the flag alone when
every child has a GPU slot. -/
theorem split_node_transfer_resident (m : Nat) (fit : Bool) :
    ∀ (cs : List Nat) (gpu : gpu_cache) (flag : Bool),
      (∀ c ∈ cs, gpu.is_node_resident m c = true) →
      split_node_transfer m fit cs (gpu, flag) = (gpu, flag) := by
  intro cs
  induction cs with
  | nil => intro gpu flag _; rfl
  | cons c cs ih =>
    intro gpu flag h
    rw [split_node_transfer]
    simp only [h c (List.mem_cons_self _ _), Bool.not_true, Bool.false_eq_true, if_false]
    exact ih gpu flag (fun x hx => h x (List.mem_cons_of_mem _ hx))

/-- Without room in the GPU cache the transfer loop of `split_node` clears the flag
when a child has no GPU slot. -/
theorem split_node_transfer_unfit_flag (m : Nat) :
    ∀ (cs : List Nat) (gpu : gpu_cache) (flag : Bool),
      (¬ ∀ c ∈ cs, gpu.is_node_resident m c = true) →
      (split_node_transfer m false cs (gpu, flag)).2 = false := by
  intro cs gpu flag h
  cases hf : (split_node_transfer m false cs (gpu, flag)).2 with
  | false => rfl
  | true => exact absurd (split_node_transfer_no_room m cs gpu flag hf) h

end cut_update_pool
namespace cut_update_pool

/-- The two loops of `split_node` that obtain the children: when they find all
children available, what they register and what they leave alone. -/
theorem split_node_obtain_cases (p : cut_update_pool) (a : action) :
    (((∀ c ∈ p.index_.get_all_children a.model_id_ a.node_id_,
          p.ooc_cache_.is_node_resident a.model_id_ c = true) ∧
        ((∀ c ∈ p.index_.get_all_children a.model_id_ a.node_id_,
            p.gpu_cache_.is_node_resident a.model_id_ c = true) ∨
          (p.index_.fan_factor a.model_id_ ≤ p.gpu_cache_.transfer_budget ∧
            p.index_.fan_factor a.model_id_ ≤ p.gpu_cache_.num_free_slots))) →
      (split_node_obtain p a).2.2 = true ∧ (split_node_obtain p a).1 = p.ooc_cache_) ∧
    (¬ ((∀ c ∈ p.index_.get_all_children a.model_id_ a.node_id_,
          p.ooc_cache_.is_node_resident a.model_id_ c = true) ∧
        ((∀ c ∈ p.index_.get_all_children a.model_id_ a.node_id_,
            p.gpu_cache_.is_node_resident a.model_id_ c = true) ∨
          (p.index_.fan_factor a.model_id_ ≤ p.gpu_cache_.transfer_budget ∧
            p.index_.fan_factor a.model_id_ ≤ p.gpu_cache_.num_free_slots))) →
      (split_node_obtain p a).2.2 = false ∧ (split_node_obtain p a).2.1 = p.gpu_cache_) ∧
    cache_slots.same_holders p.ooc_cache_.slots_ (split_node_obtain p a).1.slots_ ∧
    cache_slots.same_holders p.gpu_cache_.slots_ (split_node_obtain p a).2.1.slots_ ∧
    ∃ k, k ≤ p.index_.fan_factor a.model_id_ ∧
      (split_node_obtain p a).2.1.num_free_slots + k = p.gpu_cache_.num_free_slots ∧
      (split_node_obtain p a).2.1.transfer_budget + k = p.gpu_cache_.transfer_budget := by
  have hlen : (p.index_.get_all_children a.model_id_ a.node_id_).length
      = p.index_.fan_factor a.model_id_ := by
    simp [cut_update_index.get_all_children]
  refine ⟨?_, ?_, ?_, ?_⟩
  · rintro ⟨hhost, hg⟩
    rcases hg with hgpu | hroom
    · unfold split_node_obtain
      simp only []
      rw [split_node_load_resident _ _ _ _ _ _ hhost]
      simp only [if_true]
      rw [split_node_transfer_resident _ _ _ _ _ hgpu]
      exact ⟨rfl, trivial⟩
    · rw [split_node_obtain_room p a hhost ⟨hroom.2, hroom.1⟩]
      exact ⟨rfl, rfl⟩
  · intro hn
    by_cases hhost : ∀ c ∈ p.index_.get_all_children a.model_id_ a.node_id_,
        p.ooc_cache_.is_node_resident a.model_id_ c = true
    · have hng : ¬ (∀ c ∈ p.index_.get_all_children a.model_id_ a.node_id_,
          p.gpu_cache_.is_node_resident a.model_id_ c = true) := fun h => hn ⟨hhost, Or.inl h⟩
      have hnr : ¬ (p.index_.fan_factor a.model_id_ ≤ p.gpu_cache_.transfer_budget ∧
          p.index_.fan_factor a.model_id_ ≤ p.gpu_cache_.num_free_slots) :=
        fun h => hn ⟨hhost, Or.inr h⟩
      have hfit : (decide (p.gpu_cache_.transfer_budget ≥ p.index_.fan_factor a.model_id_)
          && decide (p.gpu_cache_.num_free_slots ≥ p.index_.fan_factor a.model_id_)) = false := by
        cases hc : (decide (p.gpu_cache_.transfer_budget ≥ p.index_.fan_factor a.model_id_)
          && decide (p.gpu_cache_.num_free_slots ≥ p.index_.fan_factor a.model_id_))
        · rfl
        · simp only [Bool.and_eq_true, decide_eq_true_eq] at hc
          exact absurd hc hnr
      unfold split_node_obtain
      simp only []
      rw [split_node_load_resident _ _ _ _ _ _ hhost, hfit]
      simp only [if_true]
      exact ⟨split_node_transfer_unfit_flag _ _ _ _ hng, split_node_transfer_unfit _ _ _ _⟩
    · have hflag : (split_node_load a.model_id_ (error_priority a.error_)
          (decide (p.ooc_cache_.num_free_slots ≥ p.index_.fan_factor a.model_id_))
          (p.index_.get_all_children a.model_id_ a.node_id_) (p.ooc_cache_, true)).2 = false := by
        cases hf : (split_node_load a.model_id_ (error_priority a.error_)
          (decide (p.ooc_cache_.num_free_slots ≥ p.index_.fan_factor a.model_id_))
          (p.index_.get_all_children a.model_id_ a.node_id_) (p.ooc_cache_, true)).2
        · rfl
        · exact absurd ((split_node_load_spec _ _ _ _ _ _).2 hf).2.2 hhost
      unfold split_node_obtain
      simp only [hflag, Bool.false_eq_true, if_false]
      exact ⟨trivial, trivial⟩
  · unfold split_node_obtain
    simp only []
    split <;> exact split_node_load_same_holders _ _ _ _ _ _
  · unfold split_node_obtain
    simp only []
    split
    · obtain ⟨h1, k, hk, h2, h3⟩ := split_node_transfer_count a.model_id_
        (decide (p.gpu_cache_.transfer_budget ≥ p.index_.fan_factor a.model_id_)
          && decide (p.gpu_cache_.num_free_slots ≥ p.index_.fan_factor a.model_id_))
        (p.index_.get_all_children a.model_id_ a.node_id_) p.gpu_cache_ true
      exact ⟨h1, k, by rw [← hlen]; exact hk, h2, h3⟩
    · exact ⟨cache_slots.same_holders_refl _, 0, Nat.zero_le _, rfl, rfl⟩

end cut_update_pool
namespace cut_update_pool

/-- The children acquired and the split approved, then `collapse_node` on the same
node: when no child was acquired by the view before, both slot arrays are as
before the acquisitions, and the collapse is approved. -/
theorem collapse_after_aquire (q : cut_update_pool) (a a' : action)
    (hn : 1 ≤ a.node_id_) (hinv : a.node_id_ ≠ invalid_node_t)
    (ha' : a'.view_id_ = a.view_id_ ∧ a'.model_id_ = a.model_id_ ∧ a'.node_id_ = a.node_id_)
    (hfresh : ∀ c ∈ q.index_.get_all_children a.model_id_ a.node_id_,
      q.gpu_cache_.slots_.is_node_aquired q.context_id_ a.view_id_ a.model_id_ c = false ∧
      q.ooc_cache_.slots_.is_node_aquired q.context_id_ a.view_id_ a.model_id_ c = false) :
    (collapse_node (approve (aquire_children q a.view_id_ a.model_id_
        (q.index_.get_all_children a.model_id_ a.node_id_)) a) a').gpu_cache_.slots_
      = q.gpu_cache_.slots_ ∧
    (collapse_node (approve (aquire_children q a.view_id_ a.model_id_
        (q.index_.get_all_children a.model_id_ a.node_id_)) a) a').ooc_cache_.slots_
      = q.ooc_cache_.slots_ ∧
    (collapse_node (approve (aquire_children q a.view_id_ a.model_id_
        (q.index_.get_all_children a.model_id_ a.node_id_)) a) a').index_
      = (approve (aquire_children q a.view_id_ a.model_id_
          (q.index_.get_all_children a.model_id_ a.node_id_)) a).index_.approve_action a' := by
  obtain ⟨S, hS⟩ : ∃ S, S = approve (aquire_children q a.view_id_ a.model_id_
      (q.index_.get_all_children a.model_id_ a.node_id_)) a := ⟨_, rfl⟩
  rw [← hS]
  have hguard : (decide (a'.node_id_ < 1) || a'.node_id_ == invalid_node_t) = false := by
    rw [ha'.2.2]
    have h1 : ¬ a.node_id_ < 1 := by omega
    simp [h1, hinv]
  have hidx : S.index_ = q.index_.approve_action a := by
    rw [hS]; simp [approve]
  have hch : S.index_.get_all_children a'.model_id_ a'.node_id_
      = q.index_.get_all_children a.model_id_ a.node_id_ := by
    rw [ha'.2.1, ha'.2.2, hidx, cut_update_index.approve_action_eq]
    exact cut_update_index.get_all_children_congr _ _ rfl rfl _ _
  have hctx : S.context_id_ = q.context_id_ := by
    rw [hS]; simp [approve]
  obtain ⟨s1, s2, _⟩ := aquire_children_slots a.view_id_ a.model_id_
    (q.index_.get_all_children a.model_id_ a.node_id_) q
  have hSg : S.gpu_cache_.slots_ = q.gpu_cache_.slots_.map (Option.map (fun e =>
      e.aquire_all q.context_id_ a.view_id_ a.model_id_
        (q.index_.get_all_children a.model_id_ a.node_id_))) := by
    rw [hS]; exact s1
  have hSo : S.ooc_cache_.slots_ = q.ooc_cache_.slots_.map (Option.map (fun e =>
      e.aquire_all q.context_id_ a.view_id_ a.model_id_
        (q.index_.get_all_children a.model_id_ a.node_id_))) := by
    rw [hS]; exact s2
  have e : collapse_node S a' = approve (release_children S a'.view_id_ a'.model_id_
      (S.index_.get_all_children a'.model_id_ a'.node_id_)) a' := by
    unfold collapse_node
    rw [hguard]
    simp
  obtain ⟨r1, r2, _⟩ := release_children_slots a'.view_id_ a'.model_id_
    (S.index_.get_all_children a'.model_id_ a'.node_id_) S
  rw [e]
  refine ⟨?_, ?_, by simp [approve]⟩
  · show (release_children S a'.view_id_ a'.model_id_ _).gpu_cache_.slots_ = _
    rw [r1, hch, hctx, ha'.1, ha'.2.1, hSg]
    exact cache_slots.release_all_aquire_all _ _ _ _ _ (fun n hn' => (hfresh n hn').1)
  · show (release_children S a'.view_id_ a'.model_id_ _).ooc_cache_.slots_ = _
    rw [r2, hch, hctx, ha'.1, ha'.2.1, hSo]
    exact cache_slots.release_all_aquire_all _ _ _ _ _ (fun n hn' => (hfresh n hn').2)

end cut_update_pool

/-! ## A previous cut that is the children of the root, out of sight -/

namespace cut_update_pool

/-- The collapse kinds. -/
theorem group_collapse_kind_cases (cfg : config) (inp : frame_input) (p : cut_update_pool)
    (v m parent : Nat) (siblings : List Nat) :
    p.group_collapse_kind cfg inp v m parent siblings ≠ queue_t.KEEP ∧
    p.group_collapse_kind cfg inp v m parent siblings ≠ queue_t.MUST_SPLIT := by
  unfold group_collapse_kind
  constructor <;> (repeat' split) <;> decide

/-- A sibling outside the frustum asks for no split. -/
theorem sibling_splits_hidden (inp : frame_input) (p : cut_update_pool) (v m : Nat)
    (t1 t2 : ℚ) (s : Nat) (h : inp.node_in_frustum v m s = false) :
    sibling_splits inp p v m t1 t2 s = false := by
  unfold sibling_splits
  rw [h]
  simp

/-- The actions of a complete sibling group whose parent or whose nodes are all
outside the frustum: one collapse into the parent. -/
theorem analyse_group_hidden (cfg : config) (inp : frame_input) (p : cut_update_pool)
    (v m parent : Nat) (siblings : List Nat) (pe : ℚ)
    (hlen : siblings.length = p.index_.fan_factor m)
    (hhid : inp.node_in_frustum v m parent = false ∨
      ∀ s ∈ siblings, inp.node_in_frustum v m s = false) :
    analyse_group cfg inp p v m parent siblings pe (p.min_error_threshold m)
        (p.max_error_threshold m) (!(inp.node_in_frustum v m parent)) (freshness_timeout cfg p m)
      = [{ queue_ := p.group_collapse_kind cfg inp v m parent siblings, view_id_ := v,
           model_id_ := m, node_id_ := parent, error_ := pe }] := by
  unfold group_collapse_kind
  cases hf : inp.node_in_frustum v m parent with
  | false =>
    unfold analyse_group
    cases cfg.LAMURE_CUT_UPDATE_MUST_COLLAPSE_OUTSIDE_FRUSTUM <;> simp
  | true =>
    have hsib : ∀ s ∈ siblings, inp.node_in_frustum v m s = false := by
      rcases hhid with h | h
      · rw [hf] at h; exact absurd h (by decide)
      · exact h
    have hns : ∀ s ∈ siblings,
        sibling_splits inp p v m (p.min_error_threshold m) (p.max_error_threshold m) s = false :=
      fun s hs => sibling_splits_hidden inp p v m _ _ s (hsib s hs)
    cases ht : freshness_timeout cfg p m with
    | true =>
      rw [analyse_group_timeout]
      simp
    | false =>
      obtain ⟨c1, c2, _⟩ := analyse_group_visible cfg inp p v m parent siblings pe
        (p.min_error_threshold m) (p.max_error_threshold m) hlen
      by_cases hlow : ∀ s ∈ siblings, inp.node_error v m s < p.min_error_threshold m
      · simp only [Bool.not_true, c1 hns hlow, Bool.true_eq_false, Bool.false_eq_true, if_false]
        rw [if_pos hlow]
      · have hhigh : ∃ s ∈ siblings, inp.node_error v m s ≥ p.min_error_threshold m := by
          by_contra hcon
          apply hlow
          intro s hs
          by_contra hge
          exact hcon ⟨s, hs, not_lt.mp hge⟩
        simp only [Bool.not_true, c2 hns hhigh, Bool.true_eq_false, Bool.false_eq_true,
          if_false]
        rw [if_neg hlow]

end cut_update_pool

namespace cut_update_pool

/-- One analysis task and the invariant of a view and model `(v, m)` whose
previous cut is the children of the root, out of sight: the task of `(v, m)`
establishes it, any other task keeps it. -/
theorem cut_analysis_root_group (cfg : config) (inp : frame_input) (p : cut_update_pool)
    (v m v' m' : Nat) (hF : 1 ≤ p.index_.fan_factor m)
    (hvalid : ∀ i, i < p.index_.fan_factor m →
      0 * p.index_.fan_factor m + 1 + i < p.index_.num_nodes m)
    (hninv : ∀ c ∈ p.index_.get_all_children m 0, c ≠ invalid_node_t)
    (hprev : p.index_.get_previous_cut v m = p.index_.get_all_children m 0)
    (hhid : inp.node_in_frustum v m 0 = false ∨
      ∀ c ∈ p.index_.get_all_children m 0, inp.node_in_frustum v m c = false)
    (hG : only_root_collapses v m p.index_)
    (hst : (v' = v ∧ m' = m) ∨ root_group_invariant v m p.index_) :
    root_group_invariant v m (cut_analysis cfg inp p v' m').index_ := by
  obtain ⟨t1, t2, _⟩ := cut_analysis_tree cfg inp p v' m'
  have hfan : (cut_analysis cfg inp p v' m').index_.fan_factor m = p.index_.fan_factor m := by
    unfold cut_update_index.fan_factor; rw [t1]
  have hnum : (cut_analysis cfg inp p v' m').index_.num_nodes m = p.index_.num_nodes m := by
    unfold cut_update_index.num_nodes; rw [t2]
  have hch : (cut_analysis cfg inp p v' m').index_.get_all_children m 0
      = p.index_.get_all_children m 0 :=
    cut_update_index.get_all_children_congr p.index_ _ t1 t2 m 0
  have hval : ∀ i, i < (cut_analysis cfg inp p v' m').index_.fan_factor m →
      0 * (cut_analysis cfg inp p v' m').index_.fan_factor m + 1 + i
        < (cut_analysis cfg inp p v' m').index_.num_nodes m := by
    rw [hfan, hnum]; exact hvalid
  by_cases hj : v' = v ∧ m' = m
  · obtain ⟨rfl, rfl⟩ := hj
    have hlen : (p.index_.get_all_children m' 0).length = p.index_.fan_factor m' := by
      simp [cut_update_index.get_all_children]
    have hA : p.analysis_actions cfg inp v' m'
        = [{ queue_ := p.group_collapse_kind cfg inp v' m' 0 (p.index_.get_all_children m' 0),
             view_id_ := v', model_id_ := m', node_id_ := 0,
             error_ := inp.node_error v' m' 0 }] := by
      rw [root_group_analysis cfg inp p v' m' hF hvalid hninv hprev]
      exact analyse_group_hidden cfg inp p v' m' 0 _ _ hlen hhid
    obtain ⟨A, hAdef⟩ : ∃ A : action, A =
        { queue_ := p.group_collapse_kind cfg inp v' m' 0 (p.index_.get_all_children m' 0),
          view_id_ := v', model_id_ := m', node_id_ := 0,
          error_ := inp.node_error v' m' 0 } := ⟨_, rfl⟩
    rw [← hAdef] at hA
    have hAq : A.queue_ ≠ queue_t.KEEP ∧ A.queue_ ≠ queue_t.MUST_SPLIT := by
      rw [hAdef]; exact group_collapse_kind_cases cfg inp p v' m' 0 _
    have hAn : A.node_id_ = 0 := by rw [hAdef]
    have hAvm : action_of v' m' A := by rw [hAdef]; exact ⟨rfl, rfl⟩
    have hidx : (cut_analysis cfg inp p v' m').index_
        = (p.index_.reset_cut v' m').push_action A false := by
      show (p.analysis_actions cfg inp v' m').foldl _ _ = _
      rw [hA]
      rfl
    refine ⟨?_, hval, ?_, ?_⟩
    · intro q a ha hvm
      rw [hidx] at ha
      simp only [cut_update_index.push_action, cut_update_index.reset_cut, set_queue] at ha
      split at ha
      · rename_i e
        rcases List.mem_append.mp ha with h | h
        · exact hG q a (by rw [e]; exact h) hvm
        · rw [List.mem_singleton.mp h]
          exact ⟨e.symm, hAn, by rw [e]; exact hAq.1, by rw [e]; exact hAq.2⟩
      · exact hG q a ha hvm
    · left
      rw [hidx]
      simp [cut_update_index.get_current_cut, cut_update_index.push_action,
        cut_update_index.reset_cut, set_cut]
    · right
      refine ⟨A, ?_, hAvm⟩
      rw [cut_update_index.mem_all_actions]
      refine ⟨A.queue_, ?_⟩
      rw [hidx]
      simp [cut_update_index.push_action, set_queue]
  · have hinv : root_group_invariant v m p.index_ := by
      rcases hst with h | h
      · exact absurd h hj
      · exact h
    obtain ⟨_, _, _, o4, _⟩ := cut_analysis_other cfg inp p v m v' m' hj
    refine ⟨?_, hval, ?_, ?_⟩
    · intro q a ha hvm
      rw [cut_analysis_index] at ha
      rcases cut_update_index.push_actions_queues _ _ q a ha with h | ⟨h, _⟩
      · exact hG q a h hvm
      · exfalso
        have hof := cut_analysis_actions_of _ _ _ _ _ _ _ _ _ a h
        exact hj ⟨hof.1.symm.trans hvm.1, hof.2.symm.trans hvm.2⟩
    · rw [o4, hch]
      exact hinv.cut
    · rw [o4, hch]
      rcases hinv.pending with h | ⟨a, ha, hvm⟩
      · exact Or.inl h
      · right
        refine ⟨a, ?_, hvm⟩
        rw [cut_update_index.mem_all_actions] at ha ⊢
        obtain ⟨q, hq⟩ := ha
        refine ⟨q, ?_⟩
        rw [cut_analysis_index]
        exact cut_update_index.push_actions_mono _ _ q a hq

/-- After the analysis tasks, the invariant holds of a view and model among them
whose previous cut is the children of the root, out of sight. -/
theorem run_analysis_root_group (cfg : config) (inp : frame_input) (v m : Nat) :
    ∀ (jobs : List (Nat × Nat)) (p : cut_update_pool),
      1 ≤ p.index_.fan_factor m →
      (∀ i, i < p.index_.fan_factor m →
        0 * p.index_.fan_factor m + 1 + i < p.index_.num_nodes m) →
      (∀ c ∈ p.index_.get_all_children m 0, c ≠ invalid_node_t) →
      p.index_.get_previous_cut v m = p.index_.get_all_children m 0 →
      (inp.node_in_frustum v m 0 = false ∨
        ∀ c ∈ p.index_.get_all_children m 0, inp.node_in_frustum v m c = false) →
      only_root_collapses v m p.index_ →
      ((v, m) ∈ jobs ∨ root_group_invariant v m p.index_) →
      root_group_invariant v m (run_analysis cfg inp p jobs).index_ := by
  intro jobs
  induction jobs with
  | nil =>
    intro p _ _ _ _ _ _ hst
    rcases hst with h | h
    · simp at h
    · exact h
  | cons job jobs ih =>
    intro p hF hvalid hninv hprev hhid hG hst
    obtain ⟨t1, t2, t3⟩ := cut_analysis_tree cfg inp p job.1 job.2
    have hch : (cut_analysis cfg inp p job.1 job.2).index_.get_all_children m 0
        = p.index_.get_all_children m 0 :=
      cut_update_index.get_all_children_congr p.index_ _ t1 t2 m 0
    have hfan : (cut_analysis cfg inp p job.1 job.2).index_.fan_factor m
        = p.index_.fan_factor m := by
      unfold cut_update_index.fan_factor; rw [t1]
    have hnum : (cut_analysis cfg inp p job.1 job.2).index_.num_nodes m
        = p.index_.num_nodes m := by
      unfold cut_update_index.num_nodes; rw [t2]
    have hprev' : (cut_analysis cfg inp p job.1 job.2).index_.get_previous_cut v m
        = p.index_.get_previous_cut v m := by
      unfold cut_update_index.get_previous_cut; rw [t3]
    by_cases hj : job.1 = v ∧ job.2 = m
    · have hinv := cut_analysis_root_group cfg inp p v m job.1 job.2 hF hvalid hninv hprev
        hhid hG (Or.inl hj)
      rw [run_analysis]
      exact ih _ (by rw [hfan]; exact hF) (by rw [hfan, hnum]; exact hvalid)
        (by rw [hch]; exact hninv) (by rw [hprev', hch]; exact hprev)
        (by rw [hch]; exact hhid) hinv.collapses (Or.inr hinv)
    · have hmem : (v, m) ∈ jobs ∨ root_group_invariant v m p.index_ := by
        rcases hst with h | h
        · rcases List.mem_cons.mp h with h' | h'
          · exact absurd ⟨(congrArg Prod.fst h').symm, (congrArg Prod.snd h').symm⟩ hj
          · exact Or.inl h'
        · exact Or.inr h
      have hG' : only_root_collapses v m (cut_analysis cfg inp p job.1 job.2).index_ := by
        intro q a ha hvm
        rw [cut_analysis_index] at ha
        rcases cut_update_index.push_actions_queues _ _ q a ha with h | ⟨h, _⟩
        · exact hG q a h hvm
        · exfalso
          have hof := cut_analysis_actions_of _ _ _ _ _ _ _ _ _ a h
          exact hj ⟨hof.1.symm.trans hvm.1, hof.2.symm.trans hvm.2⟩
      rw [run_analysis]
      refine ih _ (by rw [hfan]; exact hF) (by rw [hfan, hnum]; exact hvalid)
        (by rw [hch]; exact hninv) (by rw [hprev', hch]; exact hprev)
        (by rw [hch]; exact hhid) hG' ?_
      rcases hmem with h | h
      · exact Or.inl h
      · exact Or.inr (cut_analysis_root_group cfg inp p v m job.1 job.2 hF hvalid hninv hprev
          hhid hG (Or.inr h))

end cut_update_pool

/-- Inserting nodes that a set holds leaves the set as it is. -/
theorem set_insert_all_present :
    ∀ (ns s : List Nat), (∀ n ∈ ns, n ∈ s) → set_insert_all ns s = s := by
  intro ns
  induction ns with
  | nil => intro s _; rfl
  | cons n ns ih =>
    intro s h
    have e : set_insert n s = s := by
      unfold set_insert
      rw [if_pos (h n (List.mem_cons_self _ _))]
    show (n :: ns).foldl (fun acc n => set_insert n acc) s = s
    rw [List.foldl_cons, e]
    exact ih s (fun k hk => h k (List.mem_cons_of_mem _ hk))

/-- Every transition of `cut_update` resolves one queued action on the index: the
action is rejected, or it is approved, and approved it is the front split, the
front keep or a collapse into a node other than the root. -/
theorem update_step_resolves (p p' : cut_update_pool) (h : update_step p p') :
    ∃ q a rest, List.Perm (p.index_.action_queues_ q) (a :: rest) ∧
      (p'.index_ = (p.index_.with_queue q rest).add_to_current_cut a.view_id_ a.model_id_
          (p.index_.rejected_nodes a) ∨
        ((q = queue_t.MUST_SPLIT ∨ q = queue_t.KEEP ∨ 1 ≤ a.node_id_) ∧
          p'.index_ = (p.index_.with_queue q rest).add_to_current_cut a.view_id_ a.model_id_
            (p.index_.approved_nodes a))) := by
  cases h with
  | resident a h hres =>
    obtain ⟨hp, he⟩ := cut_update_index.front_action_perm _ _ _ h
    refine ⟨queue_t.MUST_SPLIT, a, _, hp, Or.inr ⟨Or.inl rfl, ?_⟩⟩
    simp [cut_update_pool.approve, he, cut_update_index.approve_action_eq]
  | split a h hfit =>
    obtain ⟨hp, he⟩ := cut_update_index.front_action_perm _ _ _ h
    refine ⟨queue_t.MUST_SPLIT, a, _, hp, ?_⟩
    rcases cut_update_pool.split_node_index (p.pop_front queue_t.MUST_SPLIT) a with h1 | h1
    · right
      refine ⟨Or.inl rfl, ?_⟩
      rw [h1]
      simp [he, cut_update_index.approve_action_eq]
    · left
      rw [h1]
      simp [he, cut_update_index.reject_action_eq]
  | collapse_front q a hq h =>
    obtain ⟨hp, he⟩ := cut_update_index.front_action_perm _ _ _ h
    refine ⟨q, a, _, hp, ?_⟩
    rw [cut_update_pool.collapse_node_index]
    simp only [cut_update_pool.pop_front_index, he,
      cut_update_index.with_queue_collapsed_nodes]
    unfold cut_update_index.collapsed_nodes
    split
    · left; rfl
    · rename_i hc
      right
      refine ⟨Or.inr (Or.inr ?_), rfl⟩
      simp only [Bool.or_eq_true, decide_eq_true_eq, not_or, not_lt] at hc
      exact hc.1
  | collapse_back q a hq h =>
    obtain ⟨hp, he⟩ := cut_update_index.back_action_perm _ _ _ h
    refine ⟨q, a, _, hp, ?_⟩
    rw [cut_update_pool.collapse_node_index]
    simp only [cut_update_pool.pop_back_index, he,
      cut_update_index.with_queue_collapsed_nodes]
    unfold cut_update_index.collapsed_nodes
    split
    · left; rfl
    · rename_i hc
      right
      refine ⟨Or.inr (Or.inr ?_), rfl⟩
      simp only [Bool.or_eq_true, decide_eq_true_eq, not_or, not_lt] at hc
      exact hc.1
  | reject_front q a h =>
    obtain ⟨hp, he⟩ := cut_update_index.front_action_perm _ _ _ h
    refine ⟨q, a, _, hp, Or.inl ?_⟩
    rw [cut_update_pool.reject_index]
    simp [he]
  | approve_front q a hq h =>
    obtain ⟨hp, he⟩ := cut_update_index.front_action_perm _ _ _ h
    refine ⟨q, a, _, hp, Or.inr ⟨Or.inr (Or.inl hq), ?_⟩⟩
    rw [cut_update_pool.approve_index]
    simp [he]

/-- A transition of `cut_update` keeps the invariant of a view and model whose
previous cut is the children of the root, out of sight: the collapse into the
root is rejected. -/
theorem root_group_invariant_step (v m : Nat) (p p' : cut_update_pool)
    (hstep : update_step p p') (h : root_group_invariant v m p.index_) :
    root_group_invariant v m p'.index_ := by
  obtain ⟨k1, k2, k3, k4⟩ := h
  have hi := update_step_index _ _ hstep
  obtain ⟨t1, t2⟩ := index_step_tree _ _ hi
  have hsub := index_step_queues _ _ hi
  have hfan : p'.index_.fan_factor m = p.index_.fan_factor m := by
    unfold cut_update_index.fan_factor; rw [t1]
  have hnum : p'.index_.num_nodes m = p.index_.num_nodes m := by
    unfold cut_update_index.num_nodes; rw [t2]
  have hch : p'.index_.get_all_children m 0 = p.index_.get_all_children m 0 :=
    cut_update_index.get_all_children_congr p.index_ _ t1 t2 m 0
  have hsorted : (p.index_.get_all_children m 0).Pairwise (fun x y => x < y) :=
    cut_update_index.get_all_children_sorted p.index_ m 0 k2
  have hcol : only_root_collapses v m p'.index_ :=
    fun q a ha hvm => k1 q a (hsub q a ha) hvm
  have hval : ∀ i, i < p'.index_.fan_factor m →
      0 * p'.index_.fan_factor m + 1 + i < p'.index_.num_nodes m := by
    rw [hfan, hnum]; exact k2
  obtain ⟨q, a, rest, hp, he⟩ := update_step_resolves _ _ hstep
  have haq : a ∈ p.index_.action_queues_ q := hp.symm.subset (List.mem_cons_self _ _)
  have hperm := cut_update_index.all_actions_perm_remove p.index_ q a rest hp
  have hall' : p'.index_.all_actions = (p.index_.with_queue q rest).all_actions := by
    rcases he with he | ⟨_, he⟩ <;> rw [he] <;> rfl
  by_cases hvm : action_of v m a
  · obtain ⟨hk, hn, hq1, hq2⟩ := k1 q a haq hvm
    have hrej : p.index_.rejected_nodes a = p.index_.get_all_children m 0 := by
      unfold cut_update_index.rejected_nodes
      rw [hvm.2, hn]
      cases hq : a.queue_ with
      | KEEP => rw [hk] at hq; exact absurd hq hq1
      | MUST_SPLIT => rw [hk] at hq; exact absurd hq hq2
      | MUST_COLLAPSE => rfl
      | COLLAPSE_ON_NEED => rfl
      | MAYBE_COLLAPSE => rfl
    have e : p'.index_ = (p.index_.with_queue q rest).add_to_current_cut a.view_id_
        a.model_id_ (p.index_.get_all_children m 0) := by
      rcases he with he | ⟨hc, _⟩
      · rw [he, hrej]
      · rcases hc with hc | hc | hc
        · exact absurd hc hq2
        · exact absurd hc hq1
        · omega
    have hcut : p'.index_.get_current_cut v m = p.index_.get_all_children m 0 := by
      rw [e]
      unfold cut_update_index.add_to_current_cut cut_update_index.get_current_cut set_cut
      simp only [hvm.1, hvm.2, and_self, if_true]
      have hc0 : (p.index_.with_queue q rest).current_cut_ v m = p.index_.get_current_cut v m :=
        rfl
      rw [hc0]
      rcases k3 with k3 | k3
      · rw [k3]
        simpa using set_insert_all_ascending (p.index_.get_all_children m 0) []
          (by simpa using hsorted)
      · rw [k3]
        exact set_insert_all_present _ _ (fun n hn => hn)
    exact ⟨hcol, hval, Or.inr (by rw [hcut, hch]), Or.inl (by rw [hcut, hch])⟩
  · have hcut : p'.index_.get_current_cut v m = p.index_.get_current_cut v m := by
      have hne : ¬ (v = a.view_id_ ∧ m = a.model_id_) :=
        fun hh => hvm ⟨hh.1.symm, hh.2.symm⟩
      rcases he with he | ⟨_, he⟩ <;> rw [he] <;>
        unfold cut_update_index.add_to_current_cut cut_update_index.get_current_cut set_cut <;>
        simp only [hne, if_false] <;> rfl
    refine ⟨hcol, hval, by rw [hcut, hch]; exact k3, ?_⟩
    rw [hcut, hch]
    rcases k4 with k4 | ⟨b, hb, hbvm⟩
    · exact Or.inl k4
    · right
      refine ⟨b, ?_, hbvm⟩
      rw [hall']
      rcases List.mem_cons.mp (hperm.subset hb) with hba | hb'
      · rw [hba] at hbvm
        exact absurd hbvm hvm
      · exact hb'

/-- A transition of `cut_update` releases no node for a view and model whose
previous cut is the children of the root, out of sight. -/
theorem root_group_held_step (v m : Nat) (p p' : cut_update_pool)
    (hstep : update_step p p') (h : root_group_invariant v m p.index_) (x : Nat)
    (hx : p.node_held v m x) : p'.node_held v m x := by
  have h' := root_group_invariant_step v m p p' hstep h
  obtain ⟨q, a, rest, hp, hc⟩ := update_step_pool _ _ hstep
  have haq : a ∈ p.index_.action_queues_ q := hp.symm.subset (List.mem_cons_self _ _)
  rcases hc with ⟨_, hk⟩ | ⟨_, _, hk⟩ | ⟨_, _, hk, _⟩ | ⟨_, hq2, hidx, hk⟩
  · exact cut_update_pool.node_held_of_keeps p p' _ _ _ hk v m x hx (by simp)
  · exact cut_update_pool.node_held_of_keeps p p' _ _ _ hk v m x hx (by simp)
  · exact cut_update_pool.node_held_of_keeps p p' _ _ _ hk v m x hx (by simp)
  · refine cut_update_pool.node_held_of_keeps p p' _ _ _ hk v m x hx ?_
    rintro ⟨hv, hm, _⟩
    have hvm : action_of v m a := ⟨hv.symm, hm.symm⟩
    obtain ⟨hkq, hn, _, _⟩ := h.collapses q a haq hvm
    have happ : p.index_.approved_nodes a = [0] := by
      unfold cut_update_index.approved_nodes
      rw [hn]
      cases hq : a.queue_ with
      | MUST_SPLIT => rw [hkq] at hq; exact absurd hq hq2
      | KEEP => rfl
      | MUST_COLLAPSE => rfl
      | COLLAPSE_ON_NEED => rfl
      | MAYBE_COLLAPSE => rfl
    have h0 : 0 ∈ p'.index_.get_current_cut v m := by
      rw [hidx, happ, cut_update_index.mem_add_to_current_cut]
      exact Or.inr ⟨hv, hm, List.mem_singleton.mpr rfl⟩
    rcases h'.cut with hc | hc
    · rw [hc] at h0
      simp at h0
    · rw [hc] at h0
      exact cut_update_index.zero_not_child _ _ _ h0

/-- A sequence of transitions of `cut_update` keeps the invariant of a view and
model whose previous cut is the children of the root, out of sight, and releases
no node for them. -/
theorem root_group_invariant_steps (v m : Nat) (p p' : cut_update_pool)
    (hs : Relation.ReflTransGen update_step p p') (h : root_group_invariant v m p.index_) :
    root_group_invariant v m p'.index_ ∧ ∀ x, p.node_held v m x → p'.node_held v m x := by
  induction hs with
  | refl => exact ⟨h, fun _ hx => hx⟩
  | tail _ hstep ih =>
    exact ⟨root_group_invariant_step v m _ _ hstep ih.1,
      fun x hx => root_group_held_step v m _ _ hstep ih.1 x (ih.2 x hx)⟩

namespace cut_update_pool

/-- The analysis tasks touch the index only. -/
theorem run_analysis_caches (cfg : config) (inp : frame_input) :
    ∀ (jobs : List (Nat × Nat)) (p : cut_update_pool),
      (run_analysis cfg inp p jobs).ooc_cache_ = p.ooc_cache_ ∧
      (run_analysis cfg inp p jobs).gpu_cache_ = p.gpu_cache_ ∧
      (run_analysis cfg inp p jobs).context_id_ = p.context_id_ := by
  intro jobs
  induction jobs with
  | nil => intro p; exact ⟨rfl, rfl, rfl⟩
  | cons job jobs ih =>
    intro p
    rw [run_analysis]
    exact ih (cut_analysis cfg inp p job.1 job.2)

end cut_update_pool

/-- `sort()` keeps the invariant of a view and model whose previous cut is the
children of the root, out of sight. -/
theorem root_group_invariant_sort (v m : Nat) (idx : cut_update_index)
    (h : root_group_invariant v m idx) : root_group_invariant v m idx.sort := by
  obtain ⟨k1, k2, k3, k4⟩ := h
  refine ⟨?_, k2, k3, ?_⟩
  · intro q a ha hvm
    rw [cut_update_index.mem_sort_queues] at ha
    exact k1 q a ha hvm
  · rcases k4 with k4 | ⟨a, ha, hvm⟩
    · exact Or.inl k4
    · right
      refine ⟨a, ?_, hvm⟩
      rw [cut_update_index.mem_all_actions] at ha ⊢
      obtain ⟨q, hq⟩ := ha
      exact ⟨q, (cut_update_index.mem_sort_queues idx q a).mpr hq⟩

namespace cut_update_pool

/-- A frame with a view and model among its tasks whose previous cut is the
children of the root, with the root or all those children outside the frustum:
the frame returns with the children of the root as the current cut of the pair
and with every node that was held for the view still held. -/
theorem root_group_frame (cfg : config) (inp : frame_input) (p : cut_update_pool)
    (jobs : List (Nat × Nat)) (v m : Nat) (hvm : (v, m) ∈ jobs)
    (hF : 1 ≤ p.index_.fan_factor m)
    (hvalid : ∀ i, i < p.index_.fan_factor m →
      0 * p.index_.fan_factor m + 1 + i < p.index_.num_nodes m)
    (hninv : ∀ c ∈ p.index_.get_all_children m 0, c ≠ invalid_node_t)
    (hprev : p.index_.get_previous_cut v m = p.index_.get_all_children m 0)
    (hhid : inp.node_in_frustum v m 0 = false ∨
      ∀ c ∈ p.index_.get_all_children m 0, inp.node_in_frustum v m c = false)
    (hq : ∀ a ∈ p.index_.all_actions, ¬ action_of v m a) :
    ∃ P, analysis_and_update cfg inp p jobs = some P ∧
      P.index_.get_current_cut v m = p.index_.get_all_children m 0 ∧
      ∀ x, p.node_held v m x → P.node_held v m x := by
  have hG : only_root_collapses v m p.index_ := by
    intro q a ha hvm'
    exact absurd hvm' (hq a ((cut_update_index.mem_all_actions _ _).mpr ⟨q, ha⟩))
  have i1 := run_analysis_root_group cfg inp v m jobs p hF hvalid hninv hprev hhid hG
    (Or.inl hvm)
  obtain ⟨f1, f2, f3⟩ := run_analysis_caches cfg inp jobs p
  obtain ⟨p1, hp1⟩ : ∃ p1, p1 = run_analysis cfg inp p jobs := ⟨_, rfl⟩
  rw [← hp1] at i1 f1 f2 f3
  obtain ⟨p2, hp2⟩ : ∃ p2, p2 = refreshed inp { p1 with index_ := p1.index_.sort } :=
    ⟨_, rfl⟩
  have hidx2 : p2.index_ = p1.index_.sort := by rw [hp2]; rfl
  have inv2 : root_group_invariant v m p2.index_ := by
    rw [hidx2]; exact root_group_invariant_sort v m _ i1
  have hheld1 : ∀ x, p.node_held v m x → p2.node_held v m x := by
    intro x hx
    rw [hp2]
    apply node_held_refreshed
    unfold node_held at hx ⊢
    simp only []
    rw [f1, f2, f3]
    exact hx
  obtain ⟨p3, e, steps, hdone⟩ := cut_update_spec inp { p1 with index_ := p1.index_.sort }
  rw [← hp2] at steps
  obtain ⟨inv3, held3⟩ := root_group_invariant_steps v m p2 p3 steps inv2
  have hall : p3.index_.all_actions = [] := by
    simp [cut_update_index.all_actions, hdone]
  have htree : p3.index_.get_all_children m 0 = p.index_.get_all_children m 0 := by
    obtain ⟨_, j2, j3⟩ : True ∧ p3.index_.fan_factors_ = p2.index_.fan_factors_ ∧
        p3.index_.num_nodes_ = p2.index_.num_nodes_ := by
      refine ⟨trivial, ?_⟩
      clear inv3 held3 hall hdone e
      induction steps with
      | refl => exact ⟨rfl, rfl⟩
      | tail _ hstep ih =>
        obtain ⟨t1, t2⟩ := index_step_tree _ _ (update_step_index _ _ hstep)
        exact ⟨t1.trans ih.1, t2.trans ih.2⟩
    have e2 : p2.index_.get_all_children m 0 = p.index_.get_all_children m 0 := by
      rw [hidx2]
      have hrun : ∀ (jobs : List (Nat × Nat)) (p : cut_update_pool),
          (run_analysis cfg inp p jobs).index_.fan_factors_ = p.index_.fan_factors_ ∧
          (run_analysis cfg inp p jobs).index_.num_nodes_ = p.index_.num_nodes_ := by
        intro jobs
        induction jobs with
        | nil => intro p; exact ⟨rfl, rfl⟩
        | cons job jobs ih =>
          intro p
          obtain ⟨t1, t2, _⟩ := cut_analysis_tree cfg inp p job.1 job.2
          rw [run_analysis]
          exact ⟨(ih _).1.trans t1, (ih _).2.trans t2⟩
      have := hrun jobs p
      rw [← hp1] at this
      exact cut_update_index.get_all_children_congr p.index_ p1.index_.sort this.1 this.2 m 0
    rw [cut_update_index.get_all_children_congr p2.index_ p3.index_ j2 j3, e2]
  refine ⟨compile_transfer_list inp p3.compile_render_list, ?_, ?_, ?_⟩
  · unfold analysis_and_update
    simp only []
    rw [← hp1]
    exact e
  · show p3.index_.get_current_cut v m = _
    rcases inv3.pending with h | ⟨a, ha, _⟩
    · rw [h, htree]
    · rw [hall] at ha
      simp at ha
  · intro x hx
    apply node_held_compiled
    exact held3 x (hheld1 x hx)

end cut_update_pool

/-! ## Registrations in the host cache without transfer budget -/

namespace ooc_cache

/-- With a free slot, a registration in the host cache leaves the node with an
entry and takes at most one slot. -/
theorem register_node_entry (c : ooc_cache) (m n : Nat) (pr : Int)
    (h : 0 < c.num_free_slots) :
    (c.register_node m n pr).slots_.is_node_indexed m n = true ∧
      c.num_free_slots ≤ (c.register_node m n pr).num_free_slots + 1 := by
  unfold register_node
  split
  · rename_i hi
    exact ⟨hi, Nat.le_succ _⟩
  · obtain ⟨s', h1, h2, h3⟩ := cache_slots.place_of_free
      { model_id := m, node_id := n, loaded := false, priority := pr, holders := [] }
      c.slots_ h
    rw [h1]
    refine ⟨?_, ?_⟩
    · simp only []
      rw [cache_slots.is_node_indexed_iff]
      exact ⟨_, (h2 _).2 (Or.inl rfl), rfl, rfl⟩
    · show c.slots_.num_free_slots ≤ s'.num_free_slots + 1
      omega

end ooc_cache

namespace cut_update_pool

/-- The load loop of `split_node` leaves the host cache as it is when the children
do not all fit. -/
theorem split_node_load_unfit (m : Nat) (pr : Int) :
    ∀ (cs : List Nat) (ooc : ooc_cache) (flag : Bool),
      (split_node_load m pr false cs (ooc, flag)).1 = ooc := by
  intro cs
  induction cs with
  | nil => intro ooc flag; rfl
  | cons c cs ih =>
    intro ooc flag
    rw [split_node_load]
    split
    · simp only [Bool.false_and, Bool.false_eq_true, if_false]
      exact ih _ _
    · exact ih _ _

/-- With a free host slot for every child, after the load loop of `split_node`
every child has an entry in the host cache. -/
theorem split_node_load_registers (m : Nat) (pr : Int) :
    ∀ (cs : List Nat) (ooc : ooc_cache) (flag : Bool), cs.length ≤ ooc.num_free_slots →
      ∀ c ∈ cs,
        (split_node_load m pr true cs (ooc, flag)).1.slots_.is_node_indexed m c = true := by
  intro cs
  induction cs with
  | nil => intro ooc flag _ c hc; simp at hc
  | cons d cs ih =>
    intro ooc flag hlen c hc
    simp only [List.length_cons] at hlen
    have hfree : 0 < ooc.num_free_slots := by omega
    rw [split_node_load]
    by_cases hres : ooc.is_node_resident m d = true
    · simp only [hres, Bool.not_true, Bool.false_eq_true, if_false]
      rcases List.mem_cons.mp hc with rfl | hc'
      · exact cache_slots.is_node_indexed_extends _ _
          (split_node_load_spec m pr true cs ooc flag).1 m c
          (cache_slots.is_node_indexed_of_resident _ _ _ hres)
      · exact ih ooc flag (by omega) c hc'
    · have hres' : ooc.is_node_resident m d = false := by simpa using hres
      simp only [hres', Bool.not_false, if_true, Bool.true_and, decide_eq_true_eq, gt_iff_lt,
        hfree]
      obtain ⟨e1, e2⟩ := ooc_cache.register_node_entry ooc m d pr hfree
      rcases List.mem_cons.mp hc with rfl | hc'
      · exact cache_slots.is_node_indexed_extends _ _
          (split_node_load_spec m pr true cs _ false).1 m c e1
      · exact ih _ false (by omega) c hc'

/-- `split_node` with no transfer budget registers nothing when the host cache has
fewer free slots than the node has children, when the node has no children to
split into, or when every child is host-resident. -/
theorem split_node_frugal (p : cut_update_pool) (a : action)
    (hb : p.gpu_cache_.transfer_budget = 0) (hF : 1 ≤ p.index_.fan_factor a.model_id_)
    (h : p.ooc_cache_.num_free_slots < p.index_.fan_factor a.model_id_ ∨
      ((p.index_.get_all_children a.model_id_ a.node_id_).head? == some invalid_node_t
        || a.node_id_ == invalid_node_t) = true ∨
      ∀ c ∈ p.index_.get_all_children a.model_id_ a.node_id_,
        p.ooc_cache_.is_node_resident a.model_id_ c = true) :
    nothing_registered p (split_node p a) := by
  by_cases hguard : ((p.index_.get_all_children a.model_id_ a.node_id_).head?
      == some invalid_node_t || a.node_id_ == invalid_node_t) = true
  · unfold split_node
    simp only [hguard, if_true]
    exact nothing_registered_refl p
  · have hfit : (decide (p.gpu_cache_.transfer_budget ≥ p.index_.fan_factor a.model_id_)
        && decide (p.gpu_cache_.num_free_slots ≥ p.index_.fan_factor a.model_id_)) = false := by
      rw [hb]
      have : ¬ (0 ≥ p.index_.fan_factor a.model_id_) := by omega
      simp [this]
    have hob : (split_node_obtain p a).2.1 = p.gpu_cache_ := by
      unfold split_node_obtain
      simp only [hfit]
      split
      · exact split_node_transfer_unfit _ _ _ _
      · rfl
    have hooc : (split_node_obtain p a).1 = p.ooc_cache_ := by
      rcases h with h | h | h
      · have hd : decide (p.ooc_cache_.num_free_slots ≥ p.index_.fan_factor a.model_id_)
            = false := by
          simp only [ge_iff_le, decide_eq_false_iff_not, not_le]
          exact h
        unfold split_node_obtain
        simp only [hd]
        split <;> exact split_node_load_unfit _ _ _ _ _
      · exact absurd h hguard
      · unfold split_node_obtain
        simp only []
        rw [split_node_load_resident _ _ _ _ _ _ h]
        simp only [if_true]
    obtain ⟨p1, hp1⟩ : ∃ p1 : cut_update_pool, p1 = { p with
        ooc_cache_ := (split_node_obtain p a).1,
        gpu_cache_ := (split_node_obtain p a).2.1 } := ⟨_, rfl⟩
    have h1 : nothing_registered p p1 := by
      rw [hp1]
      refine ⟨?_, ?_, ?_, ?_, ?_, rfl⟩
      · show cache_slots.same_entries p.ooc_cache_.slots_ (split_node_obtain p a).1.slots_
        rw [hooc]; exact cache_slots.same_entries_refl _
      · show cache_slots.same_entries p.gpu_cache_.slots_ (split_node_obtain p a).2.1.slots_
        rw [hob]; exact cache_slots.same_entries_refl _
      · show (split_node_obtain p a).2.1.transfer_budget_ = _
        rw [hob]
      · show (split_node_obtain p a).2.1.transfer_list_ = _
        rw [hob]
      · show (split_node_obtain p a).2.1.transfer_slots_written_ = _
        rw [hob]
    unfold split_node
    simp only []
    split
    · exact nothing_registered_refl p
    · rw [← hp1]
      split
      · exact nothing_registered_trans _ _ _ h1 (aquire_children_registers_nothing _ _ _ p1)
      · exact h1

/-- `split_node` on a node with children, the host cache having a free slot for
every child: afterwards every child has an entry in the host cache. -/
theorem split_node_registers (p : cut_update_pool) (a : action)
    (hguard : ((p.index_.get_all_children a.model_id_ a.node_id_).head? == some invalid_node_t
      || a.node_id_ == invalid_node_t) = false)
    (hfit : p.index_.fan_factor a.model_id_ ≤ p.ooc_cache_.num_free_slots) :
    ∀ c ∈ p.index_.get_all_children a.model_id_ a.node_id_,
      (split_node p a).ooc_cache_.slots_.is_node_indexed a.model_id_ c = true := by
  intro c hc
  have hlen : (p.index_.get_all_children a.model_id_ a.node_id_).length
      = p.index_.fan_factor a.model_id_ := by
    simp [cut_update_index.get_all_children]
  have hd : decide (p.ooc_cache_.num_free_slots ≥ p.index_.fan_factor a.model_id_) = true := by
    simp only [ge_iff_le, decide_eq_true_eq]
    exact hfit
  have hreg := split_node_load_registers a.model_id_ (error_priority a.error_)
    (p.index_.get_all_children a.model_id_ a.node_id_) p.ooc_cache_ true
    (by rw [hlen]; exact hfit) c hc
  have hob : (split_node_obtain p a).1.slots_.is_node_indexed a.model_id_ c = true := by
    unfold split_node_obtain
    simp only [hd]
    split <;> exact hreg
  obtain ⟨p1, hp1⟩ : ∃ p1 : cut_update_pool, p1 = { p with
      ooc_cache_ := (split_node_obtain p a).1,
      gpu_cache_ := (split_node_obtain p a).2.1 } := ⟨_, rfl⟩
  have h1 : p1.ooc_cache_.slots_.is_node_indexed a.model_id_ c = true := by
    rw [hp1]; exact hob
  unfold split_node
  simp only [hguard, Bool.false_eq_true, if_false]
  rw [← hp1]
  split
  · have := (aquire_children_registers_nothing a.view_id_ a.model_id_
      (p.index_.get_all_children a.model_id_ a.node_id_) p1).1.1 a.model_id_ c
    show (aquire_children p1 a.view_id_ a.model_id_
      (p.index_.get_all_children a.model_id_ a.node_id_)).ooc_cache_.slots_.is_node_indexed
        a.model_id_ c = true
    rw [this]
    exact h1
  · exact h1

end cut_update_pool

/-- A transition of `cut_update` keeps the entries of the host cache. -/
theorem update_step_indexed (p p' : cut_update_pool) (h : update_step p p') (m n : Nat)
    (hi : p.ooc_cache_.slots_.is_node_indexed m n = true) :
    p'.ooc_cache_.slots_.is_node_indexed m n = true := by
  obtain ⟨q, a, rest, _, h1 | h1 | h1 | h1⟩ := update_step_pool p p' h
  · obtain ⟨_, _, k, _⟩ := h1
    exact k.1 m n hi
  · obtain ⟨_, _, _, k, _⟩ := h1
    exact k.1 m n hi
  · obtain ⟨_, _, ⟨_, k, _⟩, _⟩ := h1
    exact k.1 m n hi
  · obtain ⟨_, _, _, _, k, _⟩ := h1
    exact k.1 m n hi

/-- A sequence of transitions of `cut_update` keeps the entries of the host cache. -/
theorem update_steps_indexed (p q : cut_update_pool)
    (hs : Relation.ReflTransGen update_step p q) (m n : Nat)
    (hi : p.ooc_cache_.slots_.is_node_indexed m n = true) :
    q.ooc_cache_.slots_.is_node_indexed m n = true := by
  induction hs with
  | refl => exact hi
  | tail _ hstep ih => exact update_step_indexed _ _ hstep m n ih

/-- A transition of `cut_update` with no transfer budget registers nothing, unless
it is `split_node` on a front split with children, one of which is not
host-resident, both caches having a free slot for every child; every child then
has an entry in the host cache. -/
theorem update_step_frugal (p p' : cut_update_pool) (h : update_step p p')
    (hb : p.gpu_cache_.transfer_budget = 0) (hF : ∀ m, 1 ≤ p.index_.fan_factor m) :
    cut_update_pool.nothing_registered p p' ∨
    ∃ a, p.index_.front_action queue_t.MUST_SPLIT = some a ∧
      p' = cut_update_pool.split_node (p.pop_front queue_t.MUST_SPLIT) a ∧
      p.index_.fan_factor a.model_id_ ≤ p.gpu_cache_.num_free_slots ∧
      p.index_.fan_factor a.model_id_ ≤ p.ooc_cache_.num_free_slots ∧
      ((p.index_.get_all_children a.model_id_ a.node_id_).head? == some invalid_node_t
        || a.node_id_ == invalid_node_t) = false ∧
      (∃ c ∈ p.index_.get_all_children a.model_id_ a.node_id_,
        p.ooc_cache_.is_node_resident a.model_id_ c = false) ∧
      ∀ c ∈ p.index_.get_all_children a.model_id_ a.node_id_,
        p'.ooc_cache_.slots_.is_node_indexed a.model_id_ c = true := by
  cases h with
  | resident a h hres =>
    exact Or.inl (cut_update_pool.aquire_children_registers_nothing _ _ _
      (p.pop_front queue_t.MUST_SPLIT))
  | split a h hfit =>
    by_cases hc : p.ooc_cache_.num_free_slots < p.index_.fan_factor a.model_id_ ∨
        ((p.index_.get_all_children a.model_id_ a.node_id_).head? == some invalid_node_t
          || a.node_id_ == invalid_node_t) = true ∨
        ∀ c ∈ p.index_.get_all_children a.model_id_ a.node_id_,
          p.ooc_cache_.is_node_resident a.model_id_ c = true
    · exact Or.inl (cut_update_pool.split_node_frugal (p.pop_front queue_t.MUST_SPLIT) a hb
        (hF a.model_id_) hc)
    · right
      simp only [not_or, not_lt, Bool.not_eq_true, not_forall] at hc
      obtain ⟨c1, c2, c, hc3, hc4⟩ := hc
      refine ⟨a, h, rfl, hfit, c1, c2, ⟨c, hc3, by simpa using hc4⟩, ?_⟩
      exact cut_update_pool.split_node_registers (p.pop_front queue_t.MUST_SPLIT) a c2 c1
  | collapse_front q a hq h =>
    exact Or.inl (cut_update_pool.collapse_node_registers_nothing (p.pop_front q) a)
  | collapse_back q a hq h =>
    exact Or.inl (cut_update_pool.collapse_node_registers_nothing (p.pop_back q) a)
  | reject_front q a h => exact Or.inl (cut_update_pool.nothing_registered_refl _)
  | approve_front q a hq h => exact Or.inl (cut_update_pool.nothing_registered_refl _)

/-- With no transfer budget, when every queued split finds fewer free GPU slots or
fewer free host slots than its node has children, or has no children to split
into, or has all of them host-resident, no state that `cut_update` goes through
has a node registered in either cache. -/
theorem update_steps_frugal (p q : cut_update_pool)
    (hs : Relation.ReflTransGen update_step p q)
    (hb : p.gpu_cache_.transfer_budget = 0) (hF : ∀ m, 1 ≤ p.index_.fan_factor m)
    (hcond : ∀ a ∈ p.index_.action_queues_ queue_t.MUST_SPLIT,
      p.gpu_cache_.num_free_slots < p.index_.fan_factor a.model_id_ ∨
      p.ooc_cache_.num_free_slots < p.index_.fan_factor a.model_id_ ∨
      ((p.index_.get_all_children a.model_id_ a.node_id_).head? == some invalid_node_t
        || a.node_id_ == invalid_node_t) = true ∨
      ∀ c ∈ p.index_.get_all_children a.model_id_ a.node_id_,
        p.ooc_cache_.is_node_resident a.model_id_ c = true) :
    cut_update_pool.nothing_registered p q ∧ q.index_.fan_factors_ = p.index_.fan_factors_ ∧
      q.index_.num_nodes_ = p.index_.num_nodes_ ∧
      ∀ qq a, a ∈ q.index_.action_queues_ qq → a ∈ p.index_.action_queues_ qq := by
  induction hs with
  | refl => exact ⟨cut_update_pool.nothing_registered_refl _, rfl, rfl, fun _ _ h => h⟩
  | @tail q q' _ hstep ih =>
    obtain ⟨i1, i2, i3, i4⟩ := ih
    have hi := update_step_index _ _ hstep
    obtain ⟨t1, t2⟩ := index_step_tree _ _ hi
    have hbq : q.gpu_cache_.transfer_budget = 0 := by
      show q.gpu_cache_.transfer_budget_ = 0
      rw [i1.2.2.1]
      exact hb
    have hFq : ∀ m, 1 ≤ q.index_.fan_factor m := by
      intro m
      unfold cut_update_index.fan_factor
      rw [i2]
      exact hF m
    refine ⟨cut_update_pool.nothing_registered_trans _ _ _ i1 ?_, t1.trans i2, t2.trans i3,
      fun qq a ha => i4 qq a (index_step_queues _ _ hi qq a ha)⟩
    rcases update_step_frugal q q' hstep hbq hFq with h | ⟨a, ha, _, c1, c2, c3, ⟨c, hc, hcr⟩, _⟩
    · exact h
    · exfalso
      have hmem : a ∈ p.index_.action_queues_ queue_t.MUST_SPLIT := by
        apply i4
        unfold cut_update_index.front_action at ha
        exact List.mem_of_mem_head? ha
      have hch := cut_update_index.get_all_children_congr p.index_ q.index_ i2 i3
        a.model_id_ a.node_id_
      have hfan : q.index_.fan_factor a.model_id_ = p.index_.fan_factor a.model_id_ := by
        unfold cut_update_index.fan_factor
        rw [i2]
      rw [hfan] at c1 c2
      rw [hch] at c3 hc
      rcases hcond a hmem with h | h | h | h
      · have : q.gpu_cache_.num_free_slots = p.gpu_cache_.num_free_slots := i1.2.1.2.2
        omega
      · have : q.ooc_cache_.num_free_slots = p.ooc_cache_.num_free_slots := i1.1.2.2
        omega
      · rw [h] at c3
        exact Bool.noConfusion c3
      · have e : q.ooc_cache_.is_node_resident a.model_id_ c
            = p.ooc_cache_.is_node_resident a.model_id_ c := i1.1.2.1 a.model_id_ c
        rw [e, h c hc] at hcr
        exact Bool.noConfusion hcr

namespace cut_update_pool

/-- The main loop of `cut_update`, started with the residency check due, on a front
split with children while both caches have a free slot for every child: when
the loop ends every child has an entry in the host cache. -/
theorem cut_update_loop_front (p : cut_update_pool) (a : action)
    (hfront : p.index_.front_action queue_t.MUST_SPLIT = some a)
    (hguard : ((p.index_.get_all_children a.model_id_ a.node_id_).head? == some invalid_node_t
      || a.node_id_ == invalid_node_t) = false)
    (hgpu : p.index_.fan_factor a.model_id_ ≤ p.gpu_cache_.num_free_slots)
    (hooc : p.index_.fan_factor a.model_id_ ≤ p.ooc_cache_.num_free_slots)
    (p' : cut_update_pool)
    (hl : cut_update_loop (cut_update_fuel p) p
      { check_residency := true, all_children_in_ooc_cache := true,
        all_children_in_gpu_cache := true } = some p') :
    ∀ c ∈ p.index_.get_all_children a.model_id_ a.node_id_,
      p'.ooc_cache_.slots_.is_node_indexed a.model_id_ c = true := by
  obtain ⟨P, fl', h1, h2⟩ := cut_update_loop_iteration p
    { check_residency := true, all_children_in_ooc_cache := true,
      all_children_in_gpu_cache := true } a hfront
  have key : update_step p P ∧ ∀ c ∈ p.index_.get_all_children a.model_id_ a.node_id_,
      P.ooc_cache_.slots_.is_node_indexed a.model_id_ c = true := by
    rcases h2 with ⟨r1, r2⟩ | ⟨_, _, r2⟩ | ⟨_, r1, _⟩
    · have hres : ∀ c ∈ p.index_.get_all_children a.model_id_ a.node_id_,
          p.ooc_cache_.is_node_resident a.model_id_ c = true ∧
          p.gpu_cache_.is_node_resident a.model_id_ c = true := by
        unfold approved_as_resident scanned_flags at r1
        simp only [Bool.true_and, if_true, Bool.and_eq_true] at r1
        exact residency_scan_both _ _ _ _ _ r1.1 r1.2
      have hstep : update_step p P := by
        rw [r2]
        exact update_step.resident p a hfront hres
      refine ⟨hstep, fun c hc => ?_⟩
      exact update_step_indexed p P hstep a.model_id_ c
        (cache_slots.is_node_indexed_of_resident _ _ _ (hres c hc).1)
    · refine ⟨by rw [r2]; exact update_step.split p a hfront hgpu, ?_⟩
      rw [r2]
      exact split_node_registers (p.pop_front queue_t.MUST_SPLIT) a hguard hooc
    · exfalso
      unfold split_fits at r1
      have e1 : decide (p.ooc_cache_.num_free_slots ≥ p.index_.fan_factor a.model_id_)
          = true := by
        simp only [ge_iff_le, decide_eq_true_eq]; exact hooc
      have e2 : decide (p.gpu_cache_.num_free_slots ≥ p.index_.fan_factor a.model_id_)
          = true := by
        simp only [ge_iff_le, decide_eq_true_eq]; exact hgpu
      rw [e1, e2] at r1
      simp at r1
  obtain ⟨hstep, hidx⟩ := key
  have hlen := update_step_length p P hstep
  have hl' : cut_update_loop p.index_.all_actions.length P fl' = some p' := by
    rw [← h1]
    exact hl
  obtain ⟨p'', e1, e2, _⟩ := cut_update_loop_spec p.index_.all_actions.length P fl' (by omega)
  rw [hl'] at e1
  cases e1
  intro c hc
  exact update_steps_indexed P p' e2 a.model_id_ c (hidx c hc)

end cut_update_pool

/-! ## The final loops of `cut_update` -/

/-- C9, as stated, fails: with the split queue empty, a queued must-collapse on
the root goes to `collapse_node`, which rejects it: the update ends with the
current cut `{1, 2}`, the root is not committed. -/
theorem C9_must_collapse_on_root_rejected :
    (cut_update_pool.cut_update (scenario_input (fun _ => 0)) collapse_to_root_pool).map
      (fun p => p.index_.get_current_cut 0 0) = some [1, 2] := by
  decide

/-- C9 (amended): when the split queue is empty, `cut_update` finishes with all
five queues empty, and the current cuts gain exactly the nodes of the queued
actions as the final loops resolve them: every queued must-collapse on a node `≥ 1` that is not invalid is
approved through `collapse_node` (its node is committed), a must-collapse on
the root or on an invalid node is rejected by `collapse_node` (its children are
reinstated), every collapse-on-need and maybe-collapse is rejected (its
children are reinstated) and every keep is approved (its node is committed). -/
theorem C9_final_loops (inp : frame_input) (p : cut_update_pool)
    (hs : p.index_.action_queues_ queue_t.MUST_SPLIT = []) :
    ∃ p', cut_update_pool.cut_update inp p = some p' ∧
      (∀ q, p'.index_.action_queues_ q = []) ∧
      ∀ v m x, x ∈ p'.index_.get_current_cut v m ↔
        (x ∈ p.index_.get_current_cut v m ∨
          (∃ a ∈ p.index_.action_queues_ queue_t.MUST_COLLAPSE,
            a.view_id_ = v ∧ a.model_id_ = m ∧ x ∈ p.index_.collapsed_nodes a) ∨
          (∃ a ∈ p.index_.action_queues_ queue_t.COLLAPSE_ON_NEED,
            a.view_id_ = v ∧ a.model_id_ = m ∧ x ∈ p.index_.rejected_nodes a) ∨
          (∃ a ∈ p.index_.action_queues_ queue_t.MAYBE_COLLAPSE,
            a.view_id_ = v ∧ a.model_id_ = m ∧ x ∈ p.index_.rejected_nodes a) ∨
          (∃ a ∈ p.index_.action_queues_ queue_t.KEEP,
            a.view_id_ = v ∧ a.model_id_ = m ∧ x ∈ p.index_.approved_nodes a)) := by
  obtain ⟨p0, hp0⟩ : ∃ p0 : cut_update_pool,
      p0 = { p with ooc_cache_ := p.ooc_cache_.refresh inp.loads_completed_update } := ⟨_, rfl⟩
  have hidx : p0.index_ = p.index_ := by rw [hp0]
  have hloop : cut_update_pool.cut_update_loop (cut_update_pool.cut_update_fuel p0) p0
      { check_residency := true, all_children_in_ooc_cache := true,
        all_children_in_gpu_cache := true } = some p0 := by
    simp [cut_update_pool.cut_update_fuel, cut_update_pool.cut_update_loop,
      cut_update_index.front_action, hidx, hs]
  obtain ⟨_, _, h3, h4⟩ := cut_update_pool.cut_update_drain_spec p0
  rw [hidx] at h3
  simp only [hidx] at h4
  refine ⟨cut_update_pool.compile_transfer_list inp
    (cut_update_pool.compile_render_list (cut_update_pool.cut_update_drain p0)), ?_, ?_, ?_⟩
  · unfold cut_update_pool.cut_update
    simp only []
    rw [← hp0, hloop]
  · intro q
    simp only [cut_update_pool.compile_transfer_list_index,
      cut_update_pool.compile_render_list_index, h3, hs]
    split <;> rfl
  · intro v m x
    simp only [cut_update_pool.compile_transfer_list_index,
      cut_update_pool.compile_render_list_index]
    exact h4 v m x

/-- Witness of C9 (amended): the must-collapse on node 1 is approved, the keep of
node 2 is approved, all queues end empty. -/
theorem C9_final_loops_witness :
    ∃ p', cut_update_pool.cut_update (scenario_input (fun _ => 0)) drain_pool = some p' ∧
      (∀ q, p'.index_.action_queues_ q = []) ∧ 1 ∈ p'.index_.get_current_cut 0 0 ∧
      2 ∈ p'.index_.get_current_cut 0 0 := by
  obtain ⟨p', h1, h2, h3⟩ := C9_final_loops (scenario_input (fun _ => 0)) drain_pool rfl
  refine ⟨p', h1, h2, ?_, ?_⟩
  · rw [h3]
    right; left
    exact ⟨_, List.mem_singleton.mpr rfl, rfl, rfl, by decide⟩
  · rw [h3]
    right; right; right; right
    exact ⟨_, List.mem_singleton.mpr rfl, rfl, rfl, by decide⟩

/-! ## The residency fast path of `cut_update` -/

/-- C8: the code at the failing input. The split of node 1 (error 3) is at the
front, its children are not on the GPU and do not fit: it is rejected, and the
flag `all_children_in_gpu_cache`, declared before the loop, stays `false`. The
split of node 2 (error 2) then reaches the front with both children 5 and 6
resident in both caches, is not approved and is rejected: the update ends with
the cut `{1, 2}`. The same split of node 2, queued alone in the same caches, is
approved and gives the cut `{5, 6}`. -/
theorem C8_resident_split_rejected_after_earlier_split :
    (stale_flags_pool []).ooc_cache_.is_node_resident 0 5 = true ∧
    (stale_flags_pool []).ooc_cache_.is_node_resident 0 6 = true ∧
    (stale_flags_pool []).gpu_cache_.is_node_resident 0 5 = true ∧
    (stale_flags_pool []).gpu_cache_.is_node_resident 0 6 = true ∧
    (cut_update_pool.cut_update (scenario_input (fun _ => 0))
        (stale_flags_pool [scenario_split 1 3, scenario_split 2 2])).map
      (fun p => p.index_.get_current_cut 0 0) = some [1, 2] ∧
    (cut_update_pool.cut_update (scenario_input (fun _ => 0))
        (stale_flags_pool [scenario_split 2 2])).map
      (fun p => p.index_.get_current_cut 0 0) = some [5, 6] := by
  refine ⟨by decide, by decide, by decide, by decide, by decide, by decide⟩

/-! ## The upload budget -/

/-- C3: the code at the failing input. With an upload budget of one node and two
models whose roots are host-resident but not on the GPU, `prepare` registers
both roots in the GPU cache without consulting the transfer budget, and the
frame commits a transfer list of two entries. -/
theorem C3_prepare_exceeds_upload_budget :
    two_roots_pool.upload_budget_in_nodes_ = 1 ∧
    (cut_update_pool.cut_master scenario_config (scenario_input (fun _ => 0)) two_roots_pool
        empty_record).map (fun s => (s.2.updated_set, s.1.gpu_cache_.transfer_slots_written))
      = some ([(0, 0), (1, 1)], 2) := by
  refine ⟨rfl, by decide⟩

/-! ## The cut stays ancestor-consistent -/

/-- C1: default mode, the action index behaving as in §4.2. For every `(v, m)`
among the analysis tasks (each task run once) whose model has fan-out at least
one, that has no action queued before the analysis and whose previous cut (a
`std::set`, so strictly ascending) is non-empty and ancestor-consistent:
`cut_analysis` for every task, `sort` and `cut_update` produce a current cut of
`(v, m)` that is non-empty and contains no node together with one of its proper
descendants. -/
theorem C1_current_cut_consistent (cfg : config) (inp : frame_input) (p : cut_update_pool)
    (jobs : List (Nat × Nat)) (v m : Nat) (hjobs : jobs.Nodup) (hvm : (v, m) ∈ jobs)
    (hF : 1 ≤ p.index_.fan_factor m)
    (hq : ∀ a ∈ p.index_.all_actions, ¬ action_of v m a)
    (hsorted : (p.index_.get_previous_cut v m).Pairwise (fun x y => x < y))
    (hne : p.index_.get_previous_cut v m ≠ [])
    (hcons : ancestor_consistent (p.index_.fan_factor m) (p.index_.get_previous_cut v m)) :
    ∃ p', cut_update_pool.analysis_and_update cfg inp p jobs = some p' ∧
      p'.index_.get_current_cut v m ≠ [] ∧
      ancestor_consistent (p.index_.fan_factor m) (p'.index_.get_current_cut v m) := by
  have hq' : p.index_.all_actions.filter (action_of_test v m) = [] := by
    rw [List.filter_eq_nil_iff]
    intro a ha hvm'
    exact hq a ha ((action_of_test_iff v m a).mp hvm')
  obtain ⟨i1, i2⟩ := cut_update_pool.run_analysis_establishes cfg inp v m jobs p hjobs hvm hF
    hq' hsorted hne hcons
  obtain ⟨p1, hp1⟩ : ∃ p1, p1 = cut_update_pool.run_analysis cfg inp p jobs := ⟨_, rfl⟩
  rw [← hp1] at i1 i2
  have inv2 : cut_invariant v m p1.index_.sort :=
    cut_invariant_congr v m p1.index_ p1.index_.sort rfl rfl rfl
      ((cut_update_index.all_actions_sort p1.index_).filter _) i1
  obtain ⟨p3, e, steps, hempty⟩ :=
    cut_update_pool.cut_update_spec inp { p1 with index_ := p1.index_.sort }
  have hF2 : 1 ≤ (cut_update_pool.refreshed inp
      { p1 with index_ := p1.index_.sort }).index_.fan_factor m := by
    have : (cut_update_pool.refreshed inp
        { p1 with index_ := p1.index_.sort }).index_.fan_factor m = p.index_.fan_factor m := by
      show p1.index_.sort.fan_factors_ m = p.index_.fan_factors_ m
      show p1.index_.fan_factors_ m = p.index_.fan_factors_ m
      rw [i2]
    rw [this]; exact hF
  obtain ⟨j1, j2, _⟩ := cut_invariant_steps v m _ p3 steps hF2 inv2
  have hF3 : p3.index_.fan_factor m = p.index_.fan_factor m := by
    unfold cut_update_index.fan_factor
    rw [j2]
    show p1.index_.fan_factors_ m = p.index_.fan_factors_ m
    rw [i2]
  have hall : p3.index_.all_actions = [] := by
    simp [cut_update_index.all_actions, hempty]
  refine ⟨cut_update_pool.compile_transfer_list inp p3.compile_render_list, ?_, ?_, ?_⟩
  · unfold cut_update_pool.analysis_and_update
    simp only []
    rw [← hp1]
    exact e
  · rcases j1.inhabited with h | ⟨a, ha, _⟩
    · exact h
    · rw [hall] at ha
      simp at ha
  · rw [ancestor_consistent_iff, ← hF3]
    exact j1.antichain

/-- Witness of C1: fan-out 2, previous cut `{1, 2}`, every node error 0: the
analysis asks to collapse the two children of the root and the update ends with
a non-empty, ancestor-consistent cut. -/
theorem C1_current_cut_consistent_witness :
    ∃ p', cut_update_pool.analysis_and_update scenario_config (scenario_input (fun _ => 0))
        siblings_pool [(0, 0)] = some p' ∧
      p'.index_.get_current_cut 0 0 ≠ [] ∧
      ancestor_consistent 2 (p'.index_.get_current_cut 0 0) :=
  C1_current_cut_consistent scenario_config (scenario_input (fun _ => 0)) siblings_pool
    [(0, 0)] 0 0 (by decide) (by decide) (by decide)
    (by intro a ha; simp [siblings_pool, scenario_pool, scenario_index,
          cut_update_index.all_actions] at ha)
    (by decide) (by decide)
    (by
      intro a ha x hx hax
      have h1 := ancestor_le 2 a x hax.2
      have h2 := ancestor_of_parent 2 a x hax.2 hax.1
      have h3 := ancestor_le 2 _ _ h2
      have ha' : a = 1 ∨ a = 2 := by
        simpa [siblings_pool, scenario_pool, scenario_index,
          cut_update_index.get_previous_cut] using ha
      have hx' : x = 1 ∨ x = 2 := by
        simpa [siblings_pool, scenario_pool, scenario_index,
          cut_update_index.get_previous_cut] using hx
      rcases ha' with rfl | rfl <;> rcases hx' with rfl | rfl <;>
        simp [tree_parent] at h1 h3 hax)

/-! ## Residency and acquisition of the current cut -/

/-- C2 (amended): default mode, the caches behaving as in §4.3 and §4.4. For every
`(v, m)` among the analysis tasks (each task run once) whose model has fan-out at
least one, that has no action queued before the analysis and whose previous cut
(a `std::set`, so strictly ascending) is non-empty and ancestor-consistent: if
every node of the previous cut of `(v, m)` and every ancestor of such a node is
resident in the host cache and in the GPU cache and acquired in both for
`(context, v)`, then `cut_analysis` for every task, `sort` and `cut_update`
return, and every node of the current cut of `(v, m)` (the cut is non-empty)
and every ancestor of such a node is again resident in both caches and acquired
in both for `(context, v)`. -/
theorem C2_current_cut_held (cfg : config) (inp : frame_input) (p : cut_update_pool)
    (jobs : List (Nat × Nat)) (v m : Nat) (hjobs : jobs.Nodup) (hvm : (v, m) ∈ jobs)
    (hF : 1 ≤ p.index_.fan_factor m)
    (hq : ∀ a ∈ p.index_.all_actions, ¬ action_of v m a)
    (hsorted : (p.index_.get_previous_cut v m).Pairwise (fun x y => x < y))
    (hne : p.index_.get_previous_cut v m ≠ [])
    (hcons : ancestor_consistent (p.index_.fan_factor m) (p.index_.get_previous_cut v m))
    (hheld : ∀ y ∈ p.index_.get_previous_cut v m, ∀ x,
      is_ancestor_or_self (p.index_.fan_factor m) x y → p.node_held v m x) :
    ∃ p', cut_update_pool.analysis_and_update cfg inp p jobs = some p' ∧
      p'.index_.get_current_cut v m ≠ [] ∧
      ∀ y ∈ p'.index_.get_current_cut v m, ∀ x,
        is_ancestor_or_self (p.index_.fan_factor m) x y → p'.node_held v m x := by
  have hq' : p.index_.all_actions.filter (action_of_test v m) = [] := by
    rw [List.filter_eq_nil_iff]
    intro a ha hvm'
    exact hq a ha ((action_of_test_iff v m a).mp hvm')
  obtain ⟨i1, i2⟩ := cut_update_pool.run_analysis_establishes cfg inp v m jobs p hjobs hvm hF
    hq' hsorted hne hcons
  obtain ⟨f1, f2, f3, f4, f5, f6⟩ := cut_update_pool.run_analysis_footprints cfg inp v m jobs p
    hF hsorted
    (fun q a ha hvm' => absurd hvm'
      (hq a ((cut_update_index.mem_all_actions _ _).mpr ⟨q, ha⟩)))
  have hempty := cut_update_pool.run_analysis_cut_empty cfg inp v m jobs p (Or.inl hvm)
  obtain ⟨p1, hp1⟩ : ∃ p1, p1 = cut_update_pool.run_analysis cfg inp p jobs := ⟨_, rfl⟩
  rw [← hp1] at i1 i2 f1 f2 f3 f4 f5 f6 hempty
  obtain ⟨p2, hp2⟩ : ∃ p2, p2 = cut_update_pool.refreshed inp
      { p1 with index_ := p1.index_.sort } := ⟨_, rfl⟩
  have hidx2 : p2.index_ = p1.index_.sort := by rw [hp2]; rfl
  have hfan2 : p2.index_.fan_factors_ = p.index_.fan_factors_ := by
    rw [hidx2]; exact f4
  have hnum2 : p2.index_.num_nodes_ = p.index_.num_nodes_ := by
    rw [hidx2]; exact f5
  have hF2 : p2.index_.fan_factor m = p.index_.fan_factor m := by
    unfold cut_update_index.fan_factor; rw [hfan2]
  have hheld1 : ∀ x, p.node_held v m x → p2.node_held v m x := by
    intro x hx
    rw [hp2]
    apply cut_update_pool.node_held_refreshed
    unfold cut_update_pool.node_held at hx ⊢
    simp only []
    rw [f1, f2, f3]
    exact hx
  have inv2 : held_invariant v m p2 := by
    refine ⟨?_, by rw [hF2]; exact hF, ?_, ?_⟩
    · rw [hidx2]
      exact cut_invariant_congr v m p1.index_ p1.index_.sort rfl rfl rfl
        ((cut_update_index.all_actions_sort p1.index_).filter _) i1
    · intro q a ha hvm'
      rw [hidx2, cut_update_index.mem_sort_queues] at ha
      exact (f6 q a ha hvm').1
    · intro x y hxy hgen
      rw [hF2] at hxy
      rcases hgen with hy | ⟨a, ha, hvm', hy⟩
      · rw [hidx2] at hy
        have : p1.index_.sort.get_current_cut v m = p1.index_.get_current_cut v m := rfl
        rw [this, hempty] at hy
        simp at hy
      · rw [cut_update_index.rejected_nodes_congr p.index_ p2.index_ hfan2 hnum2] at hy
        rw [hidx2, cut_update_index.mem_all_actions] at ha
        obtain ⟨q, ha⟩ := ha
        rw [cut_update_index.mem_sort_queues] at ha
        exact hheld1 x (hheld y ((f6 q a ha hvm').2 y hy) x hxy)
  obtain ⟨p3, e, steps, hdone⟩ :=
    cut_update_pool.cut_update_spec inp { p1 with index_ := p1.index_.sort }
  rw [← hp2] at steps
  have inv3 := held_invariant_steps v m p2 p3 steps inv2
  obtain ⟨_, j2, _⟩ := cut_invariant_steps v m p2 p3 steps (by rw [hF2]; exact hF) inv2.cut
  have hF3 : p3.index_.fan_factor m = p.index_.fan_factor m := by
    unfold cut_update_index.fan_factor
    rw [j2, hfan2]
  have hall : p3.index_.all_actions = [] := by
    simp [cut_update_index.all_actions, hdone]
  refine ⟨cut_update_pool.compile_transfer_list inp p3.compile_render_list, ?_, ?_, ?_⟩
  · unfold cut_update_pool.analysis_and_update
    simp only []
    rw [← hp1]
    exact e
  · rcases inv3.cut.inhabited with h | ⟨a, ha, _⟩
    · exact h
    · rw [hall] at ha
      simp at ha
  · intro y hy x hxy
    apply cut_update_pool.node_held_compiled
    rw [← hF3] at hxy
    exact inv3.held x y hxy (Or.inl hy)

/-- C2, as stated, fails: previous cut `{2, 3, 4}` with every node of it resident in
both caches and acquired, all node errors 0. The analysis asks to collapse 3
and 4 into their parent 1, `collapse_node` approves, and the current cut
`{1, 2}` holds node 1, which is resident in neither cache and not acquired:
`collapse_node` releases the children and does nothing for the parent. -/
theorem C2_collapse_commits_unheld_parent :
    (∀ y ∈ orphan_pool.index_.get_previous_cut 0 0, orphan_pool.node_held 0 0 y) ∧
    (cut_update_pool.analysis_and_update scenario_config (scenario_input (fun _ => 0))
        orphan_pool [(0, 0)]).map
      (fun p => (p.index_.get_current_cut 0 0, p.ooc_cache_.is_node_resident 0 1,
        p.gpu_cache_.is_node_resident 0 1,
        p.ooc_cache_.slots_.is_node_aquired 0 0 0 1,
        p.gpu_cache_.slots_.is_node_aquired 0 0 0 1))
      = some ([1, 2], false, false, false, false) := by
  constructor
  · decide
  · with_unfolding_all decide

/-- Witness of C2: fan-out 2, previous cut `{2, 3, 4}`, the nodes 0 … 4 resident and
acquired in both caches, every node error 0: the analysis asks to collapse 3
and 4 into 1, and after the update every node of the current cut and every
ancestor of it is resident in both caches and acquired. -/
theorem C2_current_cut_held_witness :
    ∃ p', cut_update_pool.analysis_and_update scenario_config (scenario_input (fun _ => 0))
        leaves_pool [(0, 0)] = some p' ∧
      p'.index_.get_current_cut 0 0 ≠ [] ∧
      ∀ y ∈ p'.index_.get_current_cut 0 0, ∀ x,
        is_ancestor_or_self (leaves_pool.index_.fan_factor 0) x y → p'.node_held 0 0 x :=
  C2_current_cut_held scenario_config (scenario_input (fun _ => 0)) leaves_pool
    [(0, 0)] 0 0 (by decide) (by decide) (by decide)
    (by intro a ha; simp [leaves_pool, scenario_pool, scenario_index,
          cut_update_index.all_actions] at ha)
    (by decide) (by decide)
    (by
      intro a ha x hx hax
      have h2 := ancestor_of_parent 2 a x hax.2 hax.1
      have h3 := ancestor_le 2 _ _ h2
      have ha' : a = 2 ∨ a = 3 ∨ a = 4 := by
        simpa [leaves_pool, scenario_pool, scenario_index,
          cut_update_index.get_previous_cut] using ha
      have hx' : x = 2 ∨ x = 3 ∨ x = 4 := by
        simpa [leaves_pool, scenario_pool, scenario_index,
          cut_update_index.get_previous_cut] using hx
      rcases ha' with rfl | rfl | rfl <;> rcases hx' with rfl | rfl | rfl <;>
        simp [tree_parent] at h3)
    (by
      intro y hy x hxy
      have h1 := ancestor_le _ _ _ hxy
      have hy' : y = 2 ∨ y = 3 ∨ y = 4 := by
        simpa [leaves_pool, scenario_pool, scenario_index,
          cut_update_index.get_previous_cut] using hy
      have hx : x ≤ 4 := by rcases hy' with rfl | rfl | rfl <;> omega
      interval_cases x <;> decide)

/-! ## The root-only cut (Scenario A) -/

/-- C10 (amended): one model, one view, previous cut `{0}`, no action queued,
fan-out `F ≥ 1`; `minT` and `maxT` are the thresholds as `cut_analysis` computes
them (`min_error_threshold`, `max_error_threshold`: `T - 0.1` and `T + 0.1` in
`float64_t` arithmetic). The analysis queues exactly one action:
`MustSplit(0, node_error(0))` when the root is in the frustum, its error exceeds
`maxT`, every child exists and has an error of `minT` at least and the model has
no freshness timeout (`root_split_emitted`), and `Keep(0)` otherwise. The update
returns. If the split was queued and every child is host-resident after the
refresh and either every child has a GPU slot or the GPU cache has `F` free
slots and `F` nodes of transfer budget, the current cut is the set of the
children, each resident in both caches and acquired; if moreover no child had a
GPU slot and the transfer state was empty, the transfer list has one descriptor
per node that the iteration of the transfer set visits, with the staging indices
`0, 1, …` in the order of the visits, and `transfer_slots_written` counts them;
the iteration visiting every child once, these are the staging indices
`0 … F-1`, the GPU slots of the children in some order, and
`transfer_slots_written = F`. In every other case the current cut is `{0}`. -/
theorem C10_root_only_cut (cfg : config) (inp : frame_input) (p : cut_update_pool)
    (hprev : p.index_.get_previous_cut 0 0 = [0])
    (hq : ∀ q, p.index_.action_queues_ q = [])
    (hF : 1 ≤ p.index_.fan_factor 0) :
    ∃ p', cut_update_pool.analysis_and_update cfg inp p [(0, 0)] = some p' ∧
      (root_split_emitted cfg inp p →
        (cut_update_pool.run_analysis cfg inp p [(0, 0)]).index_.all_actions
          = [{ queue_ := queue_t.MUST_SPLIT, view_id_ := 0, model_id_ := 0, node_id_ := 0,
               error_ := inp.node_error 0 0 0 }]) ∧
      (¬ root_split_emitted cfg inp p →
        (cut_update_pool.run_analysis cfg inp p [(0, 0)]).index_.all_actions
          = [{ queue_ := queue_t.KEEP, view_id_ := 0, model_id_ := 0, node_id_ := 0,
               error_ := 0 }]) ∧
      (root_split_emitted cfg inp p → root_children_on_host inp p →
        (root_children_on_gpu p ∨ gpu_has_room p) →
        p'.index_.get_current_cut 0 0 = p.index_.get_all_children 0 0 ∧
        ∀ c ∈ p.index_.get_all_children 0 0, p'.node_held 0 0 c) ∧
      (root_split_emitted cfg inp p → root_children_on_host inp p →
        root_children_off_gpu p → gpu_has_room p → p.index_.num_models = 1 →
        p.gpu_cache_.transfer_list 0 = [] → p.gpu_cache_.transfer_slots_written = 0 →
        p.transfer_list_ = [] →
        p'.transfer_list_
          = (List.range (inp.unordered_set_order (p.index_.get_all_children 0 0)).length).map
            (fun i => (i, p'.gpu_cache_.slot_id 0
              ((inp.unordered_set_order (p.index_.get_all_children 0 0)).getD i 0))) ∧
        p'.gpu_cache_.transfer_slots_written
          = (inp.unordered_set_order (p.index_.get_all_children 0 0)).length ∧
        ((inp.unordered_set_order (p.index_.get_all_children 0 0)).Perm
            (p.index_.get_all_children 0 0) →
          p'.transfer_list_.map Prod.fst = List.range (p.index_.fan_factor 0) ∧
          (p'.transfer_list_.map Prod.snd).Perm
            ((p.index_.get_all_children 0 0).map (p'.gpu_cache_.slot_id 0)) ∧
          p'.gpu_cache_.transfer_slots_written = p.index_.fan_factor 0)) ∧
      (¬ (root_split_emitted cfg inp p ∧ root_children_on_host inp p ∧
          (root_children_on_gpu p ∨ gpu_has_room p)) →
        p'.index_.get_current_cut 0 0 = [0]) := by
  obtain ⟨A, hA⟩ : ∃ A, A = cut_update_pool.analyse_node inp p 0 0 0 0
      (p.min_error_threshold 0) (p.max_error_threshold 0)
      (cut_update_pool.freshness_timeout cfg p 0) := ⟨_, rfl⟩
  have hidx := cut_update_pool.root_analysis_index cfg inp p hprev
  rw [← hA] at hidx
  obtain ⟨p2, hp2⟩ : ∃ p2 : cut_update_pool, p2 = { p with
      index_ := ((p.index_.reset_cut 0 0).push_action A false).sort } := ⟨_, rfl⟩
  have hau : cut_update_pool.analysis_and_update cfg inp p [(0, 0)]
      = cut_update_pool.cut_update inp p2 := by
    unfold cut_update_pool.analysis_and_update
    simp only []
    rw [hidx, hp2]
    rfl
  have hall : (cut_update_pool.run_analysis cfg inp p [(0, 0)]).index_.all_actions = [A] := by
    rw [hidx]
    cases hk : A.queue_ <;>
      simp [cut_update_index.all_actions, cut_update_index.push_action,
        cut_update_index.reset_cut, set_queue, hq, hk]
  have hq2 : ∀ q, p2.index_.action_queues_ q = if q = A.queue_ then [A] else [] := by
    intro q
    rw [hp2]
    cases q <;> cases hk : A.queue_ <;>
      simp [cut_update_index.sort, cut_update_index.push_action,
        cut_update_index.reset_cut, set_queue, hq, hk]
  have hcut2 : p2.index_.get_current_cut 0 0 = [] := by
    rw [hp2]
    simp [cut_update_index.get_current_cut, cut_update_index.sort,
      cut_update_index.push_action, cut_update_index.reset_cut, set_cut]
  rw [hau]
  by_cases hem : root_split_emitted cfg inp p
  · have hAe := (cut_update_pool.root_action_eq cfg inp p).1 hem
    rw [← hA] at hAe
    rw [hAe] at hq2 hall
    have hvalid := cut_update_pool.children_allow_split_valid inp p 0 0 0 _ hem.2.2.1
    have hninv : ∀ c ∈ p.index_.get_all_children 0 0, c ≠ invalid_node_t := by
      intro c hc
      have h := hem.2.2.1
      unfold cut_update_pool.children_allow_split at h
      rw [List.all_eq_true] at h
      have := h c hc
      simp only [Bool.and_eq_true, Bool.not_eq_true', beq_eq_false_iff_ne] at this
      exact this.1
    obtain ⟨p', hcu, c1, c2, c3⟩ := cut_update_pool.root_split_update inp p2
      (inp.node_error 0 0 0) hq2 hcut2 (by rw [hp2]; exact hF)
      (by rw [hp2]; exact hvalid) (by rw [hp2]; exact hninv)
    have e1 : root_children_on_host inp p2 = root_children_on_host inp p := by rw [hp2]; rfl
    have e2 : root_children_on_gpu p2 = root_children_on_gpu p := by rw [hp2]; rfl
    have e3 : root_children_off_gpu p2 = root_children_off_gpu p := by rw [hp2]; rfl
    have e4 : gpu_has_room p2 = gpu_has_room p := by rw [hp2]; rfl
    have e5 : p2.index_.get_all_children 0 0 = p.index_.get_all_children 0 0 := by
      rw [hp2]; rfl
    have e7 : p2.index_.num_models = p.index_.num_models := by rw [hp2]; rfl
    have e8 : p2.gpu_cache_ = p.gpu_cache_ := by rw [hp2]
    have e9 : p2.transfer_list_ = p.transfer_list_ := by rw [hp2]
    rw [e1, e2, e4, e5] at c1
    rw [e1, e3, e4, e5, e7, e8, e9] at c2
    rw [e1, e2, e4] at c3
    refine ⟨p', hcu, fun _ => hall, fun h => absurd hem h, fun _ => c1, ?_,
      fun hn => c3 (fun h => hn ⟨hem, h⟩)⟩
    intro _ h1 h2 h3 h4 h5 h6 h7
    obtain ⟨t1, t2⟩ := c2 h1 h2 h3 h4 h5 h6 h7
    refine ⟨t1, t2, ?_⟩
    intro hperm
    have hlen : (inp.unordered_set_order (p.index_.get_all_children 0 0)).length
        = p.index_.fan_factor 0 := by
      rw [hperm.length_eq]
      simp [cut_update_index.get_all_children]
    refine ⟨?_, ?_, by rw [t2, hlen]⟩
    · rw [t1, List.map_map, hlen]
      exact List.map_id _
    · rw [t1, List.map_map]
      simp only [Function.comp_def]
      rw [range_map_getD _ (p'.gpu_cache_.slot_id 0)]
      exact hperm.map _
  · have hAe := (cut_update_pool.root_action_eq cfg inp p).2 hem
    rw [← hA] at hAe
    rw [hAe] at hq2 hall
    obtain ⟨p', hcu, hc⟩ := cut_update_pool.root_keep_update inp p2 0 hq2 hcut2
    exact ⟨p', hcu, fun h => absurd h hem, fun _ => hall, fun h => absurd h hem,
      fun h => absurd h hem, fun _ => hc⟩

/-- Witness of C10: Scenario A with the children 1 and 2 host-resident and not yet
on the GPU (error 2.0 for the root, 0.6 for the children, `T = 0.5`, `F = 2`):
the analysis queues `MustSplit(0, 2.0)`, the current cut becomes `{1, 2}`, the
transfer list has one descriptor for each of the two children (the transfer set
is visited in the order 2, 1) and `transfer_slots_written = 2`. -/
theorem C10_root_only_cut_witness :
    ∃ p', cut_update_pool.analysis_and_update scenario_config (scenario_input scenario_a_error)
        (root_pool [scenario_entry_aquired 0, scenario_entry 1, scenario_entry 2, none, none,
          none, none, none] [scenario_entry_aquired 0, none, none, none]) [(0, 0)] = some p' ∧
      (cut_update_pool.run_analysis scenario_config (scenario_input scenario_a_error)
        (root_pool [scenario_entry_aquired 0, scenario_entry 1, scenario_entry 2, none, none,
          none, none, none] [scenario_entry_aquired 0, none, none, none])
        [(0, 0)]).index_.all_actions
        = [{ queue_ := queue_t.MUST_SPLIT, view_id_ := 0, model_id_ := 0, node_id_ := 0,
             error_ := 2 }] ∧
      p'.index_.get_current_cut 0 0 = [1, 2] ∧
      p'.transfer_list_ = [(0, p'.gpu_cache_.slot_id 0 2), (1, p'.gpu_cache_.slot_id 0 1)] ∧
      p'.gpu_cache_.transfer_slots_written = 2 := by
  obtain ⟨p', h, c1, _, c3, c4, _⟩ := C10_root_only_cut scenario_config
    (scenario_input scenario_a_error)
    (root_pool [scenario_entry_aquired 0, scenario_entry 1, scenario_entry 2, none, none,
      none, none, none] [scenario_entry_aquired 0, none, none, none])
    (by decide) (by intro q; rfl) (by decide)
  have hem : root_split_emitted scenario_config (scenario_input scenario_a_error)
      (root_pool [scenario_entry_aquired 0, scenario_entry 1, scenario_entry 2, none, none,
        none, none, none] [scenario_entry_aquired 0, none, none, none]) := by
    with_unfolding_all decide
  have hhost : root_children_on_host (scenario_input scenario_a_error)
      (root_pool [scenario_entry_aquired 0, scenario_entry 1, scenario_entry 2, none, none,
        none, none, none] [scenario_entry_aquired 0, none, none, none]) := by
    decide
  have hoff : root_children_off_gpu
      (root_pool [scenario_entry_aquired 0, scenario_entry 1, scenario_entry 2, none, none,
        none, none, none] [scenario_entry_aquired 0, none, none, none]) := by
    decide
  have hroom : gpu_has_room
      (root_pool [scenario_entry_aquired 0, scenario_entry 1, scenario_entry 2, none, none,
        none, none, none] [scenario_entry_aquired 0, none, none, none]) := by
    decide
  have c4' := c4 hem hhost hoff hroom rfl rfl rfl rfl
  exact ⟨p', h, c1 hem, (c3 hem hhost (Or.inr hroom)).1, c4'.1, c4'.2.1⟩

/-- C10, as stated, fails in both directions. Scenario A with the children not yet
read from disk: the error of the root (2.0) exceeds `maxT` (`0.5 + 0.1`), the host
cache has seven free slots and the GPU cache three, the analysis queues
`MustSplit(0, 2.0)`, and `split_node` registers the children for loading and
rejects the split: the current cut stays `{0}` and nothing is transferred. And
with no free GPU slot at all but the children resident in both caches, the
split is approved: the current cut becomes `{1, 2}`. -/
theorem C10_split_needs_resident_children :
    (scenario_a_error 0
        > (root_pool [scenario_entry_aquired 0, none, none, none, none, none, none, none]
            [scenario_entry_aquired 0, none, none, none]).max_error_threshold 0 ∧
      2 ≤ (root_pool [scenario_entry_aquired 0, none, none, none, none, none, none, none]
        [scenario_entry_aquired 0, none, none, none]).ooc_cache_.num_free_slots ∧
      2 ≤ (root_pool [scenario_entry_aquired 0, none, none, none, none, none, none, none]
        [scenario_entry_aquired 0, none, none, none]).gpu_cache_.num_free_slots ∧
      (cut_update_pool.run_analysis scenario_config (scenario_input scenario_a_error)
        (root_pool [scenario_entry_aquired 0, none, none, none, none, none, none, none]
          [scenario_entry_aquired 0, none, none, none]) [(0, 0)]).index_.all_actions
        = [scenario_split 0 2] ∧
      (cut_update_pool.analysis_and_update scenario_config (scenario_input scenario_a_error)
        (root_pool [scenario_entry_aquired 0, none, none, none, none, none, none, none]
          [scenario_entry_aquired 0, none, none, none]) [(0, 0)]).map
        (fun p => (p.index_.get_current_cut 0 0, p.transfer_list_,
          p.gpu_cache_.transfer_slots_written)) = some ([0], [], 0)) ∧
    ((root_pool [scenario_entry_aquired 0, scenario_entry 1, scenario_entry 2, none, none,
        none, none, none]
        [scenario_entry_aquired 0, scenario_entry 1, scenario_entry 2,
          scenario_entry 3]).gpu_cache_.num_free_slots = 0 ∧
      (cut_update_pool.analysis_and_update scenario_config (scenario_input scenario_a_error)
        (root_pool [scenario_entry_aquired 0, scenario_entry 1, scenario_entry 2, none, none,
          none, none, none]
          [scenario_entry_aquired 0, scenario_entry 1, scenario_entry 2, scenario_entry 3])
        [(0, 0)]).map
        (fun p => p.index_.get_current_cut 0 0) = some [1, 2]) := by
  refine ⟨⟨?_, ?_, ?_, ?_, ?_⟩, ?_, ?_⟩
  · decide!
  · decide
  · decide
  · with_unfolding_all decide
  · with_unfolding_all decide
  · decide
  · with_unfolding_all decide

/-! ## An update without transfer budget -/

/-- C11: with no transfer budget at the start of `cut_update` and fan-out at least
one for every model, `cut_update` returns after a sequence of transitions that
leaves no action queued (every split has been approved or rejected), and in
every state `q` it goes through: no node has been registered in the GPU
cache (its entries, free slots, budget and transfer lists are those of the
start) and no node has changed its residency in the host cache since the
refresh that opens the update; and `split_node` on the front split `a` either
rejects it, leaving the GPU cache untouched, or approves it with all children
of its node resident in the host cache (after the opening refresh) and in the
GPU cache at the start. The other way in which the update approves a split,
transition `resident`, requires the children to be resident in both caches in
`q`, which by the first part is residency at the start. -/
theorem C11_zero_budget_update (inp : frame_input) (p : cut_update_pool)
    (hb : p.gpu_cache_.transfer_budget = 0) (hF : ∀ m, 1 ≤ p.index_.fan_factor m) :
    ∃ p1, cut_update_pool.cut_update inp p
        = some (cut_update_pool.compile_transfer_list inp p1.compile_render_list) ∧
      Relation.ReflTransGen update_step (p.refreshed inp) p1 ∧
      (∀ k, p1.index_.action_queues_ k = []) ∧
      ∀ q, Relation.ReflTransGen update_step (p.refreshed inp) q →
        cut_update_pool.nothing_transferred (p.refreshed inp) q ∧
        ∀ a, q.index_.front_action queue_t.MUST_SPLIT = some a →
          (∃ o : ooc_cache, cut_update_pool.split_node (q.pop_front queue_t.MUST_SPLIT) a
            = cut_update_pool.reject
                { q.pop_front queue_t.MUST_SPLIT with ooc_cache_ := o } a) ∨
          ((∀ c ∈ q.index_.get_all_children a.model_id_ a.node_id_,
              (p.refreshed inp).ooc_cache_.is_node_resident a.model_id_ c = true ∧
              p.gpu_cache_.is_node_resident a.model_id_ c = true) ∧
            cut_update_pool.split_node (q.pop_front queue_t.MUST_SPLIT) a
              = cut_update_pool.approve
                  (cut_update_pool.aquire_children (q.pop_front queue_t.MUST_SPLIT)
                    a.view_id_ a.model_id_
                    (q.index_.get_all_children a.model_id_ a.node_id_)) a) := by
  obtain ⟨p1, e, steps, hdone⟩ := cut_update_pool.cut_update_spec inp p
  refine ⟨p1, e, steps, hdone, ?_⟩
  intro q hq
  obtain ⟨t1, t2, t3⟩ := update_steps_zero_budget (p.refreshed inp) q hq hb hF
  refine ⟨t1, ?_⟩
  intro a _
  have hbq : (q.pop_front queue_t.MUST_SPLIT).gpu_cache_.transfer_budget = 0 := by
    have := t1.2.1
    show q.gpu_cache_.transfer_budget_ = 0
    rw [this]
    exact hb
  have hFq : 1 ≤ (q.pop_front queue_t.MUST_SPLIT).index_.fan_factor a.model_id_ := by
    show 1 ≤ q.index_.fan_factors_ a.model_id_
    rw [t2]
    exact hF a.model_id_
  rcases cut_update_pool.split_node_zero_budget_outcome (q.pop_front queue_t.MUST_SPLIT) a
    hbq hFq with h | ⟨h1, h2⟩
  · exact Or.inl h
  · right
    refine ⟨?_, h2⟩
    intro c hc
    obtain ⟨r1, r2⟩ := h1 c hc
    constructor
    · rw [← t1.2.2.2.2.2 a.model_id_ c]
      exact r1
    · have := t1.1.1 a.model_id_ c
      show p.gpu_cache_.slots_.is_node_indexed a.model_id_ c = true
      have e2 : (p.refreshed inp).gpu_cache_.slots_ = p.gpu_cache_.slots_ := rfl
      rw [← e2, ← this]
      exact r2

/-- Witness of C11: the split of the root queued, the children of the root in
neither cache, no transfer budget. -/
theorem C11_zero_budget_update_witness :
    ∃ p1, cut_update_pool.cut_update (scenario_input (fun _ => 2)) no_budget_pool
        = some (cut_update_pool.compile_transfer_list (scenario_input (fun _ => 2))
            p1.compile_render_list) ∧
      Relation.ReflTransGen update_step
        (no_budget_pool.refreshed (scenario_input (fun _ => 2))) p1 ∧
      (∀ k, p1.index_.action_queues_ k = []) ∧
      ∀ q, Relation.ReflTransGen update_step
          (no_budget_pool.refreshed (scenario_input (fun _ => 2))) q →
        cut_update_pool.nothing_transferred
          (no_budget_pool.refreshed (scenario_input (fun _ => 2))) q ∧
        ∀ a, q.index_.front_action queue_t.MUST_SPLIT = some a →
          (∃ o : ooc_cache, cut_update_pool.split_node (q.pop_front queue_t.MUST_SPLIT) a
            = cut_update_pool.reject
                { q.pop_front queue_t.MUST_SPLIT with ooc_cache_ := o } a) ∨
          ((∀ c ∈ q.index_.get_all_children a.model_id_ a.node_id_,
              (no_budget_pool.refreshed (scenario_input (fun _ => 2))).ooc_cache_.is_node_resident
                a.model_id_ c = true ∧
              no_budget_pool.gpu_cache_.is_node_resident a.model_id_ c = true) ∧
            cut_update_pool.split_node (q.pop_front queue_t.MUST_SPLIT) a
              = cut_update_pool.approve
                  (cut_update_pool.aquire_children (q.pop_front queue_t.MUST_SPLIT)
                    a.view_id_ a.model_id_
                    (q.index_.get_all_children a.model_id_ a.node_id_)) a) :=
  C11_zero_budget_update (scenario_input (fun _ => 2)) no_budget_pool rfl
    (fun _ => Nat.le_succ 1)

/-- C12, as stated, fails: no transfer budget, the split of the root queued, the
children 1 and 2 of the root in neither cache, free slots in both caches. The
loop of `cut_update` tests the free GPU slots, not the budget, before it calls
`split_node`, whose first loop registers both children in the host cache; the
split is then rejected for want of budget. -/
theorem C12_zero_budget_registers_on_host :
    no_budget_pool.gpu_cache_.transfer_budget = 0 ∧
    (no_budget_pool.ooc_cache_.slots_.is_node_indexed 0 1,
      no_budget_pool.ooc_cache_.slots_.is_node_indexed 0 2,
      no_budget_pool.ooc_cache_.slots_.num_free_slots) = (false, false, 7) ∧
    (cut_update_pool.cut_update (scenario_input (fun _ => 2)) no_budget_pool).map
      (fun p => (p.ooc_cache_.slots_.is_node_indexed 0 1,
        p.ooc_cache_.slots_.is_node_indexed 0 2,
        p.ooc_cache_.slots_.num_free_slots,
        p.index_.get_current_cut 0 0))
      = some (true, true, 5, [0]) := by
  refine ⟨rfl, by decide, ?_⟩
  with_unfolding_all decide

/-- C12 (amended): with no transfer budget at the start of `cut_update` and fan-out
at least one for every model, `cut_update` (prefetching disabled) returns after
a sequence of transitions, and a node is registered in the host cache only by
`split_node`, under the conditions that follow. In every state `q` the update
goes through, a transition from `q` to `q'` registers nothing in either cache
(the indexed nodes, the resident nodes and the number of free slots of both
caches are the same in `q'` as in `q`), unless it is `split_node` on the front
split `a` of `q` while both caches have a free slot for every child of its
node, the node has children to split into, and some child is not host-resident
in `q`; every child of the node then has an entry in the host cache of `q'`.
So when every queued split finds fewer free GPU slots or fewer free host slots
than its node has children, or has no children to split into, or has all of
them host-resident after the refresh that opens the update, no state of the
update has a node registered in either cache since that refresh. And when the
front split `a` at the start has children and both caches have a free slot for
every child, every child of its node has an entry in the host cache when
`cut_update` returns, whatever its residency was: the children that were not
in the host cache have been scheduled for loading. The refresh itself leaves
the indexed nodes and the number of free slots of the host cache as they
were. -/
theorem C12_zero_budget_host_registration (inp : frame_input) (p : cut_update_pool)
    (hb : p.gpu_cache_.transfer_budget = 0) (hF : ∀ m, 1 ≤ p.index_.fan_factor m) :
    ∃ p1, cut_update_pool.cut_update inp p
        = some (cut_update_pool.compile_transfer_list inp p1.compile_render_list) ∧
      Relation.ReflTransGen update_step (p.refreshed inp) p1 ∧
      (∀ q q', Relation.ReflTransGen update_step (p.refreshed inp) q → update_step q q' →
        cut_update_pool.nothing_registered q q' ∨
        ∃ a, q.index_.front_action queue_t.MUST_SPLIT = some a ∧
          q' = cut_update_pool.split_node (q.pop_front queue_t.MUST_SPLIT) a ∧
          q.index_.fan_factor a.model_id_ ≤ q.gpu_cache_.num_free_slots ∧
          q.index_.fan_factor a.model_id_ ≤ q.ooc_cache_.num_free_slots ∧
          ((q.index_.get_all_children a.model_id_ a.node_id_).head? == some invalid_node_t
            || a.node_id_ == invalid_node_t) = false ∧
          (∃ c ∈ q.index_.get_all_children a.model_id_ a.node_id_,
            q.ooc_cache_.is_node_resident a.model_id_ c = false) ∧
          ∀ c ∈ q.index_.get_all_children a.model_id_ a.node_id_,
            q'.ooc_cache_.slots_.is_node_indexed a.model_id_ c = true) ∧
      ((∀ a ∈ p.index_.action_queues_ queue_t.MUST_SPLIT,
          p.gpu_cache_.num_free_slots < p.index_.fan_factor a.model_id_ ∨
          p.ooc_cache_.num_free_slots < p.index_.fan_factor a.model_id_ ∨
          ((p.index_.get_all_children a.model_id_ a.node_id_).head? == some invalid_node_t
            || a.node_id_ == invalid_node_t) = true ∨
          ∀ c ∈ p.index_.get_all_children a.model_id_ a.node_id_,
            (p.refreshed inp).ooc_cache_.is_node_resident a.model_id_ c = true) →
        ∀ q, Relation.ReflTransGen update_step (p.refreshed inp) q →
          cut_update_pool.nothing_registered (p.refreshed inp) q) ∧
      (∀ a, p.index_.front_action queue_t.MUST_SPLIT = some a →
        ((p.index_.get_all_children a.model_id_ a.node_id_).head? == some invalid_node_t
          || a.node_id_ == invalid_node_t) = false →
        p.index_.fan_factor a.model_id_ ≤ p.gpu_cache_.num_free_slots →
        p.index_.fan_factor a.model_id_ ≤ p.ooc_cache_.num_free_slots →
        ∀ c ∈ p.index_.get_all_children a.model_id_ a.node_id_,
          p1.ooc_cache_.slots_.is_node_indexed a.model_id_ c = true) ∧
      (∀ m n, (p.refreshed inp).ooc_cache_.slots_.is_node_indexed m n
        = p.ooc_cache_.slots_.is_node_indexed m n) ∧
      (p.refreshed inp).ooc_cache_.slots_.num_free_slots
        = p.ooc_cache_.slots_.num_free_slots := by
  have hfree : (p.refreshed inp).ooc_cache_.num_free_slots = p.ooc_cache_.num_free_slots :=
    cache_slots.num_free_slots_map p.ooc_cache_.slots_
      (fun e => { e with loaded := e.loaded || inp.loads_completed_update e.model_id e.node_id })
  obtain ⟨p', h1, h2, _⟩ := cut_update_pool.cut_update_loop_spec
    (cut_update_pool.cut_update_fuel (p.refreshed inp)) (p.refreshed inp)
    { check_residency := true, all_children_in_ooc_cache := true,
      all_children_in_gpu_cache := true } (Nat.lt_succ_self _)
  refine ⟨cut_update_pool.cut_update_drain p', ?_,
    h2.trans (cut_update_pool.cut_update_drain_steps p'), ?_, ?_, ?_, ?_, hfree⟩
  · unfold cut_update_pool.cut_update
    simp only []
    have : { p with ooc_cache_ := p.ooc_cache_.refresh inp.loads_completed_update }
        = p.refreshed inp := rfl
    rw [this, h1]
  · intro q q' hq hstep
    obtain ⟨t1, t2, _⟩ := update_steps_zero_budget (p.refreshed inp) q hq hb hF
    have hbq : q.gpu_cache_.transfer_budget = 0 := by
      show q.gpu_cache_.transfer_budget_ = 0
      rw [t1.2.1]
      exact hb
    have hFq : ∀ m, 1 ≤ q.index_.fan_factor m := by
      intro m
      unfold cut_update_index.fan_factor
      rw [t2]
      exact hF m
    exact update_step_frugal q q' hstep hbq hFq
  · intro hcond q hq
    refine (update_steps_frugal (p.refreshed inp) q hq hb hF ?_).1
    intro a ha
    rcases hcond a ha with h | h | h | h
    · exact Or.inl h
    · exact Or.inr (Or.inl (by rw [hfree]; exact h))
    · exact Or.inr (Or.inr (Or.inl h))
    · exact Or.inr (Or.inr (Or.inr h))
  · intro a hfront hguard hgpu hooc c hc
    have := cut_update_pool.cut_update_loop_front (p.refreshed inp) a hfront hguard hgpu
      (by rw [hfree]; exact hooc) p' h1 c hc
    exact update_steps_indexed p' _ (cut_update_pool.cut_update_drain_steps p') a.model_id_ c this
  · intro m n
    exact cache_slots.is_node_indexed_map p.ooc_cache_.slots_
      (fun e => { e with loaded := e.loaded || inp.loads_completed_update e.model_id e.node_id })
      (fun e => ⟨rfl, rfl⟩) m n

/-- Witness of C12: no transfer budget, the split of the root queued, the children
1 and 2 of the root in neither cache, free slots for both in both caches: both
children have an entry in the host cache when `cut_update` returns. -/
theorem C12_zero_budget_host_registration_witness :
    no_budget_pool.gpu_cache_.transfer_budget = 0 ∧
    (no_budget_pool.ooc_cache_.slots_.is_node_indexed 0 1,
      no_budget_pool.ooc_cache_.slots_.is_node_indexed 0 2) = (false, false) ∧
    ∃ p1, cut_update_pool.cut_update (scenario_input (fun _ => 2)) no_budget_pool
        = some (cut_update_pool.compile_transfer_list (scenario_input (fun _ => 2))
            p1.compile_render_list) ∧
      Relation.ReflTransGen update_step
        (no_budget_pool.refreshed (scenario_input (fun _ => 2))) p1 ∧
      p1.ooc_cache_.slots_.is_node_indexed 0 1 = true ∧
      p1.ooc_cache_.slots_.is_node_indexed 0 2 = true := by
  obtain ⟨p1, e, s, _, _, hB, _⟩ := C12_zero_budget_host_registration
    (scenario_input (fun _ => 2)) no_budget_pool rfl (fun _ => Nat.le_succ 1)
  have h := hB (scenario_split 0 2) rfl (by decide) (by decide) (by decide)
  exact ⟨rfl, by decide, p1, e, s, h 1 (by decide), h 2 (by decide)⟩

/-! ## Scenario C: two splits and one free GPU slot -/

/-- C15, as stated, fails. Scenario C: fan-out 2, nodes 0 … 6, previous cut
`{1, 2}`, both nodes in the frustum with errors 2 and 3 above the maximum
threshold 0.6, their children resident in the host cache and not in the GPU
cache, one free GPU slot, a transfer budget of one node. The analysis queues
the two splits, the split of node 2 (error 3) in front. `cut_update` calls
`split_node` only when the GPU cache has a free slot for every child; one free
slot is less than the fan-out 2 and no collapse is queued that could make
room, so both splits are rejected: the current cut is `{1, 2}` again, no child
is registered in the GPU cache and nothing is transferred. -/
theorem C15_both_splits_rejected :
    scenario_c_analysed.index_.all_actions = [scenario_split 2 3, scenario_split 1 2] ∧
    (scenario_c_pool.gpu_cache_.num_free_slots, scenario_c_pool.gpu_cache_.transfer_budget)
      = (1, 1) ∧
    (cut_update_pool.analysis_and_update scenario_config (scenario_input scenario_c_error)
        scenario_c_pool [(0, 0)]).map
      (fun p => (p.index_.get_current_cut 0 0, p.gpu_cache_.num_free_slots, p.transfer_list_))
      = some ([1, 2], 1, []) ∧
    (cut_update_pool.analysis_and_update scenario_config (scenario_input scenario_c_error)
        scenario_c_pool [(0, 0)]).map
      (fun p => (p.gpu_cache_.is_node_resident 0 3, p.gpu_cache_.is_node_resident 0 4,
        p.gpu_cache_.is_node_resident 0 5, p.gpu_cache_.is_node_resident 0 6))
      = some (false, false, false, false) := by
  refine ⟨?_, by decide, ?_, ?_⟩
  · with_unfolding_all decide
  · with_unfolding_all decide
  · with_unfolding_all decide

/-- C15 (amended): when only splits and keeps are queued, each in the queue of its
kind, and every queued split finds fewer free GPU slots than its node has
children and has a child that is not in the GPU cache (in scenario C: one free
slot, fan-out 2), `cut_update` returns having rejected every split, whatever
the errors and the transfer budget: the current cut of every view and model
consists of what it held before and of the nodes of the queued actions (in
scenario C it is `{1, 2}` again), and the entries, the resident nodes and the
free slots of both caches and the transfer budget are as they were (the host
cache as the opening refresh left it). -/
theorem C15_blocked_splits_rejected (inp : frame_input) (p : cut_update_pool)
    (hb : p.splits_blocked) :
    ∃ P, cut_update_pool.cut_update inp p = some P ∧
      (∀ v m x, x ∈ P.index_.get_current_cut v m ↔
        (x ∈ p.index_.get_current_cut v m ∨ p.index_.pending_node v m x)) ∧
      cache_slots.same_entries p.gpu_cache_.slots_ P.gpu_cache_.slots_ ∧
      cache_slots.same_entries (p.refreshed inp).ooc_cache_.slots_ P.ooc_cache_.slots_ ∧
      P.gpu_cache_.transfer_budget = p.gpu_cache_.transfer_budget := by
  obtain ⟨p1, e, steps, hdone⟩ := cut_update_pool.cut_update_spec inp p
  obtain ⟨_, i2, i3⟩ := update_steps_blocked (p.refreshed inp) p1 steps hb
  refine ⟨_, e, ?_, i2.2.1, i2.1, i2.2.2.1⟩
  intro v m x
  have hall : p1.index_.all_actions = [] := by
    simp [cut_update_index.all_actions, hdone]
  have := i3 v m x
  unfold cut_update_index.pending_node at this
  rw [hall] at this
  simp only [List.not_mem_nil, false_and, exists_false, or_false] at this
  exact this

/-- Witness of C15: scenario C after the analysis. -/
theorem C15_blocked_splits_rejected_witness :
    ∃ P, cut_update_pool.cut_update (scenario_input scenario_c_error) scenario_c_analysed
        = some P ∧
      (∀ v m x, x ∈ P.index_.get_current_cut v m ↔
        (x ∈ scenario_c_analysed.index_.get_current_cut v m ∨
          scenario_c_analysed.index_.pending_node v m x)) ∧
      cache_slots.same_entries scenario_c_analysed.gpu_cache_.slots_ P.gpu_cache_.slots_ ∧
      cache_slots.same_entries
        (scenario_c_analysed.refreshed (scenario_input scenario_c_error)).ooc_cache_.slots_
        P.ooc_cache_.slots_ ∧
      P.gpu_cache_.transfer_budget = scenario_c_analysed.gpu_cache_.transfer_budget :=
  C15_blocked_splits_rejected (scenario_input scenario_c_error) scenario_c_analysed
    (by with_unfolding_all decide)

/-! ## What the analysis emits for the nodes of the previous cut -/

/-- C18: in `cut_analysis` of a view and model with fan-out at least one, for every
node `x` of the previous cut (a `std::set`, so strictly ascending) whose sibling
group is completely in the cut and whose parent is outside the frustum, exactly
one of the emitted actions stands for `x`: a collapse into the parent with the
error of the parent, `MUST_COLLAPSE` when must-collapse-outside-frustum is
enabled and `COLLAPSE_ON_NEED` when it is disabled, whatever the errors of the
siblings and the freshness of the model. The action is the same for every node
of the group, so one action is emitted for the whole group, and no keep, split
or maybe-collapse stands for a node of the group. -/
theorem C18_group_outside_frustum (cfg : config) (inp : frame_input) (p : cut_update_pool)
    (v m x : Nat) (hF : 1 ≤ p.index_.fan_factor m)
    (hs : (p.index_.get_previous_cut v m).Pairwise (fun a b => a < b))
    (hx : x ∈ p.index_.get_previous_cut v m)
    (hg : p.group_complete m (p.index_.get_previous_cut v m) x)
    (hout : inp.node_in_frustum v m (p.index_.get_parent_id m x) = false) :
    p.index_.actions_for (p.analysis_actions cfg inp v m) x
      = [p.parent_action inp
          (if cfg.LAMURE_CUT_UPDATE_MUST_COLLAPSE_OUTSIDE_FRUSTUM then queue_t.MUST_COLLAPSE
            else queue_t.COLLAPSE_ON_NEED) v m x] := by
  have hpe : p.parent_error inp v m x = inp.node_error v m (p.index_.get_parent_id m x) := by
    unfold cut_update_pool.parent_error
    rw [if_pos ⟨hg.1, hg.2.1⟩]
  refine cut_update_pool.actions_for_group cfg inp p v m hF hs x hx hg _ ?_ ?_
  · rw [hout, hpe]
    unfold cut_update_pool.analyse_group cut_update_pool.parent_action
    cases cfg.LAMURE_CUT_UPDATE_MUST_COLLAPSE_OUTSIDE_FRUSTUM <;> simp
  · apply cut_update_pool.parent_action_stands_for inp p v m _ x hF hg
    cases cfg.LAMURE_CUT_UPDATE_MUST_COLLAPSE_OUTSIDE_FRUSTUM <;> simp

/-- Witness of C18: previous cut `{1, 2}` with the root outside the frustum. -/
theorem C18_group_outside_frustum_witness :
    siblings_pool.index_.actions_for
        (siblings_pool.analysis_actions scenario_config (root_outside_input (fun _ => 2)) 0 0) 1
      = [siblings_pool.parent_action (root_outside_input (fun _ => 2))
          (if scenario_config.LAMURE_CUT_UPDATE_MUST_COLLAPSE_OUTSIDE_FRUSTUM then
            queue_t.MUST_COLLAPSE else queue_t.COLLAPSE_ON_NEED) 0 0 1] :=
  C18_group_outside_frustum scenario_config (root_outside_input (fun _ => 2)) siblings_pool
    0 0 1 (by decide) (by decide) (by decide) (by decide) (by decide)

/-- C19: in `cut_analysis` without freshness timeout, fan-out at least one, for
every node `x` of the previous cut (strictly ascending) whose sibling group is
completely in the cut and whose parent is in the frustum, exactly one emitted
action stands for `x`. The thresholds are the ones `cut_analysis` computes:
`min_error_threshold` and `max_error_threshold`, `T - 0.1` and `T + 0.1` in
`float64_t` arithmetic. A sibling requires a split when the sibling loop flags
it (`sibling_splits`: its error is above the maximum threshold, it is in the
frustum, every child of it exists and has an error not below the minimum
threshold). If no sibling requires a split and all sibling errors are below the
minimum threshold, the action is `MUST_COLLAPSE` on the parent; if no sibling
requires a split and some sibling error is not below the minimum threshold, it
is `MAYBE_COLLAPSE` on the parent (in both cases the same action for every node
of the group: one action for the group); if some sibling requires a split, it
is `MUST_SPLIT` on `x` with the error of `x` when `x` requires a split and
`KEEP` on `x` otherwise, so no collapse stands for a node of the group. -/
theorem C19_visible_group (cfg : config) (inp : frame_input) (p : cut_update_pool)
    (v m x : Nat) (hF : 1 ≤ p.index_.fan_factor m)
    (hs : (p.index_.get_previous_cut v m).Pairwise (fun a b => a < b))
    (hx : x ∈ p.index_.get_previous_cut v m)
    (hg : p.group_complete m (p.index_.get_previous_cut v m) x)
    (hin : inp.node_in_frustum v m (p.index_.get_parent_id m x) = true)
    (ht : cut_update_pool.freshness_timeout cfg p m = false) :
    ((∀ s ∈ p.index_.get_all_siblings m x, cut_update_pool.sibling_splits inp p v m
          (p.min_error_threshold m) (p.max_error_threshold m) s = false) →
      (∀ s ∈ p.index_.get_all_siblings m x,
          inp.node_error v m s < p.min_error_threshold m) →
      p.index_.actions_for (p.analysis_actions cfg inp v m) x
        = [p.parent_action inp queue_t.MUST_COLLAPSE v m x]) ∧
    ((∀ s ∈ p.index_.get_all_siblings m x, cut_update_pool.sibling_splits inp p v m
          (p.min_error_threshold m) (p.max_error_threshold m) s = false) →
      (∃ s ∈ p.index_.get_all_siblings m x,
          inp.node_error v m s ≥ p.min_error_threshold m) →
      p.index_.actions_for (p.analysis_actions cfg inp v m) x
        = [p.parent_action inp queue_t.MAYBE_COLLAPSE v m x]) ∧
    ((∃ s ∈ p.index_.get_all_siblings m x, cut_update_pool.sibling_splits inp p v m
          (p.min_error_threshold m) (p.max_error_threshold m) s = true) →
      p.index_.actions_for (p.analysis_actions cfg inp v m) x
        = [if cut_update_pool.sibling_splits inp p v m
              (p.min_error_threshold m) (p.max_error_threshold m) x = true then
            { queue_ := queue_t.MUST_SPLIT, view_id_ := v, model_id_ := m, node_id_ := x,
              error_ := inp.node_error v m x }
           else
            { queue_ := queue_t.KEEP, view_id_ := v, model_id_ := m, node_id_ := x,
              error_ := inp.node_error v m (p.index_.get_parent_id m x) }]) := by
  have hpe : p.parent_error inp v m x = inp.node_error v m (p.index_.get_parent_id m x) := by
    unfold cut_update_pool.parent_error
    rw [if_pos ⟨hg.1, hg.2.1⟩]
  obtain ⟨s1, _, s3, _⟩ := cut_update_pool.group_complete_sibling p m _ x hF hg
  obtain ⟨c1, c2, c3⟩ := cut_update_pool.analyse_group_visible cfg inp p v m
    (p.index_.get_parent_id m x) (p.index_.get_all_siblings m x)
    (inp.node_error v m (p.index_.get_parent_id m x))
    (p.min_error_threshold m) (p.max_error_threshold m) s3
  refine ⟨?_, ?_, ?_⟩
  · intro h1 h2
    refine cut_update_pool.actions_for_group cfg inp p v m hF hs x hx hg _ ?_ ?_
    · rw [hin, ht, hpe, Bool.not_true, c1 h1 h2]
      exact List.mem_singleton.mpr rfl
    · exact cut_update_pool.parent_action_stands_for inp p v m _ x hF hg _ (by simp)
  · intro h1 h2
    refine cut_update_pool.actions_for_group cfg inp p v m hF hs x hx hg _ ?_ ?_
    · rw [hin, ht, hpe, Bool.not_true, c2 h1 h2]
      exact List.mem_singleton.mpr rfl
    · exact cut_update_pool.parent_action_stands_for inp p v m _ x hF hg _ (by simp)
  · intro h1
    refine cut_update_pool.actions_for_group cfg inp p v m hF hs x hx hg _ ?_ ?_
    · rw [hin, ht, hpe, Bool.not_true]
      exact c3 h1 x s1
    · unfold cut_update_index.rejected_nodes
      by_cases hsp : cut_update_pool.sibling_splits inp p v m
          (p.min_error_threshold m) (p.max_error_threshold m) x = true
      · rw [if_pos hsp]
        exact List.mem_singleton.mpr rfl
      · rw [if_neg hsp]
        exact List.mem_singleton.mpr rfl

/-- Witness of C19: previous cut `{1, 2}`, every node in the frustum, no timeout. -/
theorem C19_visible_group_witness :
    ((∀ s ∈ siblings_pool.index_.get_all_siblings 0 1, cut_update_pool.sibling_splits
          (scenario_input scenario_c_error) siblings_pool 0 0
          (siblings_pool.min_error_threshold 0) (siblings_pool.max_error_threshold 0) s
          = false) →
      (∀ s ∈ siblings_pool.index_.get_all_siblings 0 1,
          (scenario_input scenario_c_error).node_error 0 0 s
            < siblings_pool.min_error_threshold 0) →
      siblings_pool.index_.actions_for
          (siblings_pool.analysis_actions scenario_config (scenario_input scenario_c_error) 0 0) 1
        = [siblings_pool.parent_action (scenario_input scenario_c_error)
            queue_t.MUST_COLLAPSE 0 0 1]) ∧
    ((∀ s ∈ siblings_pool.index_.get_all_siblings 0 1, cut_update_pool.sibling_splits
          (scenario_input scenario_c_error) siblings_pool 0 0
          (siblings_pool.min_error_threshold 0) (siblings_pool.max_error_threshold 0) s
          = false) →
      (∃ s ∈ siblings_pool.index_.get_all_siblings 0 1,
          (scenario_input scenario_c_error).node_error 0 0 s
            ≥ siblings_pool.min_error_threshold 0) →
      siblings_pool.index_.actions_for
          (siblings_pool.analysis_actions scenario_config (scenario_input scenario_c_error) 0 0) 1
        = [siblings_pool.parent_action (scenario_input scenario_c_error)
            queue_t.MAYBE_COLLAPSE 0 0 1]) ∧
    ((∃ s ∈ siblings_pool.index_.get_all_siblings 0 1, cut_update_pool.sibling_splits
          (scenario_input scenario_c_error) siblings_pool 0 0
          (siblings_pool.min_error_threshold 0) (siblings_pool.max_error_threshold 0) s
          = true) →
      siblings_pool.index_.actions_for
          (siblings_pool.analysis_actions scenario_config (scenario_input scenario_c_error) 0 0) 1
        = [if cut_update_pool.sibling_splits (scenario_input scenario_c_error) siblings_pool 0 0
              (siblings_pool.min_error_threshold 0)
              (siblings_pool.max_error_threshold 0) 1 = true then
            { queue_ := queue_t.MUST_SPLIT, view_id_ := 0, model_id_ := 0, node_id_ := 1,
              error_ := (scenario_input scenario_c_error).node_error 0 0 1 }
           else
            { queue_ := queue_t.KEEP, view_id_ := 0, model_id_ := 0, node_id_ := 1,
              error_ := (scenario_input scenario_c_error).node_error 0 0
                (siblings_pool.index_.get_parent_id 0 1) }]) :=
  C19_visible_group scenario_config (scenario_input scenario_c_error) siblings_pool 0 0 1
    (by decide) (by decide) (by decide) (by decide) (by decide) (by decide)

/-- C17, as stated, fails: previous cut `{0}`, the root in the frustum with error 2
above the maximum threshold (`0.5 + 0.1`), child 1 with error 0.3 below the
minimum threshold (`0.5 - 0.1`) and child 2 with error 0.6 not below it, no
timeout. Not every
child is below the minimum threshold, so the claim classifies the root
`MUST_SPLIT`; the inner loop of `cut_analysis` clears `split` at the first
child below the minimum threshold (or the first missing child), and the root is
classified `KEEP`. -/
theorem C17_one_low_child_keeps :
    (scenario_input one_low_child_error).node_in_frustum 0 0 0 = true ∧
    (scenario_input one_low_child_error).node_error 0 0 0
      > (root_pool [] []).max_error_threshold 0 ∧
    ¬ (∀ c ∈ (root_pool [] []).index_.get_all_children 0 0,
        (scenario_input one_low_child_error).node_error 0 0 c
          < (root_pool [] []).min_error_threshold 0) ∧
    cut_update_pool.freshness_timeout scenario_config (root_pool [] []) 0 = false ∧
    (root_pool [] []).analysis_actions scenario_config (scenario_input one_low_child_error) 0 0
      = [{ queue_ := queue_t.KEEP, view_id_ := 0, model_id_ := 0, node_id_ := 0,
           error_ := 0 }] := by
  refine ⟨rfl, ?_, ?_, ?_, ?_⟩
  · with_unfolding_all decide
  · with_unfolding_all decide
  · decide
  · with_unfolding_all decide

/-- C17 (amended): in `cut_analysis` without freshness timeout, fan-out at least
one, for every node `x` of the previous cut (strictly ascending) whose sibling
group is not completely in the cut (the root included), exactly one emitted
action stands for `x`: `MUST_SPLIT` on `x` with the error of `x` when `x` is in
the frustum, its error is above the maximum threshold, and every child of `x`
exists and has an error not below the minimum threshold; `KEEP` on `x` (with the
error of the parent, 0 for a node without parent) in every other case, so also
when a single child is missing or below the minimum threshold. The thresholds
are the ones `cut_analysis` computes: `min_error_threshold` and
`max_error_threshold`, `T - 0.1` and `T + 0.1` in `float64_t` arithmetic. -/
theorem C17_single_node_action (cfg : config) (inp : frame_input) (p : cut_update_pool)
    (v m x : Nat) (hF : 1 ≤ p.index_.fan_factor m)
    (hs : (p.index_.get_previous_cut v m).Pairwise (fun a b => a < b))
    (hx : x ∈ p.index_.get_previous_cut v m)
    (hg : ¬ p.group_complete m (p.index_.get_previous_cut v m) x)
    (ht : cut_update_pool.freshness_timeout cfg p m = false) :
    ((inp.node_in_frustum v m x = true ∧
        inp.node_error v m x > p.max_error_threshold m ∧
        ∀ c ∈ p.index_.get_all_children m x,
          c ≠ invalid_node_t ∧ p.min_error_threshold m ≤ inp.node_error v m c) →
      p.index_.actions_for (p.analysis_actions cfg inp v m) x
        = [{ queue_ := queue_t.MUST_SPLIT, view_id_ := v, model_id_ := m, node_id_ := x,
             error_ := inp.node_error v m x }]) ∧
    (¬ (inp.node_in_frustum v m x = true ∧
        inp.node_error v m x > p.max_error_threshold m ∧
        ∀ c ∈ p.index_.get_all_children m x,
          c ≠ invalid_node_t ∧ p.min_error_threshold m ≤ inp.node_error v m c) →
      p.index_.actions_for (p.analysis_actions cfg inp v m) x
        = [{ queue_ := queue_t.KEEP, view_id_ := v, model_id_ := m, node_id_ := x,
             error_ := p.parent_error inp v m x }]) := by
  have h := cut_update_pool.actions_for_node cfg inp p v m hF hs x hx hg
  rw [ht] at h
  obtain ⟨e1, e2⟩ := cut_update_pool.analyse_node_eq inp p v m x (p.parent_error inp v m x)
    (p.min_error_threshold m) (p.max_error_threshold m)
  constructor
  · intro hc
    rw [h, e1 hc]
  · intro hc
    rw [h, e2 hc]

/-- Witness of C17: previous cut `{0}`, the root with error 2, one child below the
minimum threshold. -/
theorem C17_single_node_action_witness :
    (((scenario_input one_low_child_error).node_in_frustum 0 0 0 = true ∧
        (scenario_input one_low_child_error).node_error 0 0 0
          > (root_pool [] []).max_error_threshold 0 ∧
        ∀ c ∈ (root_pool [] []).index_.get_all_children 0 0,
          c ≠ invalid_node_t ∧
          (root_pool [] []).min_error_threshold 0
            ≤ (scenario_input one_low_child_error).node_error 0 0 c) →
      (root_pool [] []).index_.actions_for
          ((root_pool [] []).analysis_actions scenario_config
            (scenario_input one_low_child_error) 0 0) 0
        = [{ queue_ := queue_t.MUST_SPLIT, view_id_ := 0, model_id_ := 0, node_id_ := 0,
             error_ := (scenario_input one_low_child_error).node_error 0 0 0 }]) ∧
    (¬ ((scenario_input one_low_child_error).node_in_frustum 0 0 0 = true ∧
        (scenario_input one_low_child_error).node_error 0 0 0
          > (root_pool [] []).max_error_threshold 0 ∧
        ∀ c ∈ (root_pool [] []).index_.get_all_children 0 0,
          c ≠ invalid_node_t ∧
          (root_pool [] []).min_error_threshold 0
            ≤ (scenario_input one_low_child_error).node_error 0 0 c) →
      (root_pool [] []).index_.actions_for
          ((root_pool [] []).analysis_actions scenario_config
            (scenario_input one_low_child_error) 0 0) 0
        = [{ queue_ := queue_t.KEEP, view_id_ := 0, model_id_ := 0, node_id_ := 0,
             error_ := (root_pool [] []).parent_error (scenario_input one_low_child_error)
               0 0 0 }]) :=
  C17_single_node_action scenario_config (scenario_input one_low_child_error) (root_pool [] [])
    0 0 0 (by decide) (by decide) (by decide) (by decide) (by decide)

/-- C20, as stated, fails: previous cut `{1, 2}`, both nodes in the frustum with
errors 2 and 3 above the maximum threshold, their children with errors not
below the minimum threshold. Without timeout the analysis classifies both nodes
`MUST_SPLIT`. With the freshness timeout expired (last rendered 2000 update
frames ago, the limit being 1000) neither node is classified `KEEP`: the
parent is in the frustum, so the whole group gets the one action
`COLLAPSE_ON_NEED` on the parent, before the sibling loop is reached. -/
theorem C20_timeout_collapses_split_siblings :
    cut_update_pool.freshness_timeout scenario_config siblings_pool 0 = false ∧
    siblings_pool.analysis_actions scenario_config (scenario_input scenario_c_error) 0 0
      = [scenario_split 1 2, scenario_split 2 3] ∧
    cut_update_pool.freshness_timeout scenario_config timeout_pool 0 = true ∧
    timeout_pool.analysis_actions scenario_config (scenario_input scenario_c_error) 0 0
      = [{ queue_ := queue_t.COLLAPSE_ON_NEED, view_id_ := 0, model_id_ := 0, node_id_ := 0,
           error_ := 1 }] := by
  refine ⟨by decide, ?_, by decide, ?_⟩
  · with_unfolding_all decide
  · with_unfolding_all decide

/-- C20 (amended): when the freshness timeout of the model has expired, fan-out at
least one and the previous cut strictly ascending, `cut_analysis` emits no
`MUST_SPLIT` and no `MAYBE_COLLAPSE` for the view and model, and exactly one
emitted action stands for every node `x` of the previous cut: `KEEP` on `x` when
the sibling group of `x` is not completely in the cut (so also when `x` would
have been split); for a complete sibling group one collapse into the parent,
whatever the siblings would have been classified without timeout (splits
included): `COLLAPSE_ON_NEED` when the parent is in the frustum or
must-collapse-outside-frustum is disabled, `MUST_COLLAPSE` when the parent is
outside the frustum and it is enabled. -/
theorem C20_timeout_actions (cfg : config) (inp : frame_input) (p : cut_update_pool)
    (v m : Nat) (hF : 1 ≤ p.index_.fan_factor m)
    (hs : (p.index_.get_previous_cut v m).Pairwise (fun a b => a < b))
    (ht : cut_update_pool.freshness_timeout cfg p m = true) :
    (∀ a ∈ p.analysis_actions cfg inp v m,
      a.queue_ ≠ queue_t.MUST_SPLIT ∧ a.queue_ ≠ queue_t.MAYBE_COLLAPSE) ∧
    ∀ x ∈ p.index_.get_previous_cut v m,
      (¬ p.group_complete m (p.index_.get_previous_cut v m) x →
        p.index_.actions_for (p.analysis_actions cfg inp v m) x
          = [{ queue_ := queue_t.KEEP, view_id_ := v, model_id_ := m, node_id_ := x,
               error_ := p.parent_error inp v m x }]) ∧
      (p.group_complete m (p.index_.get_previous_cut v m) x →
        p.index_.actions_for (p.analysis_actions cfg inp v m) x
          = [p.parent_action inp
              (if (!(inp.node_in_frustum v m (p.index_.get_parent_id m x))
                    && cfg.LAMURE_CUT_UPDATE_MUST_COLLAPSE_OUTSIDE_FRUSTUM) = true then
                queue_t.MUST_COLLAPSE else queue_t.COLLAPSE_ON_NEED) v m x]) := by
  constructor
  · intro a ha
    unfold cut_update_pool.analysis_actions at ha
    rw [ht] at ha
    rcases cut_update_pool.cut_analysis_actions_timeout cfg inp p v m _ _ _ a ha
      with h | h | h <;> rw [h] <;> simp
  · intro x hx
    constructor
    · intro hg
      have h := cut_update_pool.actions_for_node cfg inp p v m hF hs x hx hg
      rw [ht, cut_update_pool.analyse_node_timeout] at h
      exact h
    · intro hg
      have hpe : p.parent_error inp v m x
          = inp.node_error v m (p.index_.get_parent_id m x) := by
        unfold cut_update_pool.parent_error
        rw [if_pos ⟨hg.1, hg.2.1⟩]
      refine cut_update_pool.actions_for_group cfg inp p v m hF hs x hx hg _ ?_ ?_
      · rw [ht, hpe, cut_update_pool.analyse_group_timeout]
        exact List.mem_singleton.mpr rfl
      · apply cut_update_pool.parent_action_stands_for inp p v m _ x hF hg
        rcases cut_update_pool.collapse_kind_cases
          (!(inp.node_in_frustum v m (p.index_.get_parent_id m x))
            && cfg.LAMURE_CUT_UPDATE_MUST_COLLAPSE_OUTSIDE_FRUSTUM) with h | h <;>
          rw [h] <;> simp

/-- Witness of C20: previous cut `{1, 2}`, the model last rendered 2000 update
frames ago. -/
theorem C20_timeout_actions_witness :
    (∀ a ∈ timeout_pool.analysis_actions scenario_config (scenario_input scenario_c_error) 0 0,
      a.queue_ ≠ queue_t.MUST_SPLIT ∧ a.queue_ ≠ queue_t.MAYBE_COLLAPSE) ∧
    ∀ x ∈ timeout_pool.index_.get_previous_cut 0 0,
      (¬ timeout_pool.group_complete 0 (timeout_pool.index_.get_previous_cut 0 0) x →
        timeout_pool.index_.actions_for
            (timeout_pool.analysis_actions scenario_config (scenario_input scenario_c_error)
              0 0) x
          = [{ queue_ := queue_t.KEEP, view_id_ := 0, model_id_ := 0, node_id_ := x,
               error_ := timeout_pool.parent_error (scenario_input scenario_c_error) 0 0 x }]) ∧
      (timeout_pool.group_complete 0 (timeout_pool.index_.get_previous_cut 0 0) x →
        timeout_pool.index_.actions_for
            (timeout_pool.analysis_actions scenario_config (scenario_input scenario_c_error)
              0 0) x
          = [timeout_pool.parent_action (scenario_input scenario_c_error)
              (if (!((scenario_input scenario_c_error).node_in_frustum 0 0
                      (timeout_pool.index_.get_parent_id 0 x))
                    && scenario_config.LAMURE_CUT_UPDATE_MUST_COLLAPSE_OUTSIDE_FRUSTUM) = true then
                queue_t.MUST_COLLAPSE else queue_t.COLLAPSE_ON_NEED) 0 0 x]) :=
  C20_timeout_actions scenario_config (scenario_input scenario_c_error) timeout_pool 0 0
    (by decide) (by decide) (by decide)

/-! ## Collapses into the root -/

/-- C13, as stated, fails: fan-out 2, previous cut `{1, 2}` (the complete set of
the children of the root), must-collapse-outside-frustum enabled, the three
nodes resident and acquired in both caches. With every node outside the
frustum the analysis emits `MUST_COLLAPSE` on node 0, as claimed, but
`collapse_node` rejects every action on node 0 (`action.node_id_ < 1`): after
`cut_update` the current cut is `{1, 2}` again, not `{0}`, and the nodes 1 and
2 are still acquired in both caches. With the children outside the frustum and
the root inside (the test of `cut_analysis` is on the parent), the children
having errors not below the minimum threshold, the analysis emits
`MAYBE_COLLAPSE` on node 0, not `MUST_COLLAPSE`, and the current cut is
`{1, 2}` again as well. -/
theorem C13_collapse_into_root_rejected :
    siblings_pool.index_.get_previous_cut 0 0 = siblings_pool.index_.get_all_children 0 0 ∧
    siblings_pool.analysis_actions scenario_config (nothing_visible_input scenario_c_error) 0 0
      = [{ queue_ := queue_t.MUST_COLLAPSE, view_id_ := 0, model_id_ := 0, node_id_ := 0,
           error_ := 1 }] ∧
    (cut_update_pool.analysis_and_update scenario_config
        (nothing_visible_input scenario_c_error) siblings_pool [(0, 0)]).map
      (fun p => (p.index_.get_current_cut 0 0,
        p.gpu_cache_.slots_.is_node_aquired 0 0 0 1, p.gpu_cache_.slots_.is_node_aquired 0 0 0 2,
        p.ooc_cache_.slots_.is_node_aquired 0 0 0 1, p.ooc_cache_.slots_.is_node_aquired 0 0 0 2))
      = some ([1, 2], true, true, true, true) ∧
    (∀ c ∈ siblings_pool.index_.get_all_children 0 0,
      (children_hidden_input scenario_c_error).node_in_frustum 0 0 c = false) ∧
    siblings_pool.analysis_actions scenario_config (children_hidden_input scenario_c_error) 0 0
      = [{ queue_ := queue_t.MAYBE_COLLAPSE, view_id_ := 0, model_id_ := 0, node_id_ := 0,
           error_ := 1 }] ∧
    (cut_update_pool.analysis_and_update scenario_config
        (children_hidden_input scenario_c_error) siblings_pool [(0, 0)]).map
      (fun p => p.index_.get_current_cut 0 0) = some [1, 2] := by
  refine ⟨by decide, ?_, ?_, by decide, ?_, ?_⟩
  · decide!
  · decide!
  · decide!
  · decide!

/-- C13 (amended): fan-out at least one, no action of the view and model queued
before the analysis. If the previous cut of a view and model is the complete set
of the children of the root (all of them existing) and the root, their parent,
is outside the frustum, or all of the children are, then the analysis emits
exactly one action, a collapse into node 0 with the error of the root:
`MUST_COLLAPSE` when the root is outside the frustum and
must-collapse-outside-frustum is enabled; with the root inside (and the children
outside) `COLLAPSE_ON_NEED` under a freshness timeout, else `MUST_COLLAPSE`
when every child error is below the minimum threshold and `MAYBE_COLLAPSE` when
one is not. Whatever other views and models the frame analyses, the frame
returns with the collapse rejected: the current cut of the pair is the set of
the children of the root again, and no node is released for the view: every
node of the model that was resident in both caches and acquired for the view
still is, the children of the root among them. -/
theorem C13_root_collapse_rejected (cfg : config) (inp : frame_input) (p : cut_update_pool)
    (jobs : List (Nat × Nat)) (v m : Nat) (hvm : (v, m) ∈ jobs)
    (hF : 1 ≤ p.index_.fan_factor m)
    (hvalid : ∀ i, i < p.index_.fan_factor m →
      0 * p.index_.fan_factor m + 1 + i < p.index_.num_nodes m)
    (hninv : ∀ c ∈ p.index_.get_all_children m 0, c ≠ invalid_node_t)
    (hprev : p.index_.get_previous_cut v m = p.index_.get_all_children m 0)
    (hout : inp.node_in_frustum v m 0 = false ∨
      ∀ c ∈ p.index_.get_all_children m 0, inp.node_in_frustum v m c = false)
    (hq : ∀ a ∈ p.index_.all_actions, ¬ action_of v m a) :
    p.analysis_actions cfg inp v m
      = [{ queue_ := p.group_collapse_kind cfg inp v m 0 (p.index_.get_all_children m 0),
           view_id_ := v, model_id_ := m, node_id_ := 0, error_ := inp.node_error v m 0 }] ∧
    (inp.node_in_frustum v m 0 = false →
      cfg.LAMURE_CUT_UPDATE_MUST_COLLAPSE_OUTSIDE_FRUSTUM = true →
      p.group_collapse_kind cfg inp v m 0 (p.index_.get_all_children m 0)
        = queue_t.MUST_COLLAPSE) ∧
    (inp.node_in_frustum v m 0 = true → cut_update_pool.freshness_timeout cfg p m = true →
      p.group_collapse_kind cfg inp v m 0 (p.index_.get_all_children m 0)
        = queue_t.COLLAPSE_ON_NEED) ∧
    (inp.node_in_frustum v m 0 = true → cut_update_pool.freshness_timeout cfg p m = false →
      (∀ c ∈ p.index_.get_all_children m 0, inp.node_error v m c < p.min_error_threshold m) →
      p.group_collapse_kind cfg inp v m 0 (p.index_.get_all_children m 0)
        = queue_t.MUST_COLLAPSE) ∧
    (inp.node_in_frustum v m 0 = true → cut_update_pool.freshness_timeout cfg p m = false →
      ¬ (∀ c ∈ p.index_.get_all_children m 0,
          inp.node_error v m c < p.min_error_threshold m) →
      p.group_collapse_kind cfg inp v m 0 (p.index_.get_all_children m 0)
        = queue_t.MAYBE_COLLAPSE) ∧
    ∃ P, cut_update_pool.analysis_and_update cfg inp p jobs = some P ∧
      P.index_.get_current_cut v m = p.index_.get_all_children m 0 ∧
      ∀ x, p.node_held v m x → P.node_held v m x := by
  have hlen : (p.index_.get_all_children m 0).length = p.index_.fan_factor m := by
    simp [cut_update_index.get_all_children]
  refine ⟨?_, ?_, ?_, ?_, ?_,
    cut_update_pool.root_group_frame cfg inp p jobs v m hvm hF hvalid hninv hprev hout hq⟩
  · rw [cut_update_pool.root_group_analysis cfg inp p v m hF hvalid hninv hprev]
    exact cut_update_pool.analyse_group_hidden cfg inp p v m 0 _ _ hlen hout
  · intro h1 h2
    unfold cut_update_pool.group_collapse_kind
    rw [if_pos h1, if_pos h2]
  · intro h1 h2
    unfold cut_update_pool.group_collapse_kind
    rw [if_neg (by rw [h1]; decide), if_pos h2]
  · intro h1 h2 h3
    unfold cut_update_pool.group_collapse_kind
    rw [if_neg (by rw [h1]; decide), if_neg (by rw [h2]; decide), if_pos h3]
  · intro h1 h2 h3
    unfold cut_update_pool.group_collapse_kind
    rw [if_neg (by rw [h1]; decide), if_neg (by rw [h2]; decide), if_neg h3]

/-- Witness of C13: previous cut `{1, 2}`, every node outside the frustum, the
three nodes held: the analysis emits `MUST_COLLAPSE` on node 0 and the frame
ends with the current cut `{1, 2}` and the nodes 1 and 2 still held. -/
theorem C13_root_collapse_rejected_witness :
    siblings_pool.analysis_actions scenario_config (nothing_visible_input scenario_c_error) 0 0
      = [{ queue_ := queue_t.MUST_COLLAPSE, view_id_ := 0, model_id_ := 0, node_id_ := 0,
           error_ := (nothing_visible_input scenario_c_error).node_error 0 0 0 }] ∧
    ∃ P, cut_update_pool.analysis_and_update scenario_config
        (nothing_visible_input scenario_c_error) siblings_pool [(0, 0)] = some P ∧
      P.index_.get_current_cut 0 0 = siblings_pool.index_.get_all_children 0 0 ∧
      P.node_held 0 0 1 ∧ P.node_held 0 0 2 := by
  obtain ⟨h1, h2, _, _, _, P, h6, h7, h8⟩ :=
    C13_root_collapse_rejected scenario_config (nothing_visible_input scenario_c_error)
      siblings_pool [(0, 0)] 0 0 (by decide) (by decide) (by decide) (by decide) (by decide)
      (Or.inl rfl)
      (by intro a ha; simp [siblings_pool, scenario_pool, scenario_index,
            cut_update_index.all_actions] at ha)
  rw [h2 rfl rfl] at h1
  exact ⟨h1, P, h6, h7, h8 1 (by decide), h8 2 (by decide)⟩

/-- C14, as stated, fails. Scenario B: fan-out 2, previous cut `{1, 2}`, every node
in the frustum, the model last rendered 2000 update frames ago with a limit of
1000, no split pending, the three nodes resident and acquired in both caches.
The analysis issues exactly `COLLAPSE_ON_NEED` on node 0, as claimed. With no
split queued the main loop of `cut_update` does not run, and the loop after it
rejects every remaining collapse-on-need: the current cut is `{1, 2}` again,
not `{0}`, and the nodes 1 and 2 are still acquired in both caches. -/
theorem C14_collapse_on_need_rejected :
    cut_update_pool.freshness_timeout scenario_config timeout_pool 0 = true ∧
    timeout_pool.analysis_actions scenario_config (scenario_input scenario_a_error) 0 0
      = [{ queue_ := queue_t.COLLAPSE_ON_NEED, view_id_ := 0, model_id_ := 0, node_id_ := 0,
           error_ := 2 }] ∧
    (cut_update_pool.analysis_and_update scenario_config (scenario_input scenario_a_error)
        timeout_pool [(0, 0)]).map
      (fun p => (p.index_.get_current_cut 0 0,
        p.gpu_cache_.slots_.is_node_aquired 0 0 0 1, p.gpu_cache_.slots_.is_node_aquired 0 0 0 2,
        p.ooc_cache_.slots_.is_node_aquired 0 0 0 1, p.ooc_cache_.slots_.is_node_aquired 0 0 0 2))
      = some ([1, 2], true, true, true, true) := by
  refine ⟨by decide, ?_, ?_⟩
  · with_unfolding_all decide
  · with_unfolding_all decide

/-- C14 (amended): scenario B for any fan-out at least one. If the previous cut of
a view and model is the complete set of the children of the root (all of them
existing), the root is in the frustum, the freshness timeout of the model has
expired and no action is queued before the analysis, then the analysis issues
exactly `COLLAPSE_ON_NEED` on node 0 with the error of the root, and the frame
of that view and model returns with the action rejected: the current cut is
the set of the children of the root again, the host cache is as its opening
refresh left it and the slots and the budget of the GPU cache are untouched, so
no child is released. -/
theorem C14_timeout_collapse_rejected (cfg : config) (inp : frame_input) (p : cut_update_pool)
    (v m : Nat) (hF : 1 ≤ p.index_.fan_factor m)
    (hvalid : ∀ i, i < p.index_.fan_factor m →
      0 * p.index_.fan_factor m + 1 + i < p.index_.num_nodes m)
    (hninv : ∀ c ∈ p.index_.get_all_children m 0, c ≠ invalid_node_t)
    (hprev : p.index_.get_previous_cut v m = p.index_.get_all_children m 0)
    (hin : inp.node_in_frustum v m 0 = true)
    (ht : cut_update_pool.freshness_timeout cfg p m = true)
    (hq : ∀ q, p.index_.action_queues_ q = []) :
    p.analysis_actions cfg inp v m
      = [{ queue_ := queue_t.COLLAPSE_ON_NEED, view_id_ := v, model_id_ := m, node_id_ := 0,
           error_ := inp.node_error v m 0 }] ∧
    ∃ P, cut_update_pool.analysis_and_update cfg inp p [(v, m)] = some P ∧
      P.index_.get_current_cut v m = p.index_.get_all_children m 0 ∧
      P.ooc_cache_ = p.ooc_cache_.refresh inp.loads_completed_update ∧
      P.gpu_cache_.slots_ = p.gpu_cache_.slots_ ∧
      P.gpu_cache_.transfer_budget = p.gpu_cache_.transfer_budget := by
  have hA : p.analysis_actions cfg inp v m
      = [{ queue_ := queue_t.COLLAPSE_ON_NEED, view_id_ := v, model_id_ := m, node_id_ := 0,
           error_ := inp.node_error v m 0 }] := by
    rw [cut_update_pool.root_group_analysis cfg inp p v m hF hvalid hninv hprev, hin, ht,
      cut_update_pool.analyse_group_timeout]
    simp
  exact ⟨hA, cut_update_pool.root_collapse_frame cfg inp p v m _ hA rfl rfl rfl (Or.inr rfl)
    hq hvalid⟩

/-- Witness of C14: previous cut `{1, 2}`, every node in the frustum, the model last
rendered 2000 update frames ago. -/
theorem C14_timeout_collapse_rejected_witness :
    timeout_pool.analysis_actions scenario_config (scenario_input scenario_a_error) 0 0
      = [{ queue_ := queue_t.COLLAPSE_ON_NEED, view_id_ := 0, model_id_ := 0, node_id_ := 0,
           error_ := (scenario_input scenario_a_error).node_error 0 0 0 }] ∧
    ∃ P, cut_update_pool.analysis_and_update scenario_config (scenario_input scenario_a_error)
        timeout_pool [(0, 0)] = some P ∧
      P.index_.get_current_cut 0 0 = timeout_pool.index_.get_all_children 0 0 ∧
      P.ooc_cache_ = timeout_pool.ooc_cache_.refresh
        (scenario_input scenario_a_error).loads_completed_update ∧
      P.gpu_cache_.slots_ = timeout_pool.gpu_cache_.slots_ ∧
      P.gpu_cache_.transfer_budget = timeout_pool.gpu_cache_.transfer_budget :=
  C14_timeout_collapse_rejected scenario_config (scenario_input scenario_a_error)
    timeout_pool 0 0 (by decide) (by decide) (by decide) (by decide) rfl (by decide)
    (fun _ => rfl)

/-! ## The root bootstrap -/

/-- C21: after `prepare`, the error threshold of every model is the threshold `t`
received from the record replaced by `min (max t MinThreshold) MaxThreshold`; with
`MinThreshold ≤ MaxThreshold` it lies in `[MinThreshold, MaxThreshold]`, and it is
`t` itself when `t` already was in that range. -/
theorem C21_thresholds_clamped (cfg : config) (inp : frame_input) (p : cut_update_pool)
    (model_id : Nat) (hrange : cfg.LAMURE_MIN_THRESHOLD ≤ cfg.LAMURE_MAX_THRESHOLD) :
    (cut_update_pool.prepare cfg inp p).1.model_thresholds_ model_id
      = min (max (inp.thresholds model_id) cfg.LAMURE_MIN_THRESHOLD) cfg.LAMURE_MAX_THRESHOLD ∧
    cfg.LAMURE_MIN_THRESHOLD ≤ (cut_update_pool.prepare cfg inp p).1.model_thresholds_ model_id ∧
    (cut_update_pool.prepare cfg inp p).1.model_thresholds_ model_id ≤ cfg.LAMURE_MAX_THRESHOLD ∧
    (cfg.LAMURE_MIN_THRESHOLD ≤ inp.thresholds model_id →
      inp.thresholds model_id ≤ cfg.LAMURE_MAX_THRESHOLD →
      (cut_update_pool.prepare cfg inp p).1.model_thresholds_ model_id
        = inp.thresholds model_id) := by
  have h := (cut_update_pool.prepare_staging cfg inp p).2.2.2
  have e : (cut_update_pool.prepare cfg inp p).1.model_thresholds_ model_id
      = cut_update_pool.clamp_threshold cfg (inp.thresholds model_id) := by rw [h]
  have e2 : cut_update_pool.clamp_threshold cfg (inp.thresholds model_id)
      = min (max (inp.thresholds model_id) cfg.LAMURE_MIN_THRESHOLD)
          cfg.LAMURE_MAX_THRESHOLD := by
    unfold cut_update_pool.clamp_threshold
    simp only []
    by_cases h1 : inp.thresholds model_id < cfg.LAMURE_MIN_THRESHOLD
    · rw [if_pos h1, max_eq_right (le_of_lt h1)]
      by_cases h2 : cfg.LAMURE_MIN_THRESHOLD > cfg.LAMURE_MAX_THRESHOLD
      · rw [if_pos h2, min_eq_right (le_of_lt h2)]
      · rw [if_neg h2, min_eq_left (not_lt.1 h2)]
    · rw [if_neg h1, max_eq_left (not_lt.1 h1)]
      by_cases h2 : inp.thresholds model_id > cfg.LAMURE_MAX_THRESHOLD
      · rw [if_pos h2, min_eq_right (le_of_lt h2)]
      · rw [if_neg h2, min_eq_left (not_lt.1 h2)]
  rw [e, e2]
  refine ⟨rfl, le_min (le_max_right _ _) hrange, min_le_right _ _, ?_⟩
  intro h1 h2
  rw [max_eq_left h1, min_eq_left h2]

/-- C21 at the configuration of the scenarios, whose range is `[0, 10]`: a
threshold of 20 in the record is 10 after `prepare`. -/
theorem C21_thresholds_clamped_witness :
    scenario_config.LAMURE_MIN_THRESHOLD ≤ scenario_config.LAMURE_MAX_THRESHOLD ∧
    (cut_update_pool.prepare scenario_config high_threshold_input fresh_pool).1.model_thresholds_ 0
      = 10 :=
  ⟨by with_unfolding_all decide,
   (C21_thresholds_clamped scenario_config high_threshold_input fresh_pool 0
      (by with_unfolding_all decide)).1.trans (by with_unfolding_all decide)⟩
/-! ## C22: the buffer tag and the staging region -/

/-- C22, as stated, fails for a run that is shut down. The second frame of the
fresh start, its `prepare` succeeding, with the shut-down seen by the master
after its first wait and a record that holds the tag B of the last commit: the
run toggles the tag of the pool from B to A and selects the staging region A,
and it returns before the commit: the record keeps the tag B, its transfer list
and its flags, and `master_dispatched` stays set. -/
theorem C22_shut_down_run_commits_nothing :
    (cut_update_pool.prepare scenario_config shut_down_input fresh_pool_dispatched).2 = true ∧
    fresh_pool_dispatched.current_gpu_buffer_ = temporary_buffer.BUFFER_B ∧
    committed_record.buffer = temporary_buffer.BUFFER_B ∧
    (cut_update_pool.cut_master scenario_config shut_down_input fresh_pool_dispatched
        committed_record).map
      (fun x => (x.1.current_gpu_buffer_, x.1.current_gpu_storage_, x.1.master_dispatched_))
      = some (temporary_buffer.BUFFER_A, some temporary_buffer.BUFFER_A, true) ∧
    (cut_update_pool.cut_master scenario_config shut_down_input fresh_pool_dispatched
        committed_record).map
      (fun x => (x.2.buffer, x.2.updated_set, x.2.is_front_modified))
      = some (temporary_buffer.BUFFER_B, [(0, 7)], true) := by
  refine ⟨?_, ?_, rfl, ?_, ?_⟩
  · decide!
  · decide!
  · decide!
  · decide!

/-- C22 (amended): a run of `cut_master` whose `prepare` succeeds returns with the
buffer tag toggled (A becomes B, B becomes A), with the staging region of the
new tag selected and with the staging memory of the old tag unwritten. When the
master sees no shut-down at either of its two tests, the new tag is committed to
the record; when it sees one, nothing is committed and the record is the one of
the start. The next run whose `prepare` succeeds, shut down or not, selects the
other staging region, and when neither run is shut down the two commit different
tags. A run whose `prepare` fails returns with the record, the tag, the selected
staging region and the staging memories unchanged. -/
theorem C22_buffer_toggle (cfg : config) (inp : frame_input) (p : cut_update_pool)
    (r : cut_database_record) :
    ((cut_update_pool.prepare cfg inp p).2 = true →
      ∃ P R, cut_update_pool.cut_master cfg inp p r = some (P, R) ∧
        P.current_gpu_buffer_ = p.current_gpu_buffer_.toggled ∧
        P.current_gpu_storage_ = some P.current_gpu_buffer_ ∧
        P.gpu_storage_ p.current_gpu_buffer_ = p.gpu_storage_ p.current_gpu_buffer_ ∧
        (inp.is_shutdown_after_analysis = false → inp.is_shutdown_after_update = false →
          R.buffer = P.current_gpu_buffer_) ∧
        (inp.is_shutdown_after_analysis = true ∨ inp.is_shutdown_after_update = true →
          R = r) ∧
        ∀ (inp2 : frame_input) (r2 : cut_database_record),
          (cut_update_pool.prepare cfg inp2 P).2 = true →
          ∃ P2 R2, cut_update_pool.cut_master cfg inp2 P r2 = some (P2, R2) ∧
            P2.current_gpu_buffer_ = p.current_gpu_buffer_ ∧
            P2.current_gpu_storage_ = some P2.current_gpu_buffer_ ∧
            P2.current_gpu_storage_ ≠ P.current_gpu_storage_ ∧
            (inp.is_shutdown_after_analysis = false → inp.is_shutdown_after_update = false →
              inp2.is_shutdown_after_analysis = false →
              inp2.is_shutdown_after_update = false → R2.buffer ≠ R.buffer)) ∧
    ((cut_update_pool.prepare cfg inp p).2 = false →
      ∃ P, cut_update_pool.cut_master cfg inp p r = some (P, r) ∧
        P.current_gpu_buffer_ = p.current_gpu_buffer_ ∧
        P.current_gpu_storage_ = p.current_gpu_storage_ ∧
        P.gpu_storage_ = p.gpu_storage_) := by
  have frame : ∀ (inp : frame_input) (p : cut_update_pool) (r : cut_database_record),
      (cut_update_pool.prepare cfg inp p).2 = true →
      ∃ P R, cut_update_pool.cut_master cfg inp p r = some (P, R) ∧
        P.current_gpu_buffer_ = p.current_gpu_buffer_.toggled ∧
        P.current_gpu_storage_ = some p.current_gpu_buffer_.toggled ∧
        P.gpu_storage_ p.current_gpu_buffer_ = p.gpu_storage_ p.current_gpu_buffer_ ∧
        (inp.is_shutdown_after_analysis = false → inp.is_shutdown_after_update = false →
          R.buffer = p.current_gpu_buffer_.toggled) ∧
        (inp.is_shutdown_after_analysis = true ∨ inp.is_shutdown_after_update = true →
          R = r) := by
    intro inp p r hprep
    by_cases hs : inp.is_shutdown_after_analysis = true ∨ inp.is_shutdown_after_update = true
    · obtain ⟨P, h1, h2, h3, h4⟩ := cut_update_pool.cut_master_shut_down cfg inp p r hprep hs
      refine ⟨P, r, h1, h2, h3, h4, ?_, fun _ => rfl⟩
      intro n1 n2
      rcases hs with h | h
      · rw [n1] at h; exact absurd h (by decide)
      · rw [n2] at h; exact absurd h (by decide)
    · have n1 : inp.is_shutdown_after_analysis = false := by
        cases h : inp.is_shutdown_after_analysis
        · rfl
        · exact absurd (Or.inl h) hs
      have n2 : inp.is_shutdown_after_update = false := by
        cases h : inp.is_shutdown_after_update
        · rfl
        · exact absurd (Or.inr h) hs
      obtain ⟨P, R, h1, h2, h3, h4, h5⟩ :=
        cut_update_pool.cut_master_prepared cfg inp p r hprep n1 n2
      exact ⟨P, R, h1, h2, h3, h5, fun _ _ => h4, fun h => absurd h hs⟩
  constructor
  · intro hprep
    obtain ⟨P, R, h1, h2, h3, h4, h5, h6⟩ := frame inp p r hprep
    refine ⟨P, R, h1, h2, by rw [h3, h2], h4, fun n1 n2 => by rw [h5 n1 n2, h2], h6, ?_⟩
    intro inp2 r2 hprep2
    obtain ⟨P2, R2, g1, g2, g3, _, g5, _⟩ := frame inp2 P r2 hprep2
    have hback : P.current_gpu_buffer_.toggled = p.current_gpu_buffer_ := by
      rw [h2]
      cases p.current_gpu_buffer_ <;> rfl
    have hne : p.current_gpu_buffer_ ≠ p.current_gpu_buffer_.toggled := by
      cases p.current_gpu_buffer_ <;> simp [temporary_buffer.toggled]
    refine ⟨P2, R2, g1, g2.trans hback, by rw [g3, g2], ?_, ?_⟩
    · rw [g3, h3, hback]
      intro h
      exact hne (Option.some.inj h)
    · intro n1 n2 n3 n4
      rw [g5 n3 n4, h5 n1 n2, hback]
      exact hne
  · intro hprep
    exact cut_update_pool.cut_master_not_prepared cfg inp p r hprep

/-- C22 at the second frame of the fresh start, whose `prepare` succeeds and which
is not shut down: the tag goes from B to A and the record gets A. -/
theorem C22_buffer_toggle_witness :
    (cut_update_pool.prepare scenario_config (loads_done_input scenario_a_error)
      fresh_pool_next).2 = true ∧
    fresh_pool_next.current_gpu_buffer_ = temporary_buffer.BUFFER_B ∧
    ∃ P R, cut_update_pool.cut_master scenario_config (loads_done_input scenario_a_error)
        fresh_pool_next empty_record = some (P, R) ∧
      P.current_gpu_buffer_ = temporary_buffer.BUFFER_A ∧
      P.current_gpu_storage_ = some temporary_buffer.BUFFER_A ∧
      R.buffer = temporary_buffer.BUFFER_A := by
  have hprep : (cut_update_pool.prepare scenario_config (loads_done_input scenario_a_error)
      fresh_pool_next).2 = true := by decide!
  have htag : fresh_pool_next.current_gpu_buffer_ = temporary_buffer.BUFFER_B := by
    decide!
  obtain ⟨P, R, h1, h2, h3, _, h5, _⟩ :=
    (C22_buffer_toggle scenario_config (loads_done_input scenario_a_error) fresh_pool_next
      empty_record).1 hprep
  rw [htag] at h2
  have h2' : P.current_gpu_buffer_ = temporary_buffer.BUFFER_A := h2
  exact ⟨hprep, htag, P, R, h1, h2', by rw [h3, h2'], by rw [h5 rfl rfl, h2']⟩
/-! ## C23: the transfer list -/

/-- C23: `compile_transfer_list`, run with a staging region selected, with
`transfer_slots_written = s` and with the entries `(model, node)` of the transfer
list of the GPU cache in the order of its loops, appends one descriptor per entry
to the transfer list of the pool, with the staging indices `s, s+1, …` in that
order and the GPU slot `slot_id(model, node)`; for each descriptor the `slot_size`
bytes of the selected staging region from `staging_index * slot_size` on are the
bytes of the payload of the node; afterwards the transfer list of the GPU cache is
empty and `transfer_slots_written` is `s` plus the number of entries. -/
theorem C23_compile_transfer_list (inp : frame_input) (p : cut_update_pool)
    (b : temporary_buffer) (hb : p.current_gpu_storage_ = some b) :
    (cut_update_pool.compile_transfer_list inp p).transfer_list_
      = p.transfer_list_
        ++ ((p.transfer_entries inp (List.range p.index_.num_models)).enumFrom
              p.gpu_cache_.transfer_slots_written).map
            (fun e => (e.1, p.gpu_cache_.slot_id e.2.1 e.2.2)) ∧
    ((p.transfer_entries inp (List.range p.index_.num_models)).enumFrom
        p.gpu_cache_.transfer_slots_written).map Prod.fst
      = List.range' p.gpu_cache_.transfer_slots_written
          (p.transfer_entries inp (List.range p.index_.num_models)).length ∧
    (∀ e ∈ (p.transfer_entries inp (List.range p.index_.num_models)).enumFrom
        p.gpu_cache_.transfer_slots_written,
      ∀ j, j < inp.slot_size →
        (cut_update_pool.compile_transfer_list inp p).gpu_storage_ b (e.1 * inp.slot_size + j)
          = (inp.node_data e.2.1 e.2.2).getD j 0) ∧
    (∀ model_id,
      (cut_update_pool.compile_transfer_list inp p).gpu_cache_.transfer_list model_id = []) ∧
    (cut_update_pool.compile_transfer_list inp p).gpu_cache_.transfer_slots_written
      = p.gpu_cache_.transfer_slots_written
        + (p.transfer_entries inp (List.range p.index_.num_models)).length := by
  obtain ⟨h1, h2, _, _, h5⟩ := cut_update_pool.compile_transfer_models_staging inp p b hb
    (List.range p.index_.num_models) p.gpu_storage_ p.transfer_list_
    p.gpu_cache_.transfer_slots_written
  exact ⟨h1, List.enumFrom_map_fst _ _, h5, fun _ => rfl, h2⟩

/-- C23 at a pool with the nodes 1 and 2 of model 0 to transfer, visited in the
order 2, 1, and one staging slot written before: the descriptors are `(1, 2)`
and `(2, 1)`, the bytes of node 1 are in the staging slot 2, and three staging
slots are written afterwards. -/
theorem C23_compile_transfer_list_witness :
    transfer_pool.current_gpu_storage_ = some temporary_buffer.BUFFER_B ∧
    (cut_update_pool.compile_transfer_list payload_input transfer_pool).transfer_list_
      = [(1, 2), (2, 1)] ∧
    (cut_update_pool.compile_transfer_list payload_input transfer_pool).gpu_storage_
      temporary_buffer.BUFFER_B 5 = 21 ∧
    (cut_update_pool.compile_transfer_list payload_input
      transfer_pool).gpu_cache_.transfer_slots_written = 3 :=
  ⟨rfl,
   (C23_compile_transfer_list payload_input transfer_pool temporary_buffer.BUFFER_B rfl).1.trans
     (by decide),
   (C23_compile_transfer_list payload_input transfer_pool temporary_buffer.BUFFER_B
     rfl).2.2.1 (2, (0, 1)) (by decide) 1 (by decide),
   (C23_compile_transfer_list payload_input transfer_pool temporary_buffer.BUFFER_B
     rfl).2.2.2.2.trans (by decide)⟩
/-! ## C24: the camera session file -/

/-- C24: `parse_camera_session_file` returns one matrix per line of the session
file, in reverse line order; the matrix of a line that starts with 16 numbers
consists of these numbers in reading order; and the playback, which takes the
elements from the back of the returned vector one by one, sets the matrices in
the order of the lines of the file and finds the vector empty after the last
one. -/
theorem C24_camera_session (fresh : List ℚ) (lines : List (List (Option ℚ))) :
    (parse_camera_session_file fresh lines).length = lines.length ∧
    parse_camera_session_file fresh lines = (lines.map (read_view_matrix fresh)).reverse ∧
    (∀ (nums : List ℚ) (rest : List (Option ℚ)), fresh.length = 16 → nums.length = 16 →
      read_view_matrix fresh (nums.map some ++ rest) = nums) ∧
    ∀ steps, lines.length ≤ steps →
      playback steps (parse_camera_session_file fresh lines)
        = lines.map (read_view_matrix fresh) := by
  have e : parse_camera_session_file fresh lines
      = (lines.map (read_view_matrix fresh)).reverse := by
    unfold parse_camera_session_file
    rw [push_back_fold (read_view_matrix fresh) lines []]
    simp
  refine ⟨by rw [e]; simp, e, ?_, ?_⟩
  · intro nums rest hf hn
    have := read_matrix_elements_numbers 16 [] fresh [] nums rest hn hf
    simpa [read_view_matrix] using this
  · intro steps h
    rw [e]
    exact playback_reverse _ steps (by simpa using h)

/-- C24 at a session file of two lines of 16 numbers: the first matrix the playback
sets is the one of the first line. -/
theorem C24_camera_session_witness :
    zero_matrix.length = 16 ∧
    session_lines.length ≤ 2 ∧
    playback 2 (parse_camera_session_file zero_matrix session_lines)
      = [[1, 2, 3, 4, 5, 6, 7, 8, 9, 10, 11, 12, 13, 14, 15, 16],
         [101, 102, 103, 104, 105, 106, 107, 108, 109, 110, 111, 112, 113, 114, 115, 116]] := by
  refine ⟨by decide, by decide, ?_⟩
  have h := C24_camera_session zero_matrix session_lines
  rw [h.2.2.2 2 (by decide)]
  have h1 := h.2.2.1 [1, 2, 3, 4, 5, 6, 7, 8, 9, 10, 11, 12, 13, 14, 15, 16] []
    (by decide) (by decide)
  have h2 := h.2.2.1
    [101, 102, 103, 104, 105, 106, 107, 108, 109, 110, 111, 112, 113, 114, 115, 116] []
    (by decide) (by decide)
  simp only [List.map_cons, List.map_nil, List.append_nil] at h1 h2
  simp only [session_lines, List.map_cons, List.map_nil, h1, h2]

/-! ## C25: the upload option -/

/-- C25, as stated, fails from `2 ^ 31` on: the option is converted to `int` before
the maximum is taken, so a value of `2 ^ 31` MB is negative there and the budget
handed to the policy is 64, not the value. -/
theorem C25_upload_budget_above_int_max :
    (2 ^ 31 : Nat) < 2 ^ 32 ∧ 64 ≤ (2 ^ 31 : Nat) ∧
    main_max_upload_budget (2 ^ 31) = 64 ∧
    main_max_upload_budget (2 ^ 31) ≠ max (2 ^ 31) 64 := by
  decide

/-- C25 (amended): for every value `u` of the upload option, an unsigned 32-bit
number, the budget handed to the policy is at least 64; it is `max u 64` when
`u < 2 ^ 31`, hence `u` when `64 ≤ u < 2 ^ 31`, and it is 64 when `u ≥ 2 ^ 31`. -/
theorem C25_upload_budget (u : Nat) (hu : u < 2 ^ 32) :
    64 ≤ main_max_upload_budget u ∧
    (u < 2 ^ 31 → main_max_upload_budget u = max u 64) ∧
    (64 ≤ u → u < 2 ^ 31 → main_max_upload_budget u = u) ∧
    (2 ^ 31 ≤ u → main_max_upload_budget u = 64) := by
  have hmod : u % 2 ^ 32 = u := Nat.mod_eq_of_lt hu
  have low : u < 2 ^ 31 → main_max_upload_budget u = max u 64 := by
    intro h
    unfold main_max_upload_budget int_of_unsigned unsigned_of_int
    rw [hmod, if_pos h]
    have h1 : max ((u : Nat) : Int) 64 = ((max u 64 : Nat) : Int) := by
      rw [Nat.cast_max]; rfl
    rw [h1]
    have h2 : ((max u 64 : Nat) : Int) % 2 ^ 32 = ((max u 64 : Nat) : Int) := by
      apply Int.emod_eq_of_lt
      · exact Int.natCast_nonneg _
      · have : max u 64 < 2 ^ 32 := by
          rcases Nat.le_total u 64 with h | h
          · rw [max_eq_right h]; norm_num
          · rw [max_eq_left h]; omega
        exact_mod_cast this
    rw [h2]
    exact Int.toNat_natCast _
  have high : 2 ^ 31 ≤ u → main_max_upload_budget u = 64 := by
    intro h
    unfold main_max_upload_budget int_of_unsigned unsigned_of_int
    rw [hmod, if_neg (by omega)]
    have h1 : max (((u : Nat) : Int) - 2 ^ 32) 64 = 64 := by
      apply max_eq_right
      have : ((u : Nat) : Int) < 2 ^ 32 := by exact_mod_cast hu
      omega
    rw [h1]
    rfl
  refine ⟨?_, low, ?_, high⟩
  · rcases Nat.lt_or_ge u (2 ^ 31) with h | h
    · rw [low h]; exact le_max_right _ _
    · rw [high h]
  · intro h1 h2
    rw [low h2, max_eq_left h1]

/-- C25 (amended) at the default of the option, 100 MB. -/
theorem C25_upload_budget_witness :
    (100 : Nat) < 2 ^ 32 ∧ 64 ≤ main_max_upload_budget 100 ∧ main_max_upload_budget 100 = 100 :=
  ⟨by decide, (C25_upload_budget 100 (by decide)).1,
   (C25_upload_budget 100 (by decide)).2.2.1 (by decide) (by decide)⟩
/-! ## C26: the maybe-collapse rule -/

/-- C26: an iteration of the main loop of `cut_update` for a pending split `s` that
is neither approved as resident nor fits goes on in one of four ways. It
collapses the front must-collapse action; or, that queue being empty, the front
collapse-on-need action; or, both queues being empty, the action `c` at the back
of the maybe-collapse queue, and this only if the error of `c` is strictly below
the error of `s` (`c` has the highest error of its queue when the queue ascends
by error, as `sort()` leaves it and as every iteration keeps it), `s` staying
at the front of its queue; or else, both queues being empty and the back of the
maybe-collapse queue, if there is one, having an error not below that of `s`, it
rejects `s` and leaves the maybe-collapse queue as it is. -/
theorem C26_maybe_collapse_rule (p : cut_update_pool) (fl : update_flags) (s : action)
    (hs : p.index_.front_action queue_t.MUST_SPLIT = some s)
    (hres : p.approved_as_resident fl s = false) (hfit : p.split_fits fl s = false) :
    (∃ P fl', (∀ fuel, cut_update_pool.cut_update_loop (fuel + 1) p fl
          = cut_update_pool.cut_update_loop fuel P fl') ∧
      (ascending_by_error (p.index_.action_queues_ queue_t.MAYBE_COLLAPSE) →
        ascending_by_error (P.index_.action_queues_ queue_t.MAYBE_COLLAPSE)) ∧
      ((∃ c, p.index_.front_action queue_t.MUST_COLLAPSE = some c ∧
          P = cut_update_pool.collapse_node (p.pop_front queue_t.MUST_COLLAPSE) c) ∨
        (p.index_.action_queues_ queue_t.MUST_COLLAPSE = [] ∧
          ∃ c, p.index_.front_action queue_t.COLLAPSE_ON_NEED = some c ∧
            P = cut_update_pool.collapse_node (p.pop_front queue_t.COLLAPSE_ON_NEED) c) ∨
        (p.index_.action_queues_ queue_t.MUST_COLLAPSE = [] ∧
          p.index_.action_queues_ queue_t.COLLAPSE_ON_NEED = [] ∧
          ∃ c, p.index_.back_action queue_t.MAYBE_COLLAPSE = some c ∧
            c.error_ < s.error_ ∧
            (ascending_by_error (p.index_.action_queues_ queue_t.MAYBE_COLLAPSE) →
              ∀ c' ∈ p.index_.action_queues_ queue_t.MAYBE_COLLAPSE, c'.error_ ≤ c.error_) ∧
            P = cut_update_pool.collapse_node (p.pop_back queue_t.MAYBE_COLLAPSE) c ∧
            P.index_.front_action queue_t.MUST_SPLIT = some s) ∨
        (p.index_.action_queues_ queue_t.MUST_COLLAPSE = [] ∧
          p.index_.action_queues_ queue_t.COLLAPSE_ON_NEED = [] ∧
          (∀ c, p.index_.back_action queue_t.MAYBE_COLLAPSE = some c → s.error_ ≤ c.error_) ∧
          P = cut_update_pool.reject (p.pop_front queue_t.MUST_SPLIT) s ∧
          P.index_.action_queues_ queue_t.MAYBE_COLLAPSE
            = p.index_.action_queues_ queue_t.MAYBE_COLLAPSE))) ∧
    ∀ idx : cut_update_index,
      ascending_by_error (idx.sort.action_queues_ queue_t.MAYBE_COLLAPSE) := by
  refine ⟨?_, sort_maybe_ascending⟩
  have hempty : ∀ q, p.index_.front_action q = none → p.index_.action_queues_ q = [] :=
    fun q h => List.head?_eq_none_iff.mp h
  obtain ⟨P, fl', h1, h2⟩ := cut_update_pool.cut_update_loop_iteration p fl s hs
  refine ⟨P, fl', h1, ?_⟩
  rcases h2 with ⟨h, _⟩ | ⟨_, h, _⟩ | ⟨_, _, h3⟩
  · rw [hres] at h; exact absurd h (by decide)
  · rw [hfit] at h; exact absurd h (by decide)
  · rcases h3 with ⟨c, hc, hP⟩ | ⟨hmc, c, hc, hP⟩ | ⟨hmc, hcon, c, hc, herr, hP⟩
      | ⟨hmc, hcon, hno, hP⟩
    · refine ⟨?_, Or.inl ⟨c, hc, hP⟩⟩
      exact one_action_removed_ascending p P _ c
        (cut_update_pool.one_action_removed_front p P _ c (by decide) hc
          (by rw [hP]; exact cut_update_pool.collapse_node_queues _ _)) _
    · refine ⟨?_, Or.inr (Or.inl ⟨hempty _ hmc, c, hc, hP⟩)⟩
      exact one_action_removed_ascending p P _ c
        (cut_update_pool.one_action_removed_front p P _ c (by decide) hc
          (by rw [hP]; exact cut_update_pool.collapse_node_queues _ _)) _
    · have hrem := cut_update_pool.one_action_removed_back p P _ c (by decide) hc
        (by rw [hP]; exact cut_update_pool.collapse_node_queues _ _)
      refine ⟨one_action_removed_ascending p P _ c hrem _,
        Or.inr (Or.inr (Or.inl ⟨hempty _ hmc, hempty _ hcon, c, hc, herr,
          fun hasc => ascending_back_highest _ c hasc hc, hP, ?_⟩))⟩
      unfold cut_update_index.front_action
      rw [hrem.2.2 queue_t.MUST_SPLIT (by decide)]
      exact hs
    · have hrem := cut_update_pool.one_action_removed_front p P _ s (by decide) hs
        (by rw [hP]; exact cut_update_pool.reject_queues _ _)
      exact ⟨one_action_removed_ascending p P _ s hrem _,
        Or.inr (Or.inr (Or.inr ⟨hempty _ hmc, hempty _ hcon, hno, hP,
          hrem.2.2 queue_t.MAYBE_COLLAPSE (by decide)⟩))⟩

/-- C26 at a pool with a full GPU cache, the split of node 2 with error 3 pending
and the maybe-collapse of the siblings 3 and 4 with error 1 queued: the iteration
collapses the siblings and keeps the split pending. -/
theorem C26_maybe_collapse_rule_witness :
    full_gpu_pool.index_.front_action queue_t.MUST_SPLIT = some full_gpu_split ∧
    full_gpu_pool.approved_as_resident initial_flags full_gpu_split = false ∧
    full_gpu_pool.split_fits initial_flags full_gpu_split = false ∧
    ∃ P fl', (∀ fuel, cut_update_pool.cut_update_loop (fuel + 1) full_gpu_pool initial_flags
        = cut_update_pool.cut_update_loop fuel P fl') ∧
      P = cut_update_pool.collapse_node (full_gpu_pool.pop_back queue_t.MAYBE_COLLAPSE)
        full_gpu_collapse ∧
      P.index_.front_action queue_t.MUST_SPLIT = some full_gpu_split := by
  have hs : full_gpu_pool.index_.front_action queue_t.MUST_SPLIT = some full_gpu_split := by
    decide
  have hres : full_gpu_pool.approved_as_resident initial_flags full_gpu_split = false := by
    decide
  have hfit : full_gpu_pool.split_fits initial_flags full_gpu_split = false := by decide
  have hmc : full_gpu_pool.index_.front_action queue_t.MUST_COLLAPSE = none := by decide
  have hcon : full_gpu_pool.index_.front_action queue_t.COLLAPSE_ON_NEED = none := by decide
  have hback : full_gpu_pool.index_.back_action queue_t.MAYBE_COLLAPSE
      = some full_gpu_collapse := by decide
  have herr : ¬ full_gpu_split.error_ ≤ full_gpu_collapse.error_ := by
    with_unfolding_all decide
  obtain ⟨P, fl', h1, _, h3⟩ :=
    (C26_maybe_collapse_rule full_gpu_pool initial_flags full_gpu_split hs hres hfit).1
  refine ⟨hs, hres, hfit, P, fl', h1, ?_⟩
  rcases h3 with ⟨c, hc, _⟩ | ⟨_, c, hc, _⟩ | ⟨_, _, c, hc, _, _, hP, hfront⟩
    | ⟨_, _, hno, _⟩
  · rw [hmc] at hc; exact absurd hc (by simp)
  · rw [hcon] at hc; exact absurd hc (by simp)
  · rw [hback] at hc
    rw [← Option.some.inj hc] at hP
    exact ⟨hP, hfront⟩
  · exact absurd (hno _ hback) herr
/-! ## C27: `cut_update` terminates -/

/-- C27: `cut_update` returns for every content of the action queues. Every
iteration of its main loop, entered with a split at the front of the must-split
queue, removes exactly one action from the queues, a must-split, a
must-collapse, a collapse-on-need or a maybe-collapse, from the front or the
back of its queue, and adds none; so the main loop finishes after a number `k` of
iterations that is at most the number of these actions queued at its start
(given more than `k` loop tests it returns, given `k` or fewer it does not). -/
theorem C27_cut_update_terminates (inp : frame_input) (p : cut_update_pool)
    (fl : update_flags) :
    (∃ P, cut_update_pool.cut_update inp p = some P) ∧
    (∀ s, p.index_.front_action queue_t.MUST_SPLIT = some s →
      ∃ P fl', (∀ fuel, cut_update_pool.cut_update_loop (fuel + 1) p fl
          = cut_update_pool.cut_update_loop fuel P fl') ∧
        ∃ q a, p.one_action_removed P q a ∧
          P.index_.num_update_actions + 1 = p.index_.num_update_actions) ∧
    ∃ k P, k ≤ p.index_.num_update_actions ∧
      (∀ fuel, k < fuel → cut_update_pool.cut_update_loop fuel p fl = some P) ∧
      (∀ fuel, fuel ≤ k → cut_update_pool.cut_update_loop fuel p fl = none) ∧
      P.index_.action_queues_ queue_t.MUST_SPLIT = [] := by
  refine ⟨?_, ?_, cut_update_pool.cut_update_loop_iterations _ p fl rfl⟩
  · obtain ⟨p1, h, _⟩ := cut_update_pool.cut_update_spec inp p
    exact ⟨_, h⟩
  · intro s hs
    obtain ⟨P, fl', h1, q, a, h2⟩ := cut_update_pool.cut_update_loop_iteration_removes p fl s hs
    exact ⟨P, fl', h1, q, a, h2, cut_update_pool.one_action_removed_count p P q a h2⟩

/-- C27 at the pool with a full GPU cache, one split and one maybe-collapse queued:
the first iteration leaves one of the two actions in the queues. -/
theorem C27_cut_update_terminates_witness :
    full_gpu_pool.index_.front_action queue_t.MUST_SPLIT = some full_gpu_split ∧
    full_gpu_pool.index_.num_update_actions = 2 ∧
    ∃ P fl', (∀ fuel, cut_update_pool.cut_update_loop (fuel + 1) full_gpu_pool initial_flags
        = cut_update_pool.cut_update_loop fuel P fl') ∧
      P.index_.num_update_actions + 1 = 2 := by
  have hs : full_gpu_pool.index_.front_action queue_t.MUST_SPLIT = some full_gpu_split := by
    decide
  have hn : full_gpu_pool.index_.num_update_actions = 2 := by decide
  obtain ⟨P, fl', h1, _, _, _, h2⟩ :=
    (C27_cut_update_terminates (scenario_input scenario_a_error) full_gpu_pool
      initial_flags).2.1 full_gpu_split hs
  exact ⟨hs, hn, P, fl', h1, by rw [h2, hn]⟩
/-! ## C28: the analysis accounts for every node of the cut once -/

/-- C28: for a previous cut that is strictly ascending (a `std::set`) and
ancestor-consistent, with fan-out at least one, `cut_analysis` accounts for
every node `x` of the cut exactly once. Exactly one emitted action `c` stands for
`x`, and every emitted action on the node `x` itself is `c`; `c` is a keep or a
split of `x`, or the sibling group of `x` is complete in the cut and `c` is a
collapse-type action on the common parent that stands for every sibling, the
only collapse-type action emitted on that parent. Every emitted action is a keep
or a split of a node of the cut or a collapse-type action on the parent of a
sibling group that is complete in the cut. And every skip over `fan_factor - 1`
elements after a complete group steps over siblings of the group only and does
not run past the end of the cut. -/
theorem C28_analysis_accounts (cfg : config) (inp : frame_input) (p : cut_update_pool)
    (v m : Nat) (hF : 1 ≤ p.index_.fan_factor m)
    (hs : (p.index_.get_previous_cut v m).Pairwise (fun a b => a < b))
    (hcons : ancestor_consistent (p.index_.fan_factor m) (p.index_.get_previous_cut v m)) :
    (∀ x ∈ p.index_.get_previous_cut v m,
      ∃ c, p.index_.actions_for (p.analysis_actions cfg inp v m) x = [c] ∧
        (∀ a ∈ p.analysis_actions cfg inp v m, a.node_id_ = x → a = c) ∧
        ((c.node_id_ = x ∧ (c.queue_ = queue_t.KEEP ∨ c.queue_ = queue_t.MUST_SPLIT)) ∨
          (p.group_complete m (p.index_.get_previous_cut v m) x ∧
            c.node_id_ = p.index_.get_parent_id m x ∧
            (c.queue_ = queue_t.MUST_COLLAPSE ∨ c.queue_ = queue_t.COLLAPSE_ON_NEED ∨
              c.queue_ = queue_t.MAYBE_COLLAPSE) ∧
            (∀ y ∈ p.index_.get_all_siblings m x,
              p.index_.actions_for (p.analysis_actions cfg inp v m) y = [c]) ∧
            ∀ a ∈ p.analysis_actions cfg inp v m, a.node_id_ = p.index_.get_parent_id m x →
              a = c))) ∧
    (∀ a ∈ p.analysis_actions cfg inp v m, action_of v m a ∧
      (((a.queue_ = queue_t.KEEP ∨ a.queue_ = queue_t.MUST_SPLIT) ∧
          a.node_id_ ∈ p.index_.get_previous_cut v m) ∨
        ((a.queue_ = queue_t.MUST_COLLAPSE ∨ a.queue_ = queue_t.COLLAPSE_ON_NEED ∨
            a.queue_ = queue_t.MAYBE_COLLAPSE) ∧
          ∃ x ∈ p.index_.get_previous_cut v m,
            p.group_complete m (p.index_.get_previous_cut v m) x ∧
            a.node_id_ = p.index_.get_parent_id m x))) ∧
    p.skips_in_group m (p.index_.get_previous_cut v m) 0 [] (p.index_.get_previous_cut v m)
      = true := by
  have horigin := cut_update_pool.analysis_actions_origin cfg inp p v m
  have hanti := (ancestor_consistent_iff _ _).mp hcons
  -- a node of the cut is not the parent of a complete group of the cut
  have hnotparent : ∀ x ∈ p.index_.get_previous_cut v m, ∀ y ∈ p.index_.get_previous_cut v m,
      p.group_complete m (p.index_.get_previous_cut v m) y →
      x ≠ p.index_.get_parent_id m y := by
    intro x hx y hy hg hxy
    have hpar : p.index_.get_parent_id m y = tree_parent (p.index_.fan_factor m) y := by
      unfold cut_update_index.get_parent_id tree_parent
      rw [if_neg (by have := hg.1; omega)]
    have hlt := tree_parent_lt (p.index_.fan_factor m) y hF hg.1
    have := hanti x hx y hy ⟨1, by rw [hxy, hpar]; rfl⟩
    rw [hxy, hpar] at this
    omega
  -- every action on a node of the cut is a keep or a split, and stands for the node
  have hown : ∀ x ∈ p.index_.get_previous_cut v m, ∀ a ∈ p.analysis_actions cfg inp v m,
      a.node_id_ = x → x ∈ p.index_.rejected_nodes a := by
    intro x hx a ha hax
    rcases (horigin a ha).2 with ⟨hq, _⟩ | ⟨_, y, hy, hg, hpar⟩
    · unfold cut_update_index.rejected_nodes
      rcases hq with hq | hq <;> rw [hq, hax] <;> exact List.mem_singleton_self _
    · exact absurd (hax.symm.trans hpar) (hnotparent x hx y hy hg)
  have hmemfor : ∀ (x : Nat) (c a : action),
      p.index_.actions_for (p.analysis_actions cfg inp v m) x = [c] →
      a ∈ p.analysis_actions cfg inp v m → x ∈ p.index_.rejected_nodes a → a = c := by
    intro x c a hc ha hxa
    have : a ∈ p.index_.actions_for (p.analysis_actions cfg inp v m) x := by
      unfold cut_update_index.actions_for
      exact List.mem_filter.mpr ⟨ha, by simpa using hxa⟩
    rw [hc] at this
    exact List.mem_singleton.mp this
  refine ⟨?_, horigin, ?_⟩
  · intro x hx
    by_cases hg : p.group_complete m (p.index_.get_previous_cut v m) x
    · obtain ⟨s1, s2, s3, s4⟩ := cut_update_pool.group_complete_sibling p m _ x hF hg
      obtain ⟨c, hc, hkind⟩ := cut_update_pool.analyse_group_covers cfg inp p v m
        (p.index_.get_parent_id m x) (p.index_.get_all_siblings m x)
        (p.parent_error inp v m x) (p.min_error_threshold m) (p.max_error_threshold m)
        (!(inp.node_in_frustum v m (p.index_.get_parent_id m x)))
        (cut_update_pool.freshness_timeout cfg p m) (le_of_eq s3) x s1
      have hcm : c.model_id_ = m :=
        ((cut_update_pool.analyse_group_props cfg inp p v m _ _ _ _ _ _ _).1 c hc).2.1
      have hrej : ∀ y ∈ p.index_.get_all_siblings m x,
          (c.node_id_ = p.index_.get_parent_id m x ∧ (c.queue_ = queue_t.MUST_COLLAPSE ∨
            c.queue_ = queue_t.COLLAPSE_ON_NEED ∨ c.queue_ = queue_t.MAYBE_COLLAPSE)) →
          y ∈ p.index_.rejected_nodes c := by
        intro y hy hk
        unfold cut_update_index.rejected_nodes
        rcases hk.2 with hq | hq | hq <;> rw [hq] <;> simp only [] <;>
          rw [hcm, hk.1, s4] <;> exact hy
      have hxc : x ∈ p.index_.rejected_nodes c := by
        rcases hkind with hk | hk
        · exact hrej x s1 hk
        · unfold cut_update_index.rejected_nodes
          rcases hk.2 with hq | hq <;> rw [hq, hk.1] <;> exact List.mem_singleton_self _
      have hfor := cut_update_pool.actions_for_group cfg inp p v m hF hs x hx hg c hc hxc
      have hcA : c ∈ p.analysis_actions cfg inp v m := by
        have : c ∈ p.index_.actions_for (p.analysis_actions cfg inp v m) x := by
          rw [hfor]; exact List.mem_singleton_self _
        unfold cut_update_index.actions_for at this
        exact (List.mem_filter.mp this).1
      refine ⟨c, hfor, fun a ha hax => hmemfor x c a hfor ha (hown x hx a ha hax), ?_⟩
      rcases hkind with hk | hk
      · right
        refine ⟨hg, hk.1, hk.2, ?_, ?_⟩
        · intro y hy
          exact cut_update_pool.actions_for_of_mem cfg inp p v m _ _ hF hs c y hcA
            (hrej y hy hk)
        · intro a ha hpar
          apply hmemfor x c a hfor ha
          have hof := (horigin a ha).1
          rcases (horigin a ha).2 with ⟨_, hmem⟩ | ⟨hq, _⟩
          · exact absurd hpar (hnotparent _ hmem x hx hg)
          · unfold cut_update_index.rejected_nodes
            rcases hq with hq | hq | hq <;> rw [hq] <;> simp only [] <;>
              rw [hof.2, hpar, s4] <;> exact s1
      · left
        exact hk
    · have hfor := cut_update_pool.actions_for_node cfg inp p v m hF hs x hx hg
      obtain ⟨_, _, a3, a4⟩ := cut_update_pool.analyse_node_props inp p v m x
        (p.parent_error inp v m x) (p.min_error_threshold m) (p.max_error_threshold m)
        (cut_update_pool.freshness_timeout cfg p m)
      exact ⟨_, hfor, fun a ha hax => hmemfor x _ a hfor ha (hown x hx a ha hax),
        Or.inl ⟨a3, a4.imp id (fun h => h.1)⟩⟩
  · exact cut_update_pool.skips_in_group_spec p m _ hF _ _ (Nat.le_refl _) hs
      (cut_update_pool.previous_cut_closed p m _)

/-- C28 at the previous cut `{1, 2}` of fan-out 2 with every node error 0: the
one action of the analysis, the collapse of the two siblings into the root,
stands for node 1. -/
theorem C28_analysis_accounts_witness :
    1 ≤ siblings_pool.index_.fan_factor 0 ∧
    (siblings_pool.index_.get_previous_cut 0 0).Pairwise (fun a b => a < b) ∧
    ∃ c, siblings_pool.index_.actions_for
        (siblings_pool.analysis_actions scenario_config (scenario_input (fun _ => 0)) 0 0) 1
          = [c] ∧
      (∀ a ∈ siblings_pool.analysis_actions scenario_config (scenario_input (fun _ => 0)) 0 0,
        a.node_id_ = 1 → a = c) := by
  have hF : 1 ≤ siblings_pool.index_.fan_factor 0 := by decide
  have hs : (siblings_pool.index_.get_previous_cut 0 0).Pairwise (fun a b => a < b) := by
    decide
  have hcons : ancestor_consistent (siblings_pool.index_.fan_factor 0)
      (siblings_pool.index_.get_previous_cut 0 0) := by
    intro a ha x hx hax
    have h1 := ancestor_le 2 a x hax.2
    have h2 := ancestor_of_parent 2 a x hax.2 hax.1
    have h3 := ancestor_le 2 _ _ h2
    have ha' : a = 1 ∨ a = 2 := by
      simpa [siblings_pool, scenario_pool, scenario_index,
        cut_update_index.get_previous_cut] using ha
    have hx' : x = 1 ∨ x = 2 := by
      simpa [siblings_pool, scenario_pool, scenario_index,
        cut_update_index.get_previous_cut] using hx
    rcases ha' with rfl | rfl <;> rcases hx' with rfl | rfl <;>
      simp [tree_parent] at h1 h3 hax
  obtain ⟨c, h1, h2, _⟩ :=
    (C28_analysis_accounts scenario_config (scenario_input (fun _ => 0)) siblings_pool 0 0
      hF hs hcons).1 1 (by decide)
  exact ⟨hF, hs, c, h1, h2⟩
/-! ## C29: `split_node` -/

/-- C29: `split_node` in the default mode, for an action on a valid node (neither
the node nor its first child is the sentinel) of a model with fan-out `F ≥ 1`,
resolves the action once, by `approve_action` or by `reject_action`. It approves
when every child is host-resident on entry and, unless every child has a GPU
slot on entry, the transfer budget and the free GPU slots are both at least `F`
on entry; then every child is resident in both caches and acquired in both for
`(context, view)`, the acquisitions in each cache are those on entry and those
of the children for `(context, view)`, and `k ≤ F` registrations took `k` free
GPU slots and `k` units of the transfer budget, which did not underflow. It
rejects in every other case; then the GPU cache is as on entry and the host
cache has the acquisitions it had on entry. -/
theorem C29_split_node (p : cut_update_pool) (a : action)
    (hF : 1 ≤ p.index_.fan_factor a.model_id_)
    (hvalid : ((p.index_.get_all_children a.model_id_ a.node_id_).head? == some invalid_node_t
      || a.node_id_ == invalid_node_t) = false) :
    (((∀ c ∈ p.index_.get_all_children a.model_id_ a.node_id_,
          p.ooc_cache_.is_node_resident a.model_id_ c = true) ∧
        ((∀ c ∈ p.index_.get_all_children a.model_id_ a.node_id_,
            p.gpu_cache_.is_node_resident a.model_id_ c = true) ∨
          (p.index_.fan_factor a.model_id_ ≤ p.gpu_cache_.transfer_budget ∧
            p.index_.fan_factor a.model_id_ ≤ p.gpu_cache_.num_free_slots))) →
      (cut_update_pool.split_node p a).index_ = p.index_.approve_action a ∧
      (∀ c ∈ p.index_.get_all_children a.model_id_ a.node_id_,
        (cut_update_pool.split_node p a).node_held a.view_id_ a.model_id_ c) ∧
      (∀ c' v' m' n',
        (cut_update_pool.split_node p a).gpu_cache_.slots_.is_node_aquired c' v' m' n' = true ↔
          (p.gpu_cache_.slots_.is_node_aquired c' v' m' n' = true ∨
            (c' = p.context_id_ ∧ v' = a.view_id_ ∧ m' = a.model_id_ ∧
              n' ∈ p.index_.get_all_children a.model_id_ a.node_id_))) ∧
      (∀ c' v' m' n',
        (cut_update_pool.split_node p a).ooc_cache_.slots_.is_node_aquired c' v' m' n' = true ↔
          (p.ooc_cache_.slots_.is_node_aquired c' v' m' n' = true ∨
            (c' = p.context_id_ ∧ v' = a.view_id_ ∧ m' = a.model_id_ ∧
              n' ∈ p.index_.get_all_children a.model_id_ a.node_id_))) ∧
      ∃ k, k ≤ p.index_.fan_factor a.model_id_ ∧
        (cut_update_pool.split_node p a).gpu_cache_.num_free_slots + k
          = p.gpu_cache_.num_free_slots ∧
        (cut_update_pool.split_node p a).gpu_cache_.transfer_budget + k
          = p.gpu_cache_.transfer_budget) ∧
    (¬ ((∀ c ∈ p.index_.get_all_children a.model_id_ a.node_id_,
          p.ooc_cache_.is_node_resident a.model_id_ c = true) ∧
        ((∀ c ∈ p.index_.get_all_children a.model_id_ a.node_id_,
            p.gpu_cache_.is_node_resident a.model_id_ c = true) ∨
          (p.index_.fan_factor a.model_id_ ≤ p.gpu_cache_.transfer_budget ∧
            p.index_.fan_factor a.model_id_ ≤ p.gpu_cache_.num_free_slots))) →
      (cut_update_pool.split_node p a).index_ = p.index_.reject_action a ∧
      (cut_update_pool.split_node p a).gpu_cache_ = p.gpu_cache_ ∧
      ∀ c' v' m' n',
        (cut_update_pool.split_node p a).ooc_cache_.slots_.is_node_aquired c' v' m' n'
          = p.ooc_cache_.slots_.is_node_aquired c' v' m' n') := by
  have _hchildren : (p.index_.get_all_children a.model_id_ a.node_id_).length ≥ 1 := by
    simp [cut_update_index.get_all_children]
    exact hF
  obtain ⟨c1, c2, c3, c4, k, hk, c5, c6⟩ := cut_update_pool.split_node_obtain_cases p a
  obtain ⟨p1, hp1⟩ : ∃ p1 : cut_update_pool, p1 = { p with
      ooc_cache_ := (cut_update_pool.split_node_obtain p a).1,
      gpu_cache_ := (cut_update_pool.split_node_obtain p a).2.1 } := ⟨_, rfl⟩
  have hctx : p1.context_id_ = p.context_id_ := by rw [hp1]
  have hooc : p1.ooc_cache_ = (cut_update_pool.split_node_obtain p a).1 := by rw [hp1]
  have hgpu : p1.gpu_cache_ = (cut_update_pool.split_node_obtain p a).2.1 := by rw [hp1]
  constructor
  · intro hcond
    obtain ⟨hav, hhostsame⟩ := c1 hcond
    obtain ⟨e, hheld⟩ := cut_update_pool.split_node_available p a hvalid hav
    obtain ⟨_, _, o3⟩ := cut_update_pool.split_node_obtain_spec p a
    rw [← hp1] at e
    obtain ⟨s1, s2, s3, _, _⟩ := cut_update_pool.aquire_children_slots a.view_id_ a.model_id_
      (p.index_.get_all_children a.model_id_ a.node_id_) p1
    have eg : (cut_update_pool.split_node p a).gpu_cache_
        = (cut_update_pool.aquire_children p1 a.view_id_ a.model_id_
            (p.index_.get_all_children a.model_id_ a.node_id_)).gpu_cache_ := by rw [e]; rfl
    have eo : (cut_update_pool.split_node p a).ooc_cache_
        = (cut_update_pool.aquire_children p1 a.view_id_ a.model_id_
            (p.index_.get_all_children a.model_id_ a.node_id_)).ooc_cache_ := by rw [e]; rfl
    refine ⟨?_, hheld, ?_, ?_, k, hk, ?_, ?_⟩
    · rw [e]
      simp [cut_update_pool.approve, hp1]
    · intro c' v' m' n'
      rw [eg, s1, cache_slots.is_node_aquired_aquire_all, hctx, hgpu, c4.1]
      constructor
      · rintro (h | ⟨h1, h2, h3, h4, _⟩)
        · exact Or.inl h
        · exact Or.inr ⟨h1, h2, h3, h4⟩
      · rintro (h | ⟨h1, h2, h3, h4⟩)
        · exact Or.inl h
        · exact Or.inr ⟨h1, h2, h3, h4, (o3 hav n' h4).2⟩
    · intro c' v' m' n'
      rw [eo, s2, cache_slots.is_node_aquired_aquire_all, hctx, hooc, c3.1]
      constructor
      · rintro (h | ⟨h1, h2, h3, h4, _⟩)
        · exact Or.inl h
        · exact Or.inr ⟨h1, h2, h3, h4⟩
      · rintro (h | ⟨h1, h2, h3, h4⟩)
        · exact Or.inl h
        · exact Or.inr ⟨h1, h2, h3, h4,
            cache_slots.is_node_indexed_of_resident _ _ _ (o3 hav n' h4).1⟩
    · rw [eg]
      unfold gpu_cache.num_free_slots
      rw [s1, cache_slots.num_free_slots_map, hgpu]
      exact c5
    · rw [eg]
      unfold gpu_cache.transfer_budget
      rw [s3, hgpu]
      exact c6
  · intro hcond
    obtain ⟨hav, hgsame⟩ := c2 hcond
    have e : cut_update_pool.split_node p a = cut_update_pool.reject p1 a := by
      unfold cut_update_pool.split_node
      simp only [hvalid, hav, Bool.false_eq_true, if_false]
      rw [hp1]
    refine ⟨?_, ?_, ?_⟩
    · rw [e]
      simp [cut_update_pool.reject, hp1]
    · rw [e]
      show p1.gpu_cache_ = p.gpu_cache_
      rw [hgpu, hgsame]
    · intro c' v' m' n'
      rw [e]
      show p1.ooc_cache_.slots_.is_node_aquired c' v' m' n' = _
      rw [hooc]
      exact c3.1 c' v' m' n'

/-- C29 at the split of the root of the scenarios with both children on the host
and two free GPU slots: the split is approved and takes both free slots. -/
theorem C29_split_node_witness :
    1 ≤ children_on_host_pool.index_.fan_factor 0 ∧
    (cut_update_pool.split_node children_on_host_pool (scenario_split 0 2)).index_
      = children_on_host_pool.index_.approve_action (scenario_split 0 2) ∧
    (cut_update_pool.split_node children_on_host_pool (scenario_split 0 2)).node_held 0 0 1 ∧
    (cut_update_pool.split_node children_on_host_pool
      (scenario_split 0 2)).gpu_cache_.num_free_slots = 0 := by
  have h := (C29_split_node children_on_host_pool (scenario_split 0 2) (by decide)
    (by decide)).1 (by decide)
  obtain ⟨h1, h2, _, _, k, hk, h5, _⟩ := h
  exact ⟨by decide, h1, h2 1 (by decide), by decide⟩
/-! ## C30: the refcounts through a split and a collapse -/

/-- C30, as stated, fails for children that the view holds already: node 1 of the
scenarios with its children 3 and 4 resident in both caches and acquired by
view 0. The split of node 1 is approved and leaves the refcount of child 3 at 1
in both caches (the holders of an entry are a set); `collapse_node` on node 1 is
approved and releases the child, whose refcount is then 0, not its value before
the split. -/
theorem C30_held_child_loses_hold :
    1 ≤ (scenario_split 1 2).node_id_ ∧
    held_children_pool.index_.get_all_children 0 1 = [3, 4] ∧
    (cut_update_pool.split_node held_children_pool (scenario_split 1 2)).index_
      = held_children_pool.index_.approve_action (scenario_split 1 2) ∧
    (cut_update_pool.collapse_node
        (cut_update_pool.split_node held_children_pool (scenario_split 1 2))
        (scenario_collapse 1)).index_
      = (cut_update_pool.split_node held_children_pool
          (scenario_split 1 2)).index_.approve_action (scenario_collapse 1) ∧
    (held_children_pool.gpu_cache_.slots_.refcount 0 3,
      held_children_pool.ooc_cache_.slots_.refcount 0 3) = (1, 1) ∧
    ((cut_update_pool.split_node held_children_pool
        (scenario_split 1 2)).gpu_cache_.slots_.refcount 0 3,
      (cut_update_pool.split_node held_children_pool
        (scenario_split 1 2)).ooc_cache_.slots_.refcount 0 3) = (1, 1) ∧
    ((cut_update_pool.collapse_node
        (cut_update_pool.split_node held_children_pool (scenario_split 1 2))
        (scenario_collapse 1)).gpu_cache_.slots_.refcount 0 3,
      (cut_update_pool.collapse_node
        (cut_update_pool.split_node held_children_pool (scenario_split 1 2))
        (scenario_collapse 1)).ooc_cache_.slots_.refcount 0 3) = (0, 0) := by
  refine ⟨by decide, by decide, by rfl, by rfl, by decide, by decide, by decide⟩

/-- C30 (amended): for a node `n ≥ 1` that is not the sentinel and whose first child
is not the sentinel, and whose children are not acquired by `(context, view)`
on entry in either cache: a split of `n` that is approved, by `split_node` or by
the resident fast path of `cut_update`, followed by `collapse_node` on `n` for
the same view and model, leaves the holders of every entry, hence the refcount
of every child of `n` (and of every other node), in the GPU cache and in the
host cache at their value before the split; between the two every child is
acquired by `(context, view)`, and the collapse is approved. For `n = 0` or the
sentinel `collapse_node` rejects the action and touches neither cache. -/
theorem C30_refcount_round_trip (p : cut_update_pool) (a a' : action)
    (hn : 1 ≤ a.node_id_)
    (hvalid : ((p.index_.get_all_children a.model_id_ a.node_id_).head? == some invalid_node_t
      || a.node_id_ == invalid_node_t) = false)
    (ha' : a'.view_id_ = a.view_id_ ∧ a'.model_id_ = a.model_id_ ∧ a'.node_id_ = a.node_id_)
    (hfresh : ∀ c ∈ p.index_.get_all_children a.model_id_ a.node_id_,
      p.gpu_cache_.slots_.is_node_aquired p.context_id_ a.view_id_ a.model_id_ c = false ∧
      p.ooc_cache_.slots_.is_node_aquired p.context_id_ a.view_id_ a.model_id_ c = false) :
    ((cut_update_pool.split_node_obtain p a).2.2 = true →
      (cut_update_pool.split_node p a).index_ = p.index_.approve_action a ∧
      (∀ c ∈ p.index_.get_all_children a.model_id_ a.node_id_,
        (cut_update_pool.split_node p a).node_held a.view_id_ a.model_id_ c) ∧
      (cut_update_pool.collapse_node (cut_update_pool.split_node p a) a').index_
        = (cut_update_pool.split_node p a).index_.approve_action a' ∧
      (∀ m' n',
        (cut_update_pool.collapse_node (cut_update_pool.split_node p a)
            a').gpu_cache_.slots_.refcount m' n' = p.gpu_cache_.slots_.refcount m' n' ∧
        (cut_update_pool.collapse_node (cut_update_pool.split_node p a)
            a').ooc_cache_.slots_.refcount m' n' = p.ooc_cache_.slots_.refcount m' n') ∧
      ∀ c' v' m' n',
        (cut_update_pool.collapse_node (cut_update_pool.split_node p a)
            a').gpu_cache_.slots_.is_node_aquired c' v' m' n'
          = p.gpu_cache_.slots_.is_node_aquired c' v' m' n' ∧
        (cut_update_pool.collapse_node (cut_update_pool.split_node p a)
            a').ooc_cache_.slots_.is_node_aquired c' v' m' n'
          = p.ooc_cache_.slots_.is_node_aquired c' v' m' n') ∧
    ((cut_update_pool.collapse_node
        (cut_update_pool.approve
          (cut_update_pool.aquire_children (p.pop_front queue_t.MUST_SPLIT) a.view_id_
            a.model_id_ (p.index_.get_all_children a.model_id_ a.node_id_)) a)
        a').gpu_cache_.slots_ = p.gpu_cache_.slots_ ∧
      (cut_update_pool.collapse_node
        (cut_update_pool.approve
          (cut_update_pool.aquire_children (p.pop_front queue_t.MUST_SPLIT) a.view_id_
            a.model_id_ (p.index_.get_all_children a.model_id_ a.node_id_)) a)
        a').ooc_cache_.slots_ = p.ooc_cache_.slots_) ∧
    ∀ (q : cut_update_pool) (b : action), b.node_id_ = 0 ∨ b.node_id_ = invalid_node_t →
      cut_update_pool.collapse_node q b = cut_update_pool.reject q b ∧
      (cut_update_pool.collapse_node q b).gpu_cache_ = q.gpu_cache_ ∧
      (cut_update_pool.collapse_node q b).ooc_cache_ = q.ooc_cache_ := by
  have hinv : a.node_id_ ≠ invalid_node_t := by
    intro h
    rw [h] at hvalid
    simp at hvalid
  refine ⟨?_, ?_, ?_⟩
  · intro hav
    obtain ⟨_, _, c3, c4, _⟩ := cut_update_pool.split_node_obtain_cases p a
    obtain ⟨p1, hp1⟩ : ∃ p1 : cut_update_pool, p1 = { p with
        ooc_cache_ := (cut_update_pool.split_node_obtain p a).1,
        gpu_cache_ := (cut_update_pool.split_node_obtain p a).2.1 } := ⟨_, rfl⟩
    have hctx : p1.context_id_ = p.context_id_ := by rw [hp1]
    have hidx : p1.index_ = p.index_ := by rw [hp1]
    have hooc : p1.ooc_cache_ = (cut_update_pool.split_node_obtain p a).1 := by rw [hp1]
    have hgpu : p1.gpu_cache_ = (cut_update_pool.split_node_obtain p a).2.1 := by rw [hp1]
    obtain ⟨e, hheld⟩ := cut_update_pool.split_node_available p a hvalid hav
    rw [← hp1, ← hidx] at e
    have hfresh1 : ∀ c ∈ p1.index_.get_all_children a.model_id_ a.node_id_,
        p1.gpu_cache_.slots_.is_node_aquired p1.context_id_ a.view_id_ a.model_id_ c = false ∧
        p1.ooc_cache_.slots_.is_node_aquired p1.context_id_ a.view_id_ a.model_id_ c
          = false := by
      intro c hc
      rw [hidx] at hc
      rw [hctx, hgpu, hooc, c4.1, c3.1]
      exact hfresh c hc
    obtain ⟨t1, t2, t3⟩ := cut_update_pool.collapse_after_aquire p1 a a' hn hinv ha' hfresh1
    rw [← e] at t1 t2 t3
    refine ⟨?_, hheld, t3, ?_, ?_⟩
    · rw [e]
      simp [cut_update_pool.approve, hidx]
    · intro m' n'
      rw [t1, t2, hgpu, hooc]
      exact ⟨c4.2 m' n', c3.2 m' n'⟩
    · intro c' v' m' n'
      rw [t1, t2, hgpu, hooc]
      exact ⟨c4.1 c' v' m' n', c3.1 c' v' m' n'⟩
  · have hch : (p.pop_front queue_t.MUST_SPLIT).index_.get_all_children a.model_id_ a.node_id_
        = p.index_.get_all_children a.model_id_ a.node_id_ :=
      cut_update_index.get_all_children_congr _ _ rfl rfl _ _
    have := cut_update_pool.collapse_after_aquire (p.pop_front queue_t.MUST_SPLIT) a a' hn hinv
      ha' (by rw [hch]; exact hfresh)
    rw [hch] at this
    exact ⟨this.1, this.2.1⟩
  · intro q b hb
    have hguard : (decide (b.node_id_ < 1) || b.node_id_ == invalid_node_t) = true := by
      rcases hb with h | h <;> simp [h]
    have e : cut_update_pool.collapse_node q b = cut_update_pool.reject q b := by
      unfold cut_update_pool.collapse_node
      rw [if_pos hguard]
    exact ⟨e, by rw [e]; rfl, by rw [e]; rfl⟩

/-- C30 (amended) at node 1 of the scenarios with its children 3 and 4 on the host,
off the GPU and held by nobody: the split registers and acquires them, the
collapse releases them, and the refcount of child 3 is 0 in both caches as
before. -/
theorem C30_refcount_round_trip_witness :
    (cut_update_pool.split_node_obtain free_children_pool (scenario_split 1 2)).2.2 = true ∧
    (cut_update_pool.split_node free_children_pool (scenario_split 1 2)).node_held 0 0 3 ∧
    (cut_update_pool.collapse_node
        (cut_update_pool.split_node free_children_pool (scenario_split 1 2))
        (scenario_collapse 1)).gpu_cache_.slots_.refcount 0 3
      = free_children_pool.gpu_cache_.slots_.refcount 0 3 ∧
    (cut_update_pool.collapse_node
        (cut_update_pool.split_node free_children_pool (scenario_split 1 2))
        (scenario_collapse 1)).ooc_cache_.slots_.refcount 0 3
      = free_children_pool.ooc_cache_.slots_.refcount 0 3 := by
  have hav : (cut_update_pool.split_node_obtain free_children_pool
      (scenario_split 1 2)).2.2 = true := by decide
  obtain ⟨_, h2, _, h4, _⟩ :=
    (C30_refcount_round_trip free_children_pool (scenario_split 1 2) (scenario_collapse 1)
      (by decide) (by decide) ⟨rfl, rfl, rfl⟩ (by decide)).1 hav
  exact ⟨hav, h2 3 (by decide), (h4 0 3).1, (h4 0 3).2⟩

end lamure
